import Mathlib

/-!
# gvaluer: group model, validator and scoring state machine

A shallow embedding of `src/gvaluer.cpp`.

* C++ `int` is the 32-bit two's-complement type.  A value is modelled by an
  `Int`; the additions that can leave the range on an accepted file (the test
  pointer, `total_score`, the sums of the report and the negation printed by
  `scan_tests`) are reduced by `wrap`, the result the compiled program
  computes.  The remaining `int` expressions (`last - first + 1`,
  `++passed_count`) stay inside the range on every file the parser accepts.
* `std::set<int>` is modelled by `Finset Int`, `std::vector` and the input
  stream by `List`.
* A `Group *` into `ConfigParser::groups` is modelled by the index of the
  group in the list, together with the group found there; a write through the
  pointer is a `List.set` at that index.
* `die` and `parse_error` terminate the process; they are modelled by the
  `Except` monad over `Failure`.
* The two `while` loops of the resolver are modelled with a fuel argument;
  running out of fuel is the distinguished failure `Failure.out_of_fuel`.
-/

namespace Gvaluer

/-! ## Constants -/

/-- The status code of a passed test, `RUN_OK`. -/
def RUN_OK : Int := 0

/-- The status code `RUN_WRONG_ANSWER_ERR`. -/
def RUN_WRONG_ANSWER_ERR : Int := 5

/-- Return value of `analyse_test_group`: the owning group is not finished. -/
def CONTINUE_READING : Int := 1

/-- Return value of `analyse_test_group`: the owning group is finished. -/
def GROUP_READY : Int := 0

/-- Size of the message buffers. -/
def BUF_SIZE : Nat := 1024

/-- The largest value of the type `int`. -/
def INT_MAX : Int := 2147483647

/-- The smallest value of the type `int`. -/
def INT_MIN : Int := -2147483648

/-- The `int` the machine holds after an arithmetic operation whose exact
result is `x`: the representative of `x` modulo `2^32` in the `int` range. -/
def wrap (x : Int) : Int := (x + 2147483648) % 4294967296 - 2147483648

/-- The ways in which the process stops before producing a report. -/
inductive Failure where
  /-- The function `die`: a fatal run-time fault with its message. -/
  | die (msg : String)
  /-- The method `ConfigParser::parse_error` with its message. -/
  | parse_error (msg : String)
  /-- The method `ConfigParser::scan_error` with its message. -/
  | scan_error (msg : String)
  /-- A loop of the model used up its fuel (not a behaviour of the program). -/
  | out_of_fuel
deriving DecidableEq, Repr

/-- Results of fallible computations can be compared. -/
instance {ε α : Type} [DecidableEq ε] [DecidableEq α] : DecidableEq (Except ε α)
  | .ok a, .ok b =>
    if h : a = b then isTrue (congrArg Except.ok h)
    else isFalse (fun h1 => h (Except.ok.inj h1))
  | .error a, .error b =>
    if h : a = b then isTrue (congrArg Except.error h)
    else isFalse (fun h1 => h (Except.error.inj h1))
  | .ok _, .error _ => isFalse (fun h1 => Except.noConfusion h1)
  | .error _, .ok _ => isFalse (fun h1 => Except.noConfusion h1)

/-- The result of `snprintf(buf, sizeof(buf), ...)` for an already formatted
text: at most `BUF_SIZE - 1` characters are kept. -/
def snprintf (s : String) : String := String.mk (s.data.take (BUF_SIZE - 1))

/-! ## The group model -/

/-- The class `Group`: configuration fields followed by the run-time fields,
with the default member initialisers of the source. -/
structure Group where
  group_id : String := ""
  first : Int := 0
  last : Int := 0
  requires : List String := []
  sets_marked_if_passed : List String := []
  is_offline : Bool := false
  sets_marked : Bool := false
  skip : Bool := false
  skip_if_not_rejudge : Bool := false
  stat_to_judges : Bool := false
  stat_to_users : Bool := false
  test_all : Bool := false
  score : Int := 0
  test_score : Int := -1
  pass_if_count : Int := -1
  user_status : Int := -1
  passed_count : Int := 0
  total_score : Int := 0
  comment : String := ""
  zero_sets : List (Finset Int) := []
  passed_set : Finset Int := ∅
deriving DecidableEq

namespace Group

/-- The method `inc_passed_count`. -/
def inc_passed_count (g : Group) : Group :=
  { g with passed_count := g.passed_count + 1 }

/-- The method `is_passed`. -/
def is_passed (g : Group) : Bool :=
  if g.pass_if_count > 0 then decide (g.passed_count ≥ g.pass_if_count)
  else decide (g.passed_count = g.last - g.first + 1)

/-- The method `add_passed_test`. -/
def add_passed_test (g : Group) (test_num : Int) : Group :=
  { g with passed_set := insert test_num g.passed_set }

/-- The method `is_zero_set`: some declared zero-set equals the passed set. -/
def is_zero_set (g : Group) : Bool :=
  g.zero_sets.any (fun zs => decide (g.passed_set = zs))

/-- The method `set_comment`. -/
def set_comment (g : Group) (comment_ : String) : Group :=
  { g with comment := comment_ }

/-- The method `has_comment`. -/
def has_comment (g : Group) : Bool := decide (g.comment.length > 0)

/-- The method `add_total_score`. -/
def add_total_score (g : Group) : Group :=
  if g.test_score > 0 then { g with total_score := wrap (g.total_score + g.test_score) } else g

/-- The method `set_total_score`. -/
def set_total_score (g : Group) (total_score_ : Int) : Group :=
  { g with total_score := total_score_ }

/-- The method `calc_score`. -/
def calc_score (g : Group) : Int :=
  if g.test_score < 0 ∧ g.passed_count = g.last - g.first + 1 then g.score
  else if g.test_score ≥ 0 then g.total_score
  else 0

/-- The comparator handed to `sort` in `parse_groups`, as a non-strict order:
`g2` does not come strictly before `g1`. -/
def first_le (g1 g2 : Group) : Prop := g1.first ≤ g2.first

instance : DecidableRel first_le := fun g1 g2 => Int.decLe g1.first g2.first

end Group

/-- The method `ConfigParser::find_group(const std::string &)`. -/
def find_group_id (groups : List Group) (id : String) : Option Group :=
  groups.find? (fun g => g.group_id == id)

/-- The method `ConfigParser::find_group(int)`: the first group whose range
contains `test_num`, with its position in the vector. -/
def find_group_num : List Group → Int → Option (Nat × Group)
  | [], _ => none
  | g :: gs, test_num =>
    if g.first ≤ test_num ∧ test_num ≤ g.last then some (0, g)
    else (find_group_num gs test_num).map (fun p => (p.1 + 1, p.2))

/-- The loop of `Group::meet_requirements` over the remaining `requires`
entries.  `none` is the result `true` (`grp = NULL`); `some gg` is the result
`false` with `grp = gg`, the first required group that has not passed. -/
def meet_requirements_loop (groups : List Group) : List String → Except Failure (Option Group)
  | [] => .ok none
  | r :: rs =>
    match find_group_id groups r with
    | none => .error (.die ("group " ++ r ++ " not found"))
    | some gg => if !gg.is_passed then .ok (some gg) else meet_requirements_loop groups rs

/-- The method `Group::meet_requirements`. -/
def Group.meet_requirements (g : Group) (groups : List Group) : Except Failure (Option Group) :=
  meet_requirements_loop groups g.requires

/-! ## Validation (`ConfigParser::parse_groups`) -/

/-- The contiguity scan of `parse_groups` over adjacent pairs. -/
def check_adjacent : List Group → Except Failure Unit
  | g1 :: g2 :: rest =>
    if g2.first ≤ g1.last then
      .error (.parse_error ("groups " ++ g1.group_id ++ " and " ++ g2.group_id ++ " overlap"))
    else if g2.first ≠ g1.last + 1 then
      .error (.parse_error ("hole between groups " ++ g1.group_id ++ " and " ++ g2.group_id))
    else check_adjacent (g2 :: rest)
  | _ => .ok ()

/-- A `for` loop whose body may stop the process. -/
def for_each {α : Type} (body : α → Except Failure Unit) : List α → Except Failure Unit
  | [] => .ok ()
  | a :: as =>
    match body a with
    | .error e => .error e
    | .ok _ => for_each body as

/-- The inner loops of the two reference scans of `parse_groups` for group
`i`: every name in `r` must be the id of one of the first `bound` groups. -/
def check_refs (groups : List Group) (bound : Nat) (g : Group) (r : List String) :
    Except Failure Unit :=
  for_each (fun rj =>
    if (groups.take bound).any (fun h => h.group_id == rj) then .ok ()
    else .error (.parse_error ("no group " ++ rj ++ " before group " ++ g.group_id))) r

/-- The `requires` scan of `parse_groups`: the search runs over `k < i`. -/
def check_requires (groups : List Group) : Except Failure Unit :=
  for_each (fun i =>
    match groups[i]? with
    | none => .ok ()
    | some g => check_refs groups i g g.requires) (List.range groups.length)

/-- The `sets_marked_if_passed` scan of `parse_groups`: the search runs over
`k <= i`. -/
def check_sets_marked_if_passed (groups : List Group) : Except Failure Unit :=
  for_each (fun i =>
    match groups[i]? with
    | none => .ok ()
    | some g => check_refs groups (i + 1) g g.sets_marked_if_passed) (List.range groups.length)

/-- The offline scan of `parse_groups`: after the first offline group every
group must be offline. -/
def check_offline (groups : List Group) : Except Failure Unit :=
  if (groups.dropWhile (fun g => !g.is_offline)).any (fun g => !g.is_offline) then
    .error (.parse_error "all offline groups must follow all online groups")
  else .ok ()

/-- The method `ConfigParser::parse_groups`, from the end of its
`while (token == "group") parse_group();` loop on: `parsed` is the vector
`groups` built by that loop.  `sort` is modelled by insertion sort on `first`. -/
def parse_groups (parsed : List Group) : Except Failure (List Group) :=
  if parsed.length ≤ 0 then .error (.parse_error "no groups defined")
  else
    let groups := parsed.insertionSort Group.first_le
    match check_adjacent groups with
    | .error e => .error e
    | .ok _ =>
      match check_requires groups with
      | .error e => .error e
      | .ok _ =>
        match check_sets_marked_if_passed groups with
        | .error e => .error e
        | .ok _ =>
          match check_offline groups with
          | .error e => .error e
          | .ok _ => .ok groups

/-! ## The scoring state machine -/

/-- The comment built by `handle_bytest_score`. -/
def bytest_comment (locale_id : Int) (g : Group) : String :=
  if locale_id = 1 then
    snprintf ("???????????? ???????????? " ++ g.group_id ++ " (" ++ toString g.first ++ "-"
      ++ toString g.last ++ ") ?????????????? ?? 0 ????????????, "
      ++ "?????? ?????? ???????? ???????????????? ???????????? ?????????????????????? ??????????.\n")
  else
    snprintf ("Test group " ++ g.group_id ++ " (" ++ toString g.first ++ "-"
      ++ toString g.last ++ ") is scored 0 points "
      ++ "because only specific tests were passed.\n")

/-- The function `handle_bytest_score`. -/
def handle_bytest_score (locale_id : Int) (test_group : Group) (test_num : Int) : Group :=
  if test_num = test_group.last then
    if test_group.is_zero_set then
      (test_group.set_total_score 0).set_comment (bytest_comment locale_id test_group)
    else test_group
  else test_group

/-- The comment built by `handle_test_stop`. -/
def test_stop_comment (locale_id : Int) (g : Group) (test_num : Int) : String :=
  if locale_id = 1 then
    snprintf ("???????????????????????? ???? ???????????? " ++ toString (test_num + 1) ++ "-"
      ++ toString g.last ++ " ???? ??????????????????????, "
      ++ "?????? ?????? ???????? " ++ toString test_num
      ++ " ???? ??????????????, ?? ???????????? ???? ???????????? ???????????? "
      ++ g.group_id ++ " - 0 ????????????.\n")
  else
    snprintf ("Testing on tests " ++ toString (test_num + 1) ++ "-" ++ toString g.last
      ++ " has not been performed, " ++ "as test " ++ toString test_num
      ++ " has not passed, and test group \x27" ++ g.group_id ++ "\x27 score is 0.\n")

/-- The function `handle_test_stop`. -/
def handle_test_stop (locale_id : Int) (test_group : Group) (test_num : Int) : Group :=
  if test_num < test_group.last ∧ !test_group.is_offline then
    test_group.set_comment (test_stop_comment locale_id test_group test_num)
  else test_group

/-- What `analyse_test_group` leaves behind: the group behind `test_group`,
the new value of `test_num`, the return value and the lines printed. -/
structure Analysed where
  group : Group
  test_num : Int
  ret : Int
  printed : List Int
deriving DecidableEq

/-- The function `analyse_test_group`. -/
def analyse_test_group (locale_id : Int) (test_group : Option Group) (test_num t_status : Int) :
    Except Failure Analysed :=
  match test_group with
  | none => .error (.die ("unexpected test number " ++ toString test_num))
  | some g =>
    let upd : Group × Int :=
      if t_status = RUN_OK then
        (((g.inc_passed_count).add_total_score).add_passed_test test_num, wrap (test_num + 1))
      else if g.test_score ≥ 0 then
        (handle_bytest_score locale_id g test_num, wrap (test_num + 1))
      else if g.test_all then
        (g, wrap (test_num + 1))
      else
        (handle_test_stop locale_id g test_num, wrap (g.last + 1))
    if upd.2 ≤ upd.1.last then
      .ok { group := upd.1, test_num := upd.2, ret := CONTINUE_READING, printed := [-1] }
    else
      .ok { group := upd.1, test_num := upd.2, ret := GROUP_READY, printed := [] }

/-! ## The dependency / skip resolver -/

/-- The comment of the first branch of `parse_with_requirements` (the skipped
group is not offline). -/
def requires_comment (locale_id : Int) (g gg : Group) : String :=
  if locale_id = 1 then
    snprintf ("???????????????????????? ???? ???????????? " ++ toString g.first ++ "-"
      ++ toString g.last ++ " ???? ??????????????????????, "
      ++ "?????? ?????? ???? ???????????????? ???????? ???? ?????????????????? ?????????? "
      ++ gg.group_id ++ ".\n")
  else
    snprintf ("Testing on tests " ++ toString g.first ++ "-" ++ toString g.last
      ++ " has not been performed, " ++ "as one of the required groups \x27"
      ++ gg.group_id ++ "\x27 has not passed.\n")

/-- The comment of the second branch of `parse_with_requirements` (the skipped
group is offline, the unmet required group is not). -/
def requires_offline_comment (locale_id : Int) (g gg : Group) : String :=
  if locale_id = 1 then
    snprintf ("???????????????????????? ???? ???????????? " ++ toString g.first ++ "-"
      ++ toString g.last
      ++ " ???? ?????????? ?????????????????????? ?????????? ?????????????????? ????????, "
      ++ "?????? ?????? ???? ???????????????? ???????? ???? ?????????????????? ?????????? "
      ++ gg.group_id ++ ".\n")
  else
    snprintf ("Testing on tests " ++ toString g.first ++ "-" ++ toString g.last
      ++ " will not be performed after the tour finish, "
      ++ "as one of the required groups \x27" ++ gg.group_id ++ "\x27 has not passed.\n")

/-- The body of the `while` loop of `parse_with_requirements` as far as the
skipped group `g` is concerned; `gg` is the unmet required group. -/
def requires_body (locale_id : Int) (g gg : Group) : Group :=
  if !g.is_offline then g.set_comment (requires_comment locale_id g gg)
  else if g.is_offline && !gg.is_offline then
    g.set_comment (requires_offline_comment locale_id g gg)
  else g

/-- The function `parse_with_requirements`: its `while` loop, run for at most
`fuel - 1` iterations.  The result is the group vector and `test_num`. -/
def parse_with_requirements (locale_id : Int) :
    Nat → List Group → Int → Except Failure (List Group × Int)
  | 0, _, _ => .error .out_of_fuel
  | fuel + 1, groups, test_num =>
    match find_group_num groups test_num with
    | none => .ok (groups, test_num)
    | some (i, g) =>
      match g.meet_requirements groups with
      | .error e => .error e
      | .ok none => .ok (groups, test_num)
      | .ok (some gg) =>
        parse_with_requirements locale_id fuel
          (groups.set i (requires_body locale_id g gg)) (wrap (g.last + 1))

/-- The function `skip_rejudge_groups`: its `while` loop, run for at most
`fuel - 1` iterations.  The result is `test_num`. -/
def skip_rejudge_groups (rejudge_flag : Bool) : Nat → List Group → Int → Except Failure Int
  | 0, _, _ => .error .out_of_fuel
  | fuel + 1, groups, test_num =>
    match find_group_num groups test_num with
    | none => .ok test_num
    | some (_, g) =>
      if g.skip || (g.skip_if_not_rejudge && !rejudge_flag) then
        skip_rejudge_groups rejudge_flag fuel groups (wrap (g.last + 1))
      else .ok test_num

/-- The state of `scan_tests` between two outcomes: the group vector, the test
pointer and the lines written to standard output so far. -/
structure State where
  groups : List Group
  test_num : Int
  out : List Int
deriving DecidableEq

/-- The state in which `scan_tests` starts. -/
def State.init (groups : List Group) : State :=
  { groups := groups, test_num := 1, out := [] }

/-- The resolver as `scan_tests` calls it: `parse_with_requirements` followed
by `skip_rejudge_groups`.  On the ranges the parser delivers each loop passes
a group at most once, so the fuel `groups.length + 1` is never used up (see
`resolver_fuel`). -/
def resolve (rejudge_flag : Bool) (locale_id : Int) (groups : List Group) (test_num : Int) :
    Except Failure (List Group × Int) :=
  match parse_with_requirements locale_id (groups.length + 1) groups test_num with
  | .error e => .error e
  | .ok (groups1, test_num1) =>
    match skip_rejudge_groups rejudge_flag (groups1.length + 1) groups1 test_num1 with
    | .error e => .error e
    | .ok test_num2 => .ok (groups1, test_num2)

/-- One iteration of the `while` loop of `scan_tests`, for the status
`t_status` read from the input (`t_score` and `t_time` are read and not
used). -/
def scan_step (rejudge_flag : Bool) (locale_id : Int) (s : State) (t_status : Int) :
    Except Failure State :=
  let g := find_group_num s.groups s.test_num
  match analyse_test_group locale_id (g.map Prod.snd) s.test_num t_status with
  | .error e => .error e
  | .ok a =>
    let groups1 := match g with
      | some (i, _) => s.groups.set i a.group
      | none => s.groups
    if a.ret = CONTINUE_READING then
      .ok { groups := groups1, test_num := a.test_num, out := s.out ++ a.printed }
    else
      match resolve rejudge_flag locale_id groups1 a.test_num with
      | .error e => .error e
      | .ok (groups2, test_num2) =>
        .ok { groups := groups2, test_num := test_num2, out := s.out ++ a.printed ++ [wrap (-test_num2)] }

/-- The function `scan_tests` started in state `s`, for the list of statuses
the host sends before the end of input. -/
def scan_tests (rejudge_flag : Bool) (locale_id : Int) : List Int → State → Except Failure State
  | [], s => .ok s
  | t_status :: rest, s =>
    match scan_step rejudge_flag locale_id s t_status with
    | .error e => .error e
    | .ok s1 => scan_tests rejudge_flag locale_id rest s1

/-- The order of `main`: the configuration is parsed and validated first, and
only then `scan_tests` reads outcomes. -/
def parse_then_scan (rejudge_flag : Bool) (locale_id : Int) (parsed : List Group)
    (outcomes : List Int) : Except Failure State :=
  match parse_groups parsed with
  | .error e => .error e
  | .ok groups => scan_tests rejudge_flag locale_id outcomes (State.init groups)

/-! ## Status codes (`parse_status`) -/

/-- The status code `RUN_COMPILE_ERR`. -/
def RUN_COMPILE_ERR : Int := 1

/-- The status code `RUN_RUN_TIME_ERR`. -/
def RUN_RUN_TIME_ERR : Int := 2

/-- The status code `RUN_TIME_LIMIT_ERR`. -/
def RUN_TIME_LIMIT_ERR : Int := 3

/-- The status code `RUN_PRESENTATION_ERR`. -/
def RUN_PRESENTATION_ERR : Int := 4

/-- The status code `RUN_CHECK_FAILED`, also the exit status of `die`. -/
def RUN_CHECK_FAILED : Int := 6

/-- The status code `RUN_PARTIAL`. -/
def RUN_PARTIAL : Int := 7

/-- The status code `RUN_ACCEPTED`. -/
def RUN_ACCEPTED : Int := 8

/-- The status code `RUN_IGNORED`. -/
def RUN_IGNORED : Int := 9

/-- The status code `RUN_DISQUALIFIED`. -/
def RUN_DISQUALIFIED : Int := 10

/-- The status code `RUN_PENDING`. -/
def RUN_PENDING : Int := 11

/-- The status code `RUN_MEM_LIMIT_ERR`. -/
def RUN_MEM_LIMIT_ERR : Int := 12

/-- The status code `RUN_SECURITY_ERR`. -/
def RUN_SECURITY_ERR : Int := 13

/-- The status code `RUN_STYLE_ERR`. -/
def RUN_STYLE_ERR : Int := 14

/-- The status code `RUN_WALL_TIME_LIMIT_ERR`. -/
def RUN_WALL_TIME_LIMIT_ERR : Int := 15

/-- The status code `RUN_PENDING_REVIEW`. -/
def RUN_PENDING_REVIEW : Int := 16

/-- The status code `RUN_REJECTED`. -/
def RUN_REJECTED : Int := 17

/-- The status code `RUN_SKIPPED`. -/
def RUN_SKIPPED : Int := 18

/-- The status code `RUN_SYNC_ERR`. -/
def RUN_SYNC_ERR : Int := 19

/-- The status code `RUN_SUMMONED`. -/
def RUN_SUMMONED : Int := 23

/-- The table `string_to_status`, in the order of its initialiser. -/
def string_to_status : List (String × Int) :=
  [ ("AC", RUN_ACCEPTED), ("CE", RUN_COMPILE_ERR), ("CF", RUN_CHECK_FAILED),
    ("DQ", RUN_DISQUALIFIED), ("IG", RUN_IGNORED), ("ML", RUN_MEM_LIMIT_ERR),
    ("OK", RUN_OK), ("PD", RUN_PENDING), ("PE", RUN_PRESENTATION_ERR),
    ("PR", RUN_PENDING_REVIEW), ("PT", RUN_PARTIAL), ("SE", RUN_SECURITY_ERR),
    ("SK", RUN_SKIPPED), ("SM", RUN_SUMMONED), ("SV", RUN_STYLE_ERR),
    ("SY", RUN_SYNC_ERR), ("RJ", RUN_REJECTED), ("RT", RUN_RUN_TIME_ERR),
    ("TL", RUN_TIME_LIMIT_ERR), ("WA", RUN_WRONG_ANSWER_ERR),
    ("WT", RUN_WALL_TIME_LIMIT_ERR) ]

/-- The function `toupper` of the C locale. -/
def toupper (c : Char) : Char := c.toUpper

/-- The function `parse_status`: a string of length other than 2 gives `-1`;
otherwise its two characters are upper-cased and looked up in the table. -/
def parse_status (str : String) : Int :=
  match str.data with
  | [c0, c1] =>
    match string_to_status.lookup (String.mk [toupper c0, toupper c1]) with
    | some status => status
    | none => -1
  | _ => -1

/-! ## The report aggregator -/

/-- The line `print_group_score` writes for a group. -/
def group_score_line (locale_id : Int) (g : Group) (group_score : Int) : String :=
  if locale_id = 1 then
    "???????????? ???????????? " ++ g.group_id ++ ": ?????????? " ++ toString g.first ++ "-"
      ++ toString g.last ++ ": ???????? " ++ toString group_score ++ "\n"
  else
    "Test group \x27" ++ g.group_id ++ "\x27: tests " ++ toString g.first ++ "-"
      ++ toString g.last ++ ": score " ++ toString group_score ++ "\n"

/-- The running values of `count_groups_score`: the four counters of its first
line, the marked flag, and what has been written to the two comment files. -/
structure Tally where
  score : Int := 0
  user_status : Int := RUN_OK
  user_score : Int := 0
  user_tests_passed : Int := 0
  valuer_marked : Int := 0
  fcmt : List String := []
  fjcmt : List String := []
deriving DecidableEq

/-- The function `print_group_score`. -/
def print_group_score (locale_id : Int) (g : Group) (acc : Tally) : Tally :=
  let group_score := g.calc_score
  let acc1 :=
    if g.stat_to_judges then
      { acc with fjcmt := acc.fjcmt ++ [group_score_line locale_id g group_score] }
    else acc
  if g.stat_to_users && !g.is_offline then
    { acc1 with fcmt := acc1.fcmt ++ [group_score_line locale_id g group_score] }
  else acc1

/-- The function `analyse_sets_marker_vector`: the new value of
`valuer_marked`. -/
def analyse_sets_marker_vector (smv : List String) (valuer_marked : Int)
    (groups : List Group) : Int :=
  if smv.length > 0 then
    let failed := smv.any (fun gn =>
      match find_group_id groups gn with
      | none => true
      | some pg2 => !pg2.is_passed)
    if !failed then 1 else valuer_marked
  else valuer_marked

/-- The function `add_score`. -/
def add_score (acc : Tally) (group_score : Int) (g : Group) : Tally :=
  if g.is_offline then
    { acc with score := wrap (acc.score + group_score) }
  else
    let acc1 :=
      { acc with
          user_tests_passed := wrap (acc.user_tests_passed + g.passed_count),
          score := wrap (acc.score + group_score),
          user_score := wrap (acc.user_score + group_score) }
    if !g.is_passed then { acc1 with user_status := RUN_PARTIAL }
    else if g.user_status ≥ 0 then { acc1 with user_status := g.user_status }
    else acc1

/-- The body of the `for` loop of `count_groups_score` for the group `g`. -/
def count_group (locale_id : Int) (groups : List Group) (acc : Tally) (g : Group) : Tally :=
  let acc1 := if g.has_comment then { acc with fcmt := acc.fcmt ++ [g.comment] } else acc
  let acc2 := if g.sets_marked && g.is_passed then { acc1 with valuer_marked := 1 } else acc1
  let acc3 :=
    { acc2 with
        valuer_marked :=
          analyse_sets_marker_vector g.sets_marked_if_passed acc2.valuer_marked groups }
  let group_score := g.calc_score
  let acc4 := print_group_score locale_id g acc3
  add_score acc4 group_score g

/-- What `count_groups_score` has produced when it returns: the integers of the
line written to standard output and the running values, which hold the two
comment files. -/
structure Report where
  stdout : List Int
  tally : Tally
deriving DecidableEq

/-- The function `count_groups_score`; `valuer_marked` is the value `main`
passes in. -/
def count_groups_score (marked_flag user_score_flag : Bool) (locale_id : Int)
    (groups : List Group) (valuer_marked : Int) : Report :=
  let acc := groups.foldl (count_group locale_id groups) { valuer_marked := valuer_marked }
  { stdout := [acc.score]
      ++ (if marked_flag then [acc.valuer_marked] else [])
      ++ (if user_score_flag then [acc.user_status, acc.user_score, acc.user_tests_passed]
          else []),
    tally := acc }

/-! ## The lexer (`ConfigParser::next_token`)

The configuration file is the list of its bytes, each one a `Char`; `in_c` is
`none` at the end of the file.  The members that the constructor leaves
uninitialised start at `0`, `none` and the empty string.  The file position that
`parse_error` and `scan_error` print is kept in the parser state (`t_line`,
`t_pos`, `c_line`, `c_pos`), not in the `Failure`. -/

/-- The token type `T_EOF`. -/
def T_EOF : Int := 256

/-- The token type `T_IDENT`. -/
def T_IDENT : Int := 257

/-- The value `fgetc` returns for a character. -/
def char_code (c : Char) : Int := c.toNat

/-- The function `isspace` of the C locale, on what `fgetc` returned. -/
def isspace (in_c : Option Char) : Bool :=
  match in_c with
  | some c => c == ' ' || c == '\t' || c == '\n' || c == '\x0b' || c == '\x0c' || c == '\r'
  | none => false

/-- The function `isalnum` of the C locale, on what `fgetc` returned. -/
def isalnum (in_c : Option Char) : Bool :=
  match in_c with
  | some c => c.isAlphanum
  | none => false

/-- The value of a run of decimal digits. -/
def digits_value (ds : List Char) : Int :=
  ds.foldl (fun acc d => acc * 10 + ((d.toNat : Int) - 48)) 0

/-- The optional sign in front of a number: whether it is a minus, and what
follows it. -/
def stoi_sign (s : List Char) : Bool × List Char :=
  match s with
  | '-' :: rest => (true, rest)
  | '+' :: rest => (false, rest)
  | _ => (false, s)

/-- The function `std::stoi` with its default arguments: white space is
skipped, a sign is optional, the longest run of decimal digits is converted and
whatever follows is ignored.  `none` stands for the exception thrown when there
is no digit or the value does not fit an `int`. -/
def stoi (str : String) : Option Int :=
  let s := str.data.dropWhile (fun c => isspace (some c))
  let signed := stoi_sign s
  let ds := signed.2.takeWhile Char.isDigit
  if ds = [] then none
  else
    let value := if signed.1 then - digits_value ds else digits_value ds
    if -2147483648 ≤ value ∧ value ≤ 2147483647 then some value else none

/-- The class `Global`. -/
structure Global where
  stat_to_judges : Int := -1
  stat_to_users : Int := -1
deriving DecidableEq

/-- The normalisation both setters of `Global` apply to their argument. -/
def Global.clamp (value : Int) : Int :=
  if value < 0 then -1 else if value > 0 then 1 else value

/-- The method `Global::set_stat_to_judges`. -/
def Global.set_stat_to_judges (gl : Global) (value : Int) : Global :=
  { gl with stat_to_judges := Global.clamp value }

/-- The method `Global::set_stat_to_users`. -/
def Global.set_stat_to_users (gl : Global) (value : Int) : Global :=
  { gl with stat_to_users := Global.clamp value }

/-- The class `ConfigParser`: `in_f` is what is left to read of the file, one
character of the model for one byte of the file. -/
structure ConfigParser where
  in_f : List Char := []
  line : Int := 0
  pos : Int := 0
  in_c : Option Char := none
  c_line : Int := 0
  c_pos : Int := 0
  token : String := ""
  t_type : Int := 0
  t_line : Int := 0
  t_pos : Int := 0
  global : Global := {}
  groups : List Group := []
deriving DecidableEq

namespace ConfigParser

/-- The method `next_char`.  For the positions that occur, which are not
negative, `(pos + 8) & ~7` is `(pos + 8) / 8 * 8`. -/
def next_char (p : ConfigParser) : ConfigParser :=
  let p1 := { p with c_line := p.line, c_pos := p.pos }
  match p.in_f with
  | [] => { p1 with in_c := none }
  | c :: rest =>
    let p2 := { p1 with in_c := some c, in_f := rest }
    if c = '\n' then { p2 with pos := 0, line := p2.line + 1 }
    else if c = '\t' then { p2 with pos := (p2.pos + 8) / 8 * 8 }
    else if c ≥ ' ' then { p2 with pos := p2.pos + 1 }
    else p2

/-- The fuel handed to a loop that reads at least one character per round. -/
def fuel (p : ConfigParser) : Nat := p.in_f.length + 2

/-- A loop `while (cond(in_c)) next_char();`. -/
def skip_while (cond : Option Char → Bool) : Nat → ConfigParser → Except Failure ConfigParser
  | 0, _ => .error .out_of_fuel
  | n + 1, p => if cond p.in_c then skip_while cond n p.next_char else .ok p

/-- The loop `while (1)` of `find_next_char`. -/
def find_next_char_loop : Nat → ConfigParser → Except Failure ConfigParser
  | 0, _ => .error .out_of_fuel
  | n + 1, p => do
    let p1 ← skip_while isspace p.fuel p
    if p1.in_c ≠ some '#' then return p1
    else
      let p2 ← skip_while (fun c => c != none && c != some '\n') p1.fuel p1
      find_next_char_loop n (if p2.in_c = some '\n' then p2.next_char else p2)

/-- The method `find_next_char`. -/
def find_next_char (p : ConfigParser) : Except Failure ConfigParser :=
  find_next_char_loop p.fuel p

/-- The method `handleEOF`: `none` is the result `false`. -/
def handleEOF (p : ConfigParser) : Option ConfigParser :=
  if p.in_c = none then some { p with t_type := T_EOF, token := "" } else none

/-- The loop of `handleNamingToken`. -/
def read_name : Nat → ConfigParser → Except Failure ConfigParser
  | 0, _ => .error .out_of_fuel
  | n + 1, p =>
    match p.in_c with
    | some c =>
      if c.isAlphanum || c == '_' then
        read_name n ({ p with token := p.token.push c }).next_char
      else .ok p
    | none => .ok p

/-- The method `handleNamingToken`: `none` is the result `false`. -/
def handleNamingToken (p : ConfigParser) : Except Failure (Option ConfigParser) :=
  if isalnum p.in_c || p.in_c == some '_' then do
    let p1 ← read_name p.fuel
      { p with token := "", t_type := T_IDENT, t_line := p.c_line, t_pos := p.c_pos }
    return some p1
  else return none

/-- The method `handleSeparatingToken`: `none` is the result `false`. -/
def handleSeparatingToken (p : ConfigParser) : Option ConfigParser :=
  match p.in_c with
  | some c =>
    if c == ';' || c == '{' || c == '}' || c == '-' || c == ',' then
      some ({ p with t_line := p.c_line, t_pos := p.c_pos, token := ";",
                     t_type := char_code c }).next_char
    else none
  | none => none

/-- The method `next_token`. -/
def next_token (p : ConfigParser) : Except Failure ConfigParser := do
  let p1 ← p.find_next_char
  match p1.handleEOF with
  | some p2 => return p2
  | none =>
    match ← p1.handleNamingToken with
    | some p2 => return p2
    | none =>
      match p1.handleSeparatingToken with
      | some p2 => return p2
      | none => throw (.scan_error "invalid character")

/-- The method `read_int_opt`. -/
def read_int_opt (p : ConfigParser) (default_value : Int) :
    Except Failure (ConfigParser × Int) :=
  if p.t_type = T_IDENT then
    match stoi p.token with
    | none => .error (.parse_error "NUM expected")
    | some value => do
      let p1 ← p.next_token
      return (p1, value)
  else return (p, default_value)

end ConfigParser

/-! ## The grammar parser (`ConfigParser::parse`) -/

/-- The local variables of `parse_group`. -/
structure Block where
  parsed_group : Group := {}
  has_stat_to_judges : Bool := false
  has_stat_to_users : Bool := false
deriving DecidableEq

namespace ConfigParser

/-- The statement `if (cond) parse_error(msg);`. -/
def parse_error_if (cond : Prop) [Decidable cond] (msg : String) : Except Failure Unit :=
  if cond then .error (.parse_error msg) else .ok ()

/-- The test `if (t_type != c) parse_error(msg);`. -/
def expect (p : ConfigParser) (t_type : Int) (msg : String) : Except Failure Unit :=
  if p.t_type ≠ t_type then .error (.parse_error msg) else .ok ()

/-- The statement `try { x = stoi(token); } catch (...) { parse_error("NUM
expected"); }`. -/
def stoi_token (p : ConfigParser) : Except Failure Int :=
  match stoi p.token with
  | some value => .ok value
  | none => .error (.parse_error "NUM expected")

/-- The branch `tests` of `parse_group`. -/
def parse_tests (p : ConfigParser) (b : Block) : Except Failure (ConfigParser × Block) := do
  let p1 ← p.next_token
  let first ← p1.stoi_token
  parse_error_if (first ≤ 0) "invalid test number"
  let p2 ← p1.next_token
  if p2.t_type = char_code '-' then
    let p3 ← p2.next_token
    let last ← p3.stoi_token
    parse_error_if (last ≤ 0) "invalid test number"
    parse_error_if (last < first) "invalid range"
    let p4 ← p3.next_token
    p4.expect (char_code ';') "\x27;\x27 expected"
    let p5 ← p4.next_token
    return (p5, { b with parsed_group := { b.parsed_group with first := first, last := last } })
  else
    p2.expect (char_code ';') "\x27;\x27 expected"
    let p3 ← p2.next_token
    return (p3, { b with parsed_group := { b.parsed_group with first := first, last := first } })

/-- The loop `while (t_type == ',')` of the branches `requires` and
`sets_marked_if_passed`; `ids` are the names added so far. -/
def ident_list_loop : Nat → ConfigParser → List String →
    Except Failure (ConfigParser × List String)
  | 0, _, _ => .error .out_of_fuel
  | n + 1, p, ids =>
    if p.t_type = char_code ',' then do
      let p1 ← p.next_token
      p1.expect T_IDENT "IDENT expected"
      let p2 ← p1.next_token
      ident_list_loop n p2 (ids ++ [p1.token])
    else return (p, ids)

/-- The token sequence of the branches `requires` and `sets_marked_if_passed`
of `parse_group`: the names to add to the list. -/
def ident_list (p : ConfigParser) : Except Failure (ConfigParser × List String) := do
  let p1 ← p.next_token
  p1.expect T_IDENT "IDENT expected"
  let p2 ← p1.next_token
  let r ← ident_list_loop p2.fuel p2 [p1.token]
  r.1.expect (char_code ';') "\x27;\x27 expected"
  let p4 ← r.1.next_token
  return (p4, r.2)

/-- One test number of the branch `0_if`: read, converted and checked against
the range the group has at this point. -/
def zero_if_number (p : ConfigParser) (g : Group) : Except Failure (ConfigParser × Int) := do
  let p1 ← p.next_token
  let tn ← p1.stoi_token
  parse_error_if (tn < g.first ∨ tn > g.last) "invalid test number"
  let p2 ← p1.next_token
  return (p2, tn)

/-- The loop `while (t_type == ',')` of the branch `0_if`. -/
def zero_if_loop (g : Group) : Nat → ConfigParser → Finset Int →
    Except Failure (ConfigParser × Finset Int)
  | 0, _, _ => .error .out_of_fuel
  | n + 1, p, zs =>
    if p.t_type = char_code ',' then do
      let r ← zero_if_number p g
      zero_if_loop g n r.1 (insert r.2 zs)
    else return (p, zs)

/-- The branch `0_if` of `parse_group`. -/
def parse_zero_if (p : ConfigParser) (b : Block) : Except Failure (ConfigParser × Block) := do
  let r1 ← zero_if_number p b.parsed_group
  let r2 ← zero_if_loop b.parsed_group r1.1.fuel r1.1 (insert r1.2 ∅)
  r2.1.expect (char_code ';') "\x27;\x27 expected"
  let p3 ← r2.1.next_token
  return (p3, { b with parsed_group :=
    { b.parsed_group with zero_sets := b.parsed_group.zero_sets ++ [r2.2] } })

/-- The token sequence of the branches `offline`, `sets_marked`, `skip`,
`skip_if_not_rejudge` and `test_all` of `parse_group`. -/
def flag_tail (p : ConfigParser) : Except Failure ConfigParser := do
  let p1 ← p.next_token
  p1.expect (char_code ';') "\x27;\x27 expected"
  p1.next_token

/-- The token sequence of the branches `stat_to_judges` and `stat_to_users`,
of `parse_group` and of `parse_opt_global`: the value read. -/
def stat_value (p : ConfigParser) : Except Failure (ConfigParser × Int) := do
  let p1 ← p.next_token
  let r ← p1.read_int_opt 1
  r.1.expect (char_code ';') "\x27;\x27 expected"
  let p3 ← r.1.next_token
  return (p3, r.2)

/-- The token sequence of the branches `score`, `test_score` and
`pass_if_count` of `parse_group`; `bad` is the test that raises `msg`. -/
def num_value (p : ConfigParser) (bad : Int → Bool) (msg : String) :
    Except Failure (ConfigParser × Int) := do
  let p1 ← p.next_token
  p1.expect T_IDENT "NUM expected"
  let value ← p1.stoi_token
  parse_error_if (bad value = true) msg
  let p2 ← p1.next_token
  p2.expect (char_code ';') "\x27;\x27 expected"
  let p3 ← p2.next_token
  return (p3, value)

/-- The branch `user_status` of `parse_group`. -/
def parse_user_status (p : ConfigParser) : Except Failure (ConfigParser × Int) := do
  let p1 ← p.next_token
  p1.expect T_IDENT "status expected"
  let user_status := parse_status p1.token
  parse_error_if (user_status < 0) "invalid user_status"
  let p2 ← p1.next_token
  p2.expect (char_code ';') "\x27;\x27 expected"
  let p3 ← p2.next_token
  return (p3, user_status)

/-- One round of the loop `while (1)` of `parse_group`; `none` is `break`. -/
def parse_field (p : ConfigParser) (b : Block) :
    Except Failure (Option (ConfigParser × Block)) :=
  let g := b.parsed_group
  if p.token = "tests" then do
    let r ← parse_tests p b
    return some r
  else if p.token = "requires" then do
    let r ← ident_list p
    return some (r.1, { b with parsed_group := { g with requires := g.requires ++ r.2 } })
  else if p.token = "sets_marked_if_passed" then do
    let r ← ident_list p
    return some (r.1, { b with parsed_group :=
      { g with sets_marked_if_passed := g.sets_marked_if_passed ++ r.2 } })
  else if p.token = "0_if" then do
    let r ← parse_zero_if p b
    return some r
  else if p.token = "offline" then do
    let p1 ← flag_tail p
    return some (p1, { b with parsed_group := { g with is_offline := true } })
  else if p.token = "sets_marked" then do
    let p1 ← flag_tail p
    return some (p1, { b with parsed_group := { g with sets_marked := true } })
  else if p.token = "skip" then do
    let p1 ← flag_tail p
    return some (p1, { b with parsed_group := { g with skip := true } })
  else if p.token = "skip_if_not_rejudge" then do
    let p1 ← flag_tail p
    return some (p1, { b with parsed_group := { g with skip_if_not_rejudge := true } })
  else if p.token = "stat_to_judges" then do
    let r ← stat_value p
    if r.2 ≥ 0 then
      return some (r.1, { b with parsed_group := { g with stat_to_judges := decide (r.2 ≠ 0) },
                                 has_stat_to_judges := true })
    else return some (r.1, b)
  else if p.token = "stat_to_users" then do
    let r ← stat_value p
    if r.2 ≥ 0 then
      return some (r.1, { b with parsed_group := { g with stat_to_users := decide (r.2 ≠ 0) },
                                 has_stat_to_users := true })
    else return some (r.1, b)
  else if p.token = "test_all" then do
    let p1 ← flag_tail p
    return some (p1, { b with parsed_group := { g with test_all := true } })
  else if p.token = "score" then do
    let r ← num_value p (fun v => decide (v < 0)) "invalid score"
    return some (r.1, { b with parsed_group := { g with score := r.2 } })
  else if p.token = "test_score" then do
    let r ← num_value p (fun v => decide (v < 0)) "invalid test_score"
    return some (r.1, { b with parsed_group := { g with test_score := r.2 } })
  else if p.token = "pass_if_count" then do
    let r ← num_value p (fun v => decide (v ≤ 0)) "invalid pass_if_count"
    return some (r.1, { b with parsed_group := { g with pass_if_count := r.2 } })
  else if p.token = "user_status" then do
    let r ← parse_user_status p
    return some (r.1, { b with parsed_group := { g with user_status := r.2 } })
  else return none

/-- The loop `while (1)` of `parse_group`. -/
def parse_fields : Nat → ConfigParser → Block → Except Failure (ConfigParser × Block)
  | 0, _, _ => .error .out_of_fuel
  | n + 1, p, b =>
    match parse_field p b with
    | .error e => .error e
    | .ok none => .ok (p, b)
    | .ok (some r) => parse_fields n r.1 r.2

/-- The end of `parse_group`: an option the block did not set takes the value of
the `global` block, when that one sets it. -/
def resolve_stat (b : Block) (global : Global) : Group :=
  let g1 :=
    if !b.has_stat_to_judges && decide (global.stat_to_judges ≥ 0) then
      { b.parsed_group with stat_to_judges := decide (global.stat_to_judges ≠ 0) }
    else b.parsed_group
  if !b.has_stat_to_users && decide (global.stat_to_users ≥ 0) then
    { g1 with stat_to_users := decide (global.stat_to_users ≠ 0) }
  else g1

/-- The method `parse_group`. -/
def parse_group (p : ConfigParser) : Except Failure ConfigParser := do
  parse_error_if (p.token ≠ "group") "\x27group\x27 expected"
  let p1 ← p.next_token
  p1.expect T_IDENT "IDENT expected"
  parse_error_if ((find_group_id p1.groups p1.token).isSome = true)
    ("group " ++ p1.token ++ " already defined")
  let p2 ← p1.next_token
  p2.expect (char_code '{') "\x27\x7b\x27 expected"
  let p3 ← p2.next_token
  let r ← parse_fields p3.fuel p3 { parsed_group := { group_id := p1.token } }
  r.1.expect (char_code '}') "\x27\x7d\x27 expected"
  let p5 ← r.1.next_token
  return { p5 with groups := p5.groups ++ [resolve_stat r.2 p5.global] }

/-- The loop `while (token == "group") parse_group();` of `parse_groups`. -/
def parse_group_loop : Nat → ConfigParser → Except Failure ConfigParser
  | 0, _ => .error .out_of_fuel
  | n + 1, p =>
    if p.token = "group" then
      match parse_group p with
      | .error e => .error e
      | .ok p1 => parse_group_loop n p1
    else .ok p

/-- The method `parse_groups`: the loop over the group blocks, followed by the
sort and the scans of `Gvaluer.parse_groups`. -/
def parse_groups (p : ConfigParser) : Except Failure ConfigParser := do
  let p1 ← parse_group_loop p.fuel p
  let groups ← Gvaluer.parse_groups p1.groups
  return { p1 with groups := groups }

/-- One round of the loop `while (1)` of `parse_opt_global`; `none` is
`break`. -/
def parse_global_field (p : ConfigParser) : Except Failure (Option ConfigParser) :=
  if p.token = "stat_to_judges" then do
    let r ← stat_value p
    return some { r.1 with global := r.1.global.set_stat_to_judges r.2 }
  else if p.token = "stat_to_users" then do
    let r ← stat_value p
    return some { r.1 with global := r.1.global.set_stat_to_users r.2 }
  else return none

/-- The loop `while (1)` of `parse_opt_global`. -/
def parse_global_fields : Nat → ConfigParser → Except Failure ConfigParser
  | 0, _ => .error .out_of_fuel
  | n + 1, p =>
    match parse_global_field p with
    | .error e => .error e
    | .ok none => .ok p
    | .ok (some p1) => parse_global_fields n p1

/-- The method `parse_opt_global`. -/
def parse_opt_global (p : ConfigParser) : Except Failure ConfigParser :=
  if p.token ≠ "global" then .ok p
  else do
    let p1 ← p.next_token
    p1.expect (char_code '{') "\x27\x7b\x27 expected"
    let p2 ← p1.next_token
    let p3 ← parse_global_fields p2.fuel p2
    p3.expect (char_code '}') "\x27\x7d\x27 expected"
    p3.next_token

/-- The method `parse`; `file` is the content of the file at `configpath`, or
`none` when the file cannot be opened. -/
def parse (configpath : String) (file : Option String) : Except Failure ConfigParser :=
  match file with
  | none => .error (.die ("cannot open config file \x27" ++ configpath ++ "\x27"))
  | some content => do
    let p0 : ConfigParser := { in_f := content.data, line := 1, pos := 0 }
    let p1 ← p0.next_char.next_token
    let p2 ← p1.parse_opt_global
    let p3 ← p2.parse_groups
    parse_error_if (p3.token ≠ "") "EOF expected"
    return p3

end ConfigParser

/-- The group vector a configuration file is parsed to. -/
def parse_config (content : String) : Except Failure (List Group) :=
  match ConfigParser.parse "valuer.cfg" (some content) with
  | .error e => .error e
  | .ok p => .ok p.groups

/-! ## Notions used in the statements -/

instance : IsTotal Group Group.first_le := ⟨fun a b => le_total a.first b.first⟩

instance : IsTrans Group Group.first_le := ⟨fun _ _ _ h1 h2 => le_trans h1 h2⟩

/-- Adjacent groups: the next one starts right after the previous one. -/
def Adjacent (prev next : Group) : Prop := next.first = prev.last + 1

instance : DecidableRel Adjacent := fun prev next => Int.decEq next.first (prev.last + 1)

/-- The configuration part of a group: the run-time fields are reset to their
initial values. -/
def Group.config (g : Group) : Group :=
  { g with passed_count := 0, total_score := 0, comment := "", passed_set := ∅ }

/-- The tests that receive `RUN_OK` when the statuses `outcomes` are delivered
for the tests `t0`, `t0 + 1`, ... in this order. -/
def ok_tests (t0 : Int) : List Int → Finset Int
  | [] => ∅
  | t_status :: rest =>
    if t_status = RUN_OK then insert t0 (ok_tests (t0 + 1) rest) else ok_tests (t0 + 1) rest

/-- Every `requires` entry names a group of the configuration. -/
def Resolvable (groups : List Group) : Prop :=
  ∀ g ∈ groups, ∀ r ∈ g.requires, ∃ h ∈ groups, h.group_id = r

instance : DecidablePred Resolvable := fun groups =>
  inferInstanceAs (Decidable (∀ g ∈ groups, ∀ r ∈ g.requires, ∃ h ∈ groups, h.group_id = r))

/-- The number of groups whose range does not end before `test_num`: a bound on
the number of groups a resolver loop can still pass. -/
def groups_ahead (groups : List Group) (test_num : Int) : Nat :=
  (groups.map Group.last).countP (fun l => decide (test_num ≤ l))

/-- The ranges are such as the parser delivers them: every test number of a
range is a non-negative value of the type `int`.  Every file the parser
accepts gives such ranges (`parse_config_ranged`). -/
def Ranged (groups : List Group) : Prop := ∀ g ∈ groups, 0 ≤ g.first ∧ g.last ≤ INT_MAX

instance : DecidablePred Ranged := fun groups =>
  inferInstanceAs (Decidable (∀ g ∈ groups, 0 ≤ g.first ∧ g.last ≤ INT_MAX))

/-- No range ends at the largest `int`, so that the test number behind every
group is a value of the type `int`. -/
def Bounded (groups : List Group) : Prop := ∀ g ∈ groups, g.last < INT_MAX

instance : DecidablePred Bounded := fun groups =>
  inferInstanceAs (Decidable (∀ g ∈ groups, g.last < INT_MAX))

/-- The test pointer `test_num` has left the group for good: it is behind the
range, or it went past the largest `int` and is negative. -/
def Group.Left (g : Group) (test_num : Int) : Prop := g.last < test_num ∨ test_num < 0

instance (g : Group) (test_num : Int) : Decidable (g.Left test_num) :=
  inferInstanceAs (Decidable (g.last < test_num ∨ test_num < 0))

/-- The test pointer went from `t` to `t1` by leaving groups: it stayed, or it
was a test number and moved forward or went past the largest `int`, to
`INT_MIN`. -/
def Moved (t t1 : Int) : Prop := t1 = t ∨ (0 ≤ t ∧ (t < t1 ∨ t1 = INT_MIN))

instance (t t1 : Int) : Decidable (Moved t t1) :=
  inferInstanceAs (Decidable (t1 = t ∨ (0 ≤ t ∧ (t < t1 ∨ t1 = INT_MIN))))

/-- The group vector is one that `parse_groups` accepts, already in the order
in which `parse_groups` leaves it. -/
def Validated (groups : List Group) : Prop := parse_groups groups = .ok groups

instance : DecidablePred Validated := fun groups =>
  inferInstanceAs (Decidable (parse_groups groups = .ok groups))

/-- The upper-cased form of a string. -/
def upper (s : String) : String := String.mk (s.data.map toupper)

/-- The user status as the specification words it: one step of the fold over the
groups.  An offline group leaves the status alone; a group that did not pass
sets the partial code; a passed group with an override sets the override. -/
def spec_user_status (status : Int) (g : Group) : Int :=
  if g.is_offline then status
  else if g.is_passed = false then RUN_PARTIAL
  else if 0 ≤ g.user_status then g.user_status
  else status

/-- The number of characters the lexer can still deliver: the current one, when
there is one, and those left in the file. -/
def ConfigParser.remaining (p : ConfigParser) : Nat :=
  p.in_f.length + (if p.in_c.isSome then 1 else 0)

/-- The parser went from `p` to `q` by reading: it did not put characters back
and left the groups and the global settings alone. -/
def Step (p q : ConfigParser) : Prop :=
  q.remaining ≤ p.remaining ∧ q.groups = p.groups ∧ q.global = p.global

/-- The parser went from `p` to `q` and read at least one character. -/
def Strict (p q : ConfigParser) : Prop :=
  q.remaining < p.remaining ∧ q.groups = p.groups ∧ q.global = p.global

/-- The characters of an identifier token. -/
def is_name_char (c : Char) : Bool := c.isAlphanum || c == '_'

/-- What one field of a group block does to the local variables of
`parse_group`, whatever the field: the parser moves on, the group keeps its id,
and only the field `stat_to_judges` (`stat_to_users`) touches the option of
that name. -/
def FieldOk (p : ConfigParser) (b : Block) (r : ConfigParser × Block) : Prop :=
  Strict p r.1 ∧ r.2.parsed_group.group_id = b.parsed_group.group_id ∧
  (p.token ≠ "stat_to_judges" →
    r.2.has_stat_to_judges = b.has_stat_to_judges ∧
    r.2.parsed_group.stat_to_judges = b.parsed_group.stat_to_judges) ∧
  (p.token ≠ "stat_to_users" →
    r.2.has_stat_to_users = b.has_stat_to_users ∧
    r.2.parsed_group.stat_to_users = b.parsed_group.stat_to_users)

/-- What a group block says about `stat_to_judges`: `none` as long as no field
of the block has set it. -/
def Block.explicit_judges (b : Block) : Option Bool :=
  if b.has_stat_to_judges then some b.parsed_group.stat_to_judges else none

/-- What a group block says about `stat_to_users`: `none` as long as no field of
the block has set it. -/
def Block.explicit_users (b : Block) : Option Bool :=
  if b.has_stat_to_users then some b.parsed_group.stat_to_users else none

/-- The resolved value of a reporting option, in the words of the
specification: the explicit value of the block when there is one, else the
global setting when the `global` block set one (`0` or `1`), else false. -/
def spec_resolved (explicit : Option Bool) (global_setting : Int) : Bool :=
  match explicit with
  | some value => value
  | none => if global_setting < 0 then false else decide (global_setting ≠ 0)

/-- The rounds of the loop over the fields of a group block: from the parser
state `p` and the block `b`, through one round of `parse_field` after the
other, to the state `q` and the block `c` at which `parse_field` finds no
field. -/
inductive FieldRounds : ConfigParser → Block → ConfigParser → Block → Prop
  /-- The token is no field name: the loop ends. -/
  | done (p : ConfigParser) (b : Block) :
      ConfigParser.parse_field p b = .ok none → FieldRounds p b p b
  /-- The token names a field: `parse_field` reads it, and the loop goes on. -/
  | round (p : ConfigParser) (b : Block) (r : ConfigParser × Block) (q : ConfigParser)
      (c : Block) :
      ConfigParser.parse_field p b = .ok (some r) → FieldRounds r.1 r.2 q c →
      FieldRounds p b q c

/-- An option no field has set still has the value the constructor of `Group`
gave it. -/
def Block.Fresh (b : Block) : Prop :=
  (b.has_stat_to_judges = false → b.parsed_group.stat_to_judges = false) ∧
  (b.has_stat_to_users = false → b.parsed_group.stat_to_users = false)

/-- The counting invariant of one group at the test pointer `t`: the counter is
the size of the passed set, and the passed tests are tests of the group that the
pointer has left behind, by moving forward or by going past the largest `int`. -/
def Group.CountInv (g : Group) (t : Int) : Prop :=
  g.passed_count = g.passed_set.card ∧
  ∀ x ∈ g.passed_set, g.first ≤ x ∧ x ≤ g.last ∧ (x < t ∨ t < 0)

/-- The scoring invariant of one group at the test pointer `t`: without
`test_score` the running score is zero; with it the running score is
`test_score` for each passed test, added up in the type `int`, or zero once
the pointer has left the group. -/
def Group.ScoreInv (g : Group) (t : Int) : Prop :=
  (g.test_score < 0 → g.total_score = 0) ∧
  (0 ≤ g.test_score →
    g.total_score = wrap (g.test_score * g.passed_count) ∨ (g.total_score = 0 ∧ g.Left t))

/-- A group as the parser delivers it: the range is not reversed and made of
values of the type `int`, the scores are those the fields allow, and the
run-time fields have their initial values. -/
def Group.Plain (g : Group) : Prop :=
  g.first ≤ g.last ∧ 0 ≤ g.first ∧ 0 ≤ g.score ∧ -1 ≤ g.test_score ∧
  g.passed_count = 0 ∧ g.total_score = 0 ∧ g.comment = "" ∧ g.passed_set = ∅ ∧
  g.last ≤ INT_MAX

/-- The line and the column behind the character `c`, from the line and the
column ahead of it: a line feed starts the next line at column 0, a tab moves
the column to the next multiple of 8, a control character has no width, and
every other character takes one column. -/
def advance (lc : Int × Int) (c : Char) : Int × Int :=
  if c = '\n' then (lc.1 + 1, 0)
  else if c = '\t' then (lc.1, (lc.2 / 8 + 1) * 8)
  else if c ≥ ' ' then (lc.1, lc.2 + 1)
  else lc

/-- The line and the column of the character that follows the text `before` in a
file: the line is counted from 1, the column from 0. -/
def position_after (before : List Char) : Int × Int := before.foldl advance (1, 0)

/-- The lexer has read the text `before` of the file `content` and holds the
character that follows it: `c_line` and `c_pos` are the position of that
character, `line` and `pos` the position behind it. -/
def ConfigParser.TracksAt (content before : List Char) (p : ConfigParser) : Prop :=
  content = before ++ p.in_c.toList ++ p.in_f ∧ (p.in_c = none → p.in_f = []) ∧
  (p.c_line, p.c_pos) = position_after before ∧
  (p.line, p.pos) = position_after (before ++ p.in_c.toList)

/-! ## Example configurations -/

/-- A group `A` with tests 1-2. -/
def ex_a12 : Group := { group_id := "A", first := 1, last := 2 }

/-- A group `B` with tests 3-4 that requires `A`. -/
def ex_b34 : Group :=
  { group_id := "B", first := 3, last := 4, requires := ["A"],
    sets_marked_if_passed := ["A", "B"] }

/-- A group `C` with tests 4-5: it leaves a hole after `A`. -/
def ex_c45 : Group := { group_id := "C", first := 4, last := 5 }

/-- A group with tests 1-3, `test_score 4` and `0_if 2`. -/
def ex_bytest : Group :=
  { group_id := "T", first := 1, last := 3, test_score := 4, zero_sets := [{2}] }

/-- A group with tests 1-3 and `pass_if_count 2` under the default
stop-on-first-failure policy. -/
def ex_count_stop : Group := { group_id := "P", first := 1, last := 3, pass_if_count := 2 }

/-- A group with the single test 4. -/
def ex_next : Group := { group_id := "Q", first := 4, last := 4 }

/-- A group with tests 1-3, `pass_if_count 2` and `test_all`. -/
def ex_count_all : Group :=
  { group_id := "P", first := 1, last := 3, pass_if_count := 2, test_all := true }

/-- A group with tests 1-2, whole-group score 10 and `0_if 1, 2`. -/
def ex_whole_zero : Group :=
  { group_id := "W", first := 1, last := 2, score := 10, zero_sets := [{1, 2}] }

/-- A group with tests 1-3, `test_score 4` and `0_if 3`: the zero-set holds the
last test of the range. -/
def ex_bytest_last : Group :=
  { group_id := "L", first := 1, last := 3, test_score := 4, zero_sets := [{3}] }

/-- A group `A` with the single test 1. -/
def ex_a1 : Group := { group_id := "A", first := 1, last := 1 }

/-- A group `S` with the single test 2 that is always skipped. -/
def ex_s2 : Group := { group_id := "S", first := 2, last := 2, skip := true }

/-- A group `B` with the single test 3 that requires `A`. -/
def ex_b3 : Group := { group_id := "B", first := 3, last := 3, requires := ["A"] }

/-- The group `ex_count_all` after tests 1 and 3 passed and test 2 failed. -/
def ex_count_done : Group :=
  { ex_count_all with passed_count := 2, passed_set := {3, 1}, score := 7 }

/-- An offline group `A` with tests 1-2. -/
def ex_off_a12 : Group := { group_id := "A", first := 1, last := 2, is_offline := true }

/-- A group `B` with tests 3-4 that is not offline. -/
def ex_on_b34 : Group := { group_id := "B", first := 3, last := 4 }

/-- An offline group `B` with tests 3-4. -/
def ex_off_b34 : Group := { group_id := "B", first := 3, last := 4, is_offline := true }

/-- A passed group with score 10 and the override `RUN_ACCEPTED`. -/
def ex_done_a : Group :=
  { group_id := "A", first := 1, last := 2, score := 10, user_status := 8,
    passed_count := 2, passed_set := {2, 1} }

/-- A failed group with score 20, one test of two passed. -/
def ex_done_b : Group :=
  { group_id := "B", first := 3, last := 4, score := 20, passed_count := 1,
    passed_set := {3} }

/-- A passed offline group with score 30. -/
def ex_done_c : Group :=
  { group_id := "C", first := 5, last := 5, score := 30, is_offline := true,
    passed_count := 1, passed_set := {5} }

/-- The parser at the first token of the document `content`, as `parse` leaves
it ahead of `parse_opt_global`, with the global settings `settings`. -/
def ex_start (content : String) (settings : Global) : ConfigParser :=
  match ({ in_f := content.data, line := 1, pos := 0, global := settings } :
      ConfigParser).next_char.next_token with
  | .ok p => p
  | .error _ => {}

/-- The parser after the first block of `group A { tests 1; } group A { tests 2; }`,
at the keyword of the second block. -/
def ex_dup_p : ConfigParser :=
  match (ex_start "group A { tests 1; } group A { tests 2; }" {}).parse_group with
  | .ok q => q
  | .error _ => {}

/-- The parser `ex_dup_p` one token later, at the id of the second block. -/
def ex_dup_p1 : ConfigParser :=
  match ex_dup_p.next_token with
  | .ok q => q
  | .error _ => {}

/-- The parser at a block that sets `stat_to_judges` to zero and says nothing of
`stat_to_users`, after a `global` block that turned both options on. -/
def ex_stat_p : ConfigParser :=
  ex_start "group A { tests 1; stat_to_judges 0; }" { stat_to_judges := 1, stat_to_users := 1 }

/-- The parser `ex_stat_p` after the block. -/
def ex_stat_q : ConfigParser :=
  match ex_stat_p.parse_group with
  | .ok q => q
  | .error _ => {}

/-- The state after test 1 of `ex_a12, ex_b34` has passed. -/
def ex_run_a : State :=
  { groups := [{ ex_a12 with passed_count := 1, passed_set := {1} }, ex_b34],
    test_num := 2, out := [-1] }

/-- A state whose test pointer no group owns. -/
def ex_run_out : State := { groups := [ex_a12, ex_b34], test_num := 5, out := [] }

/-- A group with tests 1-3 and `test_all`, scored as a whole. -/
def ex_all : Group := { group_id := "E", first := 1, last := 3, score := 10, test_all := true }

/-- The state the file `group A { tests 1; sets_marked_if_passed A; }` reaches
after its test has passed. -/
def ex_run_marked : State :=
  { groups := [{ group_id := "A", first := 1, last := 1, sets_marked_if_passed := ["A"],
                 passed_count := 1, passed_set := {1} }],
    test_num := 2, out := [-2] }

/-- The state the file `group A { tests 1; } group B { tests 2; user_status OK; }`
reaches after a wrong answer for test 1 and a passed test 2. -/
def ex_run_override : State :=
  { groups := [{ group_id := "A", first := 1, last := 1 },
               { group_id := "B", first := 2, last := 2, user_status := 0,
                 passed_count := 1, passed_set := {2} }],
    test_num := 3, out := [-2, -3] }

/-- The parser of `parse` on the document `content`, after the first call of
`next_char` and ahead of the first call of `next_token`. -/
def ex_lexer (content : String) : ConfigParser :=
  ({ in_f := content.data, line := 1, pos := 0 } : ConfigParser).next_char

/-- The parser `ex_lexer content` after `count` calls of `next_token`. -/
def ex_tokens (content : String) : Nat → ConfigParser
  | 0 => ex_lexer content
  | count + 1 =>
    match (ex_tokens content count).next_token with
    | .ok q => q
    | .error _ => {}

/-- A group `A` whose range ends at the largest `int`: the file
`group A { tests 1-2147483647; }`. -/
def ex_wide : Group := { group_id := "A", first := 1, last := 2147483647 }

/-- A skipped group `B` whose range starts at test 2 and ends at the largest
`int`. -/
def ex_skip_wide : Group := { group_id := "B", first := 2, last := 2147483647, skip := true }

/-- A passed group `A` with the single test 1 and the largest `int` as score. -/
def ex_max_a : Group :=
  { group_id := "A", first := 1, last := 1, score := 2147483647, passed_count := 1,
    passed_set := {1} }

/-- A passed group `B` with the single test 2 and the largest `int` as score. -/
def ex_max_b : Group :=
  { group_id := "B", first := 2, last := 2, score := 2147483647, passed_count := 1,
    passed_set := {2} }

theorem for_each_ok_iff {α : Type} (body : α → Except Failure Unit) (l : List α) :
    for_each body l = .ok () ↔ ∀ a ∈ l, body a = .ok () := by
  induction l with
  | nil => simp [for_each]
  | cons a as ih =>
    simp only [for_each, List.mem_cons, forall_eq_or_imp]
    cases h : body a with
    | error e => simp
    | ok u => simpa using ih

theorem for_each_error {α : Type} (body : α → Except Failure Unit) (l : List α) (e : Failure)
    (h : for_each body l = .error e) : ∃ a ∈ l, body a = .error e := by
  induction l with
  | nil => simp [for_each] at h
  | cons a as ih =>
    simp only [for_each] at h
    cases hb : body a with
    | error e1 =>
      rw [hb] at h
      simp only [Except.error.injEq] at h
      exact ⟨a, List.mem_cons_self a as, by rw [hb, h]⟩
    | ok u =>
      rw [hb] at h
      obtain ⟨b, hb1, hb2⟩ := ih h
      exact ⟨b, List.mem_cons_of_mem a hb1, hb2⟩

theorem check_adjacent_ok_iff (groups : List Group) :
    check_adjacent groups = .ok () ↔ List.Chain' Adjacent groups := by
  induction groups with
  | nil => simp [check_adjacent]
  | cons g1 tl ih =>
    cases tl with
    | nil => simp [check_adjacent]
    | cons g2 rest =>
      rw [List.chain'_cons, ← ih, check_adjacent]
      by_cases h1 : g2.first ≤ g1.last
      · have h2 : ¬ g2.first = g1.last + 1 := by omega
        simp [Adjacent, h1, h2]
      · by_cases h2 : g2.first = g1.last + 1
        · simp [Adjacent, h1, h2]
        · simp [Adjacent, h1, h2]

theorem check_adjacent_error (groups : List Group) (e : Failure)
    (h : check_adjacent groups = .error e) : ∃ msg, e = .parse_error msg := by
  induction groups with
  | nil => simp [check_adjacent] at h
  | cons g1 tl ih =>
    cases tl with
    | nil => simp [check_adjacent] at h
    | cons g2 rest =>
      unfold check_adjacent at h
      split at h
      · exact ⟨_, (Except.error.inj h).symm⟩
      · split at h
        · exact ⟨_, (Except.error.inj h).symm⟩
        · exact ih h

theorem check_refs_ok_iff (groups : List Group) (bound : Nat) (g : Group) (r : List String) :
    check_refs groups bound g r = .ok () ↔
      ∀ rj ∈ r, ∃ h ∈ groups.take bound, h.group_id = rj := by
  unfold check_refs
  rw [for_each_ok_iff]
  constructor
  · intro h rj hrj
    have := h rj hrj
    by_cases hc : (groups.take bound).any (fun h => h.group_id == rj) = true
    · simpa using hc
    · simp [hc] at this
  · intro h rj hrj
    have hc : (groups.take bound).any (fun h => h.group_id == rj) = true := by
      simpa using h rj hrj
    simp [hc]

theorem check_refs_error (groups : List Group) (bound : Nat) (g : Group) (r : List String)
    (e : Failure) (h : check_refs groups bound g r = .error e) : ∃ msg, e = .parse_error msg := by
  unfold check_refs at h
  obtain ⟨rj, _, h2⟩ := for_each_error _ _ _ h
  split at h2
  · simp at h2
  · exact ⟨_, (Except.error.inj h2).symm⟩

theorem check_requires_ok_iff (groups : List Group) :
    check_requires groups = .ok () ↔
      ∀ i g, groups[i]? = some g → ∀ rj ∈ g.requires, ∃ h ∈ groups.take i, h.group_id = rj := by
  unfold check_requires
  rw [for_each_ok_iff]
  constructor
  · intro h i g hg
    have hi : i ∈ List.range groups.length := by
      rw [List.mem_range]
      exact (List.getElem?_eq_some.mp hg).1
    have := h i hi
    simp only [hg] at this
    exact (check_refs_ok_iff _ _ _ _).mp this
  · intro h i _
    cases hg : groups[i]? with
    | none => rfl
    | some g => exact (check_refs_ok_iff _ _ _ _).mpr (h i g hg)

theorem check_requires_error (groups : List Group) (e : Failure)
    (h : check_requires groups = .error e) : ∃ msg, e = .parse_error msg := by
  unfold check_requires at h
  obtain ⟨i, _, h2⟩ := for_each_error _ _ _ h
  split at h2
  · simp at h2
  · exact check_refs_error _ _ _ _ _ h2

theorem check_marks_ok_iff (groups : List Group) :
    check_sets_marked_if_passed groups = .ok () ↔
      ∀ i g, groups[i]? = some g →
        ∀ rj ∈ g.sets_marked_if_passed, ∃ h ∈ groups.take (i + 1), h.group_id = rj := by
  unfold check_sets_marked_if_passed
  rw [for_each_ok_iff]
  constructor
  · intro h i g hg
    have hi : i ∈ List.range groups.length := by
      rw [List.mem_range]
      exact (List.getElem?_eq_some.mp hg).1
    have := h i hi
    simp only [hg] at this
    exact (check_refs_ok_iff _ _ _ _).mp this
  · intro h i _
    cases hg : groups[i]? with
    | none => rfl
    | some g => exact (check_refs_ok_iff _ _ _ _).mpr (h i g hg)

theorem check_marks_error (groups : List Group) (e : Failure)
    (h : check_sets_marked_if_passed groups = .error e) : ∃ msg, e = .parse_error msg := by
  unfold check_sets_marked_if_passed at h
  obtain ⟨i, _, h2⟩ := for_each_error _ _ _ h
  split at h2
  · simp at h2
  · exact check_refs_error _ _ _ _ _ h2

theorem check_offline_error (groups : List Group) (e : Failure)
    (h : check_offline groups = .error e) : ∃ msg, e = .parse_error msg := by
  unfold check_offline at h
  split at h
  · exact ⟨_, (Except.error.inj h).symm⟩
  · simp at h

/-- Acceptance by `parse_groups`, check by check. -/
theorem parse_groups_ok_iff (parsed groups : List Group) :
    parse_groups parsed = .ok groups ↔
      parsed ≠ [] ∧ groups = parsed.insertionSort Group.first_le ∧
      check_adjacent groups = .ok () ∧ check_requires groups = .ok () ∧
      check_sets_marked_if_passed groups = .ok () ∧ check_offline groups = .ok () := by
  unfold parse_groups
  by_cases h0 : parsed = []
  · subst h0
    simp
  · have hlen : ¬ parsed.length ≤ 0 := by
      have := List.length_pos.mpr h0
      omega
    simp only [hlen, if_false]
    cases h1 : check_adjacent (parsed.insertionSort Group.first_le) with
    | error e =>
      simp only [h0, ne_eq, not_false_eq_true, true_and]
      constructor
      · intro h; simp at h
      · rintro ⟨rfl, h, _⟩
        rw [h1] at h; simp at h
    | ok u1 =>
      cases h2 : check_requires (parsed.insertionSort Group.first_le) with
      | error e =>
        simp only [h0, ne_eq, not_false_eq_true, true_and]
        constructor
        · intro h; simp at h
        · rintro ⟨rfl, _, h, _⟩
          rw [h2] at h; simp at h
      | ok u2 =>
        cases h3 : check_sets_marked_if_passed (parsed.insertionSort Group.first_le) with
        | error e =>
          simp only [h0, ne_eq, not_false_eq_true, true_and]
          constructor
          · intro h; simp at h
          · rintro ⟨rfl, _, _, h, _⟩
            rw [h3] at h; simp at h
        | ok u3 =>
          cases h4 : check_offline (parsed.insertionSort Group.first_le) with
          | error e =>
            simp only [h0, ne_eq, not_false_eq_true, true_and]
            constructor
            · intro h; simp at h
            · rintro ⟨rfl, _, _, _, h⟩
              rw [h4] at h; simp at h
          | ok u4 =>
            simp only [h0, ne_eq, not_false_eq_true, true_and, Except.ok.injEq]
            constructor
            · intro h
              subst h
              exact ⟨rfl, h1, h2, h3, h4⟩
            · rintro ⟨rfl, _⟩
              rfl

/-- Every failure of `parse_groups` is a parse error. -/
theorem parse_groups_error (parsed : List Group) (e : Failure)
    (h : parse_groups parsed = .error e) : ∃ msg, e = .parse_error msg := by
  unfold parse_groups at h
  split at h
  · exact ⟨_, (Except.error.inj h).symm⟩
  · simp only at h
    split at h
    · rename_i e1 h1
      cases Except.error.inj h
      exact check_adjacent_error _ _ h1
    · split at h
      · rename_i e1 h1
        cases Except.error.inj h
        exact check_requires_error _ _ h1
      · split at h
        · rename_i e1 h1
          cases Except.error.inj h
          exact check_marks_error _ _ h1
        · split at h
          · rename_i e1 h1
            cases Except.error.inj h
            exact check_offline_error _ _ h1
          · simp at h

/-! ## Lemmas on `int` arithmetic -/

theorem wrap_of_range {x : Int} (h1 : INT_MIN ≤ x) (h2 : x ≤ INT_MAX) : wrap x = x := by
  unfold INT_MIN at h1
  unfold INT_MAX at h2
  unfold wrap
  omega

theorem wrap_add_wrap (a b : Int) : wrap (wrap a + b) = wrap (a + b) := by
  unfold wrap
  omega

theorem wrap_zero : wrap 0 = 0 := by decide

/-- The successor of a test number: the next number, or `INT_MIN` after the
largest `int`. -/
theorem wrap_succ {t : Int} (h0 : 0 ≤ t) (h1 : t ≤ INT_MAX) :
    (t < INT_MAX ∧ wrap (t + 1) = t + 1) ∨ (t = INT_MAX ∧ wrap (t + 1) = INT_MIN) := by
  unfold INT_MAX at h1 ⊢
  unfold INT_MIN wrap
  omega

theorem moved_refl (t : Int) : Moved t t := Or.inl rfl

theorem moved_trans {t t1 t2 : Int} (h1 : Moved t t1) (h2 : Moved t1 t2) : Moved t t2 := by
  unfold Moved INT_MIN at *
  omega

theorem left_of_moved {g : Group} {t t1 : Int} (hl : g.Left t) (hm : Moved t t1) :
    g.Left t1 := by
  unfold Group.Left at *
  unfold Moved INT_MIN at hm
  omega

theorem ranged_of_config {gs1 : List Group} (gs2 : List Group)
    (h : gs1.map Group.config = gs2.map Group.config) (hr : Ranged gs2) : Ranged gs1 := by
  intro g hg
  have hgc : g.config ∈ gs2.map Group.config := by
    rw [← h]; exact List.mem_map_of_mem _ hg
  obtain ⟨g2, hg2, hc2⟩ := List.mem_map.mp hgc
  have h1 : g2.first = g.first :=
    show g2.config.first = g.config.first from congrArg (fun x : Group => x.first) hc2
  have h2 : g2.last = g.last :=
    show g2.config.last = g.config.last from congrArg (fun x : Group => x.last) hc2
  have := hr g2 hg2
  rw [← h1, ← h2]
  exact this

theorem bounded_of_config {gs1 : List Group} (gs2 : List Group)
    (h : gs1.map Group.config = gs2.map Group.config) (hr : Bounded gs2) : Bounded gs1 := by
  intro g hg
  have hgc : g.config ∈ gs2.map Group.config := by
    rw [← h]; exact List.mem_map_of_mem _ hg
  obtain ⟨g2, hg2, hc2⟩ := List.mem_map.mp hgc
  have h2 : g2.last = g.last :=
    show g2.config.last = g.config.last from congrArg (fun x : Group => x.last) hc2
  have := hr g2 hg2
  rw [← h2]
  exact this

theorem find_group_num_some {groups : List Group} {t : Int} {i : Nat} {g : Group}
    (h : find_group_num groups t = some (i, g)) :
    groups[i]? = some g ∧ g.first ≤ t ∧ t ≤ g.last := by
  induction groups generalizing i with
  | nil => simp [find_group_num] at h
  | cons a tl ih =>
    unfold find_group_num at h
    split at h
    · rename_i hin
      simp only [Option.some.injEq, Prod.mk.injEq] at h
      obtain ⟨rfl, rfl⟩ := h
      exact ⟨List.getElem?_cons_zero, hin.1, hin.2⟩
    · cases hf : find_group_num tl t with
      | none => rw [hf] at h; simp at h
      | some p =>
        rw [hf] at h
        simp only [Option.map_some', Option.some.injEq, Prod.mk.injEq] at h
        obtain ⟨rfl, rfl⟩ := h
        have := ih (i := p.1) (by rw [hf])
        simpa using this

theorem find_group_num_of_owner {groups : List Group} {t : Int} {i : Nat} {g : Group}
    (hg : groups[i]? = some g) (h1 : g.first ≤ t) (h2 : t ≤ g.last)
    (hbefore : ∀ (j : Nat) (h : Group), j < i → groups[j]? = some h → h.last < t) :
    find_group_num groups t = some (i, g) := by
  induction groups generalizing i with
  | nil => simp at hg
  | cons a tl ih =>
    unfold find_group_num
    cases i with
    | zero =>
      simp only [List.getElem?_cons_zero, Option.some.injEq] at hg
      subst hg
      simp [h1, h2]
    | succ i =>
      have ha : a.last < t := hbefore 0 a (Nat.succ_pos i) List.getElem?_cons_zero
      have hna : ¬ (a.first ≤ t ∧ t ≤ a.last) := fun hc => absurd hc.2 (not_le.mpr ha)
      simp only [hna, if_false]
      have hg1 : tl[i]? = some g := by simpa using hg
      have := ih hg1 (fun j h hj hjh => hbefore (j + 1) h (Nat.succ_lt_succ hj) (by simpa using hjh))
      rw [this]
      rfl

theorem find_group_num_none {groups : List Group} {t : Int}
    (h : ∀ g ∈ groups, ¬ (g.first ≤ t ∧ t ≤ g.last)) : find_group_num groups t = none := by
  induction groups with
  | nil => rfl
  | cons a tl ih =>
    unfold find_group_num
    have ha := h a (List.mem_cons_self a tl)
    simp only [ha, if_false]
    rw [ih (fun g hg => h g (List.mem_cons_of_mem a hg))]
    rfl

theorem mem_of_find_group_num_none {groups : List Group} {t : Int}
    (h : find_group_num groups t = none) : ∀ g ∈ groups, ¬ (g.first ≤ t ∧ t ≤ g.last) := by
  induction groups with
  | nil => simp
  | cons a tl ih =>
    unfold find_group_num at h
    split at h
    · simp at h
    · rename_i hna
      intro g hg
      rcases List.mem_cons.mp hg with rfl | hg
      · exact hna
      · apply ih _ g hg
        cases hf : find_group_num tl t with
        | none => rfl
        | some p => rw [hf] at h; simp at h

theorem map_set_same {β : Type} (f : Group → β) {groups : List Group} {i : Nat} {g g1 : Group}
    (hg : groups[i]? = some g) (hf : f g1 = f g) :
    (groups.set i g1).map f = groups.map f := by
  induction groups generalizing i with
  | nil => simp
  | cons a tl ih =>
    cases i with
    | zero =>
      simp only [List.getElem?_cons_zero, Option.some.injEq] at hg
      subst hg
      simp [hf]
    | succ i =>
      have hg1 : tl[i]? = some g := by simpa using hg
      simp [ih hg1]

theorem getElem?_set_other {groups : List Group} {i j : Nat} (g1 : Group) (hij : i ≠ j) :
    (groups.set i g1)[j]? = groups[j]? := by
  simp [List.getElem?_set, hij]

theorem getElem?_set_self {groups : List Group} {i : Nat} {g : Group} (g1 : Group)
    (hg : groups[i]? = some g) : (groups.set i g1)[i]? = some g1 := by
  have hlt : i < groups.length := (List.getElem?_eq_some.mp hg).1
  simp [List.getElem?_set, hlt]

theorem config_last (g : Group) : g.config.last = g.last := rfl

theorem config_first (g : Group) : g.config.first = g.first := rfl

theorem map_last_of_config {gs1 gs2 : List Group}
    (h : gs1.map Group.config = gs2.map Group.config) :
    gs1.map Group.last = gs2.map Group.last := by
  have := congrArg (List.map Group.last) h
  simpa [List.map_map, Function.comp_def, config_last] using this

theorem length_of_config {gs1 gs2 : List Group}
    (h : gs1.map Group.config = gs2.map Group.config) : gs1.length = gs2.length := by
  have := congrArg List.length h
  simpa using this

theorem groups_ahead_of_config {gs1 gs2 : List Group} (t : Int)
    (h : gs1.map Group.config = gs2.map Group.config) :
    groups_ahead gs1 t = groups_ahead gs2 t := by
  unfold groups_ahead
  rw [map_last_of_config h]

theorem groups_ahead_le_length (groups : List Group) (t : Int) :
    groups_ahead groups t ≤ groups.length := by
  unfold groups_ahead
  simpa using List.countP_le_length (l := groups.map Group.last) (fun l => decide (t ≤ l))

theorem countP_last_lt (ls : List Int) (a t : Int) (ha : a ∈ ls) (hta : t ≤ a) :
    ls.countP (fun l => decide (a + 1 ≤ l)) < ls.countP (fun l => decide (t ≤ l)) := by
  induction ls with
  | nil => simp at ha
  | cons b tl ih =>
    have hmono : tl.countP (fun l => decide (a + 1 ≤ l)) ≤ tl.countP (fun l => decide (t ≤ l)) := by
      apply List.countP_mono_left
      intro x _ hx
      simp only [decide_eq_true_eq] at hx ⊢
      omega
    rcases List.mem_cons.mp ha with rfl | hmem
    · have h1 : ¬ (a + 1 ≤ a) := by omega
      simp only [List.countP_cons, h1, hta, decide_True, decide_False, if_true]
      simp only [Bool.false_eq_true, if_false]
      omega
    · have := ih hmem
      simp only [List.countP_cons]
      by_cases hb : a + 1 ≤ b
      · have hb2 : t ≤ b := by omega
        simp only [hb, hb2, decide_True, if_true]
        omega
      · by_cases hb2 : t ≤ b
        · simp only [hb, hb2, decide_True, decide_False, if_true, Bool.false_eq_true, if_false]
          omega
        · simp only [hb, hb2, decide_False, Bool.false_eq_true, if_false]
          omega

theorem groups_ahead_lt {groups : List Group} {i : Nat} {g : Group} {t : Int}
    (hg : groups[i]? = some g) (ht : t ≤ g.last) :
    groups_ahead groups (g.last + 1) < groups_ahead groups t := by
  unfold groups_ahead
  apply countP_last_lt _ _ _ _ ht
  rw [List.mem_map]
  exact ⟨g, List.mem_iff_getElem?.mpr ⟨i, hg⟩, rfl⟩

/-! ## Consequences of validation -/

theorem validated_of_parse_groups {parsed groups : List Group}
    (h : parse_groups parsed = .ok groups) : Validated groups := by
  obtain ⟨hne, hs, h1, h2, h3, h4⟩ := (parse_groups_ok_iff parsed groups).mp h
  have hsorted : groups.Sorted Group.first_le := by
    rw [hs]; exact List.sorted_insertionSort _ _
  have hne2 : groups ≠ [] := by
    intro hnil
    have hp := List.perm_insertionSort Group.first_le parsed
    rw [← hs, hnil] at hp
    exact hne (List.nil_perm.mp hp)
  exact (parse_groups_ok_iff groups groups).mpr
    ⟨hne2, (List.Sorted.insertionSort_eq hsorted).symm, h1, h2, h3, h4⟩

theorem validated_sorted {groups : List Group} (h : Validated groups) :
    groups.Sorted Group.first_le := by
  obtain ⟨_, hs, _⟩ := (parse_groups_ok_iff groups groups).mp h
  rw [hs]; exact List.sorted_insertionSort _ _

theorem validated_chain {groups : List Group} (h : Validated groups) :
    List.Chain' Adjacent groups :=
  (check_adjacent_ok_iff _).mp ((parse_groups_ok_iff groups groups).mp h).2.2.1

theorem validated_resolvable {groups : List Group} (h : Validated groups) :
    Resolvable groups := by
  have hreq := (check_requires_ok_iff groups).mp ((parse_groups_ok_iff groups groups).mp h).2.2.2.1
  intro g hg r hr
  obtain ⟨i, hi⟩ := List.mem_iff_getElem?.mp hg
  obtain ⟨h1, hmem, hid⟩ := hreq i g hi r hr
  exact ⟨h1, List.mem_of_mem_take hmem, hid⟩

/-- In a sorted contiguous list every group ends before a later one starts. -/
theorem separated_of_sorted_chain (groups : List Group) (hs : groups.Sorted Group.first_le)
    (hc : List.Chain' Adjacent groups) :
    ∀ (i j : Nat) (gi gj : Group), i < j → groups[i]? = some gi → groups[j]? = some gj →
      gi.last < gj.first := by
  induction groups with
  | nil => intro i j gi gj _ hi; simp at hi
  | cons a tl ih =>
    intro i j gi gj hij hi hj
    cases j with
    | zero => omega
    | succ j =>
      have hj1 : tl[j]? = some gj := by simpa using hj
      cases i with
      | zero =>
        simp only [List.getElem?_cons_zero, Option.some.injEq] at hi
        subst hi
        cases tl with
        | nil => simp at hj1
        | cons b tl1 =>
          have hab : Adjacent a b := (List.chain'_cons.mp hc).1
          have hbj : b.first ≤ gj.first := by
            cases j with
            | zero =>
              simp only [List.getElem?_cons_zero, Option.some.injEq] at hj1
              subst hj1
              exact le_refl _
            | succ j =>
              have hmem : gj ∈ tl1 := List.getElem?_mem (by simpa using hj1)
              exact List.rel_of_sorted_cons (List.Sorted.of_cons hs) gj hmem
          unfold Adjacent at hab
          omega
      | succ i =>
        have hi1 : tl[i]? = some gi := by simpa using hi
        exact ih (List.Sorted.of_cons hs) (List.Chain'.tail hc) i j gi gj (by omega) hi1 hj1

theorem validated_separated {groups : List Group} (h : Validated groups) :
    ∀ (i j : Nat) (gi gj : Group), i < j → groups[i]? = some gi → groups[j]? = some gj →
      gi.last < gj.first :=
  separated_of_sorted_chain groups (validated_sorted h) (validated_chain h)

/-- In a validated configuration the owner of a test is the group whose range
contains it. -/
theorem validated_owner {groups : List Group} (h : Validated groups) {i : Nat} {g : Group}
    {t : Int} (hg : groups[i]? = some g) (h1 : g.first ≤ t) (h2 : t ≤ g.last) :
    find_group_num groups t = some (i, g) := by
  apply find_group_num_of_owner hg h1 h2
  intro j hj hlt hjh
  have := validated_separated h j i hj g hlt hjh hg
  omega

/-! ## Lemmas on the resolver -/

theorem requires_body_config (locale_id : Int) (g gg : Group) :
    (requires_body locale_id g gg).config = g.config := by
  unfold requires_body
  split
  · rfl
  · split <;> rfl

theorem requires_body_fields (locale_id : Int) (g gg : Group) :
    (requires_body locale_id g gg).passed_count = g.passed_count ∧
    (requires_body locale_id g gg).passed_set = g.passed_set ∧
    (requires_body locale_id g gg).total_score = g.total_score := by
  unfold requires_body
  split
  · exact ⟨rfl, rfl, rfl⟩
  · split <;> exact ⟨rfl, rfl, rfl⟩

theorem find_group_id_some {groups : List Group} {id : String} {g : Group}
    (h : find_group_id groups id = some g) : g ∈ groups ∧ g.group_id = id := by
  unfold find_group_id at h
  have h1 := List.find?_some h
  have h2 := List.mem_of_find?_eq_some h
  exact ⟨h2, by simpa using h1⟩

theorem find_group_id_isSome {groups : List Group} {id : String}
    (h : ∃ g ∈ groups, g.group_id = id) : ∃ g, find_group_id groups id = some g := by
  unfold find_group_id
  cases hf : groups.find? (fun g => g.group_id == id) with
  | some g => exact ⟨g, rfl⟩
  | none =>
    obtain ⟨g, hg, hid⟩ := h
    have := List.find?_eq_none.mp hf g hg
    simp [hid] at this

theorem meet_requirements_loop_ok (groups : List Group) (rs : List String)
    (h : ∀ r ∈ rs, ∃ g ∈ groups, g.group_id = r) :
    ∃ res, meet_requirements_loop groups rs = .ok res := by
  induction rs with
  | nil => exact ⟨none, rfl⟩
  | cons r rs ih =>
    obtain ⟨gg, hgg⟩ := find_group_id_isSome (h r (List.mem_cons_self r rs))
    unfold meet_requirements_loop
    simp only [hgg]
    split
    · exact ⟨some gg, rfl⟩
    · exact ih (fun r1 hr1 => h r1 (List.mem_cons_of_mem r hr1))

/-- What the result `false` of `meet_requirements` means: `gg` is a required
group that has not passed. -/
theorem meet_requirements_loop_some {groups : List Group} {rs : List String} {gg : Group}
    (h : meet_requirements_loop groups rs = .ok (some gg)) :
    gg ∈ groups ∧ gg.group_id ∈ rs ∧ gg.is_passed = false := by
  induction rs with
  | nil => simp [meet_requirements_loop] at h
  | cons r rs ih =>
    unfold meet_requirements_loop at h
    cases hf : find_group_id groups r with
    | none => rw [hf] at h; simp at h
    | some g1 =>
      rw [hf] at h
      simp only at h
      have hg1 := find_group_id_some hf
      split at h
      · rename_i hp
        simp only [Except.ok.injEq, Option.some.injEq] at h
        subst h
        refine ⟨hg1.1, by simp [hg1.2], by simpa using hp⟩
      · obtain ⟨a, b, c⟩ := ih h
        exact ⟨a, List.mem_cons_of_mem r b, c⟩

/-- What the result `true` of `meet_requirements` means: every required group
is found and has passed. -/
theorem meet_requirements_loop_none {groups : List Group} {rs : List String}
    (h : meet_requirements_loop groups rs = .ok none) :
    ∀ r ∈ rs, ∃ gg, find_group_id groups r = some gg ∧ gg.is_passed = true := by
  induction rs with
  | nil => simp
  | cons r rs ih =>
    unfold meet_requirements_loop at h
    cases hf : find_group_id groups r with
    | none => rw [hf] at h; simp at h
    | some g1 =>
      rw [hf] at h
      simp only at h
      split at h
      · simp at h
      · rename_i hp
        intro r1 hr1
        rcases List.mem_cons.mp hr1 with rfl | hr1
        · exact ⟨g1, hf, by simpa using hp⟩
        · exact ih h r1 hr1

theorem resolvable_of_config {gs1 : List Group} (gs2 : List Group)
    (h : gs1.map Group.config = gs2.map Group.config) (hr : Resolvable gs2) :
    Resolvable gs1 := by
  intro g hg r hr1
  have hgc : g.config ∈ gs2.map Group.config := by
    rw [← h]; exact List.mem_map_of_mem _ hg
  obtain ⟨g2, hg2, hc2⟩ := List.mem_map.mp hgc
  have hreq : g2.config.requires = g.config.requires := congrArg (fun x : Group => x.requires) hc2
  obtain ⟨h2, hh2, hid⟩ := hr g2 hg2 r (by
    show r ∈ g2.config.requires
    rw [hreq]; exact hr1)
  have hhc : h2.config ∈ gs1.map Group.config := by
    rw [h]; exact List.mem_map_of_mem _ hh2
  obtain ⟨h1, hh1, hc1⟩ := List.mem_map.mp hhc
  have hid1 : h1.config.group_id = h2.config.group_id := congrArg (fun x : Group => x.group_id) hc1
  exact ⟨h1, hh1, by rw [← hid]; exact hid1⟩

/-- The owner of a test pointer in a group vector with the ranges of the
parser: the pointer is a test number of the type `int`. -/
theorem owner_range {groups : List Group} {t : Int} {i : Nat} {g : Group}
    (hr : Ranged groups) (hf : find_group_num groups t = some (i, g)) :
    groups[i]? = some g ∧ g.first ≤ t ∧ t ≤ g.last ∧ 0 ≤ g.first ∧ g.last ≤ INT_MAX := by
  obtain ⟨hg, h1, h2⟩ := find_group_num_some hf
  have := hr g (List.getElem?_mem hg)
  exact ⟨hg, h1, h2, this.1, this.2⟩

/-- No group owns a negative test pointer. -/
theorem find_group_num_neg {groups : List Group} {t : Int} (hr : Ranged groups) (ht : t < 0) :
    find_group_num groups t = none := by
  cases hf : find_group_num groups t with
  | none => rfl
  | some p =>
    obtain ⟨i, g⟩ := p
    obtain ⟨_, h1, _, h3, _⟩ := owner_range hr hf
    omega

/-- The pointer behind a group that owns `t`: the next test number, or
`INT_MIN` when the group ends at the largest `int`. -/
theorem moved_past {g : Group} {t : Int} (h0 : 0 ≤ g.first) (h1 : g.first ≤ t)
    (h2 : t ≤ g.last) (h3 : g.last ≤ INT_MAX) :
    Moved t (wrap (g.last + 1)) ∧ g.Left (wrap (g.last + 1)) ∧
    (g.last < INT_MAX → wrap (g.last + 1) = g.last + 1) ∧
    (g.last = INT_MAX → wrap (g.last + 1) = INT_MIN) := by
  have hs := wrap_succ (le_trans h0 (le_trans h1 h2)) h3
  unfold Moved Group.Left
  simp only [INT_MAX, INT_MIN] at hs h3 ⊢
  rcases hs with ⟨ha, hb⟩ | ⟨ha, hb⟩
  · rw [hb]
    exact ⟨Or.inr ⟨by omega, Or.inl (by omega)⟩, Or.inl (by omega), fun _ => rfl,
      fun h => by omega⟩
  · rw [hb]
    exact ⟨Or.inr ⟨by omega, Or.inr rfl⟩, Or.inr (by omega), fun h => by omega, fun _ => rfl⟩

/-- The requirements loop changes comments only, whatever the ranges. -/
theorem parse_with_requirements_config (locale_id : Int) (fuel : Nat) :
    ∀ (groups : List Group) (t : Int) (groups1 : List Group) (t1 : Int),
      parse_with_requirements locale_id fuel groups t = .ok (groups1, t1) →
      groups1.map Group.config = groups.map Group.config ∧
      (∀ (i : Nat) (g : Group), groups[i]? = some g → ∃ g1, groups1[i]? = some g1 ∧
        g1.passed_count = g.passed_count ∧ g1.passed_set = g.passed_set ∧
        g1.total_score = g.total_score) := by
  induction fuel with
  | zero =>
    intro groups t groups1 t1 h
    simp [parse_with_requirements] at h
  | succ fuel ih =>
    intro groups t groups1 t1 h
    unfold parse_with_requirements at h
    cases hf : find_group_num groups t with
    | none =>
      rw [hf] at h
      simp only [Except.ok.injEq, Prod.mk.injEq] at h
      obtain ⟨rfl, rfl⟩ := h
      exact ⟨rfl, fun i g hg => ⟨g, hg, rfl, rfl, rfl⟩⟩
    | some p =>
      obtain ⟨i0, g0⟩ := p
      rw [hf] at h
      simp only at h
      obtain ⟨hg0, _, _⟩ := find_group_num_some hf
      cases hm : g0.meet_requirements groups with
      | error e => rw [hm] at h; simp at h
      | ok res =>
        rw [hm] at h
        cases res with
        | none =>
          simp only [Except.ok.injEq, Prod.mk.injEq] at h
          obtain ⟨rfl, rfl⟩ := h
          exact ⟨rfl, fun i g hg => ⟨g, hg, rfl, rfl, rfl⟩⟩
        | some gg =>
          simp only at h
          have hcfg : (groups.set i0 (requires_body locale_id g0 gg)).map Group.config
              = groups.map Group.config :=
            map_set_same Group.config hg0 (requires_body_config locale_id g0 gg)
          obtain ⟨hc, hrt⟩ := ih _ _ _ _ h
          refine ⟨hc.trans hcfg, ?_⟩
          intro i g hg
          by_cases hne : i0 = i
          · subst hne
            rw [hg0] at hg
            cases hg
            obtain ⟨g1, hg1, a, b, c⟩ :=
              hrt i0 (requires_body locale_id g0 gg) (getElem?_set_self _ hg0)
            have hb := requires_body_fields locale_id g0 gg
            exact ⟨g1, hg1, a.trans hb.1, b.trans hb.2.1, c.trans hb.2.2⟩
          · apply hrt i g
            rw [getElem?_set_other _ hne]; exact hg

/-- What a successful run of the requirements loop preserves. -/
theorem parse_with_requirements_props (locale_id : Int) (fuel : Nat) :
    ∀ (groups : List Group) (t : Int) (groups1 : List Group) (t1 : Int), Ranged groups →
      parse_with_requirements locale_id fuel groups t = .ok (groups1, t1) →
      groups1.map Group.config = groups.map Group.config ∧ Moved t t1 ∧
      (∀ (i : Nat) (g : Group), groups[i]? = some g → g.Left t → groups1[i]? = some g) ∧
      (∀ (i : Nat) (g : Group), groups[i]? = some g → ∃ g1, groups1[i]? = some g1 ∧
        g1.passed_count = g.passed_count ∧ g1.passed_set = g.passed_set ∧
        g1.total_score = g.total_score) := by
  intro groups t groups1 t1 hrg h
  obtain ⟨hcf, hfl⟩ := parse_with_requirements_config locale_id fuel groups t groups1 t1 h
  refine ⟨hcf, ?_, ?_, hfl⟩
  · induction fuel generalizing groups t with
    | zero => simp [parse_with_requirements] at h
    | succ fuel ih =>
      unfold parse_with_requirements at h
      cases hf : find_group_num groups t with
      | none =>
        rw [hf] at h
        simp only [Except.ok.injEq, Prod.mk.injEq] at h
        obtain ⟨rfl, rfl⟩ := h
        exact moved_refl _
      | some p =>
        obtain ⟨i0, g0⟩ := p
        rw [hf] at h
        simp only at h
        obtain ⟨hg0, h01, h02, h03, h04⟩ := owner_range hrg hf
        cases hm : g0.meet_requirements groups with
        | error e => rw [hm] at h; simp at h
        | ok res =>
          rw [hm] at h
          cases res with
          | none =>
            simp only [Except.ok.injEq, Prod.mk.injEq] at h
            obtain ⟨rfl, rfl⟩ := h
            exact moved_refl _
          | some gg =>
            simp only at h
            have hcfg : (groups.set i0 (requires_body locale_id g0 gg)).map Group.config
                = groups.map Group.config :=
              map_set_same Group.config hg0 (requires_body_config locale_id g0 gg)
            have := ih _ _ (ranged_of_config _ hcfg hrg) h
              (parse_with_requirements_config locale_id fuel _ _ _ _ h).1
              (parse_with_requirements_config locale_id fuel _ _ _ _ h).2
            exact moved_trans (moved_past h03 h01 h02 h04).1 this
  · induction fuel generalizing groups t with
    | zero => simp [parse_with_requirements] at h
    | succ fuel ih =>
      unfold parse_with_requirements at h
      cases hf : find_group_num groups t with
      | none =>
        rw [hf] at h
        simp only [Except.ok.injEq, Prod.mk.injEq] at h
        obtain ⟨rfl, rfl⟩ := h
        exact fun i g hg _ => hg
      | some p =>
        obtain ⟨i0, g0⟩ := p
        rw [hf] at h
        simp only at h
        obtain ⟨hg0, h01, h02, h03, h04⟩ := owner_range hrg hf
        cases hm : g0.meet_requirements groups with
        | error e => rw [hm] at h; simp at h
        | ok res =>
          rw [hm] at h
          cases res with
          | none =>
            simp only [Except.ok.injEq, Prod.mk.injEq] at h
            obtain ⟨rfl, rfl⟩ := h
            exact fun i g hg _ => hg
          | some gg =>
            simp only at h
            have hcfg : (groups.set i0 (requires_body locale_id g0 gg)).map Group.config
                = groups.map Group.config :=
              map_set_same Group.config hg0 (requires_body_config locale_id g0 gg)
            have hfro := ih _ _ (ranged_of_config _ hcfg hrg) h
              (parse_with_requirements_config locale_id fuel _ _ _ _ h).1
              (parse_with_requirements_config locale_id fuel _ _ _ _ h).2
            intro i g hg hlt
            have hne : i0 ≠ i := by
              rintro rfl
              rw [hg0] at hg
              cases hg
              unfold Group.Left at hlt
              omega
            apply hfro i g
            · rw [getElem?_set_other _ hne]; exact hg
            · exact left_of_moved hlt (moved_past h03 h01 h02 h04).1

/-- The requirements loop stops by itself: with more fuel than groups ahead,
and every `requires` entry naming a group, it returns a result.  A pointer
that went past the largest `int` is negative and stops the loop at once. -/
theorem parse_with_requirements_ok (locale_id : Int) (fuel : Nat) :
    ∀ (groups : List Group) (t : Int), Ranged groups → Resolvable groups →
      groups_ahead groups t < fuel ∨ (t < 0 ∧ 0 < fuel) →
      ∃ res, parse_with_requirements locale_id fuel groups t = .ok res := by
  induction fuel with
  | zero =>
    intro groups t _ _ h
    omega
  | succ fuel ih =>
    intro groups t hrg hres hfuel
    unfold parse_with_requirements
    cases hf : find_group_num groups t with
    | none => exact ⟨_, rfl⟩
    | some p =>
      obtain ⟨i0, g0⟩ := p
      simp only
      obtain ⟨hg0, h01, h02, h03, h04⟩ := owner_range hrg hf
      obtain ⟨res, hm⟩ := meet_requirements_loop_ok groups g0.requires
        (hres g0 (List.getElem?_mem hg0))
      unfold Group.meet_requirements
      rw [hm]
      cases res with
      | none => exact ⟨_, rfl⟩
      | some gg =>
        simp only
        have hcfg : (groups.set i0 (requires_body locale_id g0 gg)).map Group.config
            = groups.map Group.config :=
          map_set_same Group.config hg0 (requires_body_config locale_id g0 gg)
        have hlt := groups_ahead_lt hg0 h02
        obtain ⟨_, _, hin, hout⟩ := moved_past h03 h01 h02 h04
        apply ih
        · exact ranged_of_config _ hcfg hrg
        · exact resolvable_of_config _ hcfg hres
        · rw [groups_ahead_of_config _ hcfg]
          rcases lt_or_eq_of_le h04 with h | h
          · rw [hin h]
            left
            omega
          · rw [hout h]
            right
            unfold INT_MIN
            omega

theorem skip_rejudge_groups_moved (rejudge_flag : Bool) (fuel : Nat) :
    ∀ (groups : List Group) (t t1 : Int), Ranged groups →
      skip_rejudge_groups rejudge_flag fuel groups t = .ok t1 → Moved t t1 := by
  induction fuel with
  | zero =>
    intro groups t t1 _ h
    simp [skip_rejudge_groups] at h
  | succ fuel ih =>
    intro groups t t1 hrg h
    unfold skip_rejudge_groups at h
    cases hf : find_group_num groups t with
    | none =>
      rw [hf] at h
      simp only [Except.ok.injEq] at h
      subst h
      exact moved_refl _
    | some p =>
      obtain ⟨i0, g0⟩ := p
      rw [hf] at h
      simp only at h
      obtain ⟨_, h01, h02, h03, h04⟩ := owner_range hrg hf
      split at h
      · exact moved_trans (moved_past h03 h01 h02 h04).1 (ih _ _ _ hrg h)
      · simp only [Except.ok.injEq] at h
        subst h
        exact moved_refl _

/-- The skip loop stops by itself. -/
theorem skip_rejudge_groups_ok (rejudge_flag : Bool) (fuel : Nat) :
    ∀ (groups : List Group) (t : Int), Ranged groups →
      groups_ahead groups t < fuel ∨ (t < 0 ∧ 0 < fuel) →
      ∃ t1, skip_rejudge_groups rejudge_flag fuel groups t = .ok t1 := by
  induction fuel with
  | zero =>
    intro groups t _ h
    omega
  | succ fuel ih =>
    intro groups t hrg hfuel
    unfold skip_rejudge_groups
    cases hf : find_group_num groups t with
    | none => exact ⟨_, rfl⟩
    | some p =>
      obtain ⟨i0, g0⟩ := p
      simp only
      obtain ⟨hg0, h01, h02, h03, h04⟩ := owner_range hrg hf
      split
      · have hlt := groups_ahead_lt hg0 h02
        obtain ⟨_, _, hin, hout⟩ := moved_past h03 h01 h02 h04
        apply ih _ _ hrg
        rcases lt_or_eq_of_le h04 with h | h
        · rw [hin h]
          left
          omega
        · rw [hout h]
          right
          unfold INT_MIN
          omega
      · exact ⟨_, rfl⟩

/-- The group the skip loop stops at is not skipped. -/
theorem skip_rejudge_groups_stop (rejudge_flag : Bool) (fuel : Nat) :
    ∀ (groups : List Group) (t t1 : Int),
      skip_rejudge_groups rejudge_flag fuel groups t = .ok t1 →
      ∀ (i : Nat) (g : Group), find_group_num groups t1 = some (i, g) →
        g.skip = false ∧ (g.skip_if_not_rejudge = false ∨ rejudge_flag = true) := by
  induction fuel with
  | zero =>
    intro groups t t1 h
    simp [skip_rejudge_groups] at h
  | succ fuel ih =>
    intro groups t t1 h i g hfind
    unfold skip_rejudge_groups at h
    cases hf : find_group_num groups t with
    | none =>
      rw [hf] at h
      simp only [Except.ok.injEq] at h
      subst h
      rw [hf] at hfind
      simp at hfind
    | some p =>
      obtain ⟨i0, g0⟩ := p
      rw [hf] at h
      simp only at h
      split at h
      · exact ih _ _ _ h i g hfind
      · rename_i hns
        simp only [Except.ok.injEq] at h
        subst h
        rw [hf] at hfind
        simp only [Option.some.injEq, Prod.mk.injEq] at hfind
        obtain ⟨_, rfl⟩ := hfind
        simp only [Bool.or_eq_true, Bool.and_eq_true, Bool.not_eq_true', not_or, not_and,
          Bool.not_eq_true, Bool.not_eq_false] at hns
        refine ⟨hns.1, ?_⟩
        cases hsk : g0.skip_if_not_rejudge with
        | false => exact Or.inl rfl
        | true => exact Or.inr (hns.2 hsk)

/-- The resolver changes comments only, whatever the ranges. -/
theorem resolve_config {rejudge_flag : Bool} {locale_id : Int} {groups groups1 : List Group}
    {t t1 : Int} (h : resolve rejudge_flag locale_id groups t = .ok (groups1, t1)) :
    groups1.map Group.config = groups.map Group.config ∧
    (∀ (i : Nat) (g : Group), groups[i]? = some g → ∃ g1, groups1[i]? = some g1 ∧
      g1.passed_count = g.passed_count ∧ g1.passed_set = g.passed_set ∧
      g1.total_score = g.total_score) := by
  unfold resolve at h
  cases hp : parse_with_requirements locale_id (groups.length + 1) groups t with
  | error e => rw [hp] at h; simp at h
  | ok res =>
    obtain ⟨gs2, t2⟩ := res
    rw [hp] at h
    simp only at h
    cases hs : skip_rejudge_groups rejudge_flag (gs2.length + 1) gs2 t2 with
    | error e => rw [hs] at h; simp at h
    | ok t3 =>
      rw [hs] at h
      simp only [Except.ok.injEq, Prod.mk.injEq] at h
      obtain ⟨rfl, rfl⟩ := h
      exact parse_with_requirements_config locale_id _ _ _ _ _ hp

/-- What a successful run of the resolver preserves. -/
theorem resolve_props {rejudge_flag : Bool} {locale_id : Int} {groups groups1 : List Group}
    {t t1 : Int} (hrg : Ranged groups)
    (h : resolve rejudge_flag locale_id groups t = .ok (groups1, t1)) :
    groups1.map Group.config = groups.map Group.config ∧ Moved t t1 ∧
    (∀ (i : Nat) (g : Group), groups[i]? = some g → g.Left t → groups1[i]? = some g) ∧
    (∀ (i : Nat) (g : Group), groups[i]? = some g → ∃ g1, groups1[i]? = some g1 ∧
      g1.passed_count = g.passed_count ∧ g1.passed_set = g.passed_set ∧
      g1.total_score = g.total_score) := by
  unfold resolve at h
  cases hp : parse_with_requirements locale_id (groups.length + 1) groups t with
  | error e => rw [hp] at h; simp at h
  | ok res =>
    obtain ⟨gs2, t2⟩ := res
    rw [hp] at h
    simp only at h
    cases hs : skip_rejudge_groups rejudge_flag (gs2.length + 1) gs2 t2 with
    | error e => rw [hs] at h; simp at h
    | ok t3 =>
      rw [hs] at h
      simp only [Except.ok.injEq, Prod.mk.injEq] at h
      obtain ⟨rfl, rfl⟩ := h
      obtain ⟨a, b, c, d⟩ := parse_with_requirements_props locale_id _ _ _ _ _ hrg hp
      have := skip_rejudge_groups_moved rejudge_flag _ _ _ _ (ranged_of_config _ a hrg) hs
      exact ⟨a, moved_trans b this, c, d⟩

/-- The resolver returns a result on every configuration in which the
`requires` entries name groups and the ranges are those of the parser: neither
loop runs out of fuel. -/
theorem resolver_fuel (rejudge_flag : Bool) (locale_id : Int) (groups : List Group) (t : Int)
    (hrg : Ranged groups) (hres : Resolvable groups) :
    ∃ res, resolve rejudge_flag locale_id groups t = .ok res := by
  unfold resolve
  obtain ⟨res, hp⟩ := parse_with_requirements_ok locale_id (groups.length + 1) groups t hrg hres
    (Or.inl (Nat.lt_succ_of_le (groups_ahead_le_length groups t)))
  obtain ⟨gs2, t2⟩ := res
  rw [hp]
  simp only
  have hc := (parse_with_requirements_props locale_id _ _ _ _ _ hrg hp).1
  obtain ⟨t3, hs⟩ := skip_rejudge_groups_ok rejudge_flag (gs2.length + 1) gs2 t2
    (ranged_of_config _ hc hrg) (Or.inl (Nat.lt_succ_of_le (groups_ahead_le_length gs2 t2)))
  rw [hs]
  exact ⟨_, rfl⟩

/-- Without a range that ends at the largest `int` the requirements loop moves
the pointer forward only. -/
theorem parse_with_requirements_le (locale_id : Int) (fuel : Nat) :
    ∀ (groups : List Group) (t : Int) (groups1 : List Group) (t1 : Int), Ranged groups →
      Bounded groups → parse_with_requirements locale_id fuel groups t = .ok (groups1, t1) →
      t ≤ t1 := by
  induction fuel with
  | zero =>
    intro groups t groups1 t1 _ _ h
    simp [parse_with_requirements] at h
  | succ fuel ih =>
    intro groups t groups1 t1 hrg hbd h
    unfold parse_with_requirements at h
    cases hf : find_group_num groups t with
    | none =>
      rw [hf] at h
      simp only [Except.ok.injEq, Prod.mk.injEq] at h
      omega
    | some p =>
      obtain ⟨i0, g0⟩ := p
      rw [hf] at h
      simp only at h
      obtain ⟨hg0, h01, h02, h03, h04⟩ := owner_range hrg hf
      cases hm : g0.meet_requirements groups with
      | error e => rw [hm] at h; simp at h
      | ok res =>
        rw [hm] at h
        cases res with
        | none =>
          simp only [Except.ok.injEq, Prod.mk.injEq] at h
          omega
        | some gg =>
          simp only at h
          have hcfg : (groups.set i0 (requires_body locale_id g0 gg)).map Group.config
              = groups.map Group.config :=
            map_set_same Group.config hg0 (requires_body_config locale_id g0 gg)
          have := ih _ _ _ _ (ranged_of_config _ hcfg hrg) (bounded_of_config _ hcfg hbd) h
          rw [(moved_past h03 h01 h02 h04).2.2.1 (hbd g0 (List.getElem?_mem hg0))] at this
          omega

/-- Without a range that ends at the largest `int` the skip loop moves the
pointer forward only. -/
theorem skip_rejudge_groups_le (rejudge_flag : Bool) (fuel : Nat) :
    ∀ (groups : List Group) (t t1 : Int), Ranged groups → Bounded groups →
      skip_rejudge_groups rejudge_flag fuel groups t = .ok t1 → t ≤ t1 := by
  induction fuel with
  | zero =>
    intro groups t t1 _ _ h
    simp [skip_rejudge_groups] at h
  | succ fuel ih =>
    intro groups t t1 hrg hbd h
    unfold skip_rejudge_groups at h
    cases hf : find_group_num groups t with
    | none =>
      rw [hf] at h
      simp only [Except.ok.injEq] at h
      omega
    | some p =>
      obtain ⟨i0, g0⟩ := p
      rw [hf] at h
      simp only at h
      obtain ⟨hg0, h01, h02, h03, h04⟩ := owner_range hrg hf
      split at h
      · have := ih _ _ _ hrg hbd h
        rw [(moved_past h03 h01 h02 h04).2.2.1 (hbd g0 (List.getElem?_mem hg0))] at this
        omega
      · simp only [Except.ok.injEq] at h
        omega

/-- Without a range that ends at the largest `int` the resolver moves the
pointer forward only. -/
theorem resolve_le {rejudge_flag : Bool} {locale_id : Int} {groups groups1 : List Group}
    {t t1 : Int} (hrg : Ranged groups) (hbd : Bounded groups)
    (h : resolve rejudge_flag locale_id groups t = .ok (groups1, t1)) : t ≤ t1 := by
  unfold resolve at h
  cases hp : parse_with_requirements locale_id (groups.length + 1) groups t with
  | error e => rw [hp] at h; simp at h
  | ok res =>
    obtain ⟨gs2, t2⟩ := res
    rw [hp] at h
    simp only at h
    cases hs : skip_rejudge_groups rejudge_flag (gs2.length + 1) gs2 t2 with
    | error e => rw [hs] at h; simp at h
    | ok t3 =>
      rw [hs] at h
      simp only [Except.ok.injEq, Prod.mk.injEq] at h
      obtain ⟨rfl, rfl⟩ := h
      have hc := (parse_with_requirements_config locale_id _ _ _ _ _ hp).1
      have h1 := parse_with_requirements_le locale_id _ _ _ _ _ hrg hbd hp
      have h2 := skip_rejudge_groups_le rejudge_flag _ _ _ _ (ranged_of_config _ hc hrg)
        (bounded_of_config _ hc hbd) hs
      omega

theorem handle_bytest_score_config (locale_id : Int) (g : Group) (t : Int) :
    (handle_bytest_score locale_id g t).config = g.config := by
  unfold handle_bytest_score
  split
  · split <;> rfl
  · rfl

theorem handle_test_stop_config (locale_id : Int) (g : Group) (t : Int) :
    (handle_test_stop locale_id g t).config = g.config := by
  unfold handle_test_stop
  split <;> rfl

theorem add_total_score_config (g : Group) : g.add_total_score.config = g.config := by
  unfold Group.add_total_score
  split <;> rfl

theorem pass_config (g : Group) (t : Int) :
    (((g.inc_passed_count).add_total_score).add_passed_test t).config = g.config := by
  have h1 : (((g.inc_passed_count).add_total_score).add_passed_test t).config
      = ((g.inc_passed_count).add_total_score).config := rfl
  rw [h1, add_total_score_config]
  rfl

/-- The group and pointer `analyse_test_group` computes before it decides
between `CONTINUE_READING` and `GROUP_READY`. -/
theorem analyse_test_group_eq (locale_id : Int) (g : Group) (t o : Int) :
    ∃ a, analyse_test_group locale_id (some g) t o = .ok a ∧
      a.group.config = g.config ∧
      ((a.test_num ≤ g.last ∧ a.ret = CONTINUE_READING ∧ a.printed = [-1]) ∨
        (g.last < a.test_num ∧ a.ret = GROUP_READY ∧ a.printed = [])) ∧
      (o = RUN_OK → a.group = ((g.inc_passed_count).add_total_score).add_passed_test t ∧
        a.test_num = wrap (t + 1)) ∧
      (o ≠ RUN_OK → 0 ≤ g.test_score →
        a.group = handle_bytest_score locale_id g t ∧ a.test_num = wrap (t + 1)) ∧
      (o ≠ RUN_OK → g.test_score < 0 → g.test_all = true →
        a.group = g ∧ a.test_num = wrap (t + 1)) ∧
      (o ≠ RUN_OK → g.test_score < 0 → g.test_all = false →
        a.group = handle_test_stop locale_id g t ∧ a.test_num = wrap (g.last + 1)) := by
  have hlast : ∀ g1 : Group, g1.config = g.config → g1.last = g.last := fun g1 h =>
    show g1.config.last = g.config.last from congrArg (fun x : Group => x.last) h
  have fin : ∀ (g1 : Group) (t1 : Int), g1.config = g.config →
      ∃ a, (if t1 ≤ g1.last then
          (Except.ok { group := g1, test_num := t1, ret := CONTINUE_READING, printed := [-1] } :
            Except Failure Analysed)
        else .ok { group := g1, test_num := t1, ret := GROUP_READY, printed := [] }) = .ok a ∧
        a.group = g1 ∧ a.test_num = t1 ∧
        ((a.test_num ≤ g.last ∧ a.ret = CONTINUE_READING ∧ a.printed = [-1]) ∨
          (g.last < a.test_num ∧ a.ret = GROUP_READY ∧ a.printed = [])) := by
    intro g1 t1 hc
    have hl := hlast g1 hc
    by_cases h : t1 ≤ g1.last
    · refine ⟨_, if_pos h, rfl, rfl, Or.inl ⟨?_, rfl, rfl⟩⟩
      show t1 ≤ g.last
      omega
    · refine ⟨_, if_neg h, rfl, rfl, Or.inr ⟨?_, rfl, rfl⟩⟩
      show g.last < t1
      omega
  by_cases h1 : o = RUN_OK
  · obtain ⟨a, ha, hg1, ht1, hcase⟩ := fin _ (wrap (t + 1)) (pass_config g t)
    have hv : analyse_test_group locale_id (some g) t o = .ok a := by
      rw [← ha]
      unfold analyse_test_group
      simp only [h1, if_true]
    exact ⟨a, hv, by rw [hg1]; exact pass_config g t, hcase, fun _ => ⟨hg1, ht1⟩,
      fun h => absurd h1 h, fun h => absurd h1 h, fun h => absurd h1 h⟩
  · by_cases h2 : g.test_score ≥ 0
    · obtain ⟨a, ha, hg1, ht1, hcase⟩ := fin _ (wrap (t + 1)) (handle_bytest_score_config locale_id g t)
      have hv : analyse_test_group locale_id (some g) t o = .ok a := by
        rw [← ha]
        unfold analyse_test_group
        simp only [h1, h2, if_true, if_false]
      exact ⟨a, hv, by rw [hg1]; exact handle_bytest_score_config locale_id g t, hcase,
        fun h => absurd h h1, fun _ _ => ⟨hg1, ht1⟩,
        fun _ h => absurd h2 (not_le.mpr h), fun _ h => absurd h2 (not_le.mpr h)⟩
    · cases h3 : g.test_all with
      | true =>
        obtain ⟨a, ha, hg1, ht1, hcase⟩ := fin g (wrap (t + 1)) rfl
        have hv : analyse_test_group locale_id (some g) t o = .ok a := by
          rw [← ha]
          unfold analyse_test_group
          simp only [h1, h2, h3, if_true, if_false]
        exact ⟨a, hv, by rw [hg1], hcase, fun h => absurd h h1,
          fun _ h => absurd h h2, fun _ _ _ => ⟨hg1, ht1⟩, fun _ _ h => by simp at h⟩
      | false =>
        obtain ⟨a, ha, hg1, ht1, hcase⟩ :=
          fin _ (wrap (g.last + 1)) (handle_test_stop_config locale_id g t)
        have hv : analyse_test_group locale_id (some g) t o = .ok a := by
          rw [← ha]
          unfold analyse_test_group
          simp only [h1, h2, h3, if_true, if_false, Bool.false_eq_true]
        exact ⟨a, hv, by rw [hg1]; exact handle_test_stop_config locale_id g t, hcase,
          fun h => absurd h h1, fun _ h => absurd h h2, fun _ _ h => by simp at h,
          fun _ _ _ => ⟨hg1, ht1⟩⟩

/-- The pointer `analyse_test_group` computes for a test of the group: the
next test number or the one behind the group, or `INT_MIN` when that number
is past the largest `int`. -/
theorem analyse_moved {locale_id : Int} {g : Group} {t o : Int} {a : Analysed}
    (ha : analyse_test_group locale_id (some g) t o = .ok a) (h0 : 0 ≤ g.first)
    (h1 : g.first ≤ t) (h2 : t ≤ g.last) (h3 : g.last ≤ INT_MAX) :
    0 ≤ t ∧ (t < a.test_num ∨ a.test_num = INT_MIN) ∧
    (t < g.last → a.test_num = t + 1 ∨ a.test_num = wrap (g.last + 1)) ∧
    (a.test_num ≤ g.last → a.test_num = t + 1 ∨ a.test_num = INT_MIN) := by
  obtain ⟨a1, ha1, _, _, hok, hby, hall, hstop⟩ := analyse_test_group_eq locale_id g t o
  rw [ha] at ha1
  cases Except.ok.inj ha1
  have hcases : a.test_num = wrap (t + 1) ∨ a.test_num = wrap (g.last + 1) := by
    by_cases h1 : o = RUN_OK
    · exact Or.inl (hok h1).2
    · by_cases h2 : 0 ≤ g.test_score
      · exact Or.inl (hby h1 h2).2
      · cases h3 : g.test_all with
        | true => exact Or.inl (hall h1 (not_le.mp h2) h3).2
        | false => exact Or.inr (hstop h1 (not_le.mp h2) h3).2
  have hl := wrap_succ (le_trans h0 (le_trans h1 h2)) h3
  have ht := wrap_succ (le_trans h0 h1) (le_trans h2 h3)
  simp only [INT_MAX, INT_MIN] at hl ht h3 ⊢
  refine ⟨by omega, by omega, fun hlt => ?_, fun hle => by omega⟩
  rcases hcases with h | h
  · left; omega
  · right; exact h

/-- One step of `scan_tests` when the pointer is owned by group `i`. -/
theorem scan_step_owner (rejudge_flag : Bool) (locale_id : Int) (s : State) {i : Nat}
    {g : Group} (o : Int) (hown : find_group_num s.groups s.test_num = some (i, g))
    (hrg : Ranged s.groups) (hres : Resolvable s.groups) :
    ∃ a s1, analyse_test_group locale_id (some g) s.test_num o = .ok a ∧
      scan_step rejudge_flag locale_id s o = .ok s1 ∧
      s1.groups.map Group.config = s.groups.map Group.config ∧
      (a.test_num ≤ g.last →
        s1 = { groups := s.groups.set i a.group, test_num := a.test_num,
               out := s.out ++ [-1] }) ∧
      (g.last < a.test_num →
        s1.groups[i]? = some a.group ∧ Moved a.test_num s1.test_num ∧
        resolve rejudge_flag locale_id (s.groups.set i a.group) a.test_num
          = .ok (s1.groups, s1.test_num) ∧
        s1.out = s.out ++ [wrap (-s1.test_num)]) := by
  obtain ⟨hg, _, _⟩ := find_group_num_some hown
  obtain ⟨a, ha, hcfg, hcase, _⟩ := analyse_test_group_eq locale_id g s.test_num o
  have hlast : a.group.last = g.last :=
    show a.group.config.last = g.config.last from congrArg (fun x : Group => x.last) hcfg
  have hmap : (s.groups.set i a.group).map Group.config = s.groups.map Group.config :=
    map_set_same Group.config hg hcfg
  have hrg1 : Ranged (s.groups.set i a.group) := ranged_of_config _ hmap hrg
  unfold scan_step
  simp only [hown, Option.map_some', ha]
  rcases hcase with ⟨hle, hret, hpr⟩ | ⟨hgt, hret, hpr⟩
  · simp only [hret, if_true, hpr]
    refine ⟨a, _, rfl, rfl, hmap, fun _ => rfl, fun h => ?_⟩
    omega
  · have hne : ¬ (a.ret = CONTINUE_READING) := by rw [hret]; decide
    simp only [hne, if_false, hpr]
    obtain ⟨res, hr⟩ := resolver_fuel rejudge_flag locale_id (s.groups.set i a.group) a.test_num
      hrg1 (resolvable_of_config _ hmap hres)
    obtain ⟨gs2, t2⟩ := res
    obtain ⟨hc2, hle2, hfro, _⟩ := resolve_props hrg1 hr
    rw [hr]
    simp only
    refine ⟨a, _, rfl, rfl, hc2.trans hmap, fun h => ?_, fun _ => ⟨?_, hle2, hr, ?_⟩⟩
    · omega
    · exact hfro i a.group (getElem?_set_self _ hg) (Or.inl (by omega))
    · simp

/-! ## Lemmas on runs inside one group -/

theorem set_same {groups : List Group} {i : Nat} {g : Group} (hg : groups[i]? = some g) :
    groups.set i g = groups := by
  induction groups generalizing i with
  | nil => simp
  | cons a tl ih =>
    cases i with
    | zero =>
      simp only [List.getElem?_cons_zero, Option.some.injEq] at hg
      subst hg
      rfl
    | succ i =>
      have hg1 : tl[i]? = some g := by simpa using hg
      simp [ih hg1]

theorem ok_tests_cons (t : Int) (o : Int) (body : List Int) :
    ok_tests t (o :: body) = ok_tests t [o] ∪ ok_tests (t + 1) body := by
  by_cases h : o = RUN_OK
  · simp [ok_tests, h, Finset.insert_eq]
  · simp [ok_tests, h]

theorem ok_tests_append (body : List Int) : ∀ (t : Int) (more : List Int),
    ok_tests t (body ++ more) = ok_tests t body ∪ ok_tests (t + body.length) more := by
  induction body with
  | nil => intro t more; simp [ok_tests]
  | cons o body ih =>
    intro t more
    rw [List.cons_append, ok_tests_cons, ih, ok_tests_cons t o body, Finset.union_assoc]
    simp only [List.length_cons, Nat.cast_add, Nat.cast_one]
    have : t + 1 + (body.length : Int) = t + ((body.length : Int) + 1) := by ring
    rw [this]

theorem mem_ok_tests (body : List Int) : ∀ (t x : Int), x ∈ ok_tests t body →
    t ≤ x ∧ x < t + body.length := by
  induction body with
  | nil => intro t x h; simp [ok_tests] at h
  | cons o body ih =>
    intro t x h
    rw [ok_tests_cons, Finset.mem_union] at h
    simp only [List.length_cons, Nat.cast_add, Nat.cast_one]
    rcases h with h | h
    · unfold ok_tests at h
      split at h
      · simp [ok_tests] at h
        omega
      · simp [ok_tests] at h
    · have := ih (t + 1) x h
      omega

theorem add_total_score_fields (g : Group) :
    g.add_total_score.test_score = g.test_score ∧
    g.add_total_score.total_score =
      (if 0 < g.test_score then wrap (g.total_score + g.test_score) else g.total_score) := by
  unfold Group.add_total_score
  by_cases h : g.test_score > 0
  · rw [if_pos h, if_pos h]
    exact ⟨rfl, rfl⟩
  · rw [if_neg h, if_neg h]
    exact ⟨rfl, rfl⟩

/-- The value `total_score` has after `n` calls of `add_total_score` depends
on `test_score` and `total_score` only. -/
theorem iterate_total_congr (n : Nat) : ∀ (g h : Group), g.test_score = h.test_score →
    g.total_score = h.total_score →
    (Group.add_total_score^[n] g).total_score = (Group.add_total_score^[n] h).total_score := by
  induction n with
  | zero => intro g h _ h2; exact h2
  | succ n ih =>
    intro g h h1 h2
    rw [Function.iterate_succ_apply, Function.iterate_succ_apply]
    apply ih
    · rw [(add_total_score_fields g).1, (add_total_score_fields h).1, h1]
    · rw [(add_total_score_fields g).2, (add_total_score_fields h).2, h1, h2]

/-- The value of `total_score` after `n` calls of `add_total_score`. -/
theorem iterate_total (n : Nat) : ∀ (g : Group),
    (Group.add_total_score^[n] g).test_score = g.test_score ∧
    (Group.add_total_score^[n] g).total_score =
      (if 0 < g.test_score ∧ 0 < n then wrap (g.total_score + g.test_score * n)
       else g.total_score) := by
  induction n with
  | zero =>
    intro g
    simp
  | succ n ih =>
    intro g
    rw [Function.iterate_succ_apply]
    obtain ⟨h1, h2⟩ := ih g.add_total_score
    obtain ⟨f1, f2⟩ := add_total_score_fields g
    refine ⟨h1.trans f1, ?_⟩
    rw [h2, f1, f2]
    by_cases hp : 0 < g.test_score
    · by_cases hn : 0 < n
      · simp only [hp, hn, Nat.succ_pos, and_self, if_true, wrap_add_wrap]
        congr 1
        push_cast
        ring
      · have : n = 0 := by omega
        subst this
        simp [hp]
    · simp [hp]

/-- The additions of `test_score` that stay inside the type `int` give the
exact sum. -/
theorem iterate_total_exact (n : Nat) (g : Group) (h0 : INT_MIN ≤ g.total_score)
    (h1 : g.total_score + (if 0 < g.test_score then g.test_score else 0) * n ≤ INT_MAX) :
    (Group.add_total_score^[n] g).total_score =
      g.total_score + (if 0 < g.test_score then g.test_score else 0) * n := by
  rw [(iterate_total n g).2]
  by_cases hp : 0 < g.test_score
  · rw [if_pos hp] at h1 ⊢
    by_cases hn : 0 < n
    · rw [if_pos ⟨hp, hn⟩]
      apply wrap_of_range _ h1
      have : 0 ≤ g.test_score * n := mul_nonneg (le_of_lt hp) (Int.ofNat_zero_le n)
      omega
    · have : n = 0 := by omega
      subst this
      rw [if_neg (fun h => hn h.2)]
      simp
  · rw [if_neg hp, if_neg (fun h => hp h.1)]
    simp

/-- The effect of one outcome that does not end the group: a test before the
last one, passed or evaluated under `test_score` or `test_all`. -/
theorem analyse_inside (locale_id : Int) (g : Group) (t o : Int) (h0 : 0 ≤ t)
    (ht : t < g.last) (hl : g.last ≤ INT_MAX)
    (hm : o = RUN_OK ∨ 0 ≤ g.test_score ∨ g.test_all = true) :
    ∃ a, analyse_test_group locale_id (some g) t o = .ok a ∧ a.test_num = t + 1 ∧
      a.group.config = g.config ∧ a.group.comment = g.comment ∧
      a.group.passed_set = g.passed_set ∪ ok_tests t [o] ∧
      a.group.passed_count = g.passed_count + [o].count RUN_OK ∧
      a.group.total_score = (Group.add_total_score^[[o].count RUN_OK] g).total_score := by
  obtain ⟨a, ha, hcfg, _, hok, hby, hall, _⟩ := analyse_test_group_eq locale_id g t o
  have hw : wrap (t + 1) = t + 1 := by
    apply wrap_of_range
    · unfold INT_MIN; omega
    · omega
  refine ⟨a, ha, ?_⟩
  by_cases h1 : o = RUN_OK
  · obtain ⟨hg, htn⟩ := hok h1
    refine ⟨htn.trans hw, hcfg, ?_, ?_, ?_, ?_⟩
    · rw [hg]
      unfold Group.add_passed_test Group.add_total_score Group.inc_passed_count
      split <;> rfl
    · rw [hg, h1]
      unfold Group.add_passed_test Group.add_total_score Group.inc_passed_count
      simp only [ok_tests, if_true]
      split <;> simp [Finset.insert_eq, Finset.union_comm]
    · rw [hg, h1]
      unfold Group.add_passed_test Group.add_total_score Group.inc_passed_count
      split <;> simp
    · rw [hg, h1]
      have hc : [RUN_OK].count RUN_OK = 1 := by decide
      rw [hc, Function.iterate_one]
      show ((g.inc_passed_count).add_total_score).total_score = g.add_total_score.total_score
      rw [(add_total_score_fields _).2, (add_total_score_fields g).2]
      rfl
  · have hunch : a.test_num = t + 1 ∧ a.group = g := by
      by_cases h2 : 0 ≤ g.test_score
      · obtain ⟨hg, htn⟩ := hby h1 h2
        refine ⟨htn.trans hw, ?_⟩
        rw [hg]
        unfold handle_bytest_score
        have : ¬ t = g.last := by omega
        simp [this]
      · have h3 : g.test_all = true := by
          rcases hm with h | h | h
          · exact absurd h h1
          · exact absurd h h2
          · exact h
        obtain ⟨hg, htn⟩ := hall h1 (not_le.mp h2) h3
        exact ⟨htn.trans hw, hg⟩
    obtain ⟨htn, hg⟩ := hunch
    have hc : [o].count RUN_OK = 0 := by
      simp [List.count_cons, h1]
    refine ⟨htn, hcfg, by rw [hg], ?_, ?_, ?_⟩
    · rw [hg]; simp [ok_tests, h1]
    · rw [hg, hc]; simp
    · rw [hg, hc]; rfl

/-- A run over tests of group `i` that does not reach the end of the group:
every outcome is passed or evaluated under `test_score` or `test_all`. -/
theorem scan_tests_inside (rejudge_flag : Bool) (locale_id : Int) (i : Nat) :
    ∀ (body : List Int) (s : State) (g : Group),
      s.groups[i]? = some g →
      (∀ (j : Nat) (h : Group), j < i → s.groups[j]? = some h → h.last < s.test_num) →
      g.first ≤ s.test_num → s.test_num + body.length ≤ g.last →
      Ranged s.groups → Resolvable s.groups →
      (∀ o ∈ body, o = RUN_OK ∨ 0 ≤ g.test_score ∨ g.test_all = true) →
      ∃ g1 out1,
        scan_tests rejudge_flag locale_id body s =
          .ok { groups := s.groups.set i g1, test_num := s.test_num + body.length,
                out := out1 } ∧
        g1.config = g.config ∧ g1.comment = g.comment ∧
        g1.passed_set = g.passed_set ∪ ok_tests s.test_num body ∧
        g1.passed_count = g.passed_count + body.count RUN_OK ∧
        g1.total_score = (Group.add_total_score^[body.count RUN_OK] g).total_score := by
  intro body
  induction body with
  | nil =>
    intro s g hg _ _ _ _ _ _
    refine ⟨g, s.out, ?_, rfl, rfl, ?_, ?_, ?_⟩
    · simp [scan_tests, set_same hg]
    · simp [ok_tests]
    · simp
    · simp
  | cons o body ih =>
    intro s g hg hbefore h1 h2 hrg hres hmode
    simp only [List.length_cons, Nat.cast_add, Nat.cast_one] at h2
    have hlt : s.test_num < g.last := by omega
    have hgr := hrg g (List.getElem?_mem hg)
    have hown : find_group_num s.groups s.test_num = some (i, g) :=
      find_group_num_of_owner hg h1 (by omega) hbefore
    obtain ⟨a, ha, htn, hcfg, hcom, hps, hpc, hts⟩ :=
      analyse_inside locale_id g s.test_num o (by omega) hlt hgr.2
        (hmode o (List.mem_cons_self o body))
    obtain ⟨a1, s1, ha1, hs1, hmap, hcont, _⟩ :=
      scan_step_owner rejudge_flag locale_id s o hown hrg hres
    rw [ha] at ha1
    cases Except.ok.inj ha1
    have hs1eq := hcont (by omega)
    have hfirst : a.group.first = g.first :=
      show a.group.config.first = g.config.first from congrArg (fun x : Group => x.first) hcfg
    have hlast : a.group.last = g.last :=
      show a.group.config.last = g.config.last from congrArg (fun x : Group => x.last) hcfg
    have htsc : a.group.test_score = g.test_score :=
      show a.group.config.test_score = g.config.test_score from
        congrArg (fun x : Group => x.test_score) hcfg
    have htall : a.group.test_all = g.test_all :=
      show a.group.config.test_all = g.config.test_all from
        congrArg (fun x : Group => x.test_all) hcfg
    have hg1 : s1.groups[i]? = some a.group := by
      rw [hs1eq]; exact getElem?_set_self _ hg
    obtain ⟨g1, out1, hrun, c1, c2, c3, c4, c5⟩ := ih s1 a.group hg1
      (by
        intro j h hj hjh
        rw [hs1eq] at hjh
        simp only at hjh
        rw [getElem?_set_other _ (by omega)] at hjh
        have := hbefore j h hj hjh
        rw [hs1eq]
        simp only
        omega)
      (by rw [hs1eq, hfirst]; simp only; omega)
      (by rw [hs1eq, hlast]; simp only; omega)
      (ranged_of_config _ hmap hrg)
      (resolvable_of_config _ hmap hres)
      (by
        intro o1 ho1
        rw [htsc, htall]
        exact hmode o1 (List.mem_cons_of_mem o ho1))
    refine ⟨g1, out1, ?_, c1.trans hcfg, c2.trans hcom, ?_, ?_, ?_⟩
    · simp only [scan_tests, hs1]
      rw [hrun, hs1eq]
      simp only [List.set_set, List.length_cons, Nat.cast_add, Nat.cast_one, htn]
      congr 2
      ring
    · have hs1t : s1.test_num = s.test_num + 1 := by rw [hs1eq]; exact htn
      rw [c3, hps, hs1t, ok_tests_cons s.test_num o body, Finset.union_assoc]
    · rw [c4, hpc, List.count_cons]
      simp only [List.count_cons, List.count_nil]
      push_cast
      ring
    · rw [c5]
      have hcount : (o :: body).count RUN_OK = body.count RUN_OK + [o].count RUN_OK := by
        simp [List.count_cons]
      rw [hcount, Function.iterate_add_apply]
      apply iterate_total_congr
      · rw [htsc, (iterate_total _ g).1]
      · exact hts

/-! ## Runs that leave a group -/

theorem scan_tests_append (rejudge_flag : Bool) (locale_id : Int) (body : List Int) :
    ∀ (more : List Int) (s s1 : State),
      scan_tests rejudge_flag locale_id body s = .ok s1 →
      scan_tests rejudge_flag locale_id (body ++ more) s =
        scan_tests rejudge_flag locale_id more s1 := by
  induction body with
  | nil =>
    intro more s s1 h
    simp only [scan_tests, Except.ok.injEq] at h
    subst h
    rfl
  | cons o body ih =>
    intro more s s1 h
    simp only [scan_tests, List.cons_append] at h ⊢
    cases hs : scan_step rejudge_flag locale_id s o with
    | error e => rw [hs] at h; simp at h
    | ok s2 =>
      rw [hs] at h
      simp only at h ⊢
      exact ih more s2 s1 h

theorem scan_tests_single (rejudge_flag : Bool) (locale_id : Int) (o : Int) (s : State) :
    scan_tests rejudge_flag locale_id [o] s = scan_step rejudge_flag locale_id s o := by
  simp only [scan_tests]
  cases scan_step rejudge_flag locale_id s o <;> rfl

/-- A step moves the pointer forward, or past the largest `int` to `INT_MIN`,
and leaves alone every group the pointer has left. -/
theorem scan_step_frozen {rejudge_flag : Bool} {locale_id : Int} {s s1 : State} {o : Int}
    (hrg : Ranged s.groups) (h : scan_step rejudge_flag locale_id s o = .ok s1) :
    0 ≤ s.test_num ∧ (s.test_num < s1.test_num ∨ s1.test_num = INT_MIN) ∧
    s1.groups.map Group.config = s.groups.map Group.config ∧
    ∀ (i : Nat) (g : Group), s.groups[i]? = some g → g.Left s.test_num →
      s1.groups[i]? = some g ∧ g.Left s1.test_num := by
  unfold scan_step at h
  simp only at h
  cases hf : find_group_num s.groups s.test_num with
  | none =>
    rw [hf] at h
    simp [analyse_test_group] at h
  | some p =>
    obtain ⟨j, gj⟩ := p
    rw [hf] at h
    simp only [Option.map_some'] at h
    obtain ⟨hgj, hj1, hj2, hj3, hj4⟩ := owner_range hrg hf
    cases ha : analyse_test_group locale_id (some gj) s.test_num o with
    | error e => rw [ha] at h; simp at h
    | ok a =>
      rw [ha] at h
      simp only at h
      obtain ⟨h0, hgt, _, _⟩ := analyse_moved ha hj3 hj1 hj2 hj4
      obtain ⟨a1, ha1, hcfg, _⟩ := analyse_test_group_eq locale_id gj s.test_num o
      rw [ha] at ha1
      cases Except.ok.inj ha1
      have hmap : (s.groups.set j a.group).map Group.config = s.groups.map Group.config :=
        map_set_same Group.config hgj hcfg
      have hset : ∀ (i : Nat) (g : Group), s.groups[i]? = some g → g.Left s.test_num →
          (s.groups.set j a.group)[i]? = some g ∧ g.Left a.test_num := by
        intro i g hg hlt
        unfold Group.Left at hlt ⊢
        have hne : j ≠ i := by
          rintro rfl
          rw [hgj] at hg
          cases hg
          omega
        rw [getElem?_set_other _ hne]
        refine ⟨hg, ?_⟩
        unfold INT_MIN at hgt
        omega
      split at h
      · simp only [Except.ok.injEq] at h
        subst h
        exact ⟨h0, hgt, hmap, hset⟩
      · cases hr : resolve rejudge_flag locale_id (s.groups.set j a.group) a.test_num with
        | error e => rw [hr] at h; simp at h
        | ok res =>
          obtain ⟨gs2, t2⟩ := res
          rw [hr] at h
          simp only [Except.ok.injEq] at h
          subst h
          obtain ⟨hc2, hmv, hfro, _⟩ := resolve_props (ranged_of_config _ hmap hrg) hr
          refine ⟨h0, ?_, hc2.trans hmap, ?_⟩
          · simp only
            unfold Moved at hmv
            unfold INT_MIN at hgt hmv ⊢
            omega
          · intro i g hg hlt
            obtain ⟨x, y⟩ := hset i g hg hlt
            exact ⟨hfro i g x y, left_of_moved y hmv⟩

/-- Once the pointer has left a group, no later outcome changes that group. -/
theorem scan_tests_frozen (rejudge_flag : Bool) (locale_id : Int) (more : List Int) :
    ∀ (s s1 : State), Ranged s.groups →
      scan_tests rejudge_flag locale_id more s = .ok s1 →
      Moved s.test_num s1.test_num ∧
      ∀ (i : Nat) (g : Group), s.groups[i]? = some g → g.Left s.test_num →
        s1.groups[i]? = some g ∧ g.Left s1.test_num := by
  induction more with
  | nil =>
    intro s s1 _ h
    simp only [scan_tests, Except.ok.injEq] at h
    subst h
    exact ⟨moved_refl _, fun i g hg hl => ⟨hg, hl⟩⟩
  | cons o more ih =>
    intro s s1 hrg h
    simp only [scan_tests] at h
    cases hs : scan_step rejudge_flag locale_id s o with
    | error e => rw [hs] at h; simp at h
    | ok s2 =>
      rw [hs] at h
      simp only at h
      obtain ⟨h0, hlt, hcfg, hfro⟩ := scan_step_frozen hrg hs
      obtain ⟨hle, hfro2⟩ := ih s2 s1 (ranged_of_config _ hcfg hrg) h
      refine ⟨moved_trans (Or.inr ⟨h0, hlt⟩) hle, ?_⟩
      intro i g hg hgl
      obtain ⟨x, y⟩ := hfro i g hg hgl
      exact hfro2 i g x y

/-- What a successful step did: it found the owner of the pointer, analysed the
outcome, and either continued inside the group or ran the resolver. -/
theorem scan_step_inv {rejudge_flag : Bool} {locale_id : Int} {s s1 : State} {o : Int}
    (h : scan_step rejudge_flag locale_id s o = .ok s1) :
    ∃ (i : Nat) (g : Group) (a : Analysed),
      find_group_num s.groups s.test_num = some (i, g) ∧
      analyse_test_group locale_id (some g) s.test_num o = .ok a ∧
      ((a.test_num ≤ g.last ∧
          s1 = { groups := s.groups.set i a.group, test_num := a.test_num,
                 out := s.out ++ [-1] }) ∨
        (g.last < a.test_num ∧
          resolve rejudge_flag locale_id (s.groups.set i a.group) a.test_num
            = .ok (s1.groups, s1.test_num) ∧
          s1.out = s.out ++ [wrap (-s1.test_num)])) := by
  unfold scan_step at h
  simp only at h
  cases hf : find_group_num s.groups s.test_num with
  | none =>
    rw [hf] at h
    simp [analyse_test_group] at h
  | some p =>
    obtain ⟨j, gj⟩ := p
    rw [hf] at h
    simp only [Option.map_some'] at h
    obtain ⟨a, ha, _, hcase, _⟩ := analyse_test_group_eq locale_id gj s.test_num o
    rw [ha] at h
    simp only at h
    refine ⟨j, gj, a, rfl, ha, ?_⟩
    rcases hcase with ⟨hle, hret, hpr⟩ | ⟨hgt, hret, hpr⟩
    · simp only [hret, if_true, hpr, Except.ok.injEq] at h
      exact Or.inl ⟨hle, h.symm⟩
    · have hne : ¬ (a.ret = CONTINUE_READING) := by rw [hret]; decide
      simp only [hne, if_false, hpr] at h
      cases hr : resolve rejudge_flag locale_id (s.groups.set j a.group) a.test_num with
      | error e => rw [hr] at h; simp at h
      | ok res =>
        obtain ⟨gs2, t2⟩ := res
        rw [hr] at h
        simp only [Except.ok.injEq] at h
        subst h
        exact Or.inr ⟨hgt, rfl, by simp⟩

/-- A step that takes the pointer behind the group that owns it: the group is
left for good, with the value `analyse_test_group` gave it. -/
theorem scan_step_leaves {rejudge_flag : Bool} {locale_id : Int} {s s1 : State} {i : Nat}
    {g : Group} {a : Analysed} {o : Int} (hrg : Ranged s.groups)
    (hown : find_group_num s.groups s.test_num = some (i, g))
    (ha : analyse_test_group locale_id (some g) s.test_num o = .ok a)
    (hs : scan_step rejudge_flag locale_id s o = .ok s1)
    (hlast : a.test_num = wrap (g.last + 1)) :
    s1.groups[i]? = some a.group ∧ a.group.Left s1.test_num ∧
    (g.last < INT_MAX → a.test_num = g.last + 1 ∧ Moved (g.last + 1) s1.test_num) ∧
    (g.last = INT_MAX → s1.test_num = INT_MIN) ∧
    ∀ (more : List Int) (s2 : State),
      scan_tests rejudge_flag locale_id more s1 = .ok s2 → s2.groups[i]? = some a.group := by
  obtain ⟨hg, h1, h2, h3, h4⟩ := owner_range hrg hown
  obtain ⟨hmv, hleft, hin, hout⟩ := moved_past h3 h1 h2 h4
  obtain ⟨j, gj, a1, hf, ha1, hcase⟩ := scan_step_inv hs
  rw [hown] at hf
  cases Option.some.inj hf
  rw [ha] at ha1
  cases Except.ok.inj ha1
  obtain ⟨a2, ha2, hcfg, _⟩ := analyse_test_group_eq locale_id g s.test_num o
  rw [ha] at ha2
  cases Except.ok.inj ha2
  have hal : a.group.last = g.last :=
    show a.group.config.last = g.config.last from congrArg (fun x : Group => x.last) hcfg
  have hmap : (s.groups.set i a.group).map Group.config = s.groups.map Group.config :=
    map_set_same Group.config hg hcfg
  have hrg1 : Ranged (s.groups.set i a.group) := ranged_of_config _ hmap hrg
  have key : s1.groups[i]? = some a.group ∧ Moved a.test_num s1.test_num ∧
      s1.groups.map Group.config = s.groups.map Group.config := by
    rcases hcase with ⟨_, hs1⟩ | ⟨hgt, hr, _⟩
    · rw [hs1]
      exact ⟨getElem?_set_self _ hg, moved_refl _, hmap⟩
    · obtain ⟨hc2, hm2, hfro, _⟩ := resolve_props hrg1 hr
      exact ⟨hfro i a.group (getElem?_set_self _ hg) (Or.inl (by omega)), hm2,
        hc2.trans hmap⟩
  obtain ⟨hgrp, hm, hc1⟩ := key
  have hl : a.group.Left s1.test_num := by
    have : a.group.Left a.test_num := by
      unfold Group.Left at hleft ⊢
      rw [hal, hlast]
      exact hleft
    exact left_of_moved this hm
  refine ⟨hgrp, hl, fun hlt => ?_, fun heq => ?_, fun more s2 h2 => ?_⟩
  · rw [hlast, hin hlt] at hm ⊢
    exact ⟨rfl, hm⟩
  · rw [hlast, hout heq] at hm
    unfold Moved INT_MIN at hm
    unfold INT_MIN
    omega
  · exact ((scan_tests_frozen rejudge_flag locale_id more s1 s2
      (ranged_of_config _ hc1 hrg) h2).2 i a.group hgrp hl).1

/-- Without a range that ends at the largest `int` a step moves the pointer
forward. -/
theorem scan_step_lt {rejudge_flag : Bool} {locale_id : Int} {s s1 : State} {o : Int}
    (hrg : Ranged s.groups) (hbd : Bounded s.groups)
    (h : scan_step rejudge_flag locale_id s o = .ok s1) : s.test_num < s1.test_num := by
  obtain ⟨i, g, a, hf, ha, hcase⟩ := scan_step_inv h
  obtain ⟨hg, h1, h2, h3, h4⟩ := owner_range hrg hf
  obtain ⟨_, hlt, _, _⟩ := analyse_moved ha h3 h1 h2 h4
  obtain ⟨a1, ha1, hcfg, _, hok, hby, hall, hstop⟩ :=
    analyse_test_group_eq locale_id g s.test_num o
  rw [ha] at ha1
  cases Except.ok.inj ha1
  have hb := hbd g (List.getElem?_mem hg)
  have hlt2 : s.test_num < a.test_num := by
    have hcases : a.test_num = wrap (s.test_num + 1) ∨ a.test_num = wrap (g.last + 1) := by
      by_cases h1 : o = RUN_OK
      · exact Or.inl (hok h1).2
      · by_cases h2 : 0 ≤ g.test_score
        · exact Or.inl (hby h1 h2).2
        · cases h3 : g.test_all with
          | true => exact Or.inl (hall h1 (not_le.mp h2) h3).2
          | false => exact Or.inr (hstop h1 (not_le.mp h2) h3).2
    have e1 : wrap (s.test_num + 1) = s.test_num + 1 := by
      apply wrap_of_range
      · unfold INT_MIN; omega
      · omega
    have e2 : wrap (g.last + 1) = g.last + 1 := by
      apply wrap_of_range
      · unfold INT_MIN; omega
      · omega
    rw [e1, e2] at hcases
    omega
  have hmap : (s.groups.set i a.group).map Group.config = s.groups.map Group.config :=
    map_set_same Group.config hg hcfg
  rcases hcase with ⟨_, hs1⟩ | ⟨_, hr, _⟩
  · rw [hs1]
    exact hlt2
  · have := resolve_le (ranged_of_config _ hmap hrg) (bounded_of_config _ hmap hbd) hr
    omega

/-- Without a range that ends at the largest `int` a run moves the pointer
forward only. -/
theorem scan_tests_le (rejudge_flag : Bool) (locale_id : Int) (more : List Int) :
    ∀ (s s1 : State), Ranged s.groups → Bounded s.groups →
      scan_tests rejudge_flag locale_id more s = .ok s1 → s.test_num ≤ s1.test_num := by
  induction more with
  | nil =>
    intro s s1 _ _ h
    simp only [scan_tests, Except.ok.injEq] at h
    subst h
    exact le_refl _
  | cons o more ih =>
    intro s s1 hrg hbd h
    simp only [scan_tests] at h
    cases hs : scan_step rejudge_flag locale_id s o with
    | error e => rw [hs] at h; simp at h
    | ok s2 =>
      rw [hs] at h
      simp only at h
      have hc := (scan_step_frozen hrg hs).2.2.1
      have h1 := scan_step_lt hrg hbd hs
      have h2 := ih s2 s1 (ranged_of_config _ hc hrg) (bounded_of_config _ hc hbd) h
      omega

/-! ## Comments are not empty -/

theorem length_append_pos (a b : String) (h : 0 < a.length) : 0 < (a ++ b).length := by
  rw [String.length_append]
  omega

theorem snprintf_length_pos (s : String) (h : 0 < s.length) : 0 < (snprintf s).length := by
  unfold snprintf BUF_SIZE
  have h1 : 0 < s.data.length := h
  show 0 < (s.data.take (1024 - 1)).length
  rw [List.length_take]
  omega

theorem bytest_comment_length_pos (locale_id : Int) (g : Group) :
    0 < (bytest_comment locale_id g).length := by
  unfold bytest_comment
  split
  · apply snprintf_length_pos
    repeat apply length_append_pos
    decide
  · apply snprintf_length_pos
    repeat apply length_append_pos
    decide

theorem bind_ok_inv {α β : Type} {x : Except Failure α} {f : α → Except Failure β} {b : β}
    (h : (x >>= f) = .ok b) : ∃ a, x = .ok a ∧ f a = .ok b := by
  cases x with
  | error e => simp [bind, Except.bind] at h
  | ok a => exact ⟨a, rfl, h⟩

theorem bind_no_fuel {α β : Type} {x : Except Failure α} {f : α → Except Failure β}
    (hx : x ≠ .error .out_of_fuel) (hf : ∀ a, x = .ok a → f a ≠ .error .out_of_fuel) :
    (x >>= f) ≠ .error .out_of_fuel := by
  cases x with
  | error e =>
    intro h
    apply hx
    simpa [bind, Except.bind] using h
  | ok a => exact hf a rfl

namespace ConfigParser

theorem parse_error_if_ok_inv {c : Prop} [Decidable c] {msg : String} {u : Unit}
    (h : parse_error_if c msg = .ok u) : ¬ c := by
  unfold parse_error_if at h
  intro hc
  simp [hc] at h

theorem parse_error_if_no_fuel (c : Prop) [Decidable c] (msg : String) :
    parse_error_if c msg ≠ .error .out_of_fuel := by
  unfold parse_error_if
  split <;> simp

theorem expect_ok_inv {p : ConfigParser} {t : Int} {msg : String} {u : Unit}
    (h : p.expect t msg = .ok u) : p.t_type = t := by
  unfold expect at h
  by_contra hne
  simp [hne] at h

theorem expect_no_fuel (p : ConfigParser) (t : Int) (msg : String) :
    p.expect t msg ≠ .error .out_of_fuel := by
  unfold expect
  split <;> simp

theorem stoi_token_no_fuel (p : ConfigParser) : p.stoi_token ≠ .error .out_of_fuel := by
  unfold stoi_token
  split <;> simp

theorem stoi_token_ok_inv {p : ConfigParser} {v : Int} (h : p.stoi_token = .ok v) :
    stoi p.token = some v := by
  unfold stoi_token at h
  split at h
  · rename_i value hv
    rw [hv]
    simpa using h
  · simp at h

end ConfigParser

/-! ## Lemmas on the lexer -/

theorem Step.refl (p : ConfigParser) : Step p p := ⟨le_refl _, rfl, rfl⟩

theorem Step.trans {p q r : ConfigParser} (h1 : Step p q) (h2 : Step q r) : Step p r :=
  ⟨le_trans h2.1 h1.1, h2.2.1.trans h1.2.1, h2.2.2.trans h1.2.2⟩

theorem Strict.step {p q : ConfigParser} (h : Strict p q) : Step p q :=
  ⟨le_of_lt h.1, h.2.1, h.2.2⟩

theorem Strict.trans_step {p q r : ConfigParser} (h1 : Strict p q) (h2 : Step q r) :
    Strict p r :=
  ⟨lt_of_le_of_lt h2.1 h1.1, h2.2.1.trans h1.2.1, h2.2.2.trans h1.2.2⟩

theorem Step.trans_strict {p q r : ConfigParser} (h1 : Step p q) (h2 : Strict q r) :
    Strict p r :=
  ⟨lt_of_lt_of_le h2.1 h1.1, h2.2.1.trans h1.2.1, h2.2.2.trans h1.2.2⟩

namespace ConfigParser

theorem remaining_lt_fuel (p : ConfigParser) : p.remaining < p.fuel := by
  unfold remaining fuel
  split <;> omega

theorem next_char_fields (p : ConfigParser) :
    p.next_char.groups = p.groups ∧ p.next_char.global = p.global ∧
    p.next_char.token = p.token ∧ p.next_char.t_type = p.t_type ∧
    p.next_char.t_line = p.t_line ∧ p.next_char.t_pos = p.t_pos := by
  unfold next_char
  cases p.in_f with
  | nil => exact ⟨rfl, rfl, rfl, rfl, rfl, rfl⟩
  | cons c rest =>
    simp only
    split
    · exact ⟨rfl, rfl, rfl, rfl, rfl, rfl⟩
    · split
      · exact ⟨rfl, rfl, rfl, rfl, rfl, rfl⟩
      · split <;> exact ⟨rfl, rfl, rfl, rfl, rfl, rfl⟩

theorem next_char_stream (p : ConfigParser) :
    p.next_char.in_c = p.in_f.head? ∧ p.next_char.in_f = p.in_f.tail := by
  unfold next_char
  cases p.in_f with
  | nil => exact ⟨rfl, rfl⟩
  | cons c rest =>
    simp only
    split
    · exact ⟨rfl, rfl⟩
    · split
      · exact ⟨rfl, rfl⟩
      · split <;> exact ⟨rfl, rfl⟩

theorem next_char_step (p : ConfigParser) : Step p p.next_char := by
  obtain ⟨hg, hgl, _⟩ := next_char_fields p
  obtain ⟨hc, hf⟩ := next_char_stream p
  refine ⟨?_, hg, hgl⟩
  unfold remaining
  rw [hc, hf]
  cases p.in_f with
  | nil => simp
  | cons c rest =>
    simp only [List.head?_cons, List.tail_cons, Option.isSome_some, if_true, List.length_cons]
    split <;> omega

theorem next_char_strict (p : ConfigParser) (h : p.in_c.isSome = true) : Strict p p.next_char := by
  obtain ⟨hg, hgl, _⟩ := next_char_fields p
  obtain ⟨hc, hf⟩ := next_char_stream p
  refine ⟨?_, hg, hgl⟩
  unfold remaining
  rw [hc, hf, h]
  cases p.in_f with
  | nil => simp
  | cons c rest =>
    simp only [List.head?_cons, List.tail_cons, Option.isSome_some, if_true, List.length_cons]
    omega

/-- A loop `while (cond(in_c)) next_char();` ends by itself, where the condition
fails. -/
theorem skip_while_spec (cond : Option Char → Bool) (hnone : cond none = false) (n : Nat) :
    ∀ p : ConfigParser, p.remaining < n →
      ∃ q, skip_while cond n p = .ok q ∧ Step p q ∧ cond q.in_c = false ∧
        q.token = p.token ∧ q.t_type = p.t_type ∧
        (cond p.in_c = true → Strict p q) := by
  induction n with
  | zero => intro p h; omega
  | succ n ih =>
    intro p h
    unfold skip_while
    cases hc : cond p.in_c with
    | false =>
      simp only [Bool.false_eq_true, if_false]
      exact ⟨p, rfl, Step.refl p, hc, rfl, rfl, fun h => by cases h⟩
    | true =>
      simp only [if_true]
      have hsome : p.in_c.isSome = true := by
        cases hin : p.in_c with
        | none => rw [hin, hnone] at hc; cases hc
        | some c => rfl
      have hst := next_char_strict p hsome
      obtain ⟨q, hq, hstep, hcq, htok, hty, _⟩ := ih p.next_char (by have := hst.1; omega)
      obtain ⟨_, _, h3, h4, _⟩ := next_char_fields p
      exact ⟨q, hq, (hst.step).trans hstep, hcq, htok.trans h3, hty.trans h4,
        fun _ => hst.trans_step hstep⟩

end ConfigParser

namespace ConfigParser

theorem find_next_char_loop_spec (n : Nat) :
    ∀ p : ConfigParser, p.remaining < n →
      ∃ q, find_next_char_loop n p = .ok q ∧ Step p q ∧
        q.token = p.token ∧ q.t_type = p.t_type := by
  induction n with
  | zero => intro p h; omega
  | succ n ih =>
    intro p h
    unfold find_next_char_loop
    obtain ⟨p1, h1, hs1, _, ht1, hy1, _⟩ :=
      skip_while_spec isspace rfl p.fuel p (remaining_lt_fuel p)
    simp only [h1, bind, Except.bind]
    by_cases hc : p1.in_c ≠ some '#'
    · rw [if_pos hc]
      exact ⟨p1, rfl, hs1, ht1, hy1⟩
    · rw [if_neg hc]
      have hin : p1.in_c = some '#' := not_not.mp hc
      obtain ⟨p2, h2, hs2, _, ht2, hy2, hstrict⟩ :=
        skip_while_spec (fun c => c != none && c != some '\n') rfl p1.fuel p1
          (remaining_lt_fuel p1)
      have hst : Strict p1 p2 := hstrict (by rw [hin]; decide)
      simp only [h2]
      have h3 : Step p2 (if p2.in_c = some '\n' then p2.next_char else p2) ∧
          (if p2.in_c = some '\n' then p2.next_char else p2).token = p2.token ∧
          (if p2.in_c = some '\n' then p2.next_char else p2).t_type = p2.t_type := by
        split
        · obtain ⟨_, _, a, b, _⟩ := next_char_fields p2
          exact ⟨next_char_step p2, a, b⟩
        · exact ⟨Step.refl p2, rfl, rfl⟩
      obtain ⟨q, hq, hsq, htq, hyq⟩ := ih (if p2.in_c = some '\n' then p2.next_char else p2)
        (by
          have a := hs1.1
          have b := hst.1
          have c := h3.1.1
          omega)
      exact ⟨q, hq, hs1.trans ((hst.step).trans (h3.1.trans hsq)),
        htq.trans (h3.2.1.trans (ht2.trans ht1)), hyq.trans (h3.2.2.trans (hy2.trans hy1))⟩

theorem find_next_char_spec (p : ConfigParser) :
    ∃ q, p.find_next_char = .ok q ∧ Step p q ∧ q.token = p.token ∧ q.t_type = p.t_type :=
  find_next_char_loop_spec p.fuel p (remaining_lt_fuel p)

/-- The loop of `handleNamingToken` ends by itself; it appends name characters to
the token. -/
theorem read_name_spec (n : Nat) :
    ∀ p : ConfigParser, p.remaining < n →
      ∃ q, read_name n p = .ok q ∧ Step p q ∧ q.t_type = p.t_type ∧
        q.t_line = p.t_line ∧ q.t_pos = p.t_pos ∧
        (∃ cs : List Char, q.token.data = p.token.data ++ cs ∧
          (∀ c ∈ cs, is_name_char c = true) ∧
          (∀ c, p.in_c = some c → is_name_char c = true → cs ≠ [] ∧ Strict p q)) := by
  induction n with
  | zero => intro p h; omega
  | succ n ih =>
    intro p h
    unfold read_name
    cases hin : p.in_c with
    | none =>
      simp only
      exact ⟨p, rfl, Step.refl p, rfl, rfl, rfl, [], by simp, by simp,
        fun c hc => by cases hc⟩
    | some c =>
      simp only
      by_cases hname : (c.isAlphanum || c == '_') = true
      · simp only [hname, if_true]
        have hsome : ({ p with token := p.token.push c } : ConfigParser).in_c.isSome = true := by
          simp [hin]
        have hst := next_char_strict { p with token := p.token.push c } hsome
        obtain ⟨_, _, a3, a4, a5, a6⟩ := next_char_fields { p with token := p.token.push c }
        obtain ⟨q, hq, hsq, hty, hl, hp, cs, hcs, hall, _⟩ :=
          ih ({ p with token := p.token.push c } : ConfigParser).next_char
            (by
              have := hst.1
              have e : ({ p with token := p.token.push c } : ConfigParser).remaining
                  = p.remaining := rfl
              omega)
        have hstp : Strict p q :=
          ⟨lt_of_le_of_lt hsq.1 hst.1, hsq.2.1.trans hst.2.1, hsq.2.2.trans hst.2.2⟩
        refine ⟨q, hq, hstp.step, hty.trans a4, hl.trans a5, hp.trans a6, c :: cs, ?_, ?_, ?_⟩
        · rw [hcs, a3]
          simp [String.push]
        · intro d hd
          rcases List.mem_cons.mp hd with rfl | hd
          · exact hname
          · exact hall d hd
        · intro d _ _
          exact ⟨by simp, hstp⟩
      · simp only [hname, if_false]
        refine ⟨p, rfl, Step.refl p, rfl, rfl, rfl, [], by simp, by simp, ?_⟩
        intro d hd hdn
        cases hd
        exact absurd hdn hname

theorem handleNamingToken_spec (p : ConfigParser) :
    (∀ c, p.in_c = some c → is_name_char c = true →
      ∃ q, p.handleNamingToken = .ok (some q) ∧ Strict p q ∧ q.t_type = T_IDENT ∧
        q.t_line = p.c_line ∧ q.t_pos = p.c_pos ∧
        q.token.data ≠ [] ∧ ∀ d ∈ q.token.data, is_name_char d = true) ∧
    ((∀ c, p.in_c = some c → is_name_char c = false) → p.handleNamingToken = .ok none) := by
  constructor
  · intro c hin hnc
    have hname : (isalnum p.in_c || p.in_c == some '_') = true := by
      rw [hin]
      simpa [is_name_char, isalnum] using hnc
    obtain ⟨q, hq, _, hty, hl, hp, cs, hcs, hall, hne⟩ :=
      read_name_spec p.fuel
        { p with token := "", t_type := T_IDENT, t_line := p.c_line, t_pos := p.c_pos }
        (remaining_lt_fuel p)
    obtain ⟨hcne, hstrict⟩ := hne c hin hnc
    refine ⟨q, ?_, ⟨hstrict.1, hstrict.2.1, hstrict.2.2⟩, hty, hl, hp, ?_⟩
    · unfold handleNamingToken
      simp only [hname, if_true, bind, Except.bind]
      rw [hq]
      rfl
    · have hd : q.token.data = cs := by simpa using hcs
      rw [hd]
      exact ⟨hcne, hall⟩
  · intro h
    have hname : (isalnum p.in_c || p.in_c == some '_') = false := by
      cases hin : p.in_c with
      | none => rfl
      | some c =>
        have := h c hin
        simpa [is_name_char, isalnum] using this
    unfold handleNamingToken
    simp [hname, pure, Except.pure]

theorem handleSeparatingToken_spec (p : ConfigParser) :
    (∀ q, p.handleSeparatingToken = some q →
      Strict p q ∧ q.token = ";" ∧ q.t_line = p.c_line ∧ q.t_pos = p.c_pos ∧
      q.t_type ∈ [char_code ';', char_code '{', char_code '}', char_code '-',
        char_code ',']) := by
  intro q hq
  unfold handleSeparatingToken at hq
  split at hq
  swap
  · simp at hq
  · rename_i c hin
    split at hq
    · rename_i hsep
      cases Option.some.inj hq
      obtain ⟨_, _, a3, a4, a5, a6⟩ := next_char_fields
        { p with t_line := p.c_line, t_pos := p.c_pos, token := ";", t_type := char_code c }
      have hstr := next_char_strict
        { p with t_line := p.c_line, t_pos := p.c_pos, token := ";", t_type := char_code c }
        (by simp [hin])
      refine ⟨⟨hstr.1, hstr.2.1, hstr.2.2⟩, a3, a5, a6, ?_⟩
      rw [a4]
      simp only [Bool.or_eq_true, beq_iff_eq] at hsep
      rcases hsep with (((rfl | rfl) | rfl) | rfl) | rfl <;> simp
    · simp at hq

/-- What `next_token` delivers: it never runs out of fuel; a token other than the
end of file takes at least one character; the end-of-file token is empty; an
identifier token is a non-empty run of name characters. -/
theorem next_token_spec (p : ConfigParser) :
    p.next_token ≠ .error .out_of_fuel ∧
    ∀ q, p.next_token = .ok q →
      Step p q ∧ (q.t_type ≠ T_EOF → Strict p q) ∧ (q.t_type = T_EOF → q.token = "") ∧
      (q.t_type = T_IDENT → q.token.data ≠ [] ∧ ∀ c ∈ q.token.data, is_name_char c = true) ∧
      (q.t_type = T_EOF ∨ q.t_type = T_IDENT ∨
        (q.token = ";" ∧ q.t_type ∈ [char_code ';', char_code '{', char_code '}',
          char_code '-', char_code ','])) := by
  obtain ⟨p1, h1, hs1, _, _⟩ := find_next_char_spec p
  unfold next_token
  simp only [h1, bind, Except.bind]
  cases hin : p1.in_c with
  | none =>
    have he : p1.handleEOF = some { p1 with t_type := T_EOF, token := "" } := by
      simp [handleEOF, hin]
    simp only [he, pure, Except.pure]
    refine ⟨by simp, ?_⟩
    intro q hq
    cases Except.ok.inj hq
    exact ⟨hs1.trans ⟨le_refl _, rfl, rfl⟩, fun h => absurd rfl h, fun _ => rfl,
      fun h => absurd (show T_EOF = T_IDENT from h) (by decide), Or.inl rfl⟩
  | some c =>
    have he : p1.handleEOF = none := by simp [handleEOF, hin]
    simp only [he]
    obtain ⟨hyes, hno⟩ := handleNamingToken_spec p1
    cases hnc : is_name_char c with
    | true =>
      obtain ⟨q1, hq1, hst, hty, _, _, hne, hall⟩ := hyes c hin hnc
      simp only [hq1, pure, Except.pure]
      refine ⟨by simp, ?_⟩
      intro q hq
      cases Except.ok.inj hq
      exact ⟨hs1.trans hst.step, fun _ => hs1.trans_strict hst,
        fun h => absurd (hty.symm.trans h) (by decide), fun _ => ⟨hne, hall⟩,
        Or.inr (Or.inl hty)⟩
    | false =>
      have hnt := hno (fun d hd => by rw [hin] at hd; cases hd; exact hnc)
      simp only [hnt]
      cases hsep : p1.handleSeparatingToken with
      | none =>
        simp only [throw, throwThe, MonadExceptOf.throw]
        refine ⟨by simp, ?_⟩
        intro q hq
        simp at hq
      | some q1 =>
        obtain ⟨hst, htok, _, _, hcode⟩ := handleSeparatingToken_spec p1 q1 hsep
        simp only [pure, Except.pure]
        refine ⟨by simp, ?_⟩
        intro q hq
        cases Except.ok.inj hq
        have hcases : q1.t_type = 59 ∨ q1.t_type = 123 ∨ q1.t_type = 125 ∨ q1.t_type = 45 ∨
            q1.t_type = 44 := by
          simpa [char_code] using hcode
        refine ⟨hs1.trans hst.step, fun _ => hs1.trans_strict hst, fun h => ?_, fun h => ?_,
          Or.inr (Or.inr ⟨htok, hcode⟩)⟩
        · exfalso
          rw [h] at hcases
          revert hcases
          decide
        · exfalso
          rw [h] at hcases
          revert hcases
          decide

end ConfigParser

/-! ## Parser lemmas -/

theorem digits_value_nonneg_aux (ds : List Char) (hd : ∀ c ∈ ds, c.isDigit = true) :
    ∀ acc : Int, 0 ≤ acc →
      0 ≤ ds.foldl (fun acc d => acc * 10 + ((d.toNat : Int) - 48)) acc := by
  induction ds with
  | nil => intro acc h; simpa using h
  | cons d ds ih =>
    intro acc h
    rw [List.foldl_cons]
    apply ih (fun c hc => hd c (List.mem_cons_of_mem _ hc))
    have h1 := hd d (List.mem_cons_self _ _)
    have h2 : 48 ≤ d.toNat := by
      simp only [Char.isDigit, Bool.and_eq_true, decide_eq_true_eq] at h1
      exact h1.1
    omega

theorem digits_value_nonneg (ds : List Char) (hd : ∀ c ∈ ds, c.isDigit = true) :
    0 ≤ digits_value ds :=
  digits_value_nonneg_aux ds hd 0 (le_refl _)

/-- A token made of letters, digits and underscores has no sign, so the number
`stoi` reads from it is not negative. -/
theorem stoi_nonneg {str : String} {v : Int} (hs : ∀ c ∈ str.data, is_name_char c = true)
    (h : stoi str = some v) : 0 ≤ v := by
  unfold stoi at h
  simp only at h
  have hsub : ∀ c ∈ str.data.dropWhile (fun c => isspace (some c)), is_name_char c = true :=
    fun c hc => hs c ((List.dropWhile_suffix _).subset hc)
  generalize str.data.dropWhile (fun c => isspace (some c)) = s at h hsub
  have hsg : (stoi_sign s).1 = false := by
    unfold stoi_sign
    split
    · exact absurd (hsub '-' (List.mem_cons_self _ _)) (by decide)
    · rfl
    · rfl
  rw [hsg] at h
  simp only [Bool.false_eq_true, if_false] at h
  split at h
  · cases h
  · split at h
    · cases Option.some.inj h
      exact digits_value_nonneg _ (fun c hc => (List.mem_takeWhile_imp hc))
    · cases h

/-- The number `stoi` delivers is a value of the type `int`. -/
theorem stoi_range {str : String} {v : Int} (h : stoi str = some v) :
    INT_MIN ≤ v ∧ v ≤ INT_MAX := by
  unfold stoi at h
  simp only at h
  split at h
  · cases h
  · split at h
    · split at h
      · rename_i hr
        cases Option.some.inj h
        exact hr
      · cases h
    · split at h
      · rename_i hr
        cases Option.some.inj h
        exact hr
      · cases h

/-! ## Lemmas on the branches of `parse_group` -/

namespace ConfigParser

theorem stoi_empty : stoi "" = none := by decide

theorem not_eof_of_stoi {p q : ConfigParser} {v : Int} (hq : p.next_token = .ok q)
    (hv : stoi q.token = some v) : q.t_type ≠ T_EOF := by
  intro h
  have := ((next_token_spec p).2 q hq).2.2.1 h
  rw [this, stoi_empty] at hv
  cases hv

/-- After a token that is not the end of the file, the parser has moved on. -/
theorem next_token_strict {p q : ConfigParser} (hq : p.next_token = .ok q)
    (h : q.t_type ≠ T_EOF) : Strict p q :=
  ((next_token_spec p).2 q hq).2.1 h

theorem next_token_step {p q : ConfigParser} (hq : p.next_token = .ok q) : Step p q :=
  ((next_token_spec p).2 q hq).1

theorem next_token_no_fuel (p : ConfigParser) : p.next_token ≠ .error .out_of_fuel :=
  (next_token_spec p).1

theorem read_int_opt_spec (p : ConfigParser) (d : Int) :
    p.read_int_opt d ≠ .error .out_of_fuel ∧
    ∀ r, p.read_int_opt d = .ok r →
      Step p r.1 ∧
      ((p.t_type = T_IDENT ∧ stoi p.token = some r.2) ∨
        (p.t_type ≠ T_IDENT ∧ r.1 = p ∧ r.2 = d)) := by
  unfold read_int_opt
  by_cases ht : p.t_type = T_IDENT
  · rw [if_pos ht]
    cases hs : stoi p.token with
    | none => simp
    | some v =>
      simp only
      constructor
      · apply bind_no_fuel (next_token_no_fuel p)
        intro a _
        simp [pure, Except.pure]
      · intro r hr
        obtain ⟨p1, h1, h2⟩ := bind_ok_inv hr
        cases Except.ok.inj h2
        exact ⟨next_token_step h1, Or.inl ⟨ht, rfl⟩⟩
  · rw [if_neg ht]
    constructor
    · simp [pure, Except.pure]
    · intro r hr
      cases Except.ok.inj hr
      exact ⟨Step.refl p, Or.inr ⟨ht, rfl, rfl⟩⟩

theorem flag_tail_spec (p : ConfigParser) :
    flag_tail p ≠ .error .out_of_fuel ∧ ∀ q, flag_tail p = .ok q → Strict p q := by
  unfold flag_tail
  constructor
  · apply bind_no_fuel (next_token_no_fuel p)
    intro p1 _
    apply bind_no_fuel (expect_no_fuel _ _ _)
    intro _ _
    exact next_token_no_fuel p1
  · intro q h
    obtain ⟨p1, h1, h⟩ := bind_ok_inv h
    obtain ⟨_, h2, h⟩ := bind_ok_inv h
    have ht := expect_ok_inv h2
    have hst : Strict p p1 := next_token_strict h1 (by rw [ht]; decide)
    exact hst.trans_step (next_token_step h)

/-- The value an option `stat_to_judges` or `stat_to_users` gets: the number that
follows the keyword, or 1 when the keyword is followed by `;`. -/
theorem stat_value_spec (p : ConfigParser) :
    stat_value p ≠ .error .out_of_fuel ∧
    ∀ r, stat_value p = .ok r →
      Strict p r.1 ∧
      ∃ p1, p.next_token = .ok p1 ∧
        ((p1.t_type = T_IDENT ∧ stoi p1.token = some r.2) ∨
          (p1.t_type = char_code ';' ∧ r.2 = 1)) := by
  unfold stat_value
  constructor
  · apply bind_no_fuel (next_token_no_fuel p)
    intro p1 _
    apply bind_no_fuel (read_int_opt_spec p1 1).1
    intro r _
    apply bind_no_fuel (expect_no_fuel _ _ _)
    intro _ _
    apply bind_no_fuel (next_token_no_fuel r.1)
    intro _ _
    simp [pure, Except.pure]
  · intro r h
    obtain ⟨p1, h1, h⟩ := bind_ok_inv h
    obtain ⟨r1, h2, h⟩ := bind_ok_inv h
    obtain ⟨_, h3, h⟩ := bind_ok_inv h
    obtain ⟨p3, h4, h⟩ := bind_ok_inv h
    cases Except.ok.inj h
    have ht := expect_ok_inv h3
    obtain ⟨hs2, hcase⟩ := (read_int_opt_spec p1 1).2 r1 h2
    rcases hcase with ⟨hid, hv⟩ | ⟨hnid, hp, hv⟩
    · have hst : Strict p p1 := next_token_strict h1 (by rw [hid]; decide)
      exact ⟨hst.trans_step (hs2.trans (next_token_step h4)), p1, h1, Or.inl ⟨hid, hv⟩⟩
    · rw [hp] at ht
      have hst : Strict p p1 := next_token_strict h1 (by rw [ht]; decide)
      exact ⟨hst.trans_step (hs2.trans (next_token_step h4)), p1, h1, Or.inr ⟨ht, hv⟩⟩

theorem num_value_spec (p : ConfigParser) (bad : Int → Bool) (msg : String) :
    num_value p bad msg ≠ .error .out_of_fuel ∧
    ∀ r, num_value p bad msg = .ok r → Strict p r.1 ∧ bad r.2 = false := by
  unfold num_value
  constructor
  · apply bind_no_fuel (next_token_no_fuel p)
    intro p1 _
    apply bind_no_fuel (expect_no_fuel _ _ _)
    intro _ _
    apply bind_no_fuel (stoi_token_no_fuel p1)
    intro v _
    apply bind_no_fuel (parse_error_if_no_fuel _ _)
    intro _ _
    apply bind_no_fuel (next_token_no_fuel p1)
    intro p2 _
    apply bind_no_fuel (expect_no_fuel _ _ _)
    intro _ _
    apply bind_no_fuel (next_token_no_fuel p2)
    intro _ _
    simp [pure, Except.pure]
  · intro r h
    obtain ⟨p1, h1, h⟩ := bind_ok_inv h
    obtain ⟨_, h2, h⟩ := bind_ok_inv h
    obtain ⟨v, h3, h⟩ := bind_ok_inv h
    obtain ⟨_, h4, h⟩ := bind_ok_inv h
    obtain ⟨p2, h5, h⟩ := bind_ok_inv h
    obtain ⟨_, h6, h⟩ := bind_ok_inv h
    obtain ⟨p3, h7, h⟩ := bind_ok_inv h
    cases Except.ok.inj h
    have ht := expect_ok_inv h2
    have hst : Strict p p1 := next_token_strict h1 (by rw [ht]; decide)
    have hb := parse_error_if_ok_inv h4
    exact ⟨hst.trans_step ((next_token_step h5).trans (next_token_step h7)), by simpa using hb⟩

theorem parse_user_status_spec (p : ConfigParser) :
    parse_user_status p ≠ .error .out_of_fuel ∧
    ∀ r, parse_user_status p = .ok r → Strict p r.1 := by
  unfold parse_user_status
  constructor
  · apply bind_no_fuel (next_token_no_fuel p)
    intro p1 _
    apply bind_no_fuel (expect_no_fuel _ _ _)
    intro _ _
    apply bind_no_fuel (parse_error_if_no_fuel _ _)
    intro _ _
    apply bind_no_fuel (next_token_no_fuel p1)
    intro p2 _
    apply bind_no_fuel (expect_no_fuel _ _ _)
    intro _ _
    apply bind_no_fuel (next_token_no_fuel p2)
    intro _ _
    simp [pure, Except.pure]
  · intro r h
    obtain ⟨p1, h1, h⟩ := bind_ok_inv h
    obtain ⟨_, h2, h⟩ := bind_ok_inv h
    obtain ⟨_, h4, h⟩ := bind_ok_inv h
    obtain ⟨p2, h5, h⟩ := bind_ok_inv h
    obtain ⟨_, h6, h⟩ := bind_ok_inv h
    obtain ⟨p3, h7, h⟩ := bind_ok_inv h
    cases Except.ok.inj h
    have ht := expect_ok_inv h2
    have hst : Strict p p1 := next_token_strict h1 (by rw [ht]; decide)
    exact hst.trans_step ((next_token_step h5).trans (next_token_step h7))

theorem ident_list_loop_spec (n : Nat) :
    ∀ (p : ConfigParser) (ids : List String), p.remaining < n →
      ident_list_loop n p ids ≠ .error .out_of_fuel ∧
      ∀ r, ident_list_loop n p ids = .ok r → Step p r.1 := by
  induction n with
  | zero => intro p ids h; omega
  | succ n ih =>
    intro p ids h
    unfold ident_list_loop
    by_cases hc : p.t_type = char_code ','
    · simp only [hc, if_true]
      constructor
      · apply bind_no_fuel (next_token_no_fuel p)
        intro p1 h1
        apply bind_no_fuel (expect_no_fuel _ _ _)
        intro _ h2
        have ht := expect_ok_inv h2
        have hst : Strict p p1 := next_token_strict h1 (by rw [ht]; decide)
        apply bind_no_fuel (next_token_no_fuel p1)
        intro p2 h3
        have := (next_token_step h3).1
        exact (ih p2 _ (by have := hst.1; omega)).1
      · intro r hr
        obtain ⟨p1, h1, hr⟩ := bind_ok_inv hr
        obtain ⟨_, h2, hr⟩ := bind_ok_inv hr
        obtain ⟨p2, h3, hr⟩ := bind_ok_inv hr
        have ht := expect_ok_inv h2
        have hst : Strict p p1 := next_token_strict h1 (by rw [ht]; decide)
        have hs2 := next_token_step h3
        have := (ih p2 _ (by have := hst.1; have := hs2.1; omega)).2 r hr
        exact hst.step.trans (hs2.trans this)
    · simp only [hc, if_false]
      constructor
      · simp [pure, Except.pure]
      · intro r hr
        cases Except.ok.inj hr
        exact Step.refl p

theorem ident_list_spec (p : ConfigParser) :
    ident_list p ≠ .error .out_of_fuel ∧ ∀ r, ident_list p = .ok r → Strict p r.1 := by
  unfold ident_list
  constructor
  · apply bind_no_fuel (next_token_no_fuel p)
    intro p1 _
    apply bind_no_fuel (expect_no_fuel _ _ _)
    intro _ _
    apply bind_no_fuel (next_token_no_fuel p1)
    intro p2 _
    apply bind_no_fuel (ident_list_loop_spec p2.fuel p2 _ (remaining_lt_fuel p2)).1
    intro r _
    apply bind_no_fuel (expect_no_fuel _ _ _)
    intro _ _
    apply bind_no_fuel (next_token_no_fuel r.1)
    intro _ _
    simp [pure, Except.pure]
  · intro r h
    obtain ⟨p1, h1, h⟩ := bind_ok_inv h
    obtain ⟨_, h2, h⟩ := bind_ok_inv h
    obtain ⟨p2, h3, h⟩ := bind_ok_inv h
    obtain ⟨r1, h4, h⟩ := bind_ok_inv h
    obtain ⟨_, h5, h⟩ := bind_ok_inv h
    obtain ⟨p4, h6, h⟩ := bind_ok_inv h
    cases Except.ok.inj h
    have ht := expect_ok_inv h2
    have hst : Strict p p1 := next_token_strict h1 (by rw [ht]; decide)
    have hl := (ident_list_loop_spec p2.fuel p2 _ (remaining_lt_fuel p2)).2 r1 h4
    exact hst.trans_step ((next_token_step h3).trans (hl.trans (next_token_step h6)))

theorem zero_if_number_spec (p : ConfigParser) (g : Group) :
    zero_if_number p g ≠ .error .out_of_fuel ∧
    ∀ r, zero_if_number p g = .ok r → Strict p r.1 ∧ g.first ≤ r.2 ∧ r.2 ≤ g.last := by
  unfold zero_if_number
  constructor
  · apply bind_no_fuel (next_token_no_fuel p)
    intro p1 _
    apply bind_no_fuel (stoi_token_no_fuel p1)
    intro _ _
    apply bind_no_fuel (parse_error_if_no_fuel _ _)
    intro _ _
    apply bind_no_fuel (next_token_no_fuel p1)
    intro _ _
    simp [pure, Except.pure]
  · intro r h
    obtain ⟨p1, h1, h⟩ := bind_ok_inv h
    obtain ⟨tn, h2, h⟩ := bind_ok_inv h
    obtain ⟨_, h3, h⟩ := bind_ok_inv h
    obtain ⟨p2, h4, h⟩ := bind_ok_inv h
    cases Except.ok.inj h
    have hst : Strict p p1 := next_token_strict h1 (not_eof_of_stoi h1 (stoi_token_ok_inv h2))
    have hr := parse_error_if_ok_inv h3
    refine ⟨hst.trans_step (next_token_step h4), ?_, ?_⟩ <;> simp only <;> omega

theorem zero_if_loop_spec (g : Group) (n : Nat) :
    ∀ (p : ConfigParser) (zs : Finset Int), p.remaining < n →
      zero_if_loop g n p zs ≠ .error .out_of_fuel ∧
      ∀ r, zero_if_loop g n p zs = .ok r →
        Step p r.1 ∧ ((∀ t ∈ zs, g.first ≤ t ∧ t ≤ g.last) →
          ∀ t ∈ r.2, g.first ≤ t ∧ t ≤ g.last) := by
  induction n with
  | zero => intro p zs h; omega
  | succ n ih =>
    intro p zs h
    unfold zero_if_loop
    by_cases hc : p.t_type = char_code ','
    · simp only [hc, if_true]
      constructor
      · apply bind_no_fuel (zero_if_number_spec p g).1
        intro r1 h1
        have hst := ((zero_if_number_spec p g).2 r1 h1).1
        exact (ih r1.1 _ (by have := hst.1; omega)).1
      · intro r hr
        obtain ⟨r1, h1, hr⟩ := bind_ok_inv hr
        obtain ⟨hst, hr1, hr2⟩ := (zero_if_number_spec p g).2 r1 h1
        obtain ⟨hs2, hin⟩ := (ih r1.1 _ (by have := hst.1; omega)).2 r hr
        refine ⟨hst.step.trans hs2, fun hzs => hin ?_⟩
        intro t ht
        rcases Finset.mem_insert.mp ht with rfl | ht
        · exact ⟨hr1, hr2⟩
        · exact hzs t ht
    · simp only [hc, if_false]
      constructor
      · simp [pure, Except.pure]
      · intro r hr
        cases Except.ok.inj hr
        exact ⟨Step.refl p, fun h => h⟩


theorem parse_tests_spec (p : ConfigParser) (b : Block) :
    parse_tests p b ≠ .error .out_of_fuel ∧
    ∀ r, parse_tests p b = .ok r →
      Strict p r.1 ∧ ∃ first last : Int, 1 ≤ first ∧ first ≤ last ∧
        r.2 = { b with parsed_group := { b.parsed_group with first := first, last := last } } := by
  unfold parse_tests
  constructor
  · apply bind_no_fuel (next_token_no_fuel p)
    intro p1 _
    apply bind_no_fuel (stoi_token_no_fuel p1)
    intro first _
    apply bind_no_fuel (parse_error_if_no_fuel _ _)
    intro _ _
    apply bind_no_fuel (next_token_no_fuel p1)
    intro p2 _
    split
    · apply bind_no_fuel (next_token_no_fuel p2)
      intro p3 _
      apply bind_no_fuel (stoi_token_no_fuel p3)
      intro last _
      apply bind_no_fuel (parse_error_if_no_fuel _ _)
      intro _ _
      apply bind_no_fuel (parse_error_if_no_fuel _ _)
      intro _ _
      apply bind_no_fuel (next_token_no_fuel p3)
      intro p4 _
      apply bind_no_fuel (expect_no_fuel _ _ _)
      intro _ _
      apply bind_no_fuel (next_token_no_fuel p4)
      intro _ _
      simp [pure, Except.pure]
    · apply bind_no_fuel (expect_no_fuel _ _ _)
      intro _ _
      apply bind_no_fuel (next_token_no_fuel p2)
      intro _ _
      simp [pure, Except.pure]
  · intro r h
    obtain ⟨p1, h1, h⟩ := bind_ok_inv h
    obtain ⟨first, h2, h⟩ := bind_ok_inv h
    obtain ⟨_, h3, h⟩ := bind_ok_inv h
    obtain ⟨p2, h4, h⟩ := bind_ok_inv h
    have hst : Strict p p1 := next_token_strict h1 (not_eof_of_stoi h1 (stoi_token_ok_inv h2))
    have hf := parse_error_if_ok_inv h3
    split at h
    · obtain ⟨p3, h5, h⟩ := bind_ok_inv h
      obtain ⟨last, h6, h⟩ := bind_ok_inv h
      obtain ⟨_, h7, h⟩ := bind_ok_inv h
      obtain ⟨_, h8, h⟩ := bind_ok_inv h
      obtain ⟨p4, h9, h⟩ := bind_ok_inv h
      obtain ⟨_, h10, h⟩ := bind_ok_inv h
      obtain ⟨p5, h11, h⟩ := bind_ok_inv h
      cases Except.ok.inj h
      have hl := parse_error_if_ok_inv h8
      refine ⟨hst.trans_step ((next_token_step h4).trans ((next_token_step h5).trans
        ((next_token_step h9).trans (next_token_step h11)))), first, last, by omega, by omega,
        rfl⟩
    · obtain ⟨_, h5, h⟩ := bind_ok_inv h
      obtain ⟨p3, h6, h⟩ := bind_ok_inv h
      cases Except.ok.inj h
      exact ⟨hst.trans_step ((next_token_step h4).trans (next_token_step h6)), first, first,
        by omega, le_refl _, rfl⟩

/-- The range the branch `tests` stores ends at a value of the type `int`. -/
theorem parse_tests_range {p : ConfigParser} {b : Block} {r : ConfigParser × Block}
    (h : parse_tests p b = .ok r) : r.2.parsed_group.last ≤ INT_MAX := by
  unfold parse_tests at h
  obtain ⟨p1, h1, h⟩ := bind_ok_inv h
  obtain ⟨first, h2, h⟩ := bind_ok_inv h
  obtain ⟨_, h3, h⟩ := bind_ok_inv h
  obtain ⟨p2, h4, h⟩ := bind_ok_inv h
  split at h
  · obtain ⟨p3, h5, h⟩ := bind_ok_inv h
    obtain ⟨last, h6, h⟩ := bind_ok_inv h
    obtain ⟨_, h7, h⟩ := bind_ok_inv h
    obtain ⟨_, h8, h⟩ := bind_ok_inv h
    obtain ⟨p4, h9, h⟩ := bind_ok_inv h
    obtain ⟨_, h10, h⟩ := bind_ok_inv h
    obtain ⟨p5, h11, h⟩ := bind_ok_inv h
    cases Except.ok.inj h
    exact (stoi_range (stoi_token_ok_inv h6)).2
  · obtain ⟨_, h5, h⟩ := bind_ok_inv h
    obtain ⟨p3, h6, h⟩ := bind_ok_inv h
    cases Except.ok.inj h
    exact (stoi_range (stoi_token_ok_inv h2)).2

theorem parse_zero_if_spec (p : ConfigParser) (b : Block) :
    parse_zero_if p b ≠ .error .out_of_fuel ∧
    ∀ r, parse_zero_if p b = .ok r →
      Strict p r.1 ∧ ∃ zs : Finset Int,
        (∀ t ∈ zs, b.parsed_group.first ≤ t ∧ t ≤ b.parsed_group.last) ∧
        r.2 = { b with parsed_group :=
          { b.parsed_group with zero_sets := b.parsed_group.zero_sets ++ [zs] } } := by
  unfold parse_zero_if
  constructor
  · apply bind_no_fuel (zero_if_number_spec p _).1
    intro r1 _
    apply bind_no_fuel (zero_if_loop_spec _ r1.1.fuel r1.1 _ (remaining_lt_fuel r1.1)).1
    intro r2 _
    apply bind_no_fuel (expect_no_fuel _ _ _)
    intro _ _
    apply bind_no_fuel (next_token_no_fuel r2.1)
    intro _ _
    simp [pure, Except.pure]
  · intro r h
    obtain ⟨r1, h1, h⟩ := bind_ok_inv h
    obtain ⟨r2, h2, h⟩ := bind_ok_inv h
    obtain ⟨_, h3, h⟩ := bind_ok_inv h
    obtain ⟨p3, h4, h⟩ := bind_ok_inv h
    cases Except.ok.inj h
    obtain ⟨hst, hr1, hr2⟩ := (zero_if_number_spec p _).2 r1 h1
    obtain ⟨hs2, hin⟩ :=
      (zero_if_loop_spec _ r1.1.fuel r1.1 _ (remaining_lt_fuel r1.1)).2 r2 h2
    refine ⟨hst.trans_step (hs2.trans (next_token_step h4)), r2.2, hin ?_, rfl⟩
    intro t ht
    rcases Finset.mem_insert.mp ht with rfl | ht
    · exact ⟨hr1, hr2⟩
    · simp at ht

/-- One round of the loop of `parse_group` never runs out of fuel, and what it
does to the local variables is `FieldOk`. -/
theorem parse_field_spec (p : ConfigParser) (b : Block) :
    parse_field p b ≠ .error .out_of_fuel ∧
    (∀ r, parse_field p b = .ok (some r) → FieldOk p b r) := by
  unfold parse_field
  simp only
  by_cases k1 : p.token = "tests"
  · rw [if_pos k1]
    constructor
    · apply bind_no_fuel (parse_tests_spec p b).1
      intro _ _
      simp [pure, Except.pure]
    · intro r h
      obtain ⟨r1, h1, h⟩ := bind_ok_inv h
      obtain ⟨hst, f, l, _, _, hb⟩ := (parse_tests_spec p b).2 r1 h1
      cases Option.some.inj (Except.ok.inj h)
      unfold FieldOk
      rw [hb]
      exact ⟨hst, rfl, fun _ => ⟨rfl, rfl⟩, fun _ => ⟨rfl, rfl⟩⟩
  rw [if_neg k1]
  by_cases k2 : p.token = "requires"
  · rw [if_pos k2]
    constructor
    · apply bind_no_fuel (ident_list_spec p).1
      intro _ _
      simp [pure, Except.pure]
    · intro r h
      obtain ⟨r1, h1, h⟩ := bind_ok_inv h
      cases Option.some.inj (Except.ok.inj h)
      exact ⟨(ident_list_spec p).2 r1 h1, rfl, fun _ => ⟨rfl, rfl⟩, fun _ => ⟨rfl, rfl⟩⟩
  rw [if_neg k2]
  by_cases k3 : p.token = "sets_marked_if_passed"
  · rw [if_pos k3]
    constructor
    · apply bind_no_fuel (ident_list_spec p).1
      intro _ _
      simp [pure, Except.pure]
    · intro r h
      obtain ⟨r1, h1, h⟩ := bind_ok_inv h
      cases Option.some.inj (Except.ok.inj h)
      exact ⟨(ident_list_spec p).2 r1 h1, rfl, fun _ => ⟨rfl, rfl⟩, fun _ => ⟨rfl, rfl⟩⟩
  rw [if_neg k3]
  by_cases k4 : p.token = "0_if"
  · rw [if_pos k4]
    constructor
    · apply bind_no_fuel (parse_zero_if_spec p b).1
      intro _ _
      simp [pure, Except.pure]
    · intro r h
      obtain ⟨r1, h1, h⟩ := bind_ok_inv h
      obtain ⟨hst, zs, _, hb⟩ := (parse_zero_if_spec p b).2 r1 h1
      cases Option.some.inj (Except.ok.inj h)
      unfold FieldOk
      rw [hb]
      exact ⟨hst, rfl, fun _ => ⟨rfl, rfl⟩, fun _ => ⟨rfl, rfl⟩⟩
  rw [if_neg k4]
  have flag : ∀ (g1 : Group), g1.group_id = b.parsed_group.group_id →
      g1.stat_to_judges = b.parsed_group.stat_to_judges →
      g1.stat_to_users = b.parsed_group.stat_to_users →
      (((do let p1 ← flag_tail p; return some (p1, { b with parsed_group := g1 })) :
          Except Failure (Option (ConfigParser × Block))) ≠ .error .out_of_fuel) ∧
      ∀ r, ((do let p1 ← flag_tail p; return some (p1, { b with parsed_group := g1 })) :
          Except Failure (Option (ConfigParser × Block))) = .ok (some r) → FieldOk p b r := by
    intro g1 e1 e2 e3
    constructor
    · apply bind_no_fuel (flag_tail_spec p).1
      intro _ _
      simp [pure, Except.pure]
    · intro r h
      obtain ⟨p1, h1, h⟩ := bind_ok_inv h
      cases Option.some.inj (Except.ok.inj h)
      exact ⟨(flag_tail_spec p).2 p1 h1, e1, fun _ => ⟨rfl, e2⟩, fun _ => ⟨rfl, e3⟩⟩
  by_cases k5 : p.token = "offline"
  · rw [if_pos k5]
    exact flag _ rfl rfl rfl
  rw [if_neg k5]
  by_cases k6 : p.token = "sets_marked"
  · rw [if_pos k6]
    exact flag _ rfl rfl rfl
  rw [if_neg k6]
  by_cases k7 : p.token = "skip"
  · rw [if_pos k7]
    exact flag _ rfl rfl rfl
  rw [if_neg k7]
  by_cases k8 : p.token = "skip_if_not_rejudge"
  · rw [if_pos k8]
    exact flag _ rfl rfl rfl
  rw [if_neg k8]
  by_cases k9 : p.token = "stat_to_judges"
  · rw [if_pos k9]
    have hne : p.token ≠ "stat_to_users" := by rw [k9]; decide
    constructor
    · apply bind_no_fuel (stat_value_spec p).1
      intro _ _
      split <;> simp [pure, Except.pure]
    · intro r h
      obtain ⟨r1, h1, h⟩ := bind_ok_inv h
      have hst := ((stat_value_spec p).2 r1 h1).1
      split at h
      · cases Option.some.inj (Except.ok.inj h)
        exact ⟨hst, rfl, fun hc => absurd k9 hc, fun _ => ⟨rfl, rfl⟩⟩
      · cases Option.some.inj (Except.ok.inj h)
        exact ⟨hst, rfl, fun hc => absurd k9 hc, fun _ => ⟨rfl, rfl⟩⟩
  rw [if_neg k9]
  by_cases k10 : p.token = "stat_to_users"
  · rw [if_pos k10]
    constructor
    · apply bind_no_fuel (stat_value_spec p).1
      intro _ _
      split <;> simp [pure, Except.pure]
    · intro r h
      obtain ⟨r1, h1, h⟩ := bind_ok_inv h
      have hst := ((stat_value_spec p).2 r1 h1).1
      split at h
      · cases Option.some.inj (Except.ok.inj h)
        exact ⟨hst, rfl, fun _ => ⟨rfl, rfl⟩, fun hc => absurd k10 hc⟩
      · cases Option.some.inj (Except.ok.inj h)
        exact ⟨hst, rfl, fun _ => ⟨rfl, rfl⟩, fun hc => absurd k10 hc⟩
  rw [if_neg k10]
  by_cases k11 : p.token = "test_all"
  · rw [if_pos k11]
    exact flag _ rfl rfl rfl
  rw [if_neg k11]
  have num : ∀ (bad : Int → Bool) (msg : String) (upd : Int → Group),
      (∀ v, (upd v).group_id = b.parsed_group.group_id ∧
        (upd v).stat_to_judges = b.parsed_group.stat_to_judges ∧
        (upd v).stat_to_users = b.parsed_group.stat_to_users) →
      (((do let r ← num_value p bad msg; return some (r.1, { b with parsed_group := upd r.2 })) :
          Except Failure (Option (ConfigParser × Block))) ≠ .error .out_of_fuel) ∧
      ∀ r, ((do let r ← num_value p bad msg
                return some (r.1, { b with parsed_group := upd r.2 })) :
          Except Failure (Option (ConfigParser × Block))) = .ok (some r) → FieldOk p b r := by
    intro bad msg upd hupd
    constructor
    · apply bind_no_fuel (num_value_spec p bad msg).1
      intro _ _
      simp [pure, Except.pure]
    · intro r h
      obtain ⟨r1, h1, h⟩ := bind_ok_inv h
      cases Option.some.inj (Except.ok.inj h)
      obtain ⟨e1, e2, e3⟩ := hupd r1.2
      exact ⟨((num_value_spec p bad msg).2 r1 h1).1, e1, fun _ => ⟨rfl, e2⟩,
        fun _ => ⟨rfl, e3⟩⟩
  by_cases k12 : p.token = "score"
  · rw [if_pos k12]
    exact num _ _ (fun v => { b.parsed_group with score := v }) (fun _ => ⟨rfl, rfl, rfl⟩)
  rw [if_neg k12]
  by_cases k13 : p.token = "test_score"
  · rw [if_pos k13]
    exact num _ _ (fun v => { b.parsed_group with test_score := v }) (fun _ => ⟨rfl, rfl, rfl⟩)
  rw [if_neg k13]
  by_cases k14 : p.token = "pass_if_count"
  · rw [if_pos k14]
    exact num _ _ (fun v => { b.parsed_group with pass_if_count := v })
      (fun _ => ⟨rfl, rfl, rfl⟩)
  rw [if_neg k14]
  by_cases k15 : p.token = "user_status"
  · rw [if_pos k15]
    constructor
    · apply bind_no_fuel (parse_user_status_spec p).1
      intro _ _
      simp [pure, Except.pure]
    · intro r h
      obtain ⟨r1, h1, h⟩ := bind_ok_inv h
      cases Option.some.inj (Except.ok.inj h)
      exact ⟨(parse_user_status_spec p).2 r1 h1, rfl, fun _ => ⟨rfl, rfl⟩,
        fun _ => ⟨rfl, rfl⟩⟩
  rw [if_neg k15]
  constructor
  · simp [pure, Except.pure]
  · intro r h
    cases Except.ok.inj h

end ConfigParser

namespace ConfigParser

/-- The field `stat_to_judges` of a group block: the bare keyword sets the
option to true, a number `n` sets it to `n ≠ 0`. -/
theorem parse_field_stat_to_judges {p : ConfigParser} {b : Block} {r : ConfigParser × Block}
    (hk : p.token = "stat_to_judges") (h : parse_field p b = .ok (some r)) :
    r.2.explicit_users = b.explicit_users ∧
    ∃ p1, p.next_token = .ok p1 ∧
      ((p1.t_type = char_code ';' ∧ r.2.explicit_judges = some true) ∨
       (p1.t_type = T_IDENT ∧ ∃ n : Int, stoi p1.token = some n ∧
          r.2.explicit_judges = some (decide (n ≠ 0)))) := by
  unfold parse_field at h
  simp only at h
  rw [if_neg (by rw [hk]; decide), if_neg (by rw [hk]; decide), if_neg (by rw [hk]; decide),
    if_neg (by rw [hk]; decide), if_neg (by rw [hk]; decide), if_neg (by rw [hk]; decide),
    if_neg (by rw [hk]; decide), if_neg (by rw [hk]; decide), if_pos hk] at h
  obtain ⟨r1, h1, h⟩ := bind_ok_inv h
  obtain ⟨_, p1, hp1, hv⟩ := (stat_value_spec p).2 r1 h1
  have hnn : 0 ≤ r1.2 := by
    rcases hv with ⟨ht, hs⟩ | ⟨_, hs⟩
    · exact stoi_nonneg (((next_token_spec p).2 p1 hp1).2.2.2.1 ht).2 hs
    · rw [hs]; decide
  rw [if_pos hnn] at h
  cases Option.some.inj (Except.ok.inj h)
  refine ⟨rfl, p1, hp1, ?_⟩
  rcases hv with ⟨ht, hs⟩ | ⟨ht, hs⟩
  · exact Or.inr ⟨ht, r1.2, hs, by simp [Block.explicit_judges]⟩
  · exact Or.inl ⟨ht, by simp [Block.explicit_judges, hs]⟩

/-- The field `stat_to_users` of a group block: the bare keyword sets the
option to true, a number `n` sets it to `n ≠ 0`. -/
theorem parse_field_stat_to_users {p : ConfigParser} {b : Block} {r : ConfigParser × Block}
    (hk : p.token = "stat_to_users") (h : parse_field p b = .ok (some r)) :
    r.2.explicit_judges = b.explicit_judges ∧
    ∃ p1, p.next_token = .ok p1 ∧
      ((p1.t_type = char_code ';' ∧ r.2.explicit_users = some true) ∨
       (p1.t_type = T_IDENT ∧ ∃ n : Int, stoi p1.token = some n ∧
          r.2.explicit_users = some (decide (n ≠ 0)))) := by
  unfold parse_field at h
  simp only at h
  rw [if_neg (by rw [hk]; decide), if_neg (by rw [hk]; decide), if_neg (by rw [hk]; decide),
    if_neg (by rw [hk]; decide), if_neg (by rw [hk]; decide), if_neg (by rw [hk]; decide),
    if_neg (by rw [hk]; decide), if_neg (by rw [hk]; decide), if_neg (by rw [hk]; decide),
    if_pos hk] at h
  obtain ⟨r1, h1, h⟩ := bind_ok_inv h
  obtain ⟨_, p1, hp1, hv⟩ := (stat_value_spec p).2 r1 h1
  have hnn : 0 ≤ r1.2 := by
    rcases hv with ⟨ht, hs⟩ | ⟨_, hs⟩
    · exact stoi_nonneg (((next_token_spec p).2 p1 hp1).2.2.2.1 ht).2 hs
    · rw [hs]; decide
  rw [if_pos hnn] at h
  cases Option.some.inj (Except.ok.inj h)
  refine ⟨rfl, p1, hp1, ?_⟩
  rcases hv with ⟨ht, hs⟩ | ⟨ht, hs⟩
  · exact Or.inr ⟨ht, r1.2, hs, by simp [Block.explicit_users]⟩
  · exact Or.inl ⟨ht, by simp [Block.explicit_users, hs]⟩

/-- A field of another name leaves both options as they were. -/
theorem parse_field_other {p : ConfigParser} {b : Block} {r : ConfigParser × Block}
    (h : parse_field p b = .ok (some r)) :
    (p.token ≠ "stat_to_judges" → r.2.explicit_judges = b.explicit_judges) ∧
    (p.token ≠ "stat_to_users" → r.2.explicit_users = b.explicit_users) := by
  obtain ⟨_, _, hj, hu⟩ := (parse_field_spec p b).2 r h
  constructor
  · intro hk
    obtain ⟨e1, e2⟩ := hj hk
    simp only [Block.explicit_judges, e1, e2]
  · intro hk
    obtain ⟨e1, e2⟩ := hu hk
    simp only [Block.explicit_users, e1, e2]

theorem has_of_explicit_judges {b : Block} {v : Bool} (h : b.explicit_judges = some v) :
    b.has_stat_to_judges = true := by
  unfold Block.explicit_judges at h
  split at h
  · assumption
  · cases h

theorem has_of_explicit_users {b : Block} {v : Bool} (h : b.explicit_users = some v) :
    b.has_stat_to_users = true := by
  unfold Block.explicit_users at h
  split at h
  · assumption
  · cases h

/-- A round of the loop of `parse_group` keeps the block fresh. -/
theorem parse_field_fresh {p : ConfigParser} {b : Block} {r : ConfigParser × Block}
    (h : parse_field p b = .ok (some r)) (hb : b.Fresh) : r.2.Fresh := by
  obtain ⟨_, _, hj, hu⟩ := (parse_field_spec p b).2 r h
  constructor
  · intro hh
    by_cases hk : p.token = "stat_to_judges"
    · obtain ⟨_, p1, _, hv⟩ := parse_field_stat_to_judges hk h
      have : r.2.has_stat_to_judges = true := by
        rcases hv with ⟨_, he⟩ | ⟨_, n, _, he⟩
        · exact has_of_explicit_judges he
        · exact has_of_explicit_judges he
      rw [this] at hh
      cases hh
    · obtain ⟨e1, e2⟩ := hj hk
      rw [e2]
      exact hb.1 (e1 ▸ hh)
  · intro hh
    by_cases hk : p.token = "stat_to_users"
    · obtain ⟨_, p1, _, hv⟩ := parse_field_stat_to_users hk h
      have : r.2.has_stat_to_users = true := by
        rcases hv with ⟨_, he⟩ | ⟨_, n, _, he⟩
        · exact has_of_explicit_users he
        · exact has_of_explicit_users he
      rw [this] at hh
      cases hh
    · obtain ⟨e1, e2⟩ := hu hk
      rw [e2]
      exact hb.2 (e1 ▸ hh)

/-- The loop of `parse_group` has fuel enough, keeps the id of the group and
keeps the block fresh. -/
theorem parse_fields_spec : ∀ (n : Nat) (p : ConfigParser) (b : Block), p.remaining < n →
    parse_fields n p b ≠ .error .out_of_fuel ∧
    ∀ r, parse_fields n p b = .ok r →
      Step p r.1 ∧ r.2.parsed_group.group_id = b.parsed_group.group_id ∧
      (b.Fresh → r.2.Fresh) ∧ parse_field r.1 r.2 = .ok none := by
  intro n
  induction n with
  | zero => intro p b h; omega
  | succ n ih =>
    intro p b hn
    rw [parse_fields]
    cases hf : parse_field p b with
    | error e =>
      simp only
      refine ⟨?_, fun r h => by cases h⟩
      intro hc
      cases hc
      exact (parse_field_spec p b).1 hf
    | ok o =>
      cases o with
      | none =>
        simp only
        refine ⟨by simp, ?_⟩
        intro r h
        cases Except.ok.inj h
        exact ⟨Step.refl p, rfl, id, hf⟩
      | some r1 =>
        simp only
        obtain ⟨hst, hid, _, _⟩ := (parse_field_spec p b).2 r1 hf
        have hlt : r1.1.remaining < n := by have := hst.1; omega
        obtain ⟨i1, i2⟩ := ih r1.1 r1.2 hlt
        refine ⟨i1, ?_⟩
        intro r h
        obtain ⟨s1, s2, s3, s4⟩ := i2 r h
        exact ⟨hst.step.trans s1, s2.trans hid, fun hb => s3 (parse_field_fresh hf hb), s4⟩

theorem resolve_stat_group_id (b : Block) (gl : Global) :
    (resolve_stat b gl).group_id = b.parsed_group.group_id := by
  unfold resolve_stat
  simp only
  split <;> split <;> rfl

/-- The two statements at the end of `parse_group` resolve each option as the
specification says. -/
theorem resolve_stat_spec (b : Block) (gl : Global) (hb : b.Fresh) :
    (resolve_stat b gl).stat_to_judges = spec_resolved b.explicit_judges gl.stat_to_judges ∧
    (resolve_stat b gl).stat_to_users = spec_resolved b.explicit_users gl.stat_to_users := by
  obtain ⟨f1, f2⟩ := hb
  unfold resolve_stat spec_resolved Block.explicit_judges Block.explicit_users
  cases hj : b.has_stat_to_judges <;> cases hu : b.has_stat_to_users <;>
    rcases lt_or_le gl.stat_to_judges 0 with gj | gj <;>
    rcases lt_or_le gl.stat_to_users 0 with gu | gu <;>
    first
    | simp [hj, hu, gj, gu, not_le.mpr gj, not_le.mpr gu, f1, f2]
    | simp [hj, hu, gj, gu, not_le.mpr gj, not_lt.mpr gu, f1, f2]
    | simp [hj, hu, gj, gu, not_lt.mpr gj, not_le.mpr gu, f1, f2]
    | simp [hj, hu, gj, gu, not_lt.mpr gj, not_lt.mpr gu, f1, f2]

end ConfigParser

theorem find_group_id_isSome_iff (groups : List Group) (id : String) :
    (find_group_id groups id).isSome = true ↔ ∃ g ∈ groups, g.group_id = id := by
  unfold find_group_id
  simp [List.find?_isSome]

namespace ConfigParser

/-- The method `parse_group` never runs out of fuel; when it returns, it has
read a new id and a block, and has pushed the group of that block, resolved
against the global settings. -/
theorem parse_group_spec (p : ConfigParser) :
    parse_group p ≠ .error .out_of_fuel ∧
    ∀ q, parse_group p = .ok q →
      ∃ (p1 p3 : ConfigParser) (r : ConfigParser × Block),
        p.token = "group" ∧ p.next_token = .ok p1 ∧ p1.t_type = T_IDENT ∧
        (∀ g ∈ p.groups, g.group_id ≠ p1.token) ∧ Strict p p3 ∧
        parse_fields p3.fuel p3 { parsed_group := { group_id := p1.token } } = .ok r ∧
        r.2.Fresh ∧ r.2.parsed_group.group_id = p1.token ∧
        q.remaining < p.remaining ∧ q.global = p.global ∧
        q.groups = p.groups ++ [resolve_stat r.2 p.global] := by
  unfold parse_group
  constructor
  · apply bind_no_fuel (parse_error_if_no_fuel _ _)
    intro _ _
    apply bind_no_fuel (next_token_no_fuel p)
    intro p1 _
    apply bind_no_fuel (expect_no_fuel _ _ _)
    intro _ _
    apply bind_no_fuel (parse_error_if_no_fuel _ _)
    intro _ _
    apply bind_no_fuel (next_token_no_fuel p1)
    intro p2 _
    apply bind_no_fuel (expect_no_fuel _ _ _)
    intro _ _
    apply bind_no_fuel (next_token_no_fuel p2)
    intro p3 _
    apply bind_no_fuel (parse_fields_spec p3.fuel p3 _ (remaining_lt_fuel p3)).1
    intro r _
    apply bind_no_fuel (expect_no_fuel _ _ _)
    intro _ _
    apply bind_no_fuel (next_token_no_fuel r.1)
    intro _ _
    simp [pure, Except.pure]
  · intro q h
    obtain ⟨_, h0, h⟩ := bind_ok_inv h
    obtain ⟨p1, h1, h⟩ := bind_ok_inv h
    obtain ⟨_, h2, h⟩ := bind_ok_inv h
    obtain ⟨_, h3, h⟩ := bind_ok_inv h
    obtain ⟨p2, h4, h⟩ := bind_ok_inv h
    obtain ⟨_, h5, h⟩ := bind_ok_inv h
    obtain ⟨p3, h6, h⟩ := bind_ok_inv h
    obtain ⟨r, h7, h⟩ := bind_ok_inv h
    obtain ⟨_, h8, h⟩ := bind_ok_inv h
    obtain ⟨p5, h9, h⟩ := bind_ok_inv h
    cases Except.ok.inj h
    have ht := expect_ok_inv h2
    have s1 : Strict p p1 := next_token_strict h1 (by rw [ht]; decide)
    have s3 : Strict p p3 := s1.trans_step ((next_token_step h4).trans (next_token_step h6))
    obtain ⟨f1, f2, f3, _⟩ := (parse_fields_spec p3.fuel p3 _ (remaining_lt_fuel p3)).2 r h7
    have s5 : Strict p p5 := s3.trans_step (f1.trans (next_token_step h9))
    refine ⟨p1, p3, r, not_not.mp (parse_error_if_ok_inv h0), h1, ht, ?_, s3, h7,
      f3 ⟨fun _ => rfl, fun _ => rfl⟩, f2, s5.1, s5.2.2, ?_⟩
    · intro g hg he
      apply parse_error_if_ok_inv h3
      rw [s1.2.1]
      exact (find_group_id_isSome_iff _ _).mpr ⟨g, hg, he⟩
    · show p5.groups ++ [resolve_stat r.2 p5.global] = p.groups ++ [resolve_stat r.2 p.global]
      rw [s5.2.1, s5.2.2]

/-- The loop of `parse_group` runs the rounds of `parse_field` one after the
other until no field is found. -/
theorem parse_fields_rounds : ∀ (n : Nat) (p : ConfigParser) (b : Block)
    (r : ConfigParser × Block), parse_fields n p b = .ok r → FieldRounds p b r.1 r.2 := by
  intro n
  induction n with
  | zero =>
    intro p b r h
    rw [parse_fields] at h
    cases h
  | succ n ih =>
    intro p b r h
    rw [parse_fields] at h
    cases hf : parse_field p b with
    | error e => rw [hf] at h; cases h
    | ok o =>
      rw [hf] at h
      cases o with
      | none =>
        cases Except.ok.inj h
        exact FieldRounds.done p b hf
      | some r1 => exact FieldRounds.round p b r1 r.1 r.2 hf (ih r1.1 r1.2 r h)

/-- The tokens `parse_group` reads, one after the other: the id, the opening
brace, the fields, the closing brace; and the group it pushes. -/
theorem parse_group_chain {p q : ConfigParser} (h : parse_group p = .ok q) :
    ∃ (p1 p2 p3 p5 : ConfigParser) (r : ConfigParser × Block),
      p.token = "group" ∧ p.next_token = .ok p1 ∧ p1.t_type = T_IDENT ∧
      p1.next_token = .ok p2 ∧ p2.t_type = char_code '{' ∧ p2.next_token = .ok p3 ∧
      parse_fields p3.fuel p3 { parsed_group := { group_id := p1.token } } = .ok r ∧
      FieldRounds p3 { parsed_group := { group_id := p1.token } } r.1 r.2 ∧
      r.1.t_type = char_code '}' ∧ r.1.next_token = .ok p5 ∧
      q = { p5 with groups := p5.groups ++ [resolve_stat r.2 p5.global] } ∧
      r.2.Fresh ∧ r.2.parsed_group.group_id = p1.token ∧
      p5.global = p.global ∧ p5.groups = p.groups := by
  unfold parse_group at h
  obtain ⟨_, h0, h⟩ := bind_ok_inv h
  obtain ⟨p1, h1, h⟩ := bind_ok_inv h
  obtain ⟨_, h2, h⟩ := bind_ok_inv h
  obtain ⟨_, h3, h⟩ := bind_ok_inv h
  obtain ⟨p2, h4, h⟩ := bind_ok_inv h
  obtain ⟨_, h5, h⟩ := bind_ok_inv h
  obtain ⟨p3, h6, h⟩ := bind_ok_inv h
  obtain ⟨r, h7, h⟩ := bind_ok_inv h
  obtain ⟨_, h8, h⟩ := bind_ok_inv h
  obtain ⟨p5, h9, h⟩ := bind_ok_inv h
  have ht := expect_ok_inv h2
  have s1 : Strict p p1 := next_token_strict h1 (by rw [ht]; decide)
  have s3 : Strict p p3 := s1.trans_step ((next_token_step h4).trans (next_token_step h6))
  obtain ⟨f1, f2, f3, _⟩ := (parse_fields_spec p3.fuel p3 _ (remaining_lt_fuel p3)).2 r h7
  have s5 : Strict p p5 := s3.trans_step (f1.trans (next_token_step h9))
  exact ⟨p1, p2, p3, p5, r, not_not.mp (parse_error_if_ok_inv h0), h1, ht, h4,
    expect_ok_inv h5, h6, h7, parse_fields_rounds _ _ _ _ h7, expect_ok_inv h8, h9,
    (Except.ok.inj h).symm, f3 ⟨fun _ => rfl, fun _ => rfl⟩, f2, s5.2.2, s5.2.1⟩

/-- A block whose id is the id of a group already in the vector is refused
as soon as the id is read. -/
theorem parse_group_duplicate {p p1 : ConfigParser} (hk : p.token = "group")
    (h1 : p.next_token = .ok p1) (ht : p1.t_type = T_IDENT)
    (hd : ∃ g ∈ p.groups, g.group_id = p1.token) :
    parse_group p = .error (.parse_error ("group " ++ p1.token ++ " already defined")) := by
  have hg : p1.groups = p.groups := (next_token_step h1).2.1
  have hs : (find_group_id p1.groups p1.token).isSome = true := by
    rw [hg]
    exact (find_group_id_isSome_iff _ _).mpr hd
  unfold parse_group
  simp only [h1, bind, Except.bind, parse_error_if, expect, hk, ht, hs, not_true_eq_false,
    if_true, if_false, pure, Except.pure, ne_eq]

/-- The loop over the group blocks has fuel enough and keeps the ids of the
vector distinct. -/
theorem parse_group_loop_spec : ∀ (n : Nat) (p : ConfigParser), p.remaining < n →
    parse_group_loop n p ≠ .error .out_of_fuel ∧
    ∀ q, parse_group_loop n p = .ok q →
      q.remaining ≤ p.remaining ∧ q.global = p.global ∧
      ((p.groups.map Group.group_id).Nodup → (q.groups.map Group.group_id).Nodup) := by
  intro n
  induction n with
  | zero => intro p h; omega
  | succ n ih =>
    intro p hn
    rw [parse_group_loop]
    by_cases hk : p.token = "group"
    · rw [if_pos hk]
      cases hg : parse_group p with
      | error e =>
        simp only
        refine ⟨?_, fun q h => by cases h⟩
        intro hc
        cases hc
        exact (parse_group_spec p).1 hg
      | ok p1 =>
        simp only
        obtain ⟨t1, _, r, _, _, _, hnew, _, _, _, hid, hlt, hgl, hgr⟩ :=
          (parse_group_spec p).2 p1 hg
        obtain ⟨i1, i2⟩ := ih p1 (by omega)
        refine ⟨i1, ?_⟩
        intro q h
        obtain ⟨j1, j2, j3⟩ := i2 q h
        refine ⟨by omega, j2.trans hgl, fun hnd => j3 ?_⟩
        rw [hgr, List.map_append, List.map_singleton, resolve_stat_group_id, hid]
        apply List.Nodup.append hnd (List.nodup_singleton _)
        intro a ha hb
        rw [List.mem_singleton] at hb
        subst hb
        obtain ⟨g, hg1, hg2⟩ := List.mem_map.mp ha
        exact hnew g hg1 hg2
    · rw [if_neg hk]
      refine ⟨by simp, ?_⟩
      intro q h
      cases Except.ok.inj h
      exact ⟨le_refl _, rfl, id⟩

end ConfigParser

namespace ConfigParser

/-- The fields of the `global` block: `stat_to_judges` stores `1` for the bare
keyword and for a number other than zero, `0` for the number zero, and leaves
the other setting alone; `stat_to_users` likewise. -/
theorem parse_global_field_spec (p : ConfigParser) :
    parse_global_field p ≠ .error .out_of_fuel ∧
    ∀ q, parse_global_field p = .ok (some q) →
      q.remaining < p.remaining ∧ q.groups = p.groups ∧
      (p.token = "stat_to_judges" ∨ p.token = "stat_to_users") ∧
      (p.token = "stat_to_judges" → q.global.stat_to_users = p.global.stat_to_users) ∧
      (p.token ≠ "stat_to_judges" → q.global.stat_to_judges = p.global.stat_to_judges) ∧
      ∃ p1, p.next_token = .ok p1 ∧ ∃ n : Int, 0 ≤ n ∧
        ((p1.t_type = char_code ';' ∧ n = 1) ∨ (p1.t_type = T_IDENT ∧ stoi p1.token = some n)) ∧
        (p.token = "stat_to_judges" → q.global.stat_to_judges = if n = 0 then 0 else 1) ∧
        (p.token ≠ "stat_to_judges" → q.global.stat_to_users = if n = 0 then 0 else 1) := by
  have clamp : ∀ n : Int, 0 ≤ n → Global.clamp n = if n = 0 then 0 else 1 := by
    intro n hn
    unfold Global.clamp
    by_cases h0 : n = 0
    · subst h0; rfl
    · rw [if_neg (by omega), if_pos (by omega), if_neg h0]
  have value : ∀ r, stat_value p = .ok r → Strict p r.1 ∧ ∃ p1, p.next_token = .ok p1 ∧
      0 ≤ r.2 ∧
      ((p1.t_type = char_code ';' ∧ r.2 = 1) ∨ (p1.t_type = T_IDENT ∧ stoi p1.token = some r.2)) := by
    intro r h1
    obtain ⟨hst, p1, hp1, hv⟩ := (stat_value_spec p).2 r h1
    refine ⟨hst, p1, hp1, ?_, hv.symm⟩
    rcases hv with ⟨ht, hs⟩ | ⟨_, hs⟩
    · exact stoi_nonneg (((next_token_spec p).2 p1 hp1).2.2.2.1 ht).2 hs
    · rw [hs]; decide
  unfold parse_global_field
  by_cases k1 : p.token = "stat_to_judges"
  · rw [if_pos k1]
    constructor
    · apply bind_no_fuel (stat_value_spec p).1
      intro _ _
      simp [pure, Except.pure]
    · intro q h
      obtain ⟨r, h1, h⟩ := bind_ok_inv h
      cases Option.some.inj (Except.ok.inj h)
      obtain ⟨hst, p1, hp1, hnn, hv⟩ := value r h1
      refine ⟨hst.1, hst.2.1, Or.inl k1, fun _ => ?_, fun hc => absurd k1 hc, p1, hp1, r.2, hnn,
        hv, fun _ => clamp r.2 hnn, fun hc => absurd k1 hc⟩
      show r.1.global.stat_to_users = p.global.stat_to_users
      rw [hst.2.2]
  rw [if_neg k1]
  by_cases k2 : p.token = "stat_to_users"
  · rw [if_pos k2]
    constructor
    · apply bind_no_fuel (stat_value_spec p).1
      intro _ _
      simp [pure, Except.pure]
    · intro q h
      obtain ⟨r, h1, h⟩ := bind_ok_inv h
      cases Option.some.inj (Except.ok.inj h)
      obtain ⟨hst, p1, hp1, hnn, hv⟩ := value r h1
      refine ⟨hst.1, hst.2.1, Or.inr k2, fun hc => absurd hc k1, fun _ => ?_, p1, hp1, r.2, hnn,
        hv, fun hc => absurd hc k1, fun _ => clamp r.2 hnn⟩
      show r.1.global.stat_to_judges = p.global.stat_to_judges
      rw [hst.2.2]
  rw [if_neg k2]
  constructor
  · simp [pure, Except.pure]
  · intro q h
    cases Except.ok.inj h

theorem parse_global_fields_spec : ∀ (n : Nat) (p : ConfigParser), p.remaining < n →
    parse_global_fields n p ≠ .error .out_of_fuel ∧
    ∀ q, parse_global_fields n p = .ok q →
      q.remaining ≤ p.remaining ∧ q.groups = p.groups := by
  intro n
  induction n with
  | zero => intro p h; omega
  | succ n ih =>
    intro p hn
    rw [parse_global_fields]
    cases hf : parse_global_field p with
    | error e =>
      simp only
      refine ⟨?_, fun r h => by cases h⟩
      intro hc
      cases hc
      exact (parse_global_field_spec p).1 hf
    | ok o =>
      cases o with
      | none =>
        simp only
        refine ⟨by simp, ?_⟩
        intro q h
        cases Except.ok.inj h
        exact ⟨le_refl _, rfl⟩
      | some p1 =>
        simp only
        obtain ⟨hlt, hgr, _⟩ := (parse_global_field_spec p).2 p1 hf
        obtain ⟨i1, i2⟩ := ih p1 (by omega)
        refine ⟨i1, ?_⟩
        intro q h
        obtain ⟨j1, j2⟩ := i2 q h
        exact ⟨by omega, j2.trans hgr⟩

theorem parse_opt_global_spec (p : ConfigParser) :
    parse_opt_global p ≠ .error .out_of_fuel ∧
    ∀ q, parse_opt_global p = .ok q → q.remaining ≤ p.remaining ∧ q.groups = p.groups := by
  unfold parse_opt_global
  by_cases hk : p.token ≠ "global"
  · rw [if_pos hk]
    refine ⟨by simp, ?_⟩
    intro q h
    cases Except.ok.inj h
    exact ⟨le_refl _, rfl⟩
  · rw [if_neg hk]
    constructor
    · apply bind_no_fuel (next_token_no_fuel p)
      intro p1 _
      apply bind_no_fuel (expect_no_fuel _ _ _)
      intro _ _
      apply bind_no_fuel (next_token_no_fuel p1)
      intro p2 _
      apply bind_no_fuel (parse_global_fields_spec p2.fuel p2 (remaining_lt_fuel p2)).1
      intro p3 _
      apply bind_no_fuel (expect_no_fuel _ _ _)
      intro _ _
      exact next_token_no_fuel p3
    · intro q h
      obtain ⟨p1, h1, h⟩ := bind_ok_inv h
      obtain ⟨_, h2, h⟩ := bind_ok_inv h
      obtain ⟨p2, h3, h⟩ := bind_ok_inv h
      obtain ⟨p3, h4, h⟩ := bind_ok_inv h
      obtain ⟨_, h5, h⟩ := bind_ok_inv h
      have s1 := next_token_step h1
      have s2 := next_token_step h3
      obtain ⟨g1, g2⟩ := (parse_global_fields_spec p2.fuel p2 (remaining_lt_fuel p2)).2 p3 h4
      have s4 := next_token_step h
      exact ⟨by have := s1.1; have := s2.1; have := s4.1; omega,
        s4.2.1.trans (g2.trans (s2.2.1.trans s1.2.1))⟩

theorem parse_groups_spec (p : ConfigParser) :
    p.parse_groups ≠ .error .out_of_fuel ∧
    ∀ q, p.parse_groups = .ok q →
      ((p.groups.map Group.group_id).Nodup → (q.groups.map Group.group_id).Nodup) := by
  unfold ConfigParser.parse_groups
  constructor
  · apply bind_no_fuel (parse_group_loop_spec p.fuel p (remaining_lt_fuel p)).1
    intro p1 _
    apply bind_no_fuel
    · intro hc
      obtain ⟨msg, hm⟩ := Gvaluer.parse_groups_error p1.groups _ hc
      cases hm
    · intro _ _
      simp [pure, Except.pure]
  · intro q h hnd
    obtain ⟨p1, h1, h⟩ := bind_ok_inv h
    obtain ⟨gs, h2, h⟩ := bind_ok_inv h
    cases Except.ok.inj h
    have := (parse_group_loop_spec p.fuel p (remaining_lt_fuel p)).2 p1 h1
    have hs := ((Gvaluer.parse_groups_ok_iff _ _).mp h2).2.1
    show (gs.map Group.group_id).Nodup
    rw [hs]
    exact ((List.perm_insertionSort _ _).map _).nodup_iff.mpr (this.2.2 hnd)

end ConfigParser

namespace ConfigParser

/-- The fuel of the loops of the parser is never used up: `parse` ends with a
configuration or with a message of the source. -/
theorem parse_fuel (configpath : String) (file : Option String) :
    parse configpath file ≠ .error .out_of_fuel := by
  unfold parse
  cases file with
  | none => simp
  | some content =>
    simp only
    apply bind_no_fuel (next_token_no_fuel _)
    intro p1 _
    apply bind_no_fuel (parse_opt_global_spec p1).1
    intro p2 _
    apply bind_no_fuel (parse_groups_spec p2).1
    intro p3 _
    apply bind_no_fuel (parse_error_if_no_fuel _ _)
    intro _ _
    simp [pure, Except.pure]

/-- The group ids of a parsed configuration are pairwise distinct. -/
theorem parse_nodup {configpath : String} {file : Option String} {p : ConfigParser}
    (h : parse configpath file = .ok p) : (p.groups.map Group.group_id).Nodup := by
  unfold parse at h
  cases file with
  | none => cases h
  | some content =>
    simp only at h
    obtain ⟨p1, h1, h⟩ := bind_ok_inv h
    obtain ⟨p2, h2, h⟩ := bind_ok_inv h
    obtain ⟨p3, h3, h⟩ := bind_ok_inv h
    obtain ⟨_, h4, h⟩ := bind_ok_inv h
    cases Except.ok.inj h
    apply (parse_groups_spec p2).2 _ h3
    rw [((parse_opt_global_spec p1).2 p2 h2).2, (next_token_step h1).2.1, (next_char_fields _).1]
    exact List.nodup_nil

end ConfigParser

theorem meet_requirements_loop_fuel (groups : List Group) (rs : List String) :
    meet_requirements_loop groups rs ≠ .error .out_of_fuel := by
  induction rs with
  | nil => simp [meet_requirements_loop]
  | cons r rs ih =>
    rw [meet_requirements_loop]
    cases find_group_id groups r with
    | none => simp
    | some gg =>
      simp only
      split
      · simp
      · exact ih
/-! ## Termination of the resolver loops -/

/-- The requirements loop stops, with a result or with the fault of
`meet_requirements`, before its fuel is used up, whatever the group vector
with the ranges of the parser. -/
theorem parse_with_requirements_fuel (locale_id : Int) (fuel : Nat) :
    ∀ (groups : List Group) (t : Int), Ranged groups →
      groups_ahead groups t < fuel ∨ (t < 0 ∧ 0 < fuel) →
      parse_with_requirements locale_id fuel groups t ≠ .error .out_of_fuel := by
  induction fuel with
  | zero =>
    intro groups t _ h
    omega
  | succ fuel ih =>
    intro groups t hrg hfuel
    rw [parse_with_requirements]
    cases hf : find_group_num groups t with
    | none => simp
    | some p =>
      obtain ⟨i0, g0⟩ := p
      simp only
      obtain ⟨hg0, h01, h02, h03, h04⟩ := owner_range hrg hf
      cases hm : g0.meet_requirements groups with
      | error e =>
        simp only
        intro hc
        cases hc
        unfold Group.meet_requirements at hm
        exact meet_requirements_loop_fuel _ _ hm
      | ok res =>
        cases res with
        | none => simp
        | some gg =>
          simp only
          have hcfg : (groups.set i0 (requires_body locale_id g0 gg)).map Group.config
              = groups.map Group.config :=
            map_set_same Group.config hg0 (requires_body_config locale_id g0 gg)
          have hlt := groups_ahead_lt hg0 h02
          obtain ⟨_, _, hin, hout⟩ := moved_past h03 h01 h02 h04
          apply ih _ _ (ranged_of_config _ hcfg hrg)
          rw [groups_ahead_of_config _ hcfg]
          rcases lt_or_eq_of_le h04 with h | h
          · rw [hin h]
            left
            omega
          · rw [hout h]
            right
            unfold INT_MIN
            omega
/-- The only fault of `meet_requirements` is a required group that does not
exist. -/
theorem meet_requirements_loop_error {groups : List Group} {rs : List String} {e : Failure}
    (h : meet_requirements_loop groups rs = .error e) :
    ∃ r ∈ rs, find_group_id groups r = none ∧ e = .die ("group " ++ r ++ " not found") := by
  induction rs with
  | nil => simp [meet_requirements_loop] at h
  | cons r rs ih =>
    rw [meet_requirements_loop] at h
    cases hf : find_group_id groups r with
    | none =>
      rw [hf] at h
      exact ⟨r, List.mem_cons_self _ _, hf, (Except.error.inj h).symm⟩
    | some gg =>
      rw [hf] at h
      simp only at h
      split at h
      · cases h
      · obtain ⟨r1, h1, h2, h3⟩ := ih h
        exact ⟨r1, List.mem_cons_of_mem _ h1, h2, h3⟩

/-- A fault of the requirements loop other than the fuel is the fault of
`meet_requirements`. -/
theorem parse_with_requirements_error (locale_id : Int) (fuel : Nat) :
    ∀ (groups : List Group) (t : Int) (e : Failure),
      parse_with_requirements locale_id fuel groups t = .error e →
      e = .out_of_fuel ∨ ∃ r, e = .die ("group " ++ r ++ " not found") := by
  induction fuel with
  | zero =>
    intro groups t e h
    rw [parse_with_requirements] at h
    exact Or.inl (Except.error.inj h).symm
  | succ fuel ih =>
    intro groups t e h
    rw [parse_with_requirements] at h
    cases hf : find_group_num groups t with
    | none =>
      rw [hf] at h
      cases h
    | some p =>
      obtain ⟨i0, g0⟩ := p
      rw [hf] at h
      simp only at h
      cases hm : g0.meet_requirements groups with
      | error e1 =>
        rw [hm] at h
        cases Except.error.inj h
        unfold Group.meet_requirements at hm
        obtain ⟨r, _, _, he⟩ := meet_requirements_loop_error hm
        exact Or.inr ⟨r, he⟩
      | ok res =>
        rw [hm] at h
        cases res with
        | none => cases h
        | some gg => exact ih _ _ _ h

/-- The resolver of `scan_tests` fails only through `meet_requirements`. -/
theorem resolve_error {rejudge_flag : Bool} {locale_id : Int} {groups : List Group} {t : Int}
    {e : Failure} (hrg : Ranged groups)
    (h : resolve rejudge_flag locale_id groups t = .error e) :
    ∃ r, e = .die ("group " ++ r ++ " not found") := by
  unfold resolve at h
  cases hp : parse_with_requirements locale_id (groups.length + 1) groups t with
  | error e1 =>
    rw [hp] at h
    cases Except.error.inj h
    rcases parse_with_requirements_error _ _ _ _ _ hp with he | he
    · subst he
      exact absurd hp (parse_with_requirements_fuel locale_id _ groups t hrg
        (Or.inl (Nat.lt_succ_of_le (groups_ahead_le_length groups t))))
    · exact he
  | ok res =>
    obtain ⟨gs1, t1⟩ := res
    rw [hp] at h
    simp only at h
    have hc := (parse_with_requirements_props locale_id _ _ _ _ _ hrg hp).1
    obtain ⟨t2, hs⟩ := skip_rejudge_groups_ok rejudge_flag (gs1.length + 1) gs1 t1
      (ranged_of_config _ hc hrg) (Or.inl (Nat.lt_succ_of_le (groups_ahead_le_length gs1 t1)))
    rw [hs] at h
    cases h

/-- The skip loop has no fault other than the fuel of the model. -/
theorem skip_rejudge_groups_error (rejudge_flag : Bool) (fuel : Nat) :
    ∀ (groups : List Group) (t : Int) (e : Failure),
      skip_rejudge_groups rejudge_flag fuel groups t = .error e → e = .out_of_fuel := by
  induction fuel with
  | zero =>
    intro groups t e h
    rw [skip_rejudge_groups] at h
    exact (Except.error.inj h).symm
  | succ fuel ih =>
    intro groups t e h
    rw [skip_rejudge_groups] at h
    cases hf : find_group_num groups t with
    | none =>
      rw [hf] at h
      cases h
    | some p =>
      obtain ⟨i0, g0⟩ := p
      rw [hf] at h
      simp only at h
      split at h
      · exact ih _ _ _ h
      · cases h

/-- A fault of the resolver is the fuel of the model or the fault of
`meet_requirements`, whatever the group vector. -/
theorem resolve_error_cases {rejudge_flag : Bool} {locale_id : Int} {groups : List Group}
    {t : Int} {e : Failure} (h : resolve rejudge_flag locale_id groups t = .error e) :
    e = .out_of_fuel ∨ ∃ r, e = .die ("group " ++ r ++ " not found") := by
  unfold resolve at h
  cases hp : parse_with_requirements locale_id (groups.length + 1) groups t with
  | error e1 =>
    rw [hp] at h
    cases Except.error.inj h
    exact parse_with_requirements_error _ _ _ _ _ hp
  | ok res =>
    obtain ⟨gs1, t1⟩ := res
    rw [hp] at h
    simp only at h
    cases hs : skip_rejudge_groups rejudge_flag (gs1.length + 1) gs1 t1 with
    | error e1 =>
      rw [hs] at h
      cases Except.error.inj h
      exact Or.inl (skip_rejudge_groups_error _ _ _ _ _ hs)
    | ok t2 =>
      rw [hs] at h
      cases h

theorem group_not_found_ne (r : String) (t : Int) :
    "group " ++ r ++ " not found" ≠ "unexpected test number " ++ toString t := by
  intro h
  have := congrArg String.data h
  simp only [String.data_append] at this
  cases this

/-- A step of `scan_tests` fails with `unexpected test number` exactly when no
group owns the test pointer. -/
theorem scan_step_unexpected (rejudge_flag : Bool) (locale_id : Int) (s : State) (o : Int) :
    scan_step rejudge_flag locale_id s o =
        .error (.die ("unexpected test number " ++ toString s.test_num)) ↔
      find_group_num s.groups s.test_num = none := by
  unfold scan_step
  cases hf : find_group_num s.groups s.test_num with
  | none => simp [analyse_test_group]
  | some p =>
    obtain ⟨i, g⟩ := p
    obtain ⟨a, ha, _⟩ := analyse_test_group_eq locale_id g s.test_num o
    simp only [Option.map_some', ha]
    constructor
    · intro h
      exfalso
      split at h
      · cases h
      · split at h
        · rename_i e he
          rcases resolve_error_cases he with hr | ⟨r, hr⟩
          · rw [hr] at h
            cases h
          · rw [hr] at h
            exact group_not_found_ne r s.test_num (Failure.die.inj (Except.error.inj h))
        · cases h
    · intro h
      cases h
/-! ## Invariants of the scoring state machine -/

theorem getElem?_of_config {gs1 gs2 : List Group} (h : gs1.map Group.config = gs2.map Group.config)
    {j : Nat} {a : Group} (ha : gs1[j]? = some a) :
    ∃ b, gs2[j]? = some b ∧ a.config = b.config := by
  have h1 : (gs1.map Group.config)[j]? = some a.config := by
    rw [List.getElem?_map, ha]
    rfl
  rw [h, List.getElem?_map] at h1
  cases hb : gs2[j]? with
  | none => rw [hb] at h1; cases h1
  | some b =>
    rw [hb] at h1
    exact ⟨b, rfl, (Option.some.inj h1).symm⟩

/-- A step of `scan_tests` leaves the configuration of every group alone. -/
theorem scan_step_config {rejudge_flag : Bool} {locale_id : Int} {s s1 : State} {o : Int}
    (h : scan_step rejudge_flag locale_id s o = .ok s1) :
    s1.groups.map Group.config = s.groups.map Group.config := by
  obtain ⟨i, g, a, hf, ha, hcase⟩ := scan_step_inv h
  obtain ⟨hg, _, _⟩ := find_group_num_some hf
  obtain ⟨a1, ha1, hcfg, _⟩ := analyse_test_group_eq locale_id g s.test_num o
  rw [ha] at ha1
  cases Except.ok.inj ha1
  have hmap : (s.groups.set i a.group).map Group.config = s.groups.map Group.config :=
    map_set_same Group.config hg hcfg
  rcases hcase with ⟨_, hs1⟩ | ⟨_, hr, _⟩
  · rw [hs1]
    exact hmap
  · exact (resolve_config hr).1.trans hmap

theorem scan_tests_config (rejudge_flag : Bool) (locale_id : Int) (outcomes : List Int) :
    ∀ (s s1 : State), scan_tests rejudge_flag locale_id outcomes s = .ok s1 →
      s1.groups.map Group.config = s.groups.map Group.config := by
  induction outcomes with
  | nil =>
    intro s s1 h
    rw [scan_tests] at h
    cases Except.ok.inj h
    rfl
  | cons o rest ih =>
    intro s s1 h
    rw [scan_tests] at h
    cases hs : scan_step rejudge_flag locale_id s o with
    | error e => rw [hs] at h; cases h
    | ok s0 =>
      rw [hs] at h
      exact (ih s0 s1 h).trans (scan_step_config hs)

/-- A property of a group and the test pointer that is kept when the pointer
moves on, that does not look at the comment, and that `analyse_test_group`
keeps for the group that owns the test, is kept by a step of `scan_tests` for
every group. -/
theorem scan_step_preserves (I : Group → Int → Prop)
    (hmono : ∀ (g : Group) (t t1 : Int), I g t → Moved t t1 → I g t1)
    (hfields : ∀ (g g1 : Group) (t : Int), g1.config = g.config →
      g1.passed_count = g.passed_count → g1.passed_set = g.passed_set →
      g1.total_score = g.total_score → I g t → I g1 t)
    (hstep : ∀ (locale_id : Int) (g : Group) (t o : Int) (a : Analysed), I g t →
      0 ≤ g.first → g.first ≤ t → t ≤ g.last → g.last ≤ INT_MAX →
      analyse_test_group locale_id (some g) t o = .ok a → I a.group a.test_num)
    {rejudge_flag : Bool} {locale_id : Int} {s s1 : State} {o : Int}
    (hrg : Ranged s.groups)
    (h : scan_step rejudge_flag locale_id s o = .ok s1)
    (hinv : ∀ (j : Nat) (g : Group), s.groups[j]? = some g → I g s.test_num) :
    ∀ (j : Nat) (g : Group), s1.groups[j]? = some g → I g s1.test_num := by
  obtain ⟨i, g, a, hf, ha, hcase⟩ := scan_step_inv h
  obtain ⟨hg, h1, h2, h3, h4⟩ := owner_range hrg hf
  obtain ⟨h0, hlt, _, _⟩ := analyse_moved ha h3 h1 h2 h4
  obtain ⟨a1, ha1, hcfga, _⟩ := analyse_test_group_eq locale_id g s.test_num o
  rw [ha] at ha1
  cases Except.ok.inj ha1
  have hmap : (s.groups.set i a.group).map Group.config = s.groups.map Group.config :=
    map_set_same Group.config hg hcfga
  have hset : ∀ (j : Nat) (h0 : Group), (s.groups.set i a.group)[j]? = some h0 →
      I h0 a.test_num := by
    intro j h0 hj
    by_cases hji : i = j
    · subst hji
      rw [getElem?_set_self _ hg] at hj
      cases Option.some.inj hj
      exact hstep locale_id g s.test_num o a (hinv i g hg) h3 h1 h2 h4 ha
    · rw [getElem?_set_other _ hji] at hj
      exact hmono _ _ _ (hinv j h0 hj) (Or.inr ⟨by omega, hlt⟩)
  rcases hcase with ⟨_, hs1⟩ | ⟨_, hr, _⟩
  · rw [hs1]
    exact hset
  · obtain ⟨hcfg, hle, _, hkeep⟩ := resolve_props (ranged_of_config _ hmap hrg) hr
    intro j g1 hj
    obtain ⟨h0, hh0, hc⟩ := getElem?_of_config hcfg hj
    obtain ⟨g2, hg2, e1, e2, e3⟩ := hkeep j h0 hh0
    rw [hj] at hg2
    cases Option.some.inj hg2
    exact hfields h0 g1 _ hc e1 e2 e3 (hmono _ _ _ (hset j h0 hh0) hle)

theorem scan_tests_preserves (I : Group → Int → Prop)
    (hmono : ∀ (g : Group) (t t1 : Int), I g t → Moved t t1 → I g t1)
    (hfields : ∀ (g g1 : Group) (t : Int), g1.config = g.config →
      g1.passed_count = g.passed_count → g1.passed_set = g.passed_set →
      g1.total_score = g.total_score → I g t → I g1 t)
    (hstep : ∀ (locale_id : Int) (g : Group) (t o : Int) (a : Analysed), I g t →
      0 ≤ g.first → g.first ≤ t → t ≤ g.last → g.last ≤ INT_MAX →
      analyse_test_group locale_id (some g) t o = .ok a → I a.group a.test_num)
    (rejudge_flag : Bool) (locale_id : Int) (outcomes : List Int) :
    ∀ (s s1 : State), Ranged s.groups →
      scan_tests rejudge_flag locale_id outcomes s = .ok s1 →
      (∀ (j : Nat) (g : Group), s.groups[j]? = some g → I g s.test_num) →
      ∀ (j : Nat) (g : Group), s1.groups[j]? = some g → I g s1.test_num := by
  induction outcomes with
  | nil =>
    intro s s1 _ h hinv
    rw [scan_tests] at h
    cases Except.ok.inj h
    exact hinv
  | cons o rest ih =>
    intro s s1 hrg h hinv
    rw [scan_tests] at h
    cases hs : scan_step rejudge_flag locale_id s o with
    | error e => rw [hs] at h; cases h
    | ok s0 =>
      rw [hs] at h
      exact ih s0 s1 (ranged_of_config _ (scan_step_config hs) hrg) h
        (scan_step_preserves I hmono hfields hstep hrg hs hinv)
theorem config_fields {g g1 : Group} (h : g1.config = g.config) :
    g1.first = g.first ∧ g1.last = g.last ∧ g1.test_score = g.test_score ∧
    g1.score = g.score ∧ g1.is_offline = g.is_offline ∧ g1.group_id = g.group_id ∧
    g1.pass_if_count = g.pass_if_count ∧ g1.sets_marked = g.sets_marked ∧
    g1.sets_marked_if_passed = g.sets_marked_if_passed ∧ g1.user_status = g.user_status :=
  ⟨show g1.config.first = g.config.first from congrArg (fun x : Group => x.first) h,
   show g1.config.last = g.config.last from congrArg (fun x : Group => x.last) h,
   show g1.config.test_score = g.config.test_score from
     congrArg (fun x : Group => x.test_score) h,
   show g1.config.score = g.config.score from congrArg (fun x : Group => x.score) h,
   show g1.config.is_offline = g.config.is_offline from
     congrArg (fun x : Group => x.is_offline) h,
   show g1.config.group_id = g.config.group_id from congrArg (fun x : Group => x.group_id) h,
   show g1.config.pass_if_count = g.config.pass_if_count from
     congrArg (fun x : Group => x.pass_if_count) h,
   show g1.config.sets_marked = g.config.sets_marked from
     congrArg (fun x : Group => x.sets_marked) h,
   show g1.config.sets_marked_if_passed = g.config.sets_marked_if_passed from
     congrArg (fun x : Group => x.sets_marked_if_passed) h,
   show g1.config.user_status = g.config.user_status from
     congrArg (fun x : Group => x.user_status) h⟩

/-- What `analyse_test_group` does to the counters of the group, outcome by
outcome. -/
theorem analyse_counters {locale_id : Int} {g : Group} {t o : Int} {a : Analysed}
    (ha : analyse_test_group locale_id (some g) t o = .ok a) :
    a.group.config = g.config ∧
    (o = RUN_OK → a.test_num = wrap (t + 1) ∧ a.group.passed_count = g.passed_count + 1 ∧
      a.group.passed_set = insert t g.passed_set ∧
      a.group.total_score =
        (if 0 < g.test_score then wrap (g.total_score + g.test_score) else g.total_score)) ∧
    (o ≠ RUN_OK → a.group.passed_count = g.passed_count ∧ a.group.passed_set = g.passed_set ∧
      (a.group.total_score = g.total_score ∨
        (a.group.total_score = 0 ∧ 0 ≤ g.test_score ∧ t = g.last ∧
          a.test_num = wrap (t + 1)))) := by
  obtain ⟨a1, ha1, hcfg, _, hok, hts, hall, hstop⟩ := analyse_test_group_eq locale_id g t o
  rw [ha] at ha1
  cases Except.ok.inj ha1
  refine ⟨hcfg, ?_, ?_⟩
  · intro ho
    obtain ⟨e1, e2⟩ := hok ho
    rw [e1]
    refine ⟨e2, ?_⟩
    by_cases hp : 0 < g.test_score
    · simp [Group.add_passed_test, Group.add_total_score, Group.inc_passed_count, hp]
    · simp [Group.add_passed_test, Group.add_total_score, Group.inc_passed_count, hp]
  · intro ho
    by_cases h0 : 0 ≤ g.test_score
    · obtain ⟨e1, e2⟩ := hts ho h0
      rw [e1]
      unfold handle_bytest_score
      by_cases hl : t = g.last
      · rw [if_pos hl]
        cases hz : g.is_zero_set with
        | true =>
          rw [if_pos rfl]
          exact ⟨rfl, rfl, Or.inr ⟨rfl, h0, hl, e2⟩⟩
        | false =>
          rw [if_neg (by decide)]
          exact ⟨rfl, rfl, Or.inl rfl⟩
      · rw [if_neg hl]
        exact ⟨rfl, rfl, Or.inl rfl⟩
    · have h0 : g.test_score < 0 := not_le.mp h0
      cases hta : g.test_all with
      | true =>
        obtain ⟨e1, _⟩ := hall ho h0 hta
        rw [e1]
        exact ⟨rfl, rfl, Or.inl rfl⟩
      | false =>
        obtain ⟨e1, _⟩ := hstop ho h0 hta
        rw [e1]
        unfold handle_test_stop
        split
        · exact ⟨rfl, rfl, Or.inl rfl⟩
        · exact ⟨rfl, rfl, Or.inl rfl⟩

theorem countInv_mono (g : Group) (t t1 : Int) (h : g.CountInv t) (ht : Moved t t1) :
    g.CountInv t1 := by
  refine ⟨h.1, fun x hx => ⟨(h.2 x hx).1, (h.2 x hx).2.1, ?_⟩⟩
  have := (h.2 x hx).2.2
  unfold Moved INT_MIN at ht
  omega

theorem countInv_fields (g g1 : Group) (t : Int) (hc : g1.config = g.config)
    (e1 : g1.passed_count = g.passed_count) (e2 : g1.passed_set = g.passed_set)
    (_ : g1.total_score = g.total_score) (h : g.CountInv t) : g1.CountInv t := by
  obtain ⟨f1, f2, _⟩ := config_fields hc
  unfold Group.CountInv
  rw [e1, e2, f1, f2]
  exact h

theorem countInv_step (locale_id : Int) (g : Group) (t o : Int) (a : Analysed)
    (h : g.CountInv t) (h0 : 0 ≤ g.first) (h1 : g.first ≤ t) (h2 : t ≤ g.last)
    (h3 : g.last ≤ INT_MAX)
    (ha : analyse_test_group locale_id (some g) t o = .ok a) : a.group.CountInv a.test_num := by
  obtain ⟨hcfg, hok, hbad⟩ := analyse_counters ha
  obtain ⟨f1, f2, _⟩ := config_fields hcfg
  obtain ⟨ht0, hlt, _, _⟩ := analyse_moved ha h0 h1 h2 h3
  have hlt2 : ∀ x : Int, x ≤ t → (x < a.test_num ∨ a.test_num < 0) := by
    intro x hx
    unfold INT_MIN at hlt
    omega
  have hold : ∀ x ∈ g.passed_set, x < t := by
    intro x hx
    have := (h.2 x hx).2.2
    omega
  unfold Group.CountInv
  rw [f1, f2]
  by_cases ho : o = RUN_OK
  · obtain ⟨e0, e1, e2, _⟩ := hok ho
    have hnot : t ∉ g.passed_set := fun hx => lt_irrefl t (hold t hx)
    rw [e1, e2, Finset.card_insert_of_not_mem hnot, h.1]
    refine ⟨by push_cast; ring, ?_⟩
    intro x hx
    rcases Finset.mem_insert.mp hx with rfl | hx
    · exact ⟨h1, h2, hlt2 x (le_refl _)⟩
    · exact ⟨(h.2 x hx).1, (h.2 x hx).2.1, hlt2 x (le_of_lt (hold x hx))⟩
  · obtain ⟨e1, e2, _⟩ := hbad ho
    rw [e1, e2]
    exact ⟨h.1, fun x hx => ⟨(h.2 x hx).1, (h.2 x hx).2.1, hlt2 x (le_of_lt (hold x hx))⟩⟩

theorem scoreInv_mono (g : Group) (t t1 : Int) (h : g.ScoreInv t) (ht : Moved t t1) :
    g.ScoreInv t1 := by
  refine ⟨h.1, fun h0 => ?_⟩
  rcases h.2 h0 with e | ⟨e, hl⟩
  · exact Or.inl e
  · exact Or.inr ⟨e, left_of_moved hl ht⟩

theorem scoreInv_fields (g g1 : Group) (t : Int) (hc : g1.config = g.config)
    (e1 : g1.passed_count = g.passed_count) (_ : g1.passed_set = g.passed_set)
    (e3 : g1.total_score = g.total_score) (h : g.ScoreInv t) : g1.ScoreInv t := by
  obtain ⟨_, f2, f3, _⟩ := config_fields hc
  unfold Group.ScoreInv Group.Left
  rw [e1, e3, f2, f3]
  exact h

theorem scoreInv_step (locale_id : Int) (g : Group) (t o : Int) (a : Analysed)
    (h : g.ScoreInv t) (h0 : 0 ≤ g.first) (h1 : g.first ≤ t) (h2 : t ≤ g.last)
    (h3 : g.last ≤ INT_MAX)
    (ha : analyse_test_group locale_id (some g) t o = .ok a) : a.group.ScoreInv a.test_num := by
  obtain ⟨hcfg, hok, hbad⟩ := analyse_counters ha
  obtain ⟨_, f2, f3, _⟩ := config_fields hcfg
  obtain ⟨ht0, hlt, _, _⟩ := analyse_moved ha h0 h1 h2 h3
  have hnl : ¬ g.Left t := by
    unfold Group.Left
    omega
  have hmv : Moved t a.test_num := Or.inr ⟨ht0, hlt⟩
  unfold Group.ScoreInv Group.Left
  rw [f2, f3]
  by_cases ho : o = RUN_OK
  · obtain ⟨_, e1, _, e3⟩ := hok ho
    rw [e1, e3]
    constructor
    · intro hneg
      rw [if_neg (by omega), h.1 hneg]
    · intro h0
      left
      rcases h.2 h0 with e | ⟨_, hl⟩
      · rw [e]
        by_cases hp : 0 < g.test_score
        · rw [if_pos hp, wrap_add_wrap]
          congr 1
          ring
        · have hz : g.test_score = 0 := by omega
          rw [if_neg hp, hz]
          simp
      · exact absurd hl hnl
  · obtain ⟨e1, _, e3⟩ := hbad ho
    rw [e1]
    rcases e3 with e3 | ⟨e3, _, hl, ht1⟩
    · rw [e3]
      refine ⟨h.1, fun h0 => ?_⟩
      rcases h.2 h0 with e | ⟨e, hl⟩
      · exact Or.inl e
      · exact absurd hl hnl
    · rw [e3]
      refine ⟨fun _ => rfl, fun _ => Or.inr ⟨rfl, ?_⟩⟩
      unfold INT_MIN at hlt
      omega
namespace ConfigParser

/-- A round of the loop of `parse_group` keeps the group plain. -/
theorem parse_field_plain {p : ConfigParser} {b : Block} {r : ConfigParser × Block}
    (h : parse_field p b = .ok (some r)) (hb : b.parsed_group.Plain) :
    r.2.parsed_group.Plain := by
  unfold parse_field at h
  simp only at h
  obtain ⟨b1, b2, b3, b4, b5, b6, b7, b8, b9⟩ := hb
  have keep : ∀ g1 : Group, g1.first = b.parsed_group.first → g1.last = b.parsed_group.last →
      g1.score = b.parsed_group.score → g1.test_score = b.parsed_group.test_score →
      g1.passed_count = b.parsed_group.passed_count →
      g1.total_score = b.parsed_group.total_score → g1.comment = b.parsed_group.comment →
      g1.passed_set = b.parsed_group.passed_set → g1.Plain := by
    intro g1 e1 e2 e3 e4 e5 e6 e7 e8
    unfold Group.Plain
    rw [e1, e2, e3, e4, e5, e6, e7, e8]
    exact ⟨b1, b2, b3, b4, b5, b6, b7, b8, b9⟩
  by_cases k1 : p.token = "tests"
  · rw [if_pos k1] at h
    obtain ⟨r1, h1, h⟩ := bind_ok_inv h
    obtain ⟨_, f, l, hf, hl, hr⟩ := (parse_tests_spec p b).2 r1 h1
    have hmax := parse_tests_range h1
    cases Option.some.inj (Except.ok.inj h)
    rw [hr] at hmax ⊢
    exact ⟨hl, by show 0 ≤ f; omega, b3, b4, b5, b6, b7, b8, hmax⟩
  rw [if_neg k1] at h
  by_cases k2 : p.token = "requires"
  · rw [if_pos k2] at h
    obtain ⟨r1, h1, h⟩ := bind_ok_inv h
    cases Option.some.inj (Except.ok.inj h)
    exact keep _ rfl rfl rfl rfl rfl rfl rfl rfl
  rw [if_neg k2] at h
  by_cases k3 : p.token = "sets_marked_if_passed"
  · rw [if_pos k3] at h
    obtain ⟨r1, h1, h⟩ := bind_ok_inv h
    cases Option.some.inj (Except.ok.inj h)
    exact keep _ rfl rfl rfl rfl rfl rfl rfl rfl
  rw [if_neg k3] at h
  by_cases k4 : p.token = "0_if"
  · rw [if_pos k4] at h
    obtain ⟨r1, h1, h⟩ := bind_ok_inv h
    obtain ⟨_, zs, _, hr⟩ := (parse_zero_if_spec p b).2 r1 h1
    cases Option.some.inj (Except.ok.inj h)
    rw [hr]
    exact keep _ rfl rfl rfl rfl rfl rfl rfl rfl
  rw [if_neg k4] at h
  by_cases k5 : p.token = "offline"
  · rw [if_pos k5] at h
    obtain ⟨r1, h1, h⟩ := bind_ok_inv h
    cases Option.some.inj (Except.ok.inj h)
    exact keep _ rfl rfl rfl rfl rfl rfl rfl rfl
  rw [if_neg k5] at h
  by_cases k6 : p.token = "sets_marked"
  · rw [if_pos k6] at h
    obtain ⟨r1, h1, h⟩ := bind_ok_inv h
    cases Option.some.inj (Except.ok.inj h)
    exact keep _ rfl rfl rfl rfl rfl rfl rfl rfl
  rw [if_neg k6] at h
  by_cases k7 : p.token = "skip"
  · rw [if_pos k7] at h
    obtain ⟨r1, h1, h⟩ := bind_ok_inv h
    cases Option.some.inj (Except.ok.inj h)
    exact keep _ rfl rfl rfl rfl rfl rfl rfl rfl
  rw [if_neg k7] at h
  by_cases k8 : p.token = "skip_if_not_rejudge"
  · rw [if_pos k8] at h
    obtain ⟨r1, h1, h⟩ := bind_ok_inv h
    cases Option.some.inj (Except.ok.inj h)
    exact keep _ rfl rfl rfl rfl rfl rfl rfl rfl
  rw [if_neg k8] at h
  by_cases k9 : p.token = "stat_to_judges"
  · rw [if_pos k9] at h
    obtain ⟨r1, h1, h⟩ := bind_ok_inv h
    split at h
    · cases Option.some.inj (Except.ok.inj h)
      exact keep _ rfl rfl rfl rfl rfl rfl rfl rfl
    · cases Option.some.inj (Except.ok.inj h)
      exact keep _ rfl rfl rfl rfl rfl rfl rfl rfl
  rw [if_neg k9] at h
  by_cases k10 : p.token = "stat_to_users"
  · rw [if_pos k10] at h
    obtain ⟨r1, h1, h⟩ := bind_ok_inv h
    split at h
    · cases Option.some.inj (Except.ok.inj h)
      exact keep _ rfl rfl rfl rfl rfl rfl rfl rfl
    · cases Option.some.inj (Except.ok.inj h)
      exact keep _ rfl rfl rfl rfl rfl rfl rfl rfl
  rw [if_neg k10] at h
  by_cases k11 : p.token = "test_all"
  · rw [if_pos k11] at h
    obtain ⟨r1, h1, h⟩ := bind_ok_inv h
    cases Option.some.inj (Except.ok.inj h)
    exact keep _ rfl rfl rfl rfl rfl rfl rfl rfl
  rw [if_neg k11] at h
  by_cases k12 : p.token = "score"
  · rw [if_pos k12] at h
    obtain ⟨r1, h1, h⟩ := bind_ok_inv h
    have hv := ((num_value_spec p _ _).2 r1 h1).2
    cases Option.some.inj (Except.ok.inj h)
    exact ⟨b1, b2, by simpa using hv, b4, b5, b6, b7, b8, b9⟩
  rw [if_neg k12] at h
  by_cases k13 : p.token = "test_score"
  · rw [if_pos k13] at h
    obtain ⟨r1, h1, h⟩ := bind_ok_inv h
    have hv := ((num_value_spec p _ _).2 r1 h1).2
    cases Option.some.inj (Except.ok.inj h)
    have hv1 : 0 ≤ r1.2 := by simpa using hv
    exact ⟨b1, b2, b3, by show -1 ≤ r1.2; omega, b5, b6, b7, b8, b9⟩
  rw [if_neg k13] at h
  by_cases k14 : p.token = "pass_if_count"
  · rw [if_pos k14] at h
    obtain ⟨r1, h1, h⟩ := bind_ok_inv h
    cases Option.some.inj (Except.ok.inj h)
    exact keep _ rfl rfl rfl rfl rfl rfl rfl rfl
  rw [if_neg k14] at h
  by_cases k15 : p.token = "user_status"
  · rw [if_pos k15] at h
    obtain ⟨r1, h1, h⟩ := bind_ok_inv h
    cases Option.some.inj (Except.ok.inj h)
    exact keep _ rfl rfl rfl rfl rfl rfl rfl rfl
  rw [if_neg k15] at h
  cases Except.ok.inj h

theorem parse_fields_plain : ∀ (n : Nat) (p : ConfigParser) (b : Block)
    (r : ConfigParser × Block), parse_fields n p b = .ok r → b.parsed_group.Plain →
    r.2.parsed_group.Plain := by
  intro n
  induction n with
  | zero =>
    intro p b r h
    rw [parse_fields] at h
    cases h
  | succ n ih =>
    intro p b r h hb
    rw [parse_fields] at h
    cases hf : parse_field p b with
    | error e => rw [hf] at h; cases h
    | ok o =>
      rw [hf] at h
      cases o with
      | none =>
        cases Except.ok.inj h
        exact hb
      | some r1 => exact ih r1.1 r1.2 r h (parse_field_plain hf hb)

theorem resolve_stat_plain (b : Block) (gl : Global) (hb : b.parsed_group.Plain) :
    (resolve_stat b gl).Plain := by
  unfold resolve_stat
  simp only
  split <;> split <;> exact hb

/-- The loop over the group blocks pushes plain groups only. -/
theorem parse_group_loop_plain : ∀ (n : Nat) (p q : ConfigParser),
    parse_group_loop n p = .ok q → (∀ g ∈ p.groups, g.Plain) → ∀ g ∈ q.groups, g.Plain := by
  intro n
  induction n with
  | zero =>
    intro p q h
    rw [parse_group_loop] at h
    cases h
  | succ n ih =>
    intro p q h hp
    rw [parse_group_loop] at h
    by_cases hk : p.token = "group"
    · rw [if_pos hk] at h
      cases hg : parse_group p with
      | error e => rw [hg] at h; cases h
      | ok p1 =>
        rw [hg] at h
        obtain ⟨t1, p3, r, _, _, _, _, _, hf, _, _, _, _, hgr⟩ := (parse_group_spec p).2 p1 hg
        apply ih p1 q h
        intro g hgm
        rw [hgr] at hgm
        rcases List.mem_append.mp hgm with hgm | hgm
        · exact hp g hgm
        · rw [List.mem_singleton] at hgm
          subst hgm
          apply resolve_stat_plain
          apply parse_fields_plain _ _ _ _ hf
          exact ⟨le_refl _, le_refl _, le_refl _, le_refl _, rfl, rfl, rfl, rfl,
            (by decide : (0 : Int) ≤ INT_MAX)⟩
    · rw [if_neg hk] at h
      cases Except.ok.inj h
      exact hp

end ConfigParser

/-- What `parse_config` delivers is a validated vector of plain groups with
distinct ids. -/
theorem parse_config_plain {content : String} {groups : List Group}
    (h : parse_config content = .ok groups) :
    Validated groups ∧ (groups.map Group.group_id).Nodup ∧ ∀ g ∈ groups, g.Plain := by
  unfold parse_config at h
  split at h
  · cases h
  · rename_i p hp
    cases Except.ok.inj h
    refine ⟨?_, ConfigParser.parse_nodup hp, ?_⟩
    · unfold ConfigParser.parse at hp
      simp only at hp
      obtain ⟨p1, h1, hp⟩ := bind_ok_inv hp
      obtain ⟨p2, h2, hp⟩ := bind_ok_inv hp
      obtain ⟨p3, h3, hp⟩ := bind_ok_inv hp
      obtain ⟨_, h4, hp⟩ := bind_ok_inv hp
      cases Except.ok.inj hp
      unfold ConfigParser.parse_groups at h3
      obtain ⟨q1, g1, h3⟩ := bind_ok_inv h3
      obtain ⟨gs, g2, h3⟩ := bind_ok_inv h3
      cases Except.ok.inj h3
      exact validated_of_parse_groups g2
    · unfold ConfigParser.parse at hp
      simp only at hp
      obtain ⟨p1, h1, hp⟩ := bind_ok_inv hp
      obtain ⟨p2, h2, hp⟩ := bind_ok_inv hp
      obtain ⟨p3, h3, hp⟩ := bind_ok_inv hp
      obtain ⟨_, h4, hp⟩ := bind_ok_inv hp
      cases Except.ok.inj hp
      unfold ConfigParser.parse_groups at h3
      obtain ⟨q1, g1, h3⟩ := bind_ok_inv h3
      obtain ⟨gs, g2, h3⟩ := bind_ok_inv h3
      cases Except.ok.inj h3
      have hs := ((parse_groups_ok_iff _ _).mp g2).2.1
      have hq1 : ∀ g ∈ q1.groups, g.Plain := by
        apply ConfigParser.parse_group_loop_plain _ _ _ g1
        rw [((ConfigParser.parse_opt_global_spec p1).2 p2 h2).2,
          (ConfigParser.next_token_step h1).2.1, (ConfigParser.next_char_fields _).1]
        intro g hg
        cases hg
      intro g hg
      change g ∈ gs at hg
      rw [hs] at hg
      exact hq1 g ((List.perm_insertionSort _ _).mem_iff.mp hg)
/-- Every configuration the parser accepts has ranges of test numbers of the
type `int`: the hypothesis `Ranged` leaves out no accepted file. -/
theorem parse_config_ranged {content : String} {groups : List Group}
    (h : parse_config content = .ok groups) : Ranged groups :=
  fun g hg =>
    ⟨((parse_config_plain h).2.2 g hg).2.1, ((parse_config_plain h).2.2 g hg).2.2.2.2.2.2.2.2⟩

/-! ## States reached over a validated configuration -/

/-- Every `sets_marked_if_passed` entry of a validated configuration names one
of its groups. -/
theorem validated_marks {groups : List Group} (h : Validated groups) :
    ∀ g ∈ groups, ∀ r ∈ g.sets_marked_if_passed, ∃ h1 ∈ groups, h1.group_id = r := by
  have hm := (check_marks_ok_iff groups).mp ((parse_groups_ok_iff groups groups).mp h).2.2.2.2.1
  intro g hg r hr
  obtain ⟨i, hi⟩ := List.mem_iff_getElem?.mp hg
  obtain ⟨h1, hmem, hid⟩ := hm i g hi r hr
  exact ⟨h1, List.mem_of_mem_take hmem, hid⟩

theorem mem_of_config {gs1 gs2 : List Group} (h : gs1.map Group.config = gs2.map Group.config)
    {g : Group} (hg : g ∈ gs1) : ∃ g2 ∈ gs2, g.config = g2.config := by
  have hgc : g.config ∈ gs2.map Group.config := by
    rw [← h]; exact List.mem_map_of_mem _ hg
  obtain ⟨g2, hg2, hc2⟩ := List.mem_map.mp hgc
  exact ⟨g2, hg2, hc2.symm⟩

/-- The ranges of a configuration the parser delivers. -/
theorem ranged_of_plain {groups : List Group} (h : ∀ g ∈ groups, g.Plain) : Ranged groups :=
  fun g hg => ⟨(h g hg).2.1, (h g hg).2.2.2.2.2.2.2.2⟩

/-- What a state reached from the initial state over a validated configuration
has kept of that configuration.  The pointer is a test number, or `INT_MIN`
after a group that ends at the largest `int`. -/
theorem run_facts {rejudge_flag : Bool} {locale_id : Int} {cfg : List Group}
    {outcomes : List Int} {s : State} (hvalid : Validated cfg) (hrg : Ranged cfg)
    (hrun : scan_tests rejudge_flag locale_id outcomes (State.init cfg) = .ok s) :
    s.groups.map Group.config = cfg.map Group.config ∧
    (1 ≤ s.test_num ∨ s.test_num = INT_MIN) ∧
    Resolvable s.groups ∧
    (∀ (i j : Nat) (gi gj : Group), i < j → s.groups[i]? = some gi → s.groups[j]? = some gj →
      gi.last < gj.first) ∧
    (∀ (i : Nat) (g : Group) (t : Int), s.groups[i]? = some g → g.first ≤ t → t ≤ g.last →
      find_group_num s.groups t = some (i, g)) ∧
    Ranged s.groups := by
  have hc : s.groups.map Group.config = cfg.map Group.config :=
    scan_tests_config rejudge_flag locale_id outcomes _ _ hrun
  have ht : 1 ≤ s.test_num ∨ s.test_num = INT_MIN := by
    have := (scan_tests_frozen rejudge_flag locale_id outcomes _ _ hrg hrun).1
    unfold Moved at this
    have h1 : (State.init cfg).test_num = 1 := rfl
    rw [h1] at this
    omega
  have hsep : ∀ (i j : Nat) (gi gj : Group), i < j → s.groups[i]? = some gi →
      s.groups[j]? = some gj → gi.last < gj.first := by
    intro i j gi gj hij hi hj
    obtain ⟨ci, hci, ei⟩ := getElem?_of_config hc hi
    obtain ⟨cj, hcj, ej⟩ := getElem?_of_config hc hj
    have := validated_separated hvalid i j ci cj hij hci hcj
    rw [(config_fields ei).2.1, (config_fields ej).1]
    exact this
  refine ⟨hc, ht, resolvable_of_config _ hc (validated_resolvable hvalid), hsep, ?_,
    ranged_of_config _ hc hrg⟩
  intro i g t hg h1 h2
  apply find_group_num_of_owner hg h1 h2
  intro j hj hlt hjh
  have := hsep j i hj g hlt hjh hg
  omega
/-! ## Positions of the tokens -/

namespace ConfigParser

theorem position_after_append (before : List Char) (c : Char) :
    position_after (before ++ [c]) = advance (position_after before) c := by
  unfold position_after
  rw [List.foldl_append]
  rfl

/-- The method `next_char` keeps track of the position: it takes the character
held so far into the text read. -/
theorem tracks_next_char_of {content before : List Char} {p : ConfigParser}
    (h1 : content = before ++ p.in_c.toList ++ p.in_f)
    (h4 : (p.line, p.pos) = position_after (before ++ p.in_c.toList)) :
    TracksAt content (before ++ p.in_c.toList) p.next_char := by
  unfold next_char
  cases hf : p.in_f with
  | nil =>
    simp only
    refine ⟨?_, fun _ => rfl, ?_, ?_⟩
    · rw [h1, hf]
      simp
    · exact Prod.ext (congrArg Prod.fst h4) (congrArg Prod.snd h4)
    · show (p.line, p.pos) = position_after (before ++ p.in_c.toList ++ [])
      rw [List.append_nil]
      exact h4
  | cons c rest =>
    have hl : p.line = (position_after (before ++ p.in_c.toList)).1 := congrArg Prod.fst h4
    have hp : p.pos = (position_after (before ++ p.in_c.toList)).2 := congrArg Prod.snd h4
    have hcontent : content = before ++ p.in_c.toList ++ [c] ++ rest := by
      rw [h1, hf]
      simp
    simp only
    by_cases c1 : c = '\n'
    · rw [if_pos c1]
      refine ⟨hcontent, fun hc => Option.noConfusion hc, h4, ?_⟩
      show (p.line + 1, (0 : Int)) = position_after (before ++ p.in_c.toList ++ [c])
      rw [position_after_append, advance, if_pos c1, hl]
    · rw [if_neg c1]
      by_cases c2 : c = '\t'
      · rw [if_pos c2]
        refine ⟨hcontent, fun hc => Option.noConfusion hc, h4, ?_⟩
        show (p.line, (p.pos + 8) / 8 * 8) = position_after (before ++ p.in_c.toList ++ [c])
        rw [position_after_append, advance, if_neg c1, if_pos c2, hl, hp]
        refine Prod.ext rfl ?_
        show ((position_after (before ++ p.in_c.toList)).2 + 8) / 8 * 8 =
          ((position_after (before ++ p.in_c.toList)).2 / 8 + 1) * 8
        omega
      · rw [if_neg c2]
        by_cases c3 : c ≥ ' '
        · rw [if_pos c3]
          refine ⟨hcontent, fun hc => Option.noConfusion hc, h4, ?_⟩
          show (p.line, p.pos + 1) = position_after (before ++ p.in_c.toList ++ [c])
          rw [position_after_append, advance, if_neg c1, if_neg c2, if_pos c3, hl, hp]
        · rw [if_neg c3]
          refine ⟨hcontent, fun hc => Option.noConfusion hc, h4, ?_⟩
          show (p.line, p.pos) = position_after (before ++ p.in_c.toList ++ [c])
          rw [position_after_append, advance, if_neg c1, if_neg c2, if_neg c3, hl, hp]

theorem tracks_next_char {content before : List Char} {p : ConfigParser}
    (h : TracksAt content before p) :
    TracksAt content (before ++ p.in_c.toList) p.next_char :=
  tracks_next_char_of h.1 h.2.2.2

/-- The lexer of `parse` is on track after its first call of `next_char`. -/
theorem tracks_init (content : String) :
    TracksAt content.data []
      ({ in_f := content.data, line := 1, pos := 0 } : ConfigParser).next_char :=
  @tracks_next_char_of content.data [] { in_f := content.data, line := 1, pos := 0 } rfl rfl

theorem tracks_skip_while (cond : Option Char → Bool) {content : List Char} (n : Nat) :
    ∀ (before : List Char) (p q : ConfigParser), TracksAt content before p →
      skip_while cond n p = .ok q →
      ∃ skipped, TracksAt content (before ++ skipped) q ∧ q.t_line = p.t_line ∧
        q.t_pos = p.t_pos := by
  induction n with
  | zero =>
    intro before p q _ h
    rw [skip_while] at h
    cases h
  | succ n ih =>
    intro before p q ht h
    rw [skip_while] at h
    split at h
    · obtain ⟨sk, h1, h2, h3⟩ := ih _ _ _ (tracks_next_char ht) h
      obtain ⟨_, _, _, _, a5, a6⟩ := next_char_fields p
      exact ⟨p.in_c.toList ++ sk, by rw [← List.append_assoc]; exact h1, h2.trans a5,
        h3.trans a6⟩
    · cases Except.ok.inj h
      exact ⟨[], by rw [List.append_nil]; exact ht, rfl, rfl⟩

theorem tracks_find_next_char_loop {content : List Char} (n : Nat) :
    ∀ (before : List Char) (p q : ConfigParser), TracksAt content before p →
      find_next_char_loop n p = .ok q →
      ∃ skipped, TracksAt content (before ++ skipped) q ∧ q.t_line = p.t_line ∧
        q.t_pos = p.t_pos := by
  induction n with
  | zero =>
    intro before p q _ h
    rw [find_next_char_loop] at h
    cases h
  | succ n ih =>
    intro before p q ht h
    rw [find_next_char_loop] at h
    obtain ⟨p1, h1, h⟩ := bind_ok_inv h
    obtain ⟨sk1, t1, l1, c1⟩ := tracks_skip_while _ _ _ _ _ ht h1
    by_cases hc : p1.in_c ≠ some '#'
    · rw [if_pos hc] at h
      cases Except.ok.inj h
      exact ⟨sk1, t1, l1, c1⟩
    · rw [if_neg hc] at h
      obtain ⟨p2, h2, h⟩ := bind_ok_inv h
      obtain ⟨sk2, t2, l2, c2⟩ := tracks_skip_while _ _ _ _ _ t1 h2
      by_cases hn : p2.in_c = some '\n'
      · rw [if_pos hn] at h
        obtain ⟨sk3, t3, l3, c3⟩ := ih _ _ _ (tracks_next_char t2) h
        obtain ⟨_, _, _, _, a5, a6⟩ := next_char_fields p2
        refine ⟨sk1 ++ sk2 ++ p2.in_c.toList ++ sk3, ?_, l3.trans (a5.trans (l2.trans l1)),
          c3.trans (a6.trans (c2.trans c1))⟩
        simpa [List.append_assoc] using t3
      · rw [if_neg hn] at h
        obtain ⟨sk3, t3, l3, c3⟩ := ih _ _ _ t2 h
        refine ⟨sk1 ++ sk2 ++ sk3, ?_, l3.trans (l2.trans l1), c3.trans (c2.trans c1)⟩
        simpa [List.append_assoc] using t3

theorem tracks_read_name {content : List Char} (n : Nat) :
    ∀ (before : List Char) (p q : ConfigParser), TracksAt content before p →
      read_name n p = .ok q →
      ∃ cs, q.token.data = p.token.data ++ cs ∧ TracksAt content (before ++ cs) q := by
  induction n with
  | zero =>
    intro before p q _ h
    rw [read_name] at h
    cases h
  | succ n ih =>
    intro before p q ht h
    rw [read_name] at h
    split at h
    · rename_i c hin
      split at h
      · have ht1 : TracksAt content before ({ p with token := p.token.push c } : ConfigParser) :=
          ht
        obtain ⟨cs, e1, t1⟩ := ih _ _ _ (tracks_next_char ht1) h
        obtain ⟨_, _, a3, _⟩ := next_char_fields { p with token := p.token.push c }
        refine ⟨c :: cs, ?_, ?_⟩
        · rw [e1, a3]
          simp [String.push]
        · have hin1 : ({ p with token := p.token.push c } : ConfigParser).in_c = some c := hin
          rw [hin1] at t1
          simpa [List.append_assoc] using t1
      · cases Except.ok.inj h
        exact ⟨[], by simp, by rw [List.append_nil]; exact ht⟩
    · cases Except.ok.inj h
      exact ⟨[], by simp, by rw [List.append_nil]; exact ht⟩

end ConfigParser
namespace ConfigParser

theorem tracks_handleNamingToken {content before : List Char} {p q : ConfigParser}
    (ht : TracksAt content before p) (h : p.handleNamingToken = .ok (some q)) :
    TracksAt content (before ++ q.token.data) q := by
  unfold handleNamingToken at h
  split at h
  · obtain ⟨q1, h1, h⟩ := bind_ok_inv h
    cases Option.some.inj (Except.ok.inj h)
    have ht1 : TracksAt content before
        ({ p with token := "", t_type := T_IDENT, t_line := p.c_line, t_pos := p.c_pos } :
          ConfigParser) := ht
    obtain ⟨cs, e1, t1⟩ := tracks_read_name _ _ _ _ ht1 h1
    have e2 : q.token.data = cs := by simpa using e1
    rw [e2]
    exact t1
  · simp [pure, Except.pure] at h

theorem tracks_handleSeparatingToken {content before : List Char} {p q : ConfigParser}
    (ht : TracksAt content before p) (h : p.handleSeparatingToken = some q) :
    ∃ c, p.in_c = some c ∧ q.t_type = char_code c ∧ TracksAt content (before ++ [c]) q := by
  have key : ∀ (x : ConfigParser) (c : Char), x.in_c = some c → TracksAt content before x →
      TracksAt content (before ++ [c]) x.next_char := by
    intro x c hx hxt
    have := tracks_next_char hxt
    rw [hx] at this
    exact this
  unfold handleSeparatingToken at h
  split at h
  · rename_i c hin
    split at h
    · cases Option.some.inj h
      exact ⟨c, hin, (next_char_fields _).2.2.2.1, key _ c hin ht⟩
    · cases h
  · cases h

/-- Where `next_token` finds its token: behind the text read so far and what
`find_next_char` skips; the position stored for the token is the position of
its first character, and the token is the text read from there on. -/
theorem next_token_position {content before : List Char} {p q : ConfigParser}
    (ht : TracksAt content before p) (h : p.next_token = .ok q) :
    ∃ skipped tok, TracksAt content (before ++ skipped ++ tok) q ∧
      (q.t_type = T_EOF → tok = [] ∧ q.t_line = p.t_line ∧ q.t_pos = p.t_pos) ∧
      (q.t_type ≠ T_EOF →
        tok ≠ [] ∧ (q.t_line, q.t_pos) = position_after (before ++ skipped) ∧
        (q.t_type = T_IDENT → q.token.data = tok) ∧
        (q.t_type ≠ T_IDENT → ∃ c, tok = [c] ∧ q.t_type = char_code c)) := by
  obtain ⟨p1, h1, _⟩ := find_next_char_spec p
  obtain ⟨sk, t1, l1, c1⟩ := tracks_find_next_char_loop _ _ _ _ ht h1
  unfold next_token at h
  simp only [h1, bind, Except.bind] at h
  cases hin : p1.in_c with
  | none =>
    have he : p1.handleEOF = some { p1 with t_type := T_EOF, token := "" } := by
      simp [handleEOF, hin]
    simp only [he, pure, Except.pure] at h
    cases Except.ok.inj h
    refine ⟨sk, [], by rw [List.append_nil]; exact t1, fun _ => ⟨rfl, l1, c1⟩,
      fun hne => absurd rfl hne⟩
  | some c =>
    have he : p1.handleEOF = none := by simp [handleEOF, hin]
    simp only [he] at h
    obtain ⟨hyes, hno⟩ := handleNamingToken_spec p1
    cases hnc : is_name_char c with
    | true =>
      obtain ⟨q1, hq1, _, hty, hl, hp, hne, _⟩ := hyes c hin hnc
      simp only [hq1, pure, Except.pure] at h
      cases Except.ok.inj h
      refine ⟨sk, q.token.data, tracks_handleNamingToken t1 hq1,
        fun he => absurd (hty.symm.trans he) (by decide), fun _ => ⟨hne, ?_, fun _ => rfl,
          fun hni => absurd hty hni⟩⟩
      rw [hl, hp]
      exact t1.2.2.1
    | false =>
      have hnt := hno (fun d hd => by rw [hin] at hd; cases hd; exact hnc)
      simp only [hnt] at h
      cases hsep : p1.handleSeparatingToken with
      | none =>
        rw [hsep] at h
        simp only [throw, throwThe, MonadExceptOf.throw] at h
        cases h
      | some q1 =>
        rw [hsep] at h
        simp only [pure, Except.pure] at h
        cases Except.ok.inj h
        obtain ⟨_, _, hl, hp, hmem⟩ := handleSeparatingToken_spec p1 q hsep
        obtain ⟨d, _, hcode, t2⟩ := tracks_handleSeparatingToken t1 hsep
        have hcases : q.t_type = 59 ∨ q.t_type = 123 ∨ q.t_type = 125 ∨ q.t_type = 45 ∨
            q.t_type = 44 := by
          simpa [char_code] using hmem
        refine ⟨sk, [d], t2, fun he => ?_, fun _ => ⟨by simp, ?_, fun hid => ?_,
          fun _ => ⟨d, rfl, hcode⟩⟩⟩
        · exfalso
          rw [he] at hcases
          revert hcases
          decide
        · rw [hl, hp]
          exact t1.2.2.1
        · exfalso
          rw [hid] at hcases
          revert hcases
          decide

end ConfigParser

/-! ## Group predicates -/

/-- C1: `Group::is_passed` is true exactly when `passed_count >= pass_if_count`
if `pass_if_count` is set (positive), and otherwise exactly when
`passed_count == last - first + 1`. -/
theorem is_passed_iff (g : Group) :
    (0 < g.pass_if_count →
      (g.is_passed = true ↔ g.pass_if_count ≤ g.passed_count)) ∧
    (¬ 0 < g.pass_if_count →
      (g.is_passed = true ↔ g.passed_count = g.last - g.first + 1)) := by
  constructor
  · intro h
    simp [Group.is_passed, h]
  · intro h
    simp [Group.is_passed, h]

/-- C1 at a group with range `[1,3]`, `pass_if_count 2` and two passed tests:
it is passed, although not every test of the range passed. -/
theorem is_passed_iff_witness :
    0 < ex_count_done.pass_if_count ∧
    ex_count_done.passed_count ≠ ex_count_done.last - ex_count_done.first + 1 ∧
    ex_count_done.is_passed = true :=
  ⟨by decide, by decide,
    ((is_passed_iff ex_count_done).1 (by decide)).2 (by decide)⟩

/-- C2: `Group::calc_score` is the full `score` when no `test_score` is set and
every test of the range passed, `total_score` when `test_score` is set, and `0`
otherwise; in particular it is `0` for a group without `test_score` that is
passed through `pass_if_count` without having passed every test. -/
theorem calc_score_cases (g : Group) :
    (g.test_score < 0 → g.passed_count = g.last - g.first + 1 → g.calc_score = g.score) ∧
    (0 ≤ g.test_score → g.calc_score = g.total_score) ∧
    (g.test_score < 0 → g.passed_count ≠ g.last - g.first + 1 → g.calc_score = 0) ∧
    (g.test_score < 0 → 0 < g.pass_if_count → g.is_passed = true →
      g.passed_count ≠ g.last - g.first + 1 → g.calc_score = 0) := by
  refine ⟨?_, ?_, ?_, ?_⟩
  · intro h1 h2
    simp [Group.calc_score, h1, h2]
  · intro h1
    have h2 : ¬ g.test_score < 0 := not_lt.mpr h1
    simp [Group.calc_score, h1, h2]
  · intro h1 h2
    have h3 : ¬ g.test_score ≥ 0 := not_le.mpr h1
    simp [Group.calc_score, h2, h3]
  · intro h1 _ _ h2
    have h3 : ¬ g.test_score ≥ 0 := not_le.mpr h1
    simp [Group.calc_score, h2, h3]

/-- C2 at a group without `test_score`, with `score 7`, range `[1,3]` and
`pass_if_count 2`, of which two tests passed: it is passed and scores 0. -/
theorem calc_score_cases_witness :
    ex_count_done.score = 7 ∧ ex_count_done.is_passed = true ∧
    ex_count_done.calc_score = 0 :=
  ⟨by decide, by decide,
    (calc_score_cases ex_count_done).2.2.2 (by decide) (by decide) (by decide) (by decide)⟩

/-! ## The stop-on-first-failure policy -/

/-- C4: a group `g` in per-test scoring mode with a declared zero-set `Z`, at
the moment the pointer enters it, in a validated vector with ranges such as the
parser delivers.  If exactly the tests in `Z` receive `RUN_OK`
and the last test of the range receives another status, then the step that
processes the last outcome forces `total_score` to 0, attaches a non-empty
comment and leaves the group score at 0, and no later outcome changes the
group.  Before that step `total_score` holds the rewards `add_total_score`
accumulated for the passed tests, which is their exact sum when that sum is a
value of the type `int`. -/
theorem zero_set_forces_zero (rejudge_flag : Bool) (locale_id : Int) (s : State) (i : Nat)
    (g : Group) (Z : Finset Int) (body : List Int) (bad : Int)
    (hvalid : Validated s.groups) (hrg : Ranged s.groups) (hg : s.groups[i]? = some g)
    (hptr : s.test_num = g.first) (hfresh : g.passed_set = ∅)
    (hts : 0 ≤ g.test_score) (hZ : Z ∈ g.zero_sets)
    (hlen : g.first + body.length = g.last) (hbad : bad ≠ RUN_OK)
    (hok : ok_tests g.first (body ++ [bad]) = Z) :
    ∃ s0 g0 s1 g1,
      scan_tests rejudge_flag locale_id body s = .ok s0 ∧
      s0.test_num = g.last ∧ s0.groups[i]? = some g0 ∧
      scan_step rejudge_flag locale_id s0 bad = .ok s1 ∧
      scan_tests rejudge_flag locale_id (body ++ [bad]) s = .ok s1 ∧
      s1.groups[i]? = some g1 ∧
      g1.total_score = 0 ∧ g1.has_comment = true ∧ g1.calc_score = 0 ∧
      g1.passed_set = Z ∧
      g0.total_score = (Group.add_total_score^[body.count RUN_OK] g).total_score ∧
      (INT_MIN ≤ g.total_score →
        g.total_score + (if 0 < g.test_score then g.test_score else 0) * body.count RUN_OK
          ≤ INT_MAX →
        g0.total_score = g.total_score +
          (if 0 < g.test_score then g.test_score else 0) * body.count RUN_OK) ∧
      ∀ (more : List Int) (s2 : State),
        scan_tests rejudge_flag locale_id more s1 = .ok s2 → s2.groups[i]? = some g1 := by
  have hres : Resolvable s.groups := validated_resolvable hvalid
  have hbefore : ∀ (j : Nat) (h : Group), j < i → s.groups[j]? = some h →
      h.last < s.test_num := by
    intro j h hj hjh
    rw [hptr]
    exact validated_separated hvalid j i h g hj hjh hg
  obtain ⟨g0, out0, hrun, c1, _, c3, _, c5⟩ :=
    scan_tests_inside rejudge_flag locale_id i body s g hg hbefore (by omega) (by omega) hrg
      hres (fun _ _ => Or.inr (Or.inl hts))
  have hfirst : g0.first = g.first :=
    show g0.config.first = g.config.first from congrArg (fun x : Group => x.first) c1
  have hlast : g0.last = g.last :=
    show g0.config.last = g.config.last from congrArg (fun x : Group => x.last) c1
  have htsc : g0.test_score = g.test_score :=
    show g0.config.test_score = g.config.test_score from
      congrArg (fun x : Group => x.test_score) c1
  have hzs : g0.zero_sets = g.zero_sets :=
    show g0.config.zero_sets = g.config.zero_sets from
      congrArg (fun x : Group => x.zero_sets) c1
  -- the passed set before the last outcome is `Z`
  have hps : g0.passed_set = Z := by
    rw [c3, hfresh, hptr, ← hok, ok_tests_append]
    simp [ok_tests, hbad]
  have hg0 : (s.groups.set i g0)[i]? = some g0 := getElem?_set_self _ hg
  have hown : find_group_num (s.groups.set i g0) (s.test_num + body.length) = some (i, g0) := by
    apply find_group_num_of_owner hg0 (by omega) (by omega)
    intro j h hj hjh
    rw [getElem?_set_other _ (by omega)] at hjh
    have := hbefore j h hj hjh
    omega
  have hmap : (s.groups.set i g0).map Group.config = s.groups.map Group.config :=
    map_set_same Group.config hg c1
  have hrg0 : Ranged (s.groups.set i g0) := ranged_of_config _ hmap hrg
  obtain ⟨a, s1, ha, hs1, _, _, _⟩ :=
    scan_step_owner rejudge_flag locale_id
      { groups := s.groups.set i g0, test_num := s.test_num + body.length, out := out0 }
      bad hown hrg0 (resolvable_of_config _ hmap hres)
  obtain ⟨a1, ha1, hcfg, _, _, hby, _, _⟩ :=
    analyse_test_group_eq locale_id g0 (s.test_num + body.length) bad
  simp only at ha
  rw [ha] at ha1
  cases Except.ok.inj ha1
  obtain ⟨hag, hat⟩ := hby hbad (by omega)
  have hzero : g0.is_zero_set = true := by
    unfold Group.is_zero_set
    rw [List.any_eq_true]
    exact ⟨Z, by rw [hzs]; exact hZ, by simp [hps]⟩
  have hag2 : a.group = (g0.set_total_score 0).set_comment (bytest_comment locale_id g0) := by
    rw [hag]
    unfold handle_bytest_score
    have : s.test_num + (body.length : Int) = g0.last := by omega
    simp [this, hzero]
  have hat2 : a.test_num = wrap (g0.last + 1) := by
    rw [hat]
    congr 1
    omega
  obtain ⟨hgrp, _, _, _, hfro⟩ := scan_step_leaves
    (s := { groups := s.groups.set i g0, test_num := s.test_num + body.length, out := out0 })
    hrg0 hown ha hs1 hat2
  refine ⟨_, g0, s1, a.group, hrun, by simp only; omega, hg0, hs1, ?_, hgrp, ?_, ?_, ?_, ?_, c5,
    fun h1 h2 => by rw [c5]; exact iterate_total_exact _ g h1 h2, hfro⟩
  · rw [scan_tests_append _ _ _ _ _ _ hrun, scan_tests_single]
    exact hs1
  · rw [hag2]; rfl
  · rw [hag2]
    simp only [Group.has_comment, Group.set_comment, decide_eq_true_eq]
    exact bytest_comment_length_pos locale_id g0
  · rw [hag2]
    have : ¬ (g0.test_score < 0) := by omega
    simp [Group.calc_score, Group.set_comment, Group.set_total_score, this]
  · rw [hag2]; exact hps

/-- C4 at the range `[1,3]` with `test_score 4` and `0_if 2`: the outcomes
wrong answer, OK, wrong answer give group score 0, although the reward 4 of
test 2 had been accumulated. -/
theorem zero_set_forces_zero_witness :
    ∃ (g0 : Group) (s1 : State) (g1 : Group),
      (State.init [ex_bytest]).groups[0]? = some ex_bytest ∧
      ok_tests ex_bytest.first ([RUN_WRONG_ANSWER_ERR, RUN_OK] ++ [RUN_WRONG_ANSWER_ERR]) = {2} ∧
      g0.total_score = 4 ∧
      scan_tests false 0 ([RUN_WRONG_ANSWER_ERR, RUN_OK] ++ [RUN_WRONG_ANSWER_ERR])
        (State.init [ex_bytest]) = .ok s1 ∧
      s1.groups[0]? = some g1 ∧ g1.total_score = 0 ∧ g1.has_comment = true ∧
      g1.calc_score = 0 := by
  obtain ⟨_, g0, s1, g1, _, _, _, _, hrun, hg1, h1, h2, h3, _, _, h5, _⟩ :=
    zero_set_forces_zero false 0 (State.init [ex_bytest]) 0 ex_bytest {2}
      [RUN_WRONG_ANSWER_ERR, RUN_OK] RUN_WRONG_ANSWER_ERR (by decide) (by decide) (by decide)
      rfl rfl (by decide) (by decide) (by decide) (by decide) (by decide)
  exact ⟨g0, s1, g1, by decide, by decide,
    by rw [h5 (by decide) (by decide)]; decide, hrun, hg1, h1, h2, h3⟩

/-! ## Zero-sets over a whole run -/

/-- C5 fails in two ways.  A group without `test_score` whose passed set equals
its zero-set `{1,2}` is scored its full `score` 10, and a group with
`test_score 4` whose passed set equals its zero-set `{3}`, which holds the last
test of the range, is scored 4. -/
theorem zero_set_not_always_zero :
    (Validated [ex_whole_zero] ∧
      scan_tests false 0 [RUN_OK, RUN_OK] (State.init [ex_whole_zero]) =
        .ok { groups := [{ ex_whole_zero with passed_count := 2, passed_set := {2, 1} }],
              test_num := 3, out := [-1, -3] } ∧
      ({2, 1} : Finset Int) ∈ ex_whole_zero.zero_sets ∧
      Group.calc_score { ex_whole_zero with passed_count := 2, passed_set := {2, 1} } = 10) ∧
    (Validated [ex_bytest_last] ∧
      scan_tests false 0 [RUN_WRONG_ANSWER_ERR, RUN_WRONG_ANSWER_ERR, RUN_OK]
          (State.init [ex_bytest_last]) =
        .ok { groups := [{ ex_bytest_last with
                            passed_count := 1, total_score := 4, passed_set := {3} }],
              test_num := 4, out := [-1, -1, -4] } ∧
      ({3} : Finset Int) ∈ ex_bytest_last.zero_sets ∧
      Group.calc_score { ex_bytest_last with
                          passed_count := 1, total_score := 4, passed_set := {3} } = 4) := by
  decide

/-- C5, amended: a group with `test_score` set whose last test receives an
outcome other than `RUN_OK`, in a vector with ranges such as the parser
delivers.  If at the end of the outcome stream the set of
passed tests of the group equals one of its zero-sets, the group score is 0. -/
theorem zero_set_scores_zero (rejudge_flag : Bool) (locale_id : Int) (s1 s3 : State)
    (i : Nat) (g1 g3 : Group) (bad : Int) (post : List Int) (hrg : Ranged s1.groups)
    (hown : find_group_num s1.groups s1.test_num = some (i, g1))
    (hlast : s1.test_num = g1.last) (hbad : bad ≠ RUN_OK)
    (hrun : scan_tests rejudge_flag locale_id (bad :: post) s1 = .ok s3)
    (hg3 : s3.groups[i]? = some g3) (hts : 0 ≤ g3.test_score)
    (hzero : g3.passed_set ∈ g3.zero_sets) :
    g3.calc_score = 0 := by
  simp only [scan_tests] at hrun
  cases hs : scan_step rejudge_flag locale_id s1 bad with
  | error e => rw [hs] at hrun; simp at hrun
  | ok s2 =>
    rw [hs] at hrun
    simp only at hrun
    obtain ⟨j, gj, a, hf, ha, hcase⟩ := scan_step_inv hs
    rw [hown] at hf
    simp only [Option.some.injEq, Prod.mk.injEq] at hf
    obtain ⟨rfl, rfl⟩ := hf
    obtain ⟨hg1, _, _⟩ := find_group_num_some hown
    obtain ⟨a1, ha1, hcfg, _, _, hby, hall, hstop⟩ :=
      analyse_test_group_eq locale_id g1 s1.test_num bad
    rw [ha] at ha1
    cases Except.ok.inj ha1
    -- the group is left at this step, and never changes again
    have hat : a.test_num = wrap (g1.last + 1) := by
      by_cases h2 : 0 ≤ g1.test_score
      · rw [(hby hbad h2).2, hlast]
      · cases h3 : g1.test_all with
        | true => rw [(hall hbad (not_le.mp h2) h3).2, hlast]
        | false => exact (hstop hbad (not_le.mp h2) h3).2
    have hs3 := (scan_step_leaves hrg hown ha hs hat).2.2.2.2 post s3 hrun
    rw [hs3] at hg3
    cases Option.some.inj hg3
    have hts1 : 0 ≤ g1.test_score := by
      have : a.group.test_score = g1.test_score :=
        show a.group.config.test_score = g1.config.test_score from
          congrArg (fun x : Group => x.test_score) hcfg
      omega
    obtain ⟨hag, _⟩ := hby hbad hts1
    have hnot : ¬ (a.group.test_score < 0) := by omega
    by_cases hz : g1.is_zero_set = true
    · have hag2 : a.group = (g1.set_total_score 0).set_comment (bytest_comment locale_id g1) := by
        rw [hag]
        unfold handle_bytest_score
        simp [hlast, hz]
      have hscore : a.group.total_score = 0 := by rw [hag2]; rfl
      simp [Group.calc_score, hnot, hscore]
    · exfalso
      have hag2 : a.group = g1 := by
        rw [hag]
        unfold handle_bytest_score
        simp [hz]
      rw [hag2] at hzero
      apply hz
      unfold Group.is_zero_set
      rw [List.any_eq_true]
      exact ⟨g1.passed_set, hzero, by simp⟩

/-- C5, amended, at the range `[1,3]` with `test_score 4` and `0_if 2`, after
the outcomes wrong answer and OK: a wrong answer for test 3 leaves the passed
set `{2}` and the group score 0. -/
theorem zero_set_scores_zero_witness :
    find_group_num [{ ex_bytest with passed_count := 1, total_score := 4, passed_set := {2} }] 3
      = some (0, { ex_bytest with passed_count := 1, total_score := 4, passed_set := {2} }) ∧
    Group.calc_score
      { ex_bytest with
          passed_count := 1, total_score := 0, passed_set := {2},
          comment := "Test group T (1-3) is scored 0 points because only specific tests " ++
            "were passed.\n" } = 0 :=
  ⟨by decide,
    zero_set_scores_zero false 0
      { groups := [{ ex_bytest with passed_count := 1, total_score := 4, passed_set := {2} }],
        test_num := 3, out := [-1, -1] }
      { groups := [{ ex_bytest with
                      passed_count := 1, total_score := 0, passed_set := {2},
                      comment := "Test group T (1-3) is scored 0 points because only " ++
                        "specific tests were passed.\n" }],
        test_num := 4, out := [-1, -1, -4] }
      0 { ex_bytest with passed_count := 1, total_score := 4, passed_set := {2} }
      _ RUN_WRONG_ANSWER_ERR [] (by decide) (by decide) (by decide) (by decide) (by decide)
      (by decide) (by decide) (by decide)⟩

/-! ## Passing a group through `pass_if_count` -/

/-- C6 fails under the default policy: with range `[1,3]` and `pass_if_count 2`
the failure of test 2 ends the group, so the third outcome is taken for test 4
of the next group and the group is left with passed tests `{1}`, not passed. -/
theorem pass_if_count_default_policy_stops :
    Validated [ex_count_stop, ex_next] ∧
    ex_count_stop.first = 1 ∧ ex_count_stop.last = 3 ∧ ex_count_stop.pass_if_count = 2 ∧
    scan_tests false 0 [RUN_OK, RUN_WRONG_ANSWER_ERR, RUN_OK]
        (State.init [ex_count_stop, ex_next]) =
      .ok { groups :=
              [{ ex_count_stop with
                  passed_count := 1, passed_set := {1},
                  comment := "Testing on tests 3-3 has not been performed, as test 2 has " ++
                    "not passed, and test group \x27P\x27 score is 0.\n" },
               { ex_next with passed_count := 1, passed_set := {4} }],
            test_num := 5, out := [-1, -4, -5] } ∧
    Group.is_passed { ex_count_stop with passed_count := 1, passed_set := {1} } = false := by
  decide

/-- C6, amended: a group with range `[1,3]` and `pass_if_count 2` that has
`test_score` or `test_all` set, run from the initial state with the outcomes
OK, not OK, OK, is left with passed tests `{1,3}` and is passed.  The groups
behind it have ranges such as the parser delivers. -/
theorem pass_if_count_passes (rejudge_flag : Bool) (locale_id : Int) (g : Group)
    (rest : List Group) (bad : Int) (hvalid : Validated (g :: rest))
    (hrg : Ranged (g :: rest)) (hfirst : g.first = 1) (hlast : g.last = 3) (hcount : g.pass_if_count = 2)
    (hmode : 0 ≤ g.test_score ∨ g.test_all = true)
    (hpc : g.passed_count = 0) (hps : g.passed_set = ∅) (hbad : bad ≠ RUN_OK) :
    ∃ s1 g1,
      scan_tests rejudge_flag locale_id [RUN_OK, bad, RUN_OK] (State.init (g :: rest))
        = .ok s1 ∧
      s1.groups[0]? = some g1 ∧ g1.passed_set = {1, 3} ∧ g1.is_passed = true ∧
      ∀ (more : List Int) (s2 : State),
        scan_tests rejudge_flag locale_id more s1 = .ok s2 → s2.groups[0]? = some g1 := by
  have hres : Resolvable (g :: rest) := validated_resolvable hvalid
  have hg : (State.init (g :: rest)).groups[0]? = some g := by simp [State.init]
  obtain ⟨g0, out0, hrun, c1, _, c3, c4, _⟩ :=
    scan_tests_inside rejudge_flag locale_id 0 [RUN_OK, bad] (State.init (g :: rest)) g hg
      (fun j h hj _ => absurd hj (Nat.not_lt_zero j)) (by simp [State.init, hfirst])
      (by simp [State.init, hlast]) hrg hres (fun _ _ => Or.inr hmode)
  have hfirst0 : g0.first = 1 := by
    rw [← hfirst]
    exact (show g0.config.first = g.config.first from congrArg (fun x : Group => x.first) c1)
  have hlast0 : g0.last = 3 := by
    rw [← hlast]
    exact (show g0.config.last = g.config.last from congrArg (fun x : Group => x.last) c1)
  have hcount0 : g0.pass_if_count = 2 := by
    rw [← hcount]
    exact (show g0.config.pass_if_count = g.config.pass_if_count from
      congrArg (fun x : Group => x.pass_if_count) c1)
  have hps0 : g0.passed_set = {1} := by
    rw [c3, hps]
    simp [State.init, ok_tests, hbad]
  have hpc0 : g0.passed_count = 1 := by
    rw [c4, hpc]
    have : List.count RUN_OK [RUN_OK, bad] = 1 := by
      simp [List.count_cons, hbad]
    rw [this]
    rfl
  have hg0 : ((State.init (g :: rest)).groups.set 0 g0)[0]? = some g0 := getElem?_set_self _ hg
  have hown : find_group_num ((State.init (g :: rest)).groups.set 0 g0)
      ((State.init (g :: rest)).test_num + ([RUN_OK, bad].length : Int)) = some (0, g0) := by
    apply find_group_num_of_owner hg0
    · rw [hfirst0]; simp [State.init]
    · rw [hlast0]; simp [State.init]
    · intro j h hj _
      exact absurd hj (Nat.not_lt_zero j)
  have hmap : ((State.init (g :: rest)).groups.set 0 g0).map Group.config =
      (State.init (g :: rest)).groups.map Group.config := map_set_same Group.config hg c1
  have hrg0 : Ranged ((State.init (g :: rest)).groups.set 0 g0) :=
    ranged_of_config _ hmap hrg
  obtain ⟨a, s1, ha, hs1, _, _, _⟩ :=
    scan_step_owner rejudge_flag locale_id
      { groups := (State.init (g :: rest)).groups.set 0 g0,
        test_num := (State.init (g :: rest)).test_num + ([RUN_OK, bad].length : Int),
        out := out0 }
      RUN_OK hown hrg0 (resolvable_of_config _ hmap hres)
  obtain ⟨a1, ha1, hcfg, _, hpass, _⟩ :=
    analyse_test_group_eq locale_id g0
      ((State.init (g :: rest)).test_num + ([RUN_OK, bad].length : Int)) RUN_OK
  simp only at ha
  rw [ha] at ha1
  cases Except.ok.inj ha1
  obtain ⟨hag, hat⟩ := hpass rfl
  have hal : a.group.last = 3 := by
    rw [← hlast0]
    exact (show a.group.config.last = g0.config.last from
      congrArg (fun x : Group => x.last) hcfg)
  have hat2 : a.test_num = wrap (g0.last + 1) := by
    rw [hat, hlast0]
    rfl
  obtain ⟨hgrp, _, _, _, hfro⟩ := scan_step_leaves
    (s := { groups := (State.init (g :: rest)).groups.set 0 g0,
            test_num := (State.init (g :: rest)).test_num + ([RUN_OK, bad].length : Int),
            out := out0 })
    hrg0 hown ha hs1 hat2
  refine ⟨s1, a.group, ?_, hgrp, ?_, ?_, hfro⟩
  · have : [RUN_OK, bad, RUN_OK] = [RUN_OK, bad] ++ [RUN_OK] := rfl
    rw [this, scan_tests_append _ _ _ _ _ _ hrun, scan_tests_single]
    exact hs1
  · rw [hag]
    have : (((g0.inc_passed_count).add_total_score).add_passed_test
        ((State.init (g :: rest)).test_num + ([RUN_OK, bad].length : Int))).passed_set
        = insert ((State.init (g :: rest)).test_num + ([RUN_OK, bad].length : Int))
            g0.passed_set := by
      unfold Group.add_passed_test Group.add_total_score Group.inc_passed_count
      split <;> rfl
    rw [this, hps0]
    simp [State.init]
    decide
  · have hcnt : a.group.pass_if_count = 2 := by
      rw [← hcount0]
      exact (show a.group.config.pass_if_count = g0.config.pass_if_count from
        congrArg (fun x : Group => x.pass_if_count) hcfg)
    have hpc1 : a.group.passed_count = 2 := by
      rw [hag]
      have : (((g0.inc_passed_count).add_total_score).add_passed_test
          ((State.init (g :: rest)).test_num + ([RUN_OK, bad].length : Int))).passed_count
          = g0.passed_count + 1 := by
        unfold Group.add_passed_test Group.add_total_score Group.inc_passed_count
        split <;> rfl
      rw [this, hpc0]
      rfl
    simp [Group.is_passed, hcnt, hpc1]

/-- C6, amended, at range `[1,3]`, `pass_if_count 2` and `test_all`: the
outcomes OK, wrong answer, OK leave the passed tests `{1,3}` and the group
passed. -/
theorem pass_if_count_passes_witness :
    ∃ (s1 : State) (g1 : Group),
      scan_tests false 0 [RUN_OK, RUN_WRONG_ANSWER_ERR, RUN_OK] (State.init [ex_count_all])
        = .ok s1 ∧
      s1.groups[0]? = some g1 ∧ g1.passed_set = {1, 3} ∧ g1.is_passed = true := by
  obtain ⟨s1, g1, h1, h2, h3, h4, _⟩ :=
    pass_if_count_passes false 0 ex_count_all [] RUN_WRONG_ANSWER_ERR (by decide) (by decide)
      rfl rfl rfl
      (Or.inr rfl) rfl rfl (by decide)
  exact ⟨s1, g1, h1, h2, h3, h4⟩

/-! ## The resolver -/

/-- C7 at the configuration `A` (test 1), `S` (test 2, `skip`), `B` (test 3,
`requires A`): after a wrong answer for test 1 the machine announces test 3,
inside `B`, although the required group `A` has not passed.  The requirements
loop stops at `S`, whose requirements hold, and the skip loop that follows does
not look at requirements. -/
theorem resolver_announces_unmet_group :
    Validated [ex_a1, ex_s2, ex_b3] ∧
    scan_tests false 0 [RUN_WRONG_ANSWER_ERR] (State.init [ex_a1, ex_s2, ex_b3]) =
      .ok { groups := [ex_a1, ex_s2, ex_b3], test_num := 3, out := [-3] } ∧
    scan_tests true 0 [RUN_WRONG_ANSWER_ERR] (State.init [ex_a1, ex_s2, ex_b3]) =
      .ok { groups := [ex_a1, ex_s2, ex_b3], test_num := 3, out := [-3] } ∧
    find_group_num [ex_a1, ex_s2, ex_b3] 3 = some (2, ex_b3) ∧
    ex_b3.meet_requirements [ex_a1, ex_s2, ex_b3] = .ok (some ex_a1) ∧
    ex_a1.is_passed = false := by
  decide

theorem mem_take_iff_getElem? (groups : List Group) (n : Nat) (h : Group) :
    h ∈ groups.take n ↔ ∃ k, k < n ∧ groups[k]? = some h := by
  rw [List.mem_iff_getElem?]
  constructor
  · rintro ⟨k, hk⟩
    have hlt : k < n := by
      by_contra hge
      rw [List.getElem?_take_eq_none (not_lt.mp hge)] at hk
      exact absurd hk (by simp)
    rw [List.getElem?_take_of_lt hlt] at hk
    exact ⟨k, hlt, hk⟩
  · rintro ⟨k, hlt, hk⟩
    exact ⟨k, by rw [List.getElem?_take_of_lt hlt]; exact hk⟩

/-- C9: `parse_groups` succeeds only if the resulting list is ordered by
`first` and every adjacent pair satisfies `next.first == prev.last + 1`; a list
whose groups sorted by `first` overlap or leave a gap is rejected with a parse
error, whatever outcomes would follow. -/
theorem parse_groups_contiguous (parsed : List Group) :
    (∀ groups, parse_groups parsed = .ok groups →
      groups.Perm parsed ∧ groups.Sorted Group.first_le ∧ List.Chain' Adjacent groups) ∧
    (¬ List.Chain' Adjacent (parsed.insertionSort Group.first_le) →
      ∃ msg, parse_groups parsed = .error (.parse_error msg) ∧
        ∀ (rejudge_flag : Bool) (locale_id : Int) (outcomes : List Int),
          parse_then_scan rejudge_flag locale_id parsed outcomes =
            .error (.parse_error msg)) := by
  constructor
  · intro groups h
    obtain ⟨_, hs, hadj, _⟩ := (parse_groups_ok_iff parsed groups).mp h
    subst hs
    exact ⟨List.perm_insertionSort _ _, List.sorted_insertionSort _ _,
      (check_adjacent_ok_iff _).mp hadj⟩
  · intro hbad
    cases h : parse_groups parsed with
    | ok groups =>
      obtain ⟨_, hs, hadj, _⟩ := (parse_groups_ok_iff parsed groups).mp h
      subst hs
      exact absurd ((check_adjacent_ok_iff _).mp hadj) hbad
    | error e =>
      obtain ⟨msg, rfl⟩ := parse_groups_error parsed e h
      refine ⟨msg, rfl, ?_⟩
      intro rejudge_flag locale_id outcomes
      simp [parse_then_scan, h]

/-- C9, at the list `B, A`: it is accepted as `A, B`, which is contiguous; and
at the list `A, C`, which leaves test 3 out: it is rejected. -/
theorem parse_groups_contiguous_witness :
    (parse_groups [ex_b34, ex_a12] = .ok [ex_a12, ex_b34] ∧
      List.Chain' Adjacent [ex_a12, ex_b34]) ∧
    (¬ List.Chain' Adjacent ([ex_a12, ex_c45].insertionSort Group.first_le) ∧
      ∃ msg, parse_groups [ex_a12, ex_c45] = .error (.parse_error msg)) :=
  ⟨⟨by decide, ((parse_groups_contiguous [ex_b34, ex_a12]).1 _ (by decide)).2.2⟩,
    ⟨fun h => absurd ((check_adjacent_ok_iff _).mpr h) (by decide), by
      obtain ⟨msg, h, _⟩ := (parse_groups_contiguous [ex_a12, ex_c45]).2
        (fun h => absurd ((check_adjacent_ok_iff _).mpr h) (by decide))
      exact ⟨msg, h⟩⟩⟩

/-- C10: in an accepted configuration every `requires` entry of the group at
position `i` is the id of a group at a position `k < i`, and every
`sets_marked_if_passed` entry is the id of a group at a position `k <= i`; a
configuration with a reference that does not resolve this way is rejected with
a parse error. -/
theorem parse_groups_references (parsed : List Group) :
    (∀ groups, parse_groups parsed = .ok groups → ∀ (i : Nat) (g : Group), groups[i]? = some g →
      (∀ r ∈ g.requires, ∃ (k : Nat) (h : Group), k < i ∧ groups[k]? = some h ∧ h.group_id = r) ∧
      (∀ r ∈ g.sets_marked_if_passed,
        ∃ (k : Nat) (h : Group), k ≤ i ∧ groups[k]? = some h ∧ h.group_id = r)) ∧
    ((∃ (i : Nat) (g : Group) (r : String), (parsed.insertionSort Group.first_le)[i]? = some g ∧
        ((r ∈ g.requires ∧ ¬ ∃ (k : Nat) (h : Group), k < i ∧
            (parsed.insertionSort Group.first_le)[k]? = some h ∧ h.group_id = r) ∨
         (r ∈ g.sets_marked_if_passed ∧ ¬ ∃ (k : Nat) (h : Group), k ≤ i ∧
            (parsed.insertionSort Group.first_le)[k]? = some h ∧ h.group_id = r))) →
      ∃ msg, parse_groups parsed = .error (.parse_error msg)) := by
  have key : ∀ groups, parse_groups parsed = .ok groups → ∀ (i : Nat) (g : Group), groups[i]? = some g →
      (∀ r ∈ g.requires, ∃ (k : Nat) (h : Group), k < i ∧ groups[k]? = some h ∧ h.group_id = r) ∧
      (∀ r ∈ g.sets_marked_if_passed,
        ∃ (k : Nat) (h : Group), k ≤ i ∧ groups[k]? = some h ∧ h.group_id = r) := by
    intro groups h i g hg
    obtain ⟨_, _, _, hreq, hmark, _⟩ := (parse_groups_ok_iff parsed groups).mp h
    constructor
    · intro r hr
      obtain ⟨h1, hmem, hid⟩ := (check_requires_ok_iff groups).mp hreq i g hg r hr
      obtain ⟨k, hk, hk2⟩ := (mem_take_iff_getElem? groups i h1).mp hmem
      exact ⟨k, h1, hk, hk2, hid⟩
    · intro r hr
      obtain ⟨h1, hmem, hid⟩ := (check_marks_ok_iff groups).mp hmark i g hg r hr
      obtain ⟨k, hk, hk2⟩ := (mem_take_iff_getElem? groups (i + 1) h1).mp hmem
      exact ⟨k, h1, Nat.lt_succ_iff.mp hk, hk2, hid⟩
  refine ⟨key, ?_⟩
  rintro ⟨i, g, r, hg, hbad⟩
  cases h : parse_groups parsed with
  | ok groups =>
    have hs : groups = parsed.insertionSort Group.first_le :=
      ((parse_groups_ok_iff parsed groups).mp h).2.1
    rw [← hs] at hg hbad
    have := key groups h i g hg
    rcases hbad with ⟨hr, hno⟩ | ⟨hr, hno⟩
    · exact absurd (this.1 r hr) hno
    · exact absurd (this.2 r hr) hno
  | error e =>
    obtain ⟨msg, rfl⟩ := parse_groups_error parsed e h
    exact ⟨msg, rfl⟩

/-- C10, at the list `B, A`: the only `requires` entry of `B` (position 1) is
the id of the group at position 0. -/
theorem parse_groups_references_witness :
    parse_groups [ex_b34, ex_a12] = .ok [ex_a12, ex_b34] ∧
      ∀ r ∈ ex_b34.requires,
        ∃ (k : Nat) (h : Group), k < 1 ∧ [ex_a12, ex_b34][k]? = some h ∧ h.group_id = r :=
  ⟨by decide,
    ((parse_groups_references [ex_b34, ex_a12]).1 [ex_a12, ex_b34] (by decide) 1 ex_b34
      (by decide)).1⟩

/-! ## Validation: offline groups -/

theorem check_offline_ok_iff (groups : List Group) :
    check_offline groups = .ok () ↔
      groups.Pairwise (fun a b => a.is_offline = true → b.is_offline = true) := by
  have key : ∀ gs : List Group,
      ((gs.dropWhile (fun g => !g.is_offline)).any (fun g => !g.is_offline) = false ↔
        gs.Pairwise (fun a b => a.is_offline = true → b.is_offline = true)) := by
    intro gs
    induction gs with
    | nil => simp
    | cons a tl ih =>
      rw [List.pairwise_cons]
      cases ha : a.is_offline with
      | false =>
        simp only [List.dropWhile_cons, ha, Bool.not_false, if_true]
        rw [ih]
        simp
      | true =>
        simp only [List.dropWhile_cons, ha, Bool.not_true, Bool.false_eq_true, if_false,
          List.any_cons, Bool.false_or]
        constructor
        · intro h
          have hall : ∀ b ∈ tl, b.is_offline = true := by
            intro b hb
            have := List.any_eq_false.mp h b hb
            simpa using this
          refine ⟨fun b hb _ => hall b hb, ?_⟩
          exact List.Pairwise.imp_of_mem (fun {x y} _ hy _ _ => hall y hy)
            (List.pairwise_of_forall (R := fun _ _ => True) (fun _ _ => trivial))
        · rintro ⟨h, _⟩
          rw [List.any_eq_false]
          intro b hb
          simp [h b hb trivial]
  unfold check_offline
  rw [← key groups]
  cases (groups.dropWhile (fun g => !g.is_offline)).any (fun g => !g.is_offline) <;> simp

theorem pairwise_offline_iff (groups : List Group) :
    groups.Pairwise (fun a b => a.is_offline = true → b.is_offline = true) ↔
      ∀ (i j : Nat) (gi gj : Group), i < j → groups[i]? = some gi → groups[j]? = some gj →
        gi.is_offline = true → gj.is_offline = true := by
  rw [List.pairwise_iff_getElem]
  constructor
  · intro h i j gi gj hij hi hj hoff
    obtain ⟨hi1, rfl⟩ := List.getElem?_eq_some.mp hi
    obtain ⟨hj1, rfl⟩ := List.getElem?_eq_some.mp hj
    exact h i j hi1 hj1 hij hoff
  · intro h i j hi hj hij hoff
    exact h i j _ _ hij (List.getElem?_eq_getElem hi) (List.getElem?_eq_getElem hj) hoff

/-- C11: in a configuration accepted by validation the offline groups form a
suffix of the sorted list: after an offline group every group is offline.  A
configuration in which a group that is not offline follows an offline one in
sorted order is rejected with a parse error. -/
theorem parse_groups_offline_suffix (parsed : List Group) :
    (∀ groups, parse_groups parsed = .ok groups →
      ∀ (i j : Nat) (gi gj : Group), i < j → groups[i]? = some gi → groups[j]? = some gj →
        gi.is_offline = true → gj.is_offline = true) ∧
    ((∃ (i j : Nat) (gi gj : Group), i < j ∧
        (parsed.insertionSort Group.first_le)[i]? = some gi ∧
        (parsed.insertionSort Group.first_le)[j]? = some gj ∧
        gi.is_offline = true ∧ gj.is_offline = false) →
      ∃ msg, parse_groups parsed = .error (.parse_error msg)) := by
  have key : ∀ groups, parse_groups parsed = .ok groups →
      ∀ (i j : Nat) (gi gj : Group), i < j → groups[i]? = some gi → groups[j]? = some gj →
        gi.is_offline = true → gj.is_offline = true := by
    intro groups h
    have hoff := ((parse_groups_ok_iff parsed groups).mp h).2.2.2.2.2
    exact (pairwise_offline_iff groups).mp ((check_offline_ok_iff groups).mp hoff)
  refine ⟨key, ?_⟩
  rintro ⟨i, j, gi, gj, hij, hi, hj, hoi, hoj⟩
  cases h : parse_groups parsed with
  | ok groups =>
    have hs : groups = parsed.insertionSort Group.first_le :=
      ((parse_groups_ok_iff parsed groups).mp h).2.1
    rw [← hs] at hi hj
    have := key groups h i j gi gj hij hi hj hoi
    rw [hoj] at this
    cases this
  | error e =>
    obtain ⟨msg, rfl⟩ := parse_groups_error parsed e h
    exact ⟨msg, rfl⟩

/-- C11 at the list `B` (offline), `A` (offline), accepted as `A, B`; and at the
list `A` (offline), `B` (not offline), which is rejected. -/
theorem parse_groups_offline_suffix_witness :
    (parse_groups [ex_off_b34, ex_off_a12] = .ok [ex_off_a12, ex_off_b34] ∧
      ex_off_b34.is_offline = true) ∧
    (∃ msg, parse_groups [ex_off_a12, ex_on_b34] = .error (.parse_error msg)) :=
  ⟨⟨by decide,
      (parse_groups_offline_suffix [ex_off_b34, ex_off_a12]).1 [ex_off_a12, ex_off_b34]
        (by decide) 0 1 ex_off_a12 ex_off_b34 (by decide) (by decide) (by decide)
        (by decide)⟩,
    (parse_groups_offline_suffix [ex_off_a12, ex_on_b34]).2
      ⟨0, 1, ex_off_a12, ex_on_b34, by decide, by decide, by decide, by decide, by decide⟩⟩

/-! ## Configurations the parser accepts -/

/-- C13 at the file `group A { tests 1-5; 0_if 5; tests 1-3; }`: it is accepted,
and the group ends with range `[1,3]` and the zero-set `{5}`, which is checked
against the range `[1,5]` the group has when the `0_if` field is read.  The
same happens for a `0_if 0` ahead of the first `tests` field, which is checked
against the initial range `[0,0]`. -/
theorem zero_set_outside_final_range :
    parse_config "group A { tests 1-5; 0_if 5; tests 1-3; }" =
      .ok [{ group_id := "A", first := 1, last := 3, zero_sets := [{5}] }] ∧
    parse_config "group A { 0_if 0; tests 1-2; }" =
      .ok [{ group_id := "A", first := 1, last := 2, zero_sets := [{0}] }] ∧
    parse_config "group A { tests 1-3; 0_if 5; }" =
      .error (.parse_error "invalid test number") := by
  decide

/-- C14 at the file `group A { }`: it is accepted by the parser and by
validation, and the group keeps the range `[0,0]` of a new `Group`; with a
second group that starts at test 1 it is accepted as well. -/
theorem group_without_tests_accepted :
    parse_config "group A { }" = .ok [{ group_id := "A", first := 0, last := 0 }] ∧
    parse_config "group B { tests 1-2; } group A { }" =
      .ok [{ group_id := "A", first := 0, last := 0 },
           { group_id := "B", first := 1, last := 2 }] ∧
    parse_config "group A { tests 0; }" = .error (.parse_error "invalid test number") := by
  decide

/-- C15 at the value tokens `5x`, `1x` and `2y`: `stoi` converts the leading
digits and ignores the rest of the token, so the fields are accepted with the
values 5, 1 and 2, while the token `abc` is rejected. -/
theorem number_with_trailing_letters_accepted :
    stoi "5x" = some 5 ∧ stoi "abc" = none ∧
    parse_config "group A { tests 1-2; score 5x; }" =
      .ok [{ group_id := "A", first := 1, last := 2, score := 5 }] ∧
    parse_config "group A { tests 1x-2y; test_score 3z; pass_if_count 1_; 0_if 2nd; }" =
      .ok [{ group_id := "A", first := 1, last := 2, test_score := 3, pass_if_count := 1,
             zero_sets := [{2}] }] ∧
    parse_config "group A { tests 1-2; score abc; }" =
      .error (.parse_error "NUM expected") := by
  decide

/-! ## Status codes -/

theorem toupper_toupper (c : Char) : toupper (toupper c) = toupper c := by
  unfold toupper Char.toUpper
  simp only
  by_cases h : c.toNat ≥ 97 ∧ c.toNat ≤ 122
  · have hc : c = Char.ofNat c.toNat := (Char.ofNat_toNat c).symm
    obtain ⟨h1, h2⟩ := h
    generalize c.toNat = n at hc h1 h2
    subst hc
    interval_cases n <;> decide
  · simp only [h, if_false]

theorem upper_upper (s : String) : upper (upper s) = upper s := by
  unfold upper
  simp only [List.map_map]
  congr 1
  apply List.map_congr_left
  intro c _
  exact toupper_toupper c

theorem upper_length (s : String) : (upper s).length = s.length := by
  unfold upper
  show (s.data.map toupper).length = s.data.length
  simp

/-- C16: `parse_status` gives the code that the table assigns to the upper-cased
string when the string has exactly two characters and its upper-cased form is a
key of the table, and `-1` in every other case; the table has 21 entries with
distinct keys, and the lookup does not depend on the case of the letters. -/
theorem parse_status_spec (s : String) :
    (s.length = 2 → ∀ status, string_to_status.lookup (upper s) = some status →
      parse_status s = status) ∧
    (s.length = 2 → string_to_status.lookup (upper s) = none → parse_status s = -1) ∧
    (s.length ≠ 2 → parse_status s = -1) ∧
    parse_status s = parse_status (upper s) ∧
    string_to_status.length = 21 ∧ (string_to_status.map Prod.fst).Nodup := by
  have two : ∀ t : String, t.length = 2 → ∃ c0 c1, t.data = [c0, c1] := by
    intro t ht
    have hl : t.data.length = 2 := ht
    match hd : t.data, hl with
    | [c0, c1], _ => exact ⟨c0, c1, rfl⟩
  have nottwo : ∀ t : String, t.length ≠ 2 → parse_status t = -1 := by
    intro t ht
    have hl : t.data.length ≠ 2 := ht
    unfold parse_status
    split
    · rename_i c0 c1 hd
      rw [hd] at hl
      exact absurd rfl hl
    · rfl
  have eq2 : ∀ t : String, t.length = 2 →
      parse_status t = match string_to_status.lookup (upper t) with
        | some status => status
        | none => -1 := by
    intro t ht
    obtain ⟨c0, c1, hd⟩ := two t ht
    unfold parse_status upper
    rw [hd]
    rfl
  refine ⟨?_, ?_, nottwo s, ?_, by decide, by decide⟩
  · intro h2 status hl
    rw [eq2 s h2, hl]
  · intro h2 hl
    rw [eq2 s h2, hl]
  · by_cases h2 : s.length = 2
    · have h2u : (upper s).length = 2 := by rw [upper_length]; exact h2
      rw [eq2 s h2, eq2 (upper s) h2u, upper_upper]
    · have h2u : (upper s).length ≠ 2 := by rw [upper_length]; exact h2
      rw [nottwo s h2, nottwo (upper s) h2u]

/-- C16 at the spellings of `OK` and at `wa`. -/
theorem parse_status_spec_witness :
    parse_status "ok" = RUN_OK ∧ parse_status "Ok" = RUN_OK ∧ parse_status "oK" = RUN_OK ∧
    parse_status "OK" = RUN_OK ∧ parse_status "wa" = 5 ∧ parse_status "zz" = -1 ∧
    parse_status "okk" = -1 :=
  ⟨(parse_status_spec "ok").1 (by decide) RUN_OK (by decide),
    (parse_status_spec "Ok").1 (by decide) RUN_OK (by decide),
    (parse_status_spec "oK").1 (by decide) RUN_OK (by decide),
    (parse_status_spec "OK").1 (by decide) RUN_OK (by decide),
    (parse_status_spec "wa").1 (by decide) 5 (by decide),
    (parse_status_spec "zz").2.1 (by decide) (by decide),
    (parse_status_spec "okk").2.2.1 (by decide)⟩

/-! ## Duplicate ids and the reporting options -/

/-- C12: a `group` block whose id is the id of a group already in the vector
is refused with the parse error `group <id> already defined` as soon as the id
is read, one token after the keyword; a block that is accepted appends a group
with its id to the vector; consequently the group ids of every parsed
configuration are pairwise distinct. -/
theorem duplicate_group_id_rejected :
    (∀ p p1 : ConfigParser, p.token = "group" → p.next_token = .ok p1 →
      p1.t_type = T_IDENT → (∃ g ∈ p.groups, g.group_id = p1.token) →
      p.parse_group = .error (.parse_error ("group " ++ p1.token ++ " already defined"))) ∧
    (∀ p q : ConfigParser, p.parse_group = .ok q →
      ∃ p1 g, p.next_token = .ok p1 ∧ g.group_id = p1.token ∧ q.groups = p.groups ++ [g]) ∧
    (∀ (configpath : String) (file : Option String) (p : ConfigParser),
      ConfigParser.parse configpath file = .ok p → (p.groups.map Group.group_id).Nodup) ∧
    (∀ (content : String) (groups : List Group), parse_config content = .ok groups →
      (groups.map Group.group_id).Nodup) := by
  refine ⟨fun p p1 hk h1 ht hd => ConfigParser.parse_group_duplicate hk h1 ht hd, ?_,
    fun _ _ p h => ConfigParser.parse_nodup h, ?_⟩
  · intro p q h
    obtain ⟨p1, _, r, _, h1, _, _, _, _, _, hid, _, _, hgr⟩ :=
      (ConfigParser.parse_group_spec p).2 q h
    exact ⟨p1, _, h1, (ConfigParser.resolve_stat_group_id _ _).trans hid, hgr⟩
  · intro content groups h
    unfold parse_config at h
    split at h
    · cases h
    · rename_i p hp
      cases Except.ok.inj h
      exact ConfigParser.parse_nodup hp

theorem duplicate_group_id_rejected_witness :
    (ex_dup_p.token = "group" ∧ ex_dup_p.next_token = .ok ex_dup_p1 ∧
      ex_dup_p1.t_type = T_IDENT ∧ ex_dup_p.groups.map Group.group_id = ["A"] ∧
      ex_dup_p1.token = "A") ∧
    ex_dup_p.parse_group = .error (.parse_error "group A already defined") ∧
    parse_config "group A { tests 1; } group A { tests 2; }" =
      .error (.parse_error "group A already defined") ∧
    parse_config "group B { tests 2; } group A { tests 1; }" =
      .ok [{ group_id := "A", first := 1, last := 1 }, { group_id := "B", first := 2, last := 2 }] ∧
    (["A", "B"] : List String).Nodup :=
  ⟨by decide,
   duplicate_group_id_rejected.1 ex_dup_p ex_dup_p1 (by decide) (by decide) (by decide)
     (by decide),
   by decide, by decide,
   duplicate_group_id_rejected.2.2.2 "group B { tests 2; } group A { tests 1; }"
     [{ group_id := "A", first := 1, last := 1 }, { group_id := "B", first := 2, last := 2 }]
     (by decide)⟩

/-- C17: for `stat_to_judges` and `stat_to_users` alike.  In a group block the
field sets the explicit value of its option, to true for the bare keyword and to
`n ≠ 0` for a number `n`, and leaves the other option alone; every other field
leaves both alone; a new block has no explicit value.  The method `parse_group`
reads the id, the opening brace and then, from the token behind the brace and
from a new block, the rounds of `parse_field` up to the token that is no field,
the closing brace; the group it pushes has each option resolved as the
specification says from the explicit value those rounds ended with and from
the global settings: the explicit value when there is one, else the global
setting when it is set, else false.  In the `global` block a field stores `1` (true) for the bare keyword or
a number other than zero and `0` (false) for zero, so a setting is unset,
negative, only when no field set it. -/
theorem stat_options_resolved :
    (∀ (p : ConfigParser) (b : Block) (r : ConfigParser × Block),
      p.token = "stat_to_judges" → ConfigParser.parse_field p b = .ok (some r) →
      r.2.explicit_users = b.explicit_users ∧
      ∃ p1, p.next_token = .ok p1 ∧
        ((p1.t_type = char_code ';' ∧ r.2.explicit_judges = some true) ∨
         (p1.t_type = T_IDENT ∧ ∃ n : Int, stoi p1.token = some n ∧
            r.2.explicit_judges = some (decide (n ≠ 0))))) ∧
    (∀ (p : ConfigParser) (b : Block) (r : ConfigParser × Block),
      p.token = "stat_to_users" → ConfigParser.parse_field p b = .ok (some r) →
      r.2.explicit_judges = b.explicit_judges ∧
      ∃ p1, p.next_token = .ok p1 ∧
        ((p1.t_type = char_code ';' ∧ r.2.explicit_users = some true) ∨
         (p1.t_type = T_IDENT ∧ ∃ n : Int, stoi p1.token = some n ∧
            r.2.explicit_users = some (decide (n ≠ 0))))) ∧
    (∀ (p : ConfigParser) (b : Block) (r : ConfigParser × Block),
      ConfigParser.parse_field p b = .ok (some r) →
      (p.token ≠ "stat_to_judges" → r.2.explicit_judges = b.explicit_judges) ∧
      (p.token ≠ "stat_to_users" → r.2.explicit_users = b.explicit_users)) ∧
    (∀ p q : ConfigParser, p.parse_group = .ok q →
      ∃ (p1 p2 p3 p5 : ConfigParser) (r : ConfigParser × Block) (g : Group),
        p.next_token = .ok p1 ∧ p1.next_token = .ok p2 ∧ p2.t_type = char_code '{' ∧
        p2.next_token = .ok p3 ∧
        ({ parsed_group := { group_id := p1.token } } : Block).explicit_judges = none ∧
        ({ parsed_group := { group_id := p1.token } } : Block).explicit_users = none ∧
        ConfigParser.parse_fields p3.fuel p3 { parsed_group := { group_id := p1.token } } =
          .ok r ∧
        FieldRounds p3 { parsed_group := { group_id := p1.token } } r.1 r.2 ∧
        ConfigParser.parse_field r.1 r.2 = .ok none ∧
        r.1.t_type = char_code '}' ∧ r.1.next_token = .ok p5 ∧
        q = { p5 with groups := p.groups ++ [g] } ∧
        q.global = p.global ∧ q.groups = p.groups ++ [g] ∧ g.group_id = p1.token ∧
        g.stat_to_judges = spec_resolved r.2.explicit_judges p.global.stat_to_judges ∧
        g.stat_to_users = spec_resolved r.2.explicit_users p.global.stat_to_users) ∧
    (∀ p q : ConfigParser, ConfigParser.parse_global_field p = .ok (some q) →
      (p.token = "stat_to_judges" ∨ p.token = "stat_to_users") ∧
      (p.token = "stat_to_judges" → q.global.stat_to_users = p.global.stat_to_users) ∧
      (p.token ≠ "stat_to_judges" → q.global.stat_to_judges = p.global.stat_to_judges) ∧
      ∃ p1, p.next_token = .ok p1 ∧ ∃ n : Int, 0 ≤ n ∧
        ((p1.t_type = char_code ';' ∧ n = 1) ∨
          (p1.t_type = T_IDENT ∧ stoi p1.token = some n)) ∧
        (p.token = "stat_to_judges" → q.global.stat_to_judges = if n = 0 then 0 else 1) ∧
        (p.token ≠ "stat_to_judges" → q.global.stat_to_users = if n = 0 then 0 else 1)) := by
  refine ⟨fun p b r hk h => ConfigParser.parse_field_stat_to_judges hk h,
    fun p b r hk h => ConfigParser.parse_field_stat_to_users hk h,
    fun p b r h => ConfigParser.parse_field_other h, ?_,
    fun p q h => ((ConfigParser.parse_global_field_spec p).2 q h).2.2⟩
  intro p q h
  obtain ⟨p1, p2, p3, p5, r, _, h1, _, h2, hb, h3, hf, hrounds, he, h5, hq, hfresh, hid, hgl,
    hgr⟩ := ConfigParser.parse_group_chain h
  obtain ⟨_, _, _, hend⟩ :=
    (ConfigParser.parse_fields_spec p3.fuel p3 _ (ConfigParser.remaining_lt_fuel p3)).2 r hf
  obtain ⟨e1, e2⟩ := ConfigParser.resolve_stat_spec r.2 p.global hfresh
  have hq2 : q = { p5 with groups := p.groups ++ [ConfigParser.resolve_stat r.2 p.global] } := by
    rw [hq, hgl, hgr]
  refine ⟨p1, p2, p3, p5, r, _, h1, h2, hb, h3, rfl, rfl, hf, hrounds, hend, he, h5, hq2, ?_, ?_,
    (ConfigParser.resolve_stat_group_id _ _).trans hid, e1, e2⟩
  · rw [hq2]
    exact hgl
  · rw [hq2]

theorem stat_options_resolved_witness :
    (ex_stat_p.parse_group = .ok ex_stat_q ∧
      ex_stat_p.global = { stat_to_judges := 1, stat_to_users := 1 } ∧
      ex_stat_q.groups = [{ group_id := "A", first := 1, last := 1, stat_to_judges := false,
                            stat_to_users := true }]) ∧
    (∃ (p1 p2 p3 p5 : ConfigParser) (r : ConfigParser × Block) (g : Group),
        ex_stat_p.next_token = .ok p1 ∧ p1.next_token = .ok p2 ∧ p2.t_type = char_code '{' ∧
        p2.next_token = .ok p3 ∧
        ({ parsed_group := { group_id := p1.token } } : Block).explicit_judges = none ∧
        ({ parsed_group := { group_id := p1.token } } : Block).explicit_users = none ∧
        ConfigParser.parse_fields p3.fuel p3 { parsed_group := { group_id := p1.token } } =
          .ok r ∧
        FieldRounds p3 { parsed_group := { group_id := p1.token } } r.1 r.2 ∧
        ConfigParser.parse_field r.1 r.2 = .ok none ∧
        r.1.t_type = char_code '}' ∧ r.1.next_token = .ok p5 ∧
        ex_stat_q = { p5 with groups := ex_stat_p.groups ++ [g] } ∧
        ex_stat_q.global = ex_stat_p.global ∧ ex_stat_q.groups = ex_stat_p.groups ++ [g] ∧
        g.group_id = p1.token ∧
        g.stat_to_judges = spec_resolved r.2.explicit_judges ex_stat_p.global.stat_to_judges ∧
        g.stat_to_users = spec_resolved r.2.explicit_users ex_stat_p.global.stat_to_users) ∧
    parse_config "global { stat_to_judges; stat_to_users 0; } group A { tests 1; }" =
      .ok [{ group_id := "A", first := 1, last := 1, stat_to_judges := true }] ∧
    parse_config "global { stat_to_judges; } group B { tests 1; stat_to_judges 0; }" =
      .ok [{ group_id := "B", first := 1, last := 1 }] ∧
    parse_config "group C { tests 1; stat_to_users; stat_to_users 0; }" =
      .ok [{ group_id := "C", first := 1, last := 1 }] ∧
    parse_config "group A { tests 1; } group B { tests 2; stat_to_judges 7; }" =
      .ok [{ group_id := "A", first := 1, last := 1 },
           { group_id := "B", first := 2, last := 2, stat_to_judges := true }] :=
  ⟨by decide, stat_options_resolved.2.2.2.1 ex_stat_p ex_stat_q (by decide), by decide,
    by decide, by decide, by decide⟩

/-! ## The final report -/

theorem print_group_score_counters (locale_id : Int) (g : Group) (acc : Tally) :
    (print_group_score locale_id g acc).score = acc.score ∧
    (print_group_score locale_id g acc).user_status = acc.user_status ∧
    (print_group_score locale_id g acc).user_score = acc.user_score ∧
    (print_group_score locale_id g acc).user_tests_passed = acc.user_tests_passed ∧
    (print_group_score locale_id g acc).valuer_marked = acc.valuer_marked := by
  unfold print_group_score
  simp only
  split <;> split <;> exact ⟨rfl, rfl, rfl, rfl, rfl⟩

/-- The counters that one round of the loop of `count_groups_score` hands to
`add_score` are those it started with. -/
theorem count_group_eq (locale_id : Int) (groups : List Group) (acc : Tally) (g : Group) :
    ∃ acc4 : Tally, count_group locale_id groups acc g = add_score acc4 g.calc_score g ∧
      acc4.score = acc.score ∧ acc4.user_status = acc.user_status ∧
      acc4.user_score = acc.user_score ∧ acc4.user_tests_passed = acc.user_tests_passed := by
  unfold count_group
  simp only
  refine ⟨_, rfl, ?_⟩
  obtain ⟨h1, h2, h3, h4, _⟩ := print_group_score_counters locale_id g
    { (if (g.sets_marked && g.is_passed) = true then
          { (if g.has_comment = true then { acc with fcmt := acc.fcmt ++ [g.comment] }
              else acc) with valuer_marked := 1 }
        else (if g.has_comment = true then { acc with fcmt := acc.fcmt ++ [g.comment] }
              else acc)) with
      valuer_marked := analyse_sets_marker_vector g.sets_marked_if_passed
        (if (g.sets_marked && g.is_passed) = true then
            { (if g.has_comment = true then { acc with fcmt := acc.fcmt ++ [g.comment] }
                else acc) with valuer_marked := 1 }
          else (if g.has_comment = true then { acc with fcmt := acc.fcmt ++ [g.comment] }
                else acc)).valuer_marked groups }
  rw [h1, h2, h3, h4]
  simp only
  split <;> split <;> exact ⟨rfl, rfl, rfl, rfl⟩

theorem wrap_wrap (x : Int) : wrap (wrap x) = wrap x := by
  unfold wrap
  omega

theorem count_group_counters (locale_id : Int) (groups : List Group) (acc : Tally) (g : Group) :
    (count_group locale_id groups acc g).score = wrap (acc.score + g.calc_score) ∧
    (count_group locale_id groups acc g).user_score =
      (if g.is_offline then acc.user_score else wrap (acc.user_score + g.calc_score)) ∧
    (count_group locale_id groups acc g).user_tests_passed =
      (if g.is_offline then acc.user_tests_passed
       else wrap (acc.user_tests_passed + g.passed_count)) ∧
    (count_group locale_id groups acc g).user_status = spec_user_status acc.user_status g := by
  obtain ⟨acc4, heq, h1, h2, h3, h4⟩ := count_group_eq locale_id groups acc g
  rw [heq]
  unfold add_score spec_user_status
  cases hoff : g.is_offline with
  | true => simp [h1, h2, h3, h4]
  | false =>
    simp only [Bool.false_eq_true, if_false]
    cases hp : g.is_passed with
    | false => simp [h1, h3, h4]
    | true =>
      by_cases hu : g.user_status ≥ 0
      · simp [hu, h1, h3, h4]
      · simp [hu, h1, h2, h3, h4]

/-- The counters of `count_groups_score` after the loop over `groups`: the sums
over the groups, each addition made in the type `int`. -/
theorem foldl_count_group (locale_id : Int) (all : List Group) (groups : List Group) :
    ∀ acc : Tally, wrap acc.score = acc.score → wrap acc.user_score = acc.user_score →
      wrap acc.user_tests_passed = acc.user_tests_passed →
      (groups.foldl (count_group locale_id all) acc).score =
        wrap (acc.score + (groups.map Group.calc_score).sum) ∧
      (groups.foldl (count_group locale_id all) acc).user_score =
        wrap (acc.user_score +
          ((groups.filter (fun g => !g.is_offline)).map Group.calc_score).sum) ∧
      (groups.foldl (count_group locale_id all) acc).user_tests_passed =
        wrap (acc.user_tests_passed +
          ((groups.filter (fun g => !g.is_offline)).map (fun g => g.passed_count)).sum) ∧
      (groups.foldl (count_group locale_id all) acc).user_status =
        groups.foldl spec_user_status acc.user_status := by
  induction groups with
  | nil =>
    intro acc a1 a2 a3
    simp [a1, a2, a3]
  | cons g tl ih =>
    intro acc a1 a2 a3
    obtain ⟨h1, h2, h3, h4⟩ := count_group_counters locale_id all acc g
    obtain ⟨i1, i2, i3, i4⟩ := ih (count_group locale_id all acc g)
      (by rw [h1, wrap_wrap])
      (by rw [h2]; split
          · exact a2
          · exact wrap_wrap _)
      (by rw [h3]; split
          · exact a3
          · exact wrap_wrap _)
    simp only [List.foldl_cons, List.map_cons, List.sum_cons]
    rw [i1, i2, i3, i4, h1, h2, h3, h4]
    cases hoff : g.is_offline with
    | true =>
      simp only [List.filter_cons, hoff, Bool.not_true, Bool.false_eq_true, if_false, if_true,
        wrap_add_wrap]
      refine ⟨by congr 1; ring, trivial, trivial, trivial⟩
    | false =>
      simp only [List.filter_cons, hoff, Bool.not_false, if_true, Bool.false_eq_true, if_false,
        List.map_cons, List.sum_cons, wrap_add_wrap]
      refine ⟨by congr 1; ring, by congr 1; ring, by congr 1; ring, trivial⟩

/-- C18 fails when both capabilities are enabled: the final line then holds
five integers. -/
theorem report_line_five_integers :
    (count_groups_score true true 0 [ex_done_a, ex_done_b, ex_done_c] 0).stdout =
      [40, 0, 7, 10, 3] ∧
    (count_groups_score true true 0 [ex_done_a, ex_done_b, ex_done_c] 0).stdout.length = 5 := by
  decide

/-- C18, amended: the number of integers on the final line is 1, plus 1 when the
marking capability is enabled, plus 3 when the user-score capability is enabled:
1, 2, 4 or 5. -/
theorem report_line_length (marked_flag user_score_flag : Bool) (locale_id : Int)
    (groups : List Group) (valuer_marked : Int) :
    (count_groups_score marked_flag user_score_flag locale_id groups valuer_marked).stdout.length
      = 1 + (if marked_flag then 1 else 0) + (if user_score_flag then 3 else 0) ∧
    ((count_groups_score marked_flag user_score_flag locale_id groups
        valuer_marked).stdout.length ∈ [1, 2, 4, 5]) := by
  unfold count_groups_score
  cases marked_flag <;> cases user_score_flag <;> simp

/-- C19 fails for two passed groups scored the largest `int` each, a final
group list the program reaches on an accepted file: the total printed is `-2`,
not the sum 4294967294 of the group scores, and so is the user score. -/
theorem report_total_overflows :
    parse_config
        "group A { tests 1; score 2147483647; } group B { tests 2; score 2147483647; }" =
      .ok [{ group_id := "A", first := 1, last := 1, score := 2147483647 },
           { group_id := "B", first := 2, last := 2, score := 2147483647 }] ∧
    scan_tests false 0 [RUN_OK, RUN_OK]
        (State.init [{ group_id := "A", first := 1, last := 1, score := 2147483647 },
                     { group_id := "B", first := 2, last := 2, score := 2147483647 }]) =
      .ok { groups := [ex_max_a, ex_max_b], test_num := 3, out := [-2, -3] } ∧
    (count_groups_score true true 0 [ex_max_a, ex_max_b] 0).stdout = [-2, 0, 0, -2, 2] ∧
    ([ex_max_a, ex_max_b].map Group.calc_score).sum = 4294967294 ∧
    (([ex_max_a, ex_max_b].filter (fun g => !g.is_offline)).map Group.calc_score).sum
      = 4294967294 := by
  decide

/-- C19, amended: the final line starts with the sum of the group scores of all
groups, added up in the type `int`; then comes the marked flag exactly when the
marking capability is enabled; then, exactly when the user-score capability is
enabled, the user status, the sum of the group scores of the groups that are
not offline, and the sum of their `passed_count`, both added up in the type
`int`.  A sum that is a value of the type `int` is printed as it is. -/
theorem report_line_contents (marked_flag user_score_flag : Bool) (locale_id : Int)
    (groups : List Group) (valuer_marked : Int) :
    (count_groups_score marked_flag user_score_flag locale_id groups valuer_marked).stdout =
      [wrap (groups.map Group.calc_score).sum]
        ++ (if marked_flag then
              [(count_groups_score marked_flag user_score_flag locale_id groups
                  valuer_marked).tally.valuer_marked]
            else [])
        ++ (if user_score_flag then
              [(count_groups_score marked_flag user_score_flag locale_id groups
                  valuer_marked).tally.user_status,
                wrap ((groups.filter (fun g => !g.is_offline)).map Group.calc_score).sum,
                wrap ((groups.filter (fun g => !g.is_offline)).map
                  (fun g => g.passed_count)).sum]
            else []) ∧
    (INT_MIN ≤ (groups.map Group.calc_score).sum →
      (groups.map Group.calc_score).sum ≤ INT_MAX →
      (count_groups_score marked_flag user_score_flag locale_id groups
        valuer_marked).tally.score = (groups.map Group.calc_score).sum) ∧
    (INT_MIN ≤ ((groups.filter (fun g => !g.is_offline)).map Group.calc_score).sum →
      ((groups.filter (fun g => !g.is_offline)).map Group.calc_score).sum ≤ INT_MAX →
      (count_groups_score marked_flag user_score_flag locale_id groups
        valuer_marked).tally.user_score =
          ((groups.filter (fun g => !g.is_offline)).map Group.calc_score).sum) ∧
    (INT_MIN ≤ ((groups.filter (fun g => !g.is_offline)).map
        (fun g => g.passed_count)).sum →
      ((groups.filter (fun g => !g.is_offline)).map (fun g => g.passed_count)).sum
        ≤ INT_MAX →
      (count_groups_score marked_flag user_score_flag locale_id groups
        valuer_marked).tally.user_tests_passed =
          ((groups.filter (fun g => !g.is_offline)).map (fun g => g.passed_count)).sum) := by
  obtain ⟨h1, h2, h3, _⟩ := foldl_count_group locale_id groups groups
    { valuer_marked := valuer_marked } rfl rfl rfl
  have e1 : (count_groups_score marked_flag user_score_flag locale_id groups
      valuer_marked).tally.score = wrap (groups.map Group.calc_score).sum := by
    unfold count_groups_score
    simp only
    rw [h1]
    simp
  have e2 : (count_groups_score marked_flag user_score_flag locale_id groups
      valuer_marked).tally.user_score =
        wrap ((groups.filter (fun g => !g.is_offline)).map Group.calc_score).sum := by
    unfold count_groups_score
    simp only
    rw [h2]
    simp
  have e3 : (count_groups_score marked_flag user_score_flag locale_id groups
      valuer_marked).tally.user_tests_passed =
        wrap ((groups.filter (fun g => !g.is_offline)).map (fun g => g.passed_count)).sum := by
    unfold count_groups_score
    simp only
    rw [h3]
    simp
  refine ⟨?_, fun a b => e1.trans (wrap_of_range a b), fun a b => e2.trans (wrap_of_range a b),
    fun a b => e3.trans (wrap_of_range a b)⟩
  unfold count_groups_score
  simp only
  rw [h1, h2, h3]
  simp

/-- C19 at a passed group with score 10, a failed group and a passed offline
group with score 30, with both capabilities enabled: the total is 40, the user
score 10 and the number of tests the user passed 3. -/
theorem report_line_contents_witness :
    (count_groups_score true true 0 [ex_done_a, ex_done_b, ex_done_c] 0).stdout =
      [40, 0, 7, 10, 3] ∧
    (count_groups_score true true 0 [ex_done_a, ex_done_b, ex_done_c] 0).tally.score =
      ([ex_done_a, ex_done_b, ex_done_c].map Group.calc_score).sum :=
  ⟨(report_line_contents true true 0 [ex_done_a, ex_done_b, ex_done_c] 0).1.trans (by decide),
   (report_line_contents true true 0 [ex_done_a, ex_done_b, ex_done_c] 0).2.1 (by decide)
     (by decide)⟩

theorem foldl_spec_filter (groups : List Group) :
    ∀ status : Int,
      groups.foldl spec_user_status status =
        (groups.filter (fun g => !g.is_offline)).foldl spec_user_status status := by
  induction groups with
  | nil => intro status; rfl
  | cons g tl ih =>
    intro status
    cases hoff : g.is_offline with
    | true =>
      simp only [List.foldl_cons, List.filter_cons, hoff, Bool.not_true, Bool.false_eq_true,
        if_false]
      rw [← ih]
      simp [spec_user_status, hoff]
    | false =>
      simp only [List.foldl_cons, List.filter_cons, hoff, Bool.not_false, if_true]
      exact ih _

/-- C20: the reported user status is the fold of the specification over the
groups that are not offline, in sorted order, starting from `RUN_OK`; offline
groups leave the status alone.  It is the integer printed after the total (and
after the marked flag, when that one is printed). -/
theorem report_user_status (marked_flag user_score_flag : Bool) (locale_id : Int)
    (groups : List Group) (valuer_marked : Int) :
    (count_groups_score marked_flag user_score_flag locale_id groups
        valuer_marked).tally.user_status =
      (groups.filter (fun g => !g.is_offline)).foldl spec_user_status RUN_OK ∧
    (∀ (status : Int) (g : Group), g.is_offline = true → spec_user_status status g = status) ∧
    (user_score_flag = true →
      (count_groups_score marked_flag user_score_flag locale_id groups
        valuer_marked).stdout[if marked_flag then 2 else 1]? =
          some ((groups.filter (fun g => !g.is_offline)).foldl spec_user_status RUN_OK)) := by
  obtain ⟨_, _, _, h4⟩ := foldl_count_group locale_id groups groups
    { valuer_marked := valuer_marked } rfl rfl rfl
  have hs : (count_groups_score marked_flag user_score_flag locale_id groups
      valuer_marked).tally.user_status =
        (groups.filter (fun g => !g.is_offline)).foldl spec_user_status RUN_OK := by
    unfold count_groups_score
    simp only
    rw [h4, foldl_spec_filter]
  refine ⟨hs, fun status g hoff => by simp [spec_user_status, hoff], ?_⟩
  intro hu
  subst hu
  unfold count_groups_score at hs ⊢
  simp only at hs ⊢
  rw [← hs]
  cases marked_flag <;> simp

/-- C20 at a passed group with override 8, a failed group and a passed offline
group: the status is the partial code, set by the failed group. -/
theorem report_user_status_witness :
    (count_groups_score false true 0 [ex_done_a, ex_done_b, ex_done_c] 0).stdout[1]?
      = some RUN_PARTIAL :=
  (report_user_status false true 0 [ex_done_a, ex_done_b, ex_done_c] 0).2.2 rfl

/-! ## The owner of the test pointer and the response line -/

/-- C22: a step of `scan_tests` at the test pointer `t` fails with
`unexpected test number t` exactly when no group has `t` in its range.  In a
state reached over a validated configuration, with the ranges the parser
delivers, that is the only way a step fails;
a group with `t` in its range is the group `find_group` returns, every group
ahead of it in the sorted vector ends before `t`, the step returns, and the
counters of the outcome go to that group while those of every other group stay
as they were. -/
theorem unexpected_test_number (rejudge_flag : Bool) (locale_id : Int) (cfg : List Group)
    (outcomes : List Int) (s : State) (o : Int) :
    (scan_step rejudge_flag locale_id s o =
        .error (.die ("unexpected test number " ++ toString s.test_num)) ↔
      ∀ g ∈ s.groups, ¬ (g.first ≤ s.test_num ∧ s.test_num ≤ g.last)) ∧
    (Validated cfg → Ranged cfg →
      scan_tests rejudge_flag locale_id outcomes (State.init cfg) = .ok s →
      s.groups.Sorted Group.first_le ∧
      ((∃ e, scan_step rejudge_flag locale_id s o = .error e) ↔
        ∀ g ∈ s.groups, ¬ (g.first ≤ s.test_num ∧ s.test_num ≤ g.last)) ∧
      ∀ (i : Nat) (g : Group), s.groups[i]? = some g → g.first ≤ s.test_num →
        s.test_num ≤ g.last →
        find_group_num s.groups s.test_num = some (i, g) ∧
        (∀ (j : Nat) (h : Group), j < i → s.groups[j]? = some h → h.last < s.test_num) ∧
        ∃ a s1, analyse_test_group locale_id (some g) s.test_num o = .ok a ∧
          scan_step rejudge_flag locale_id s o = .ok s1 ∧
          (∃ g1, s1.groups[i]? = some g1 ∧ g1.passed_count = a.group.passed_count ∧
            g1.passed_set = a.group.passed_set ∧ g1.total_score = a.group.total_score) ∧
          ∀ (j : Nat) (h : Group), j ≠ i → s.groups[j]? = some h →
            ∃ h1, s1.groups[j]? = some h1 ∧ h1.passed_count = h.passed_count ∧
              h1.passed_set = h.passed_set ∧ h1.total_score = h.total_score) := by
  have hnone : find_group_num s.groups s.test_num = none ↔
      ∀ g ∈ s.groups, ¬ (g.first ≤ s.test_num ∧ s.test_num ≤ g.last) :=
    ⟨mem_of_find_group_num_none, find_group_num_none⟩
  refine ⟨(scan_step_unexpected rejudge_flag locale_id s o).trans hnone, ?_⟩
  intro hvalid hrg hrun
  obtain ⟨hc, _, hres, hsep, hown, hrgs⟩ := run_facts hvalid hrg hrun
  have hattr : ∀ (i : Nat) (g : Group), find_group_num s.groups s.test_num = some (i, g) →
      ∃ a s1, analyse_test_group locale_id (some g) s.test_num o = .ok a ∧
        scan_step rejudge_flag locale_id s o = .ok s1 ∧
        (∃ g1, s1.groups[i]? = some g1 ∧ g1.passed_count = a.group.passed_count ∧
          g1.passed_set = a.group.passed_set ∧ g1.total_score = a.group.total_score) ∧
        ∀ (j : Nat) (h : Group), j ≠ i → s.groups[j]? = some h →
          ∃ h1, s1.groups[j]? = some h1 ∧ h1.passed_count = h.passed_count ∧
            h1.passed_set = h.passed_set ∧ h1.total_score = h.total_score := by
    intro i g hf
    obtain ⟨hg, _, h2⟩ := find_group_num_some hf
    obtain ⟨a, s1, ha, hs1, _, hcont, hjump⟩ :=
      scan_step_owner rejudge_flag locale_id s o hf hrgs hres
    refine ⟨a, s1, ha, hs1, ?_⟩
    by_cases hle : a.test_num ≤ g.last
    · rw [hcont hle]
      refine ⟨⟨a.group, getElem?_set_self _ hg, rfl, rfl, rfl⟩, ?_⟩
      intro j h hji hj
      exact ⟨h, by rw [getElem?_set_other _ (Ne.symm hji)]; exact hj, rfl, rfl, rfl⟩
    · obtain ⟨hi, _, hr, _⟩ := hjump (not_le.mp hle)
      refine ⟨⟨a.group, hi, rfl, rfl, rfl⟩, ?_⟩
      intro j h hji hj
      have hj1 : (s.groups.set i a.group)[j]? = some h := by
        rw [getElem?_set_other _ (Ne.symm hji)]; exact hj
      exact (resolve_config hr).2 j h hj1
  refine ⟨?_, ?_, ?_⟩
  · rw [List.Sorted, List.pairwise_iff_getElem]
    intro i j hi hj hij
    have h1 : s.groups[i]? = some s.groups[i] := List.getElem?_eq_getElem hi
    have h2 : s.groups[j]? = some s.groups[j] := List.getElem?_eq_getElem hj
    obtain ⟨ci, hci, ei⟩ := getElem?_of_config hc h1
    obtain ⟨cj, hcj, ej⟩ := getElem?_of_config hc h2
    obtain ⟨ki, eci⟩ := List.getElem?_eq_some.mp hci
    obtain ⟨kj, ecj⟩ := List.getElem?_eq_some.mp hcj
    have hs := List.pairwise_iff_getElem.mp (validated_sorted hvalid) i j ki kj hij
    rw [eci, ecj] at hs
    show s.groups[i].first ≤ s.groups[j].first
    rw [(config_fields ei).1, (config_fields ej).1]
    exact hs
  · constructor
    · rintro ⟨e, he⟩
      rw [← hnone]
      cases hf : find_group_num s.groups s.test_num with
      | none => rfl
      | some p =>
        obtain ⟨i, g⟩ := p
        obtain ⟨a, s1, _, hs1, _⟩ := hattr i g hf
        rw [hs1] at he
        cases he
    · intro h
      exact ⟨_, (scan_step_unexpected rejudge_flag locale_id s o).mpr (hnone.mpr h)⟩
  · intro i g hg h1 h2
    have hf := hown i g s.test_num hg h1 h2
    refine ⟨hf, ?_, hattr i g hf⟩
    intro j h hji hj
    have := hsep j i h g hji hj hg
    omega

/-- C22 after one passed test of `A` (tests 1-2) ahead of `B` (tests 3-4): test 2
is found in `A`; and at the pointer 5, which no group owns, the step fails. -/
theorem unexpected_test_number_witness :
    (Validated [ex_a12, ex_b34] ∧
      scan_tests false 0 [RUN_OK] (State.init [ex_a12, ex_b34]) = .ok ex_run_a) ∧
    find_group_num ex_run_a.groups ex_run_a.test_num =
      some (0, { ex_a12 with passed_count := 1, passed_set := {1} }) ∧
    scan_step false 0 ex_run_out RUN_OK = .error (.die "unexpected test number 5") :=
  ⟨⟨by decide, by decide⟩,
   (((unexpected_test_number false 0 [ex_a12, ex_b34] [RUN_OK] ex_run_a RUN_OK).2
      (by decide) (by decide) (by decide)).2.2 0 _ rfl (by decide) (by decide)).1,
   (unexpected_test_number false 0 [] [] ex_run_out RUN_OK).1.mpr (by decide)⟩

/-- C24 fails at the file `group A { tests 1; } group B { tests 2-2147483647;
skip; }`, which the parser accepts: the round of the skip loop that finds `B`
at test 2 replaces the pointer by `-2147483648`, which is not greater than 2.
The requirements loop does the same for a group with an unmet requirement. -/
theorem resolver_round_wraps :
    parse_config "group A { tests 1; } group B { tests 2-2147483647; skip; }" =
      .ok [ex_a1, ex_skip_wide] ∧
    find_group_num [ex_a1, ex_skip_wide] 2 = some (1, ex_skip_wide) ∧
    ex_skip_wide.skip = true ∧
    skip_rejudge_groups false (2 + 1) [ex_a1, ex_skip_wide] 2 =
      skip_rejudge_groups false 2 [ex_a1, ex_skip_wide] (-2147483648) ∧
    skip_rejudge_groups false (2 + 1) [ex_a1, ex_skip_wide] 2 = .ok (-2147483648) ∧
    ¬ ((2 : Int) < -2147483648) ∧
    parse_with_requirements 0 (2 + 1)
        [ex_a1, { ex_skip_wide with requires := ["A"] }] 2 =
      .ok ([ex_a1, { ex_skip_wide with
                      requires := ["A"],
                      comment := requires_comment 0 { ex_skip_wide with requires := ["A"] }
                        ex_a1 }],
           -2147483648) := by
  decide

/-- C24, amended: for every group vector with ranges such as the parser
delivers and every test index `t`.  The number of groups whose range does not
end before `t` is at most the number of groups, and each resolver loop, allowed
one round for each of them (so at most as many rounds as there are groups),
ends: the requirements loop with a result or with the fault of
`meet_requirements`, the skip loop with a result.  A round of either loop
takes `t` to `g.last + 1`, computed in the type `int`, for the group `g` that
contains `t`: when `g` ends before the largest `int` that is greater than `t`
and leaves fewer groups ahead; when `g` ends at the largest `int` it is
`INT_MIN`, which no group contains, so that the loop ends. -/
theorem resolver_loops_terminate (rejudge_flag : Bool) (locale_id : Int) (groups : List Group)
    (t : Int) (hrg : Ranged groups) :
    groups_ahead groups t ≤ groups.length ∧
    (∀ fuel, groups_ahead groups t < fuel →
      parse_with_requirements locale_id fuel groups t ≠ .error .out_of_fuel) ∧
    parse_with_requirements locale_id (groups.length + 1) groups t ≠ .error .out_of_fuel ∧
    (∀ fuel, groups_ahead groups t < fuel →
      ∃ t1, skip_rejudge_groups rejudge_flag fuel groups t = .ok t1) ∧
    (∃ t1, skip_rejudge_groups rejudge_flag (groups.length + 1) groups t = .ok t1) ∧
    (∀ (fuel i : Nat) (g gg : Group), find_group_num groups t = some (i, g) →
      g.meet_requirements groups = .ok (some gg) →
      parse_with_requirements locale_id (fuel + 1) groups t =
        parse_with_requirements locale_id fuel
          (groups.set i (requires_body locale_id g gg)) (wrap (g.last + 1)) ∧
      (groups.set i (requires_body locale_id g gg)).length = groups.length ∧
      (g.last < INT_MAX →
        wrap (g.last + 1) = g.last + 1 ∧ t < g.last + 1 ∧
        groups_ahead (groups.set i (requires_body locale_id g gg)) (g.last + 1) <
          groups_ahead groups t) ∧
      (g.last = INT_MAX →
        wrap (g.last + 1) = INT_MIN ∧
        find_group_num (groups.set i (requires_body locale_id g gg)) INT_MIN = none ∧
        parse_with_requirements locale_id (fuel + 1)
            (groups.set i (requires_body locale_id g gg)) INT_MIN =
          .ok (groups.set i (requires_body locale_id g gg), INT_MIN))) ∧
    (∀ (fuel i : Nat) (g : Group), find_group_num groups t = some (i, g) →
      (g.skip || (g.skip_if_not_rejudge && !rejudge_flag)) = true →
      skip_rejudge_groups rejudge_flag (fuel + 1) groups t =
        skip_rejudge_groups rejudge_flag fuel groups (wrap (g.last + 1)) ∧
      (g.last < INT_MAX →
        wrap (g.last + 1) = g.last + 1 ∧ t < g.last + 1 ∧
        groups_ahead groups (g.last + 1) < groups_ahead groups t) ∧
      (g.last = INT_MAX →
        wrap (g.last + 1) = INT_MIN ∧ find_group_num groups INT_MIN = none ∧
        skip_rejudge_groups rejudge_flag (fuel + 1) groups INT_MIN = .ok INT_MIN)) := by
  have hle := groups_ahead_le_length groups t
  refine ⟨hle, fun fuel h => parse_with_requirements_fuel locale_id fuel groups t hrg (Or.inl h),
    parse_with_requirements_fuel locale_id _ groups t hrg (Or.inl (Nat.lt_succ_of_le hle)),
    fun fuel h => skip_rejudge_groups_ok rejudge_flag fuel groups t hrg (Or.inl h),
    skip_rejudge_groups_ok rejudge_flag _ groups t hrg (Or.inl (Nat.lt_succ_of_le hle)), ?_, ?_⟩
  · intro fuel i g gg hf hm
    obtain ⟨hg, h1, h2, h3, h4⟩ := owner_range hrg hf
    obtain ⟨_, _, hin, hout⟩ := moved_past h3 h1 h2 h4
    have hcfg : (groups.set i (requires_body locale_id g gg)).map Group.config
        = groups.map Group.config :=
      map_set_same Group.config hg (requires_body_config locale_id g gg)
    have hnone : find_group_num (groups.set i (requires_body locale_id g gg)) INT_MIN = none :=
      find_group_num_neg (ranged_of_config _ hcfg hrg) (by decide)
    refine ⟨?_, List.length_set _ _ _, fun hlt => ⟨hin hlt, by omega, ?_⟩,
      fun heq => ⟨hout heq, hnone, ?_⟩⟩
    · rw [parse_with_requirements, hf]
      simp only [hm]
    · rw [groups_ahead_of_config _ hcfg]
      exact groups_ahead_lt hg h2
    · rw [parse_with_requirements, hnone]
  · intro fuel i g hf hskip
    obtain ⟨hg, h1, h2, h3, h4⟩ := owner_range hrg hf
    obtain ⟨_, _, hin, hout⟩ := moved_past h3 h1 h2 h4
    have hnone : find_group_num groups INT_MIN = none := find_group_num_neg hrg (by decide)
    refine ⟨?_, fun hlt => ⟨hin hlt, by omega, groups_ahead_lt hg h2⟩,
      fun heq => ⟨hout heq, hnone, ?_⟩⟩
    · rw [skip_rejudge_groups, hf]
      simp only [hskip, if_true]
    · rw [skip_rejudge_groups, hnone]

/-- C24, amended, at `A`, the skipped group `S` and `B`, from test 2: the skip
loop finds `S`, whose last test is 2, and goes on from test 3. -/
theorem resolver_loops_terminate_witness :
    find_group_num [ex_a1, ex_s2, ex_b3] 2 = some (1, ex_s2) ∧
    skip_rejudge_groups false (3 + 1) [ex_a1, ex_s2, ex_b3] 2 =
        skip_rejudge_groups false 3 [ex_a1, ex_s2, ex_b3] (wrap (2 + 1)) ∧
    skip_rejudge_groups false (3 + 1) [ex_a1, ex_s2, ex_b3] 2 = .ok 3 ∧
    groups_ahead [ex_a1, ex_s2, ex_b3] (2 + 1) < groups_ahead [ex_a1, ex_s2, ex_b3] 2 :=
  ⟨by decide,
   ((resolver_loops_terminate false 0 [ex_a1, ex_s2, ex_b3] 2 (by decide)).2.2.2.2.2.2 3 1
      ex_s2 (by decide) (by decide)).1,
   by decide,
   (((resolver_loops_terminate false 0 [ex_a1, ex_s2, ex_b3] 2 (by decide)).2.2.2.2.2.2 3 1
      ex_s2 (by decide) (by decide)).2.1 (by decide)).2.2⟩

/-- C25: in a state reached over a validated configuration with ranges such as
the parser delivers, for a group with `test_score` set or `test_all` set and
the test pointer `t` in `[first, last - 1]`.  Whatever the outcome, the step sets the pointer to
`t + 1` and writes `-1`, and only this group may change; with `test_all` alone
an outcome other than `RUN_OK` changes nothing in the group.  So the outcomes
of any number of tests up to the last but one are each taken for the next test
in turn, and with `test_all` alone they leave `total_score` and the comment as
they were. -/
theorem every_test_evaluated (rejudge_flag : Bool) (locale_id : Int) (cfg : List Group)
    (outcomes : List Int) (s : State) (i : Nat) (g : Group) (hvalid : Validated cfg)
    (hrg : Ranged cfg)
    (hrun : scan_tests rejudge_flag locale_id outcomes (State.init cfg) = .ok s)
    (hg : s.groups[i]? = some g) (h1 : g.first ≤ s.test_num) (h2 : s.test_num < g.last)
    (hmode : 0 ≤ g.test_score ∨ g.test_all = true) :
    (∀ o : Int, ∃ g1,
      scan_step rejudge_flag locale_id s o =
        .ok { groups := s.groups.set i g1, test_num := s.test_num + 1,
              out := s.out ++ [-1] } ∧
      g1.config = g.config ∧ (o ≠ RUN_OK → g.test_score < 0 → g1 = g)) ∧
    (∀ body : List Int, s.test_num + body.length ≤ g.last →
      ∃ g1 out1,
        scan_tests rejudge_flag locale_id body s =
          .ok { groups := s.groups.set i g1, test_num := s.test_num + body.length,
                out := out1 } ∧
        g1.config = g.config ∧
        (g.test_score < 0 → g1.total_score = g.total_score ∧ g1.comment = g.comment)) := by
  obtain ⟨_, _, hres, hsep, hown, hrgs⟩ := run_facts hvalid hrg hrun
  have hgr := hrgs g (List.getElem?_mem hg)
  constructor
  · intro o
    have hf := hown i g s.test_num hg h1 (le_of_lt h2)
    obtain ⟨a, s1, ha, hs1, _, hcont, _⟩ :=
      scan_step_owner rejudge_flag locale_id s o hf hrgs hres
    obtain ⟨a1, ha1, hnum, hcfg, _⟩ := analyse_inside locale_id g s.test_num o (by omega) h2
      hgr.2 (by tauto : o = RUN_OK ∨ 0 ≤ g.test_score ∨ g.test_all = true)
    rw [ha] at ha1
    cases Except.ok.inj ha1
    refine ⟨a.group, ?_, hcfg, ?_⟩
    · rw [hs1, hcont (by omega), hnum]
    · intro ho hts
      obtain ⟨a2, ha2, _, _, _, _, hall, _⟩ := analyse_test_group_eq locale_id g s.test_num o
      rw [ha] at ha2
      cases Except.ok.inj ha2
      rcases hmode with hm | hm
      · omega
      · exact (hall ho hts hm).1
  · intro body hlen
    obtain ⟨g1, out1, hs, hcfg, hcom, _, _, htot⟩ :=
      scan_tests_inside rejudge_flag locale_id i body s g hg
        (fun j h hji hj => by have := hsep j i h g hji hj hg; omega) h1 hlen hrgs hres
        (fun o _ => by tauto)
    refine ⟨g1, out1, hs, hcfg, fun hts => ⟨?_, hcom⟩⟩
    rw [htot, (iterate_total _ g).2, if_neg (fun h => by omega)]

/-- C25 at a group with tests 1-3 and `test_all`: a wrong answer for test 1
moves the pointer to test 2, writes `-1` and leaves the group as it was. -/
theorem every_test_evaluated_witness :
    (Validated [ex_all] ∧ scan_tests false 0 [] (State.init [ex_all]) = .ok (State.init [ex_all])) ∧
    ∃ g1,
      scan_step false 0 (State.init [ex_all]) RUN_WRONG_ANSWER_ERR =
        .ok { groups := (State.init [ex_all]).groups.set 0 g1,
              test_num := (State.init [ex_all]).test_num + 1,
              out := (State.init [ex_all]).out ++ [-1] } ∧
      g1.config = ex_all.config ∧
      (RUN_WRONG_ANSWER_ERR ≠ RUN_OK → ex_all.test_score < 0 → g1 = ex_all) :=
  ⟨⟨by decide, by decide⟩,
   (every_test_evaluated false 0 [ex_all] [] (State.init [ex_all]) 0 ex_all (by decide)
      (by decide) (by decide) rfl (by decide) (by decide) (by decide)).1
      RUN_WRONG_ANSWER_ERR⟩

/-! ## Invariants of the reachable states -/

/-- The passed tests of a group whose range is not reversed are at most as many
as the range has tests. -/
theorem countInv_bounds {g : Group} {t : Int} (h : g.CountInv t) (hr : g.first ≤ g.last) :
    0 ≤ g.passed_count ∧ g.passed_count ≤ g.last - g.first + 1 := by
  obtain ⟨hcard, hin⟩ := h
  have hsub : g.passed_set ⊆ Finset.Icc g.first g.last := by
    intro x hx
    exact Finset.mem_Icc.mpr ⟨(hin x hx).1, (hin x hx).2.1⟩
  have hle := Finset.card_le_card hsub
  rw [Int.card_Icc] at hle
  constructor
  · omega
  · rw [hcard]
    omega

/-- In the states reached from the initial state of a configuration the parser
accepts, every group keeps the counting and the scoring invariant, a range that
is not reversed and a score that is not negative. -/
theorem run_invariants {rejudge_flag : Bool} {locale_id : Int} {content : String}
    {cfg : List Group} {outcomes : List Int} {s : State}
    (hcfg : parse_config content = .ok cfg)
    (hrun : scan_tests rejudge_flag locale_id outcomes (State.init cfg) = .ok s) :
    ∀ g ∈ s.groups, g.CountInv s.test_num ∧ g.ScoreInv s.test_num ∧ g.first ≤ g.last ∧
      0 ≤ g.score := by
  obtain ⟨_, _, hplain⟩ := parse_config_plain hcfg
  have hrg : Ranged (State.init cfg).groups := ranged_of_plain hplain
  have hc := scan_tests_config rejudge_flag locale_id outcomes _ _ hrun
  have hcount := scan_tests_preserves Group.CountInv countInv_mono countInv_fields countInv_step
    rejudge_flag locale_id outcomes _ _ hrg hrun (by
      intro j g hj
      obtain ⟨_, _, _, _, p5, _, _, p8, _⟩ := hplain g (List.getElem?_mem hj)
      unfold Group.CountInv
      rw [p5, p8]
      exact ⟨rfl, fun x hx => absurd hx (Finset.not_mem_empty x)⟩)
  have hscore := scan_tests_preserves Group.ScoreInv scoreInv_mono scoreInv_fields
    scoreInv_step rejudge_flag locale_id outcomes _ _ hrg hrun (by
      intro j g hj
      obtain ⟨_, _, _, _, p5, p6, _, _⟩ := hplain g (List.getElem?_mem hj)
      unfold Group.ScoreInv
      rw [p5, p6]
      exact ⟨fun _ => rfl, fun _ => Or.inl (by simp [wrap_zero])⟩)
  intro g hg
  obtain ⟨j, hj⟩ := List.mem_iff_getElem?.mp hg
  obtain ⟨c, hcm, hcc⟩ := mem_of_config hc hg
  obtain ⟨f1, f2, _, f4, _⟩ := config_fields hcc
  obtain ⟨p1, _, p3, _⟩ := hplain c hcm
  exact ⟨hcount j g hj, hscore j g hj, by rw [f1, f2]; exact p1, by rw [f4]; exact p3⟩

/-- C27 fails at the file `group A { tests 1-2147483647; }`, which the parser
accepts: after the outcomes OK, wrong answer the group has passed test 1 and
the test pointer is the `int` `-2147483648`, below the passed test. -/
theorem passed_test_above_pointer :
    parse_config "group A { tests 1-2147483647; }" = .ok [ex_wide] ∧
    scan_tests false 0 [RUN_OK, RUN_WRONG_ANSWER_ERR] (State.init [ex_wide]) =
      .ok { groups := [{ group_id := "A", first := 1, last := 2147483647, passed_count := 1,
                         passed_set := {1}, comment := test_stop_comment 0 ex_wide 2 }],
            test_num := -2147483648, out := [-1, -1] } ∧
    (1 : Int) ∈ ({1} : Finset Int) ∧ ¬ ((1 : Int) < -2147483648) := by
  decide

/-- C27, amended: in every state reached from the initial state of a
configuration the parser accepts, by any sequence of outcomes, every group has
`passed_count` equal to the size of `passed_set`, has `passed_set` inside
`[first, last]`, hence `0 <= passed_count <= last - first + 1`, and has every
passed test smaller than the test pointer, unless the pointer went past the
largest `int` behind a group that ends there and is `INT_MIN`.  Without such a
group every passed test is smaller than the test pointer. -/
theorem counting_invariant (rejudge_flag : Bool) (locale_id : Int) (content : String)
    (cfg : List Group) (outcomes : List Int) (s : State)
    (hcfg : parse_config content = .ok cfg)
    (hrun : scan_tests rejudge_flag locale_id outcomes (State.init cfg) = .ok s) :
    ∀ g ∈ s.groups,
      g.passed_count = g.passed_set.card ∧
      (∀ x ∈ g.passed_set, g.first ≤ x ∧ x ≤ g.last) ∧
      0 ≤ g.passed_count ∧ g.passed_count ≤ g.last - g.first + 1 ∧
      (∀ x ∈ g.passed_set, x < s.test_num ∨ s.test_num = INT_MIN) ∧
      (Bounded cfg → ∀ x ∈ g.passed_set, x < s.test_num) := by
  intro g hg
  obtain ⟨hvalid, _, hplain⟩ := parse_config_plain hcfg
  have hrg : Ranged cfg := ranged_of_plain hplain
  obtain ⟨hcount, _, hr, _⟩ := run_invariants hcfg hrun g hg
  obtain ⟨h0, hn⟩ := countInv_bounds hcount hr
  obtain ⟨_, hptr, _⟩ := run_facts hvalid hrg hrun
  refine ⟨hcount.1, fun x hx => ⟨(hcount.2 x hx).1, (hcount.2 x hx).2.1⟩, h0, hn,
    fun x hx => ?_, fun hbd x hx => ?_⟩
  · have := (hcount.2 x hx).2.2
    omega
  · have := (hcount.2 x hx).2.2
    have hle := scan_tests_le rejudge_flag locale_id outcomes _ _ hrg hbd hrun
    have h1 : (State.init cfg).test_num = 1 := rfl
    rw [h1] at hle
    omega

/-- C27, amended, at the file `group A { tests 1-3; test_all; }` after the
outcomes OK, wrong answer: the group has passed test 1 only and the pointer is
at test 3. -/
theorem counting_invariant_witness :
    (parse_config "group A { tests 1-3; test_all; }" =
        .ok [{ group_id := "A", first := 1, last := 3, test_all := true }] ∧
      scan_tests false 0 [RUN_OK, RUN_WRONG_ANSWER_ERR]
          (State.init [{ group_id := "A", first := 1, last := 3, test_all := true }]) =
        .ok { groups := [{ group_id := "A", first := 1, last := 3, test_all := true,
                           passed_count := 1, passed_set := {1} }],
              test_num := 3, out := [-1, -1] }) ∧
    ∀ g ∈ [({ group_id := "A", first := 1, last := 3, test_all := true,
              passed_count := 1, passed_set := {1} } : Group)],
      g.passed_count = g.passed_set.card ∧
      (∀ x ∈ g.passed_set, g.first ≤ x ∧ x ≤ g.last) ∧
      0 ≤ g.passed_count ∧ g.passed_count ≤ g.last - g.first + 1 ∧
      (∀ x ∈ g.passed_set, x < 3 ∨ (3 : Int) = INT_MIN) ∧
      (Bounded [{ group_id := "A", first := 1, last := 3, test_all := true }] →
        ∀ x ∈ g.passed_set, x < 3) :=
  ⟨⟨by decide, by decide⟩,
   counting_invariant false 0 "group A { tests 1-3; test_all; }"
     [{ group_id := "A", first := 1, last := 3, test_all := true }]
     [RUN_OK, RUN_WRONG_ANSWER_ERR]
     { groups := [{ group_id := "A", first := 1, last := 3, test_all := true,
                    passed_count := 1, passed_set := {1} }],
       test_num := 3, out := [-1, -1] } (by decide) (by decide)⟩

theorem add_score_marked (acc : Tally) (group_score : Int) (g : Group) :
    (add_score acc group_score g).valuer_marked = acc.valuer_marked := by
  unfold add_score
  split
  · rfl
  · simp only
    split
    · rfl
    · split <;> rfl

/-- One round of the loop of `count_groups_score` sets the marked flag when the
group declares `sets_marked` and has passed, or has a `sets_marked_if_passed`
list that is not empty and names passed groups only; otherwise the flag stays
as it was. -/
theorem count_group_marked (locale_id : Int) (all : List Group) (acc : Tally) (g : Group) :
    (count_group locale_id all acc g).valuer_marked =
      if (g.sets_marked = true ∧ g.is_passed = true) ∨
          (g.sets_marked_if_passed ≠ [] ∧
            ∀ gn ∈ g.sets_marked_if_passed, ∃ pg, find_group_id all gn = some pg ∧
              pg.is_passed = true)
      then 1 else acc.valuer_marked := by
  unfold count_group
  simp only
  rw [add_score_marked, (print_group_score_counters locale_id g _).2.2.2.2]
  simp only
  have hvec : ∀ vm : Int, analyse_sets_marker_vector g.sets_marked_if_passed vm all =
      if (g.sets_marked_if_passed ≠ [] ∧
            ∀ gn ∈ g.sets_marked_if_passed, ∃ pg, find_group_id all gn = some pg ∧
              pg.is_passed = true) then 1 else vm := by
    intro vm
    have hany : (g.sets_marked_if_passed.any (fun gn =>
        match find_group_id all gn with
        | none => true
        | some pg2 => !pg2.is_passed)) = false ↔
        ∀ gn ∈ g.sets_marked_if_passed, ∃ pg, find_group_id all gn = some pg ∧
          pg.is_passed = true := by
      rw [List.any_eq_false]
      constructor
      · intro h gn hgn
        have := h gn hgn
        cases hfind : find_group_id all gn with
        | none => rw [hfind] at this; exact absurd rfl this
        | some pg =>
          rw [hfind] at this
          refine ⟨pg, rfl, ?_⟩
          cases hp : pg.is_passed with
          | true => rfl
          | false => exact absurd (by simp [hp]) this
      · intro h gn hgn
        obtain ⟨pg, h1, h2⟩ := h gn hgn
        rw [h1]
        simp [h2]
    unfold analyse_sets_marker_vector
    by_cases hnil : g.sets_marked_if_passed = []
    · rw [hnil]
      simp
    · have hlen : g.sets_marked_if_passed.length > 0 := List.length_pos.mpr hnil
      by_cases hall : ∀ gn ∈ g.sets_marked_if_passed, ∃ pg, find_group_id all gn = some pg ∧
          pg.is_passed = true
      · have hR : (if (g.sets_marked_if_passed ≠ [] ∧
            ∀ gn ∈ g.sets_marked_if_passed, ∃ pg, find_group_id all gn = some pg ∧
              pg.is_passed = true) then (1 : Int) else vm) = 1 := if_pos ⟨hnil, hall⟩
        rw [hR, if_pos hlen]
        simp only [hany.mpr hall]
        rfl
      · have hR : (if (g.sets_marked_if_passed ≠ [] ∧
            ∀ gn ∈ g.sets_marked_if_passed, ∃ pg, find_group_id all gn = some pg ∧
              pg.is_passed = true) then (1 : Int) else vm) = vm :=
          if_neg (fun hc => hall hc.2)
        have hf : (g.sets_marked_if_passed.any (fun gn =>
            match find_group_id all gn with
            | none => true
            | some pg2 => !pg2.is_passed)) = true := by
          cases hv : (g.sets_marked_if_passed.any (fun gn =>
            match find_group_id all gn with
            | none => true
            | some pg2 => !pg2.is_passed)) with
          | true => rfl
          | false => exact absurd (hany.mp hv) hall
        rw [hR, if_pos hlen]
        simp only [hf]
        rfl
  rw [hvec]
  by_cases hs : g.sets_marked = true ∧ g.is_passed = true
  · have hb : (g.sets_marked && g.is_passed) = true := by simp [hs.1, hs.2]
    rw [if_pos hb, if_pos (Or.inl hs)]
    simp only
    split <;> rfl
  · have hb : ¬ (g.sets_marked && g.is_passed) = true := by
      intro hc
      exact hs (by simpa using hc)
    rw [if_neg hb]
    by_cases hv : g.sets_marked_if_passed ≠ [] ∧
        ∀ gn ∈ g.sets_marked_if_passed, ∃ pg, find_group_id all gn = some pg ∧
          pg.is_passed = true
    · rw [if_pos hv, if_pos (Or.inr hv)]
    · have hno : ¬ ((g.sets_marked = true ∧ g.is_passed = true) ∨
          (g.sets_marked_if_passed ≠ [] ∧
            ∀ gn ∈ g.sets_marked_if_passed, ∃ pg, find_group_id all gn = some pg ∧
              pg.is_passed = true)) := by
        rintro (h | h)
        · exact hs h
        · exact hv h
      rw [if_neg hv, if_neg hno]
      split <;> rfl

theorem foldl_count_group_marked (locale_id : Int) (all : List Group) (groups : List Group) :
    ∀ acc : Tally,
      (groups.foldl (count_group locale_id all) acc).valuer_marked =
        if ∃ g ∈ groups, (g.sets_marked = true ∧ g.is_passed = true) ∨
            (g.sets_marked_if_passed ≠ [] ∧
              ∀ gn ∈ g.sets_marked_if_passed, ∃ pg, find_group_id all gn = some pg ∧
                pg.is_passed = true)
        then 1 else acc.valuer_marked := by
  induction groups with
  | nil => intro acc; simp
  | cons g tl ih =>
    intro acc
    rw [List.foldl_cons, ih, count_group_marked]
    by_cases htl : ∃ g ∈ tl, (g.sets_marked = true ∧ g.is_passed = true) ∨
        (g.sets_marked_if_passed ≠ [] ∧
          ∀ gn ∈ g.sets_marked_if_passed, ∃ pg, find_group_id all gn = some pg ∧
            pg.is_passed = true)
    · obtain ⟨h, hh, hm⟩ := htl
      rw [if_pos ⟨h, hh, hm⟩, if_pos ⟨h, List.mem_cons_of_mem _ hh, hm⟩]
    · rw [if_neg htl]
      by_cases hg : (g.sets_marked = true ∧ g.is_passed = true) ∨
          (g.sets_marked_if_passed ≠ [] ∧
            ∀ gn ∈ g.sets_marked_if_passed, ∃ pg, find_group_id all gn = some pg ∧
              pg.is_passed = true)
      · rw [if_pos hg, if_pos ⟨g, List.mem_cons_self _ _, hg⟩]
      · rw [if_neg hg, if_neg]
        rintro ⟨h, hh, hm⟩
        rcases List.mem_cons.mp hh with rfl | hh
        · exact hg hm
        · exact htl ⟨h, hh, hm⟩

/-- With distinct ids, the group `find_group` returns for a name that some
group carries has passed exactly when every group of that name has. -/
theorem named_groups_passed {all : List Group} (hnd : (all.map Group.group_id).Nodup)
    (names : List String) (hres : ∀ gn ∈ names, ∃ h ∈ all, h.group_id = gn) :
    (∀ gn ∈ names, ∃ pg, find_group_id all gn = some pg ∧ pg.is_passed = true) ↔
      ∀ h ∈ all, h.group_id ∈ names → h.is_passed = true := by
  constructor
  · intro hall h hh hn
    obtain ⟨pg, hf, hp⟩ := hall h.group_id hn
    obtain ⟨hpg, hid⟩ := find_group_id_some hf
    have : pg = h := List.inj_on_of_nodup_map hnd hpg hh hid
    rw [← this]
    exact hp
  · intro hall gn hgn
    obtain ⟨pg, hf⟩ := find_group_id_isSome (hres gn hgn)
    obtain ⟨hpg, hid⟩ := find_group_id_some hf
    exact ⟨pg, hf, hall pg hpg (by rw [hid]; exact hgn)⟩

/-- C21: for the final group list of a run over a configuration the parser
accepts, with the marked flag 0 that `main` starts from.  The flag of the
report is 1 if and only if some group either declares `sets_marked` and has
passed, or names at least one group in `sets_marked_if_passed` and every group
it names has passed; otherwise it is 0.  A round of the loop over the groups
that finds the flag 1 leaves it 1; and the flag is the second integer of the
line when the marking capability is enabled. -/
theorem marked_flag_iff (rejudge_flag marked_flag user_score_flag : Bool) (locale_id : Int)
    (content : String) (cfg : List Group) (outcomes : List Int) (s : State)
    (hcfg : parse_config content = .ok cfg)
    (hrun : scan_tests rejudge_flag locale_id outcomes (State.init cfg) = .ok s) :
    ((count_groups_score marked_flag user_score_flag locale_id s.groups 0).tally.valuer_marked
        = 1 ↔
      ∃ g ∈ s.groups, (g.sets_marked = true ∧ g.is_passed = true) ∨
        (g.sets_marked_if_passed ≠ [] ∧
          ∀ h ∈ s.groups, h.group_id ∈ g.sets_marked_if_passed → h.is_passed = true)) ∧
    ((count_groups_score marked_flag user_score_flag locale_id s.groups 0).tally.valuer_marked
        = 1 ∨
      (count_groups_score marked_flag user_score_flag locale_id s.groups 0).tally.valuer_marked
        = 0) ∧
    (∀ (acc : Tally) (g : Group), acc.valuer_marked = 1 →
      (count_group locale_id s.groups acc g).valuer_marked = 1) ∧
    (marked_flag = true →
      (count_groups_score marked_flag user_score_flag locale_id s.groups 0).stdout[1]? =
        some (count_groups_score marked_flag user_score_flag locale_id s.groups
          0).tally.valuer_marked) := by
  obtain ⟨hvalid, hnd, _⟩ := parse_config_plain hcfg
  have hc := scan_tests_config rejudge_flag locale_id outcomes _ _ hrun
  have hnd1 : (s.groups.map Group.group_id).Nodup := by
    have e : s.groups.map Group.group_id = cfg.map Group.group_id := by
      have := congrArg (List.map Group.group_id) hc
      simpa [List.map_map, Function.comp_def, Group.config] using this
    rw [e]
    exact hnd
  have hres : ∀ g ∈ s.groups, ∀ gn ∈ g.sets_marked_if_passed,
      ∃ h ∈ s.groups, h.group_id = gn := by
    intro g hg gn hgn
    obtain ⟨c, hcm, hcc⟩ := mem_of_config hc hg
    have e9 := (config_fields hcc).2.2.2.2.2.2.2.2.1
    obtain ⟨h, hh, hid⟩ := validated_marks hvalid c hcm gn (by rw [← e9]; exact hgn)
    obtain ⟨h1, hh1, hc1⟩ := mem_of_config hc.symm hh
    exact ⟨h1, hh1, by rw [← hid]; exact ((config_fields hc1).2.2.2.2.2.1).symm⟩
  have hval : (count_groups_score marked_flag user_score_flag locale_id s.groups
      0).tally.valuer_marked =
      if ∃ g ∈ s.groups, (g.sets_marked = true ∧ g.is_passed = true) ∨
          (g.sets_marked_if_passed ≠ [] ∧
            ∀ h ∈ s.groups, h.group_id ∈ g.sets_marked_if_passed → h.is_passed = true)
      then 1 else 0 := by
    unfold count_groups_score
    simp only
    rw [foldl_count_group_marked]
    have hiff : (∃ g ∈ s.groups, (g.sets_marked = true ∧ g.is_passed = true) ∨
          (g.sets_marked_if_passed ≠ [] ∧
            ∀ gn ∈ g.sets_marked_if_passed, ∃ pg, find_group_id s.groups gn = some pg ∧
              pg.is_passed = true)) ↔
        ∃ g ∈ s.groups, (g.sets_marked = true ∧ g.is_passed = true) ∨
          (g.sets_marked_if_passed ≠ [] ∧
            ∀ h ∈ s.groups, h.group_id ∈ g.sets_marked_if_passed → h.is_passed = true) := by
      constructor
      · rintro ⟨g, hg, hm⟩
        refine ⟨g, hg, hm.imp id (fun hm => ⟨hm.1, ?_⟩)⟩
        exact (named_groups_passed hnd1 _ (hres g hg)).mp hm.2
      · rintro ⟨g, hg, hm⟩
        refine ⟨g, hg, hm.imp id (fun hm => ⟨hm.1, ?_⟩)⟩
        exact (named_groups_passed hnd1 _ (hres g hg)).mpr hm.2
    by_cases hex : ∃ g ∈ s.groups, (g.sets_marked = true ∧ g.is_passed = true) ∨
        (g.sets_marked_if_passed ≠ [] ∧
          ∀ h ∈ s.groups, h.group_id ∈ g.sets_marked_if_passed → h.is_passed = true)
    · rw [if_pos hex, if_pos (hiff.mpr hex)]
    · rw [if_neg hex, if_neg (fun hc => hex (hiff.mp hc))]
  refine ⟨?_, ?_, ?_, ?_⟩
  · rw [hval]
    constructor
    · intro h
      by_contra hno
      rw [if_neg hno] at h
      cases h
    · intro h
      rw [if_pos h]
  · rw [hval]
    split
    · exact Or.inl rfl
    · exact Or.inr rfl
  · intro acc g hacc
    rw [count_group_marked, hacc]
    split <;> rfl
  · intro hm
    subst hm
    unfold count_groups_score
    simp

/-- C21 at the file `group A { tests 1; sets_marked_if_passed A; }` after its
only test has passed: the flag is 1. -/
theorem marked_flag_iff_witness :
    (parse_config "group A { tests 1; sets_marked_if_passed A; }" =
        .ok [{ group_id := "A", first := 1, last := 1, sets_marked_if_passed := ["A"] }] ∧
      scan_tests false 0 [RUN_OK]
          (State.init [{ group_id := "A", first := 1, last := 1,
                         sets_marked_if_passed := ["A"] }]) = .ok ex_run_marked) ∧
    (count_groups_score true false 0 ex_run_marked.groups 0).tally.valuer_marked = 1 ∧
    (count_groups_score true false 0 ex_run_marked.groups 0).stdout = [0, 1] :=
  ⟨⟨by decide, by decide⟩,
   (marked_flag_iff false true false 0 "group A { tests 1; sets_marked_if_passed A; }"
      [{ group_id := "A", first := 1, last := 1, sets_marked_if_passed := ["A"] }]
      [RUN_OK] ex_run_marked (by decide) (by decide)).1.mpr
     ⟨{ group_id := "A", first := 1, last := 1, sets_marked_if_passed := ["A"],
        passed_count := 1, passed_set := {1} }, by decide, Or.inr (by decide)⟩,
   by decide⟩

/-- C29 fails at the file `group A { tests 1; } group B { tests 2; user_status OK; }`
after a wrong answer for test 1 and a passed test 2: the group `A`, which is not
offline, has not passed, and the reported user status is `RUN_OK`, the override
of the later group `B`. -/
theorem user_status_ok_after_failed_group :
    parse_config "group A { tests 1; } group B { tests 2; user_status OK; }" =
      .ok [{ group_id := "A", first := 1, last := 1 },
           { group_id := "B", first := 2, last := 2, user_status := 0 }] ∧
    scan_tests false 0 [RUN_WRONG_ANSWER_ERR, RUN_OK]
        (State.init [{ group_id := "A", first := 1, last := 1 },
                     { group_id := "B", first := 2, last := 2, user_status := 0 }]) =
      .ok ex_run_override ∧
    (count_groups_score true true 0 ex_run_override.groups 0).tally.user_status = RUN_OK ∧
    (count_groups_score true true 0 ex_run_override.groups 0).stdout = [0, 0, 0, 0, 1] ∧
    ¬ (∀ g ∈ ex_run_override.groups, g.is_offline = false → g.is_passed = true) := by
  decide

theorem foldl_spec_user_status_ok (post : List Group) :
    ∀ status : Int, status ≠ RUN_OK → post.foldl spec_user_status status = RUN_OK →
      ∃ h ∈ post, h.is_offline = false ∧ h.is_passed = true ∧ h.user_status = RUN_OK := by
  induction post with
  | nil =>
    intro status hne h
    exact absurd h hne
  | cons g tl ih =>
    intro status hne h
    rw [List.foldl_cons] at h
    by_cases hg : spec_user_status status g = RUN_OK
    · refine ⟨g, List.mem_cons_self _ _, ?_⟩
      unfold spec_user_status at hg
      cases hoff : g.is_offline with
      | true =>
        rw [hoff] at hg
        exact absurd hg hne
      | false =>
        rw [hoff] at hg
        simp only [Bool.false_eq_true, if_false] at hg
        cases hp : g.is_passed with
        | false =>
          rw [hp, if_pos rfl] at hg
          exact absurd hg (by decide)
        | true =>
          rw [hp, if_neg (by decide)] at hg
          split at hg
          · exact ⟨rfl, rfl, hg⟩
          · exact absurd hg hne
    · obtain ⟨h1, hh1, hp⟩ := ih _ hg h
      exact ⟨h1, List.mem_cons_of_mem _ hh1, hp⟩

/-- C29, amended: if the user status of the report is `RUN_OK`, then every
group that is not offline and has not passed is followed, later in the group
list, by a group that is not offline, has passed and carries the `user_status`
override `RUN_OK`.  So when no such override is carried, one group that is not
offline and has not passed makes the reported status differ from `RUN_OK`. -/
theorem user_status_ok (marked_flag user_score_flag : Bool) (locale_id : Int)
    (groups : List Group) (valuer_marked : Int)
    (hok : (count_groups_score marked_flag user_score_flag locale_id groups
      valuer_marked).tally.user_status = RUN_OK) :
    (∀ (pre post : List Group) (g : Group), groups = pre ++ g :: post →
      g.is_offline = false → g.is_passed = false →
      ∃ h ∈ post, h.is_offline = false ∧ h.is_passed = true ∧ h.user_status = RUN_OK) ∧
    ((∀ h ∈ groups, ¬ (h.is_offline = false ∧ h.is_passed = true ∧ h.user_status = RUN_OK)) →
      ∀ g ∈ groups, g.is_offline = false → g.is_passed = true) := by
  have hfold : groups.foldl spec_user_status RUN_OK = RUN_OK := by
    have := (foldl_count_group locale_id groups groups { valuer_marked := valuer_marked }
      rfl rfl rfl).2.2.2
    unfold count_groups_score at hok
    simp only at hok
    rw [this] at hok
    exact hok
  have hfirst : ∀ (pre post : List Group) (g : Group), groups = pre ++ g :: post →
      g.is_offline = false → g.is_passed = false →
      ∃ h ∈ post, h.is_offline = false ∧ h.is_passed = true ∧ h.user_status = RUN_OK := by
    intro pre post g hsplit hoff hp
    rw [hsplit, List.foldl_append, List.foldl_cons] at hfold
    have hg : spec_user_status (pre.foldl spec_user_status RUN_OK) g = RUN_PARTIAL := by
      unfold spec_user_status
      rw [hoff, hp]
      rfl
    rw [hg] at hfold
    exact foldl_spec_user_status_ok post RUN_PARTIAL (by decide) hfold
  refine ⟨hfirst, ?_⟩
  intro hno g hg hoff
  cases hp : g.is_passed with
  | true => rfl
  | false =>
    obtain ⟨pre, post, hsplit⟩ := List.append_of_mem hg
    obtain ⟨h, hh, hprop⟩ := hfirst pre post g hsplit hoff hp
    have hmem : h ∈ groups := by
      rw [hsplit]
      exact List.mem_append_right _ (List.mem_cons_of_mem _ hh)
    exact absurd hprop (hno h hmem)

/-- C29, amended, at the final list of the counterexample: the status is
`RUN_OK`, and the failed group `A` is followed by the passed group `B` with the
override `RUN_OK`. -/
theorem user_status_ok_witness :
    (count_groups_score true true 0 ex_run_override.groups 0).tally.user_status = RUN_OK ∧
    ∃ h ∈ [({ group_id := "B", first := 2, last := 2, user_status := 0,
              passed_count := 1, passed_set := {2} } : Group)],
      h.is_offline = false ∧ h.is_passed = true ∧ h.user_status = RUN_OK :=
  ⟨by decide,
   (user_status_ok true true 0 ex_run_override.groups 0 (by decide)).1
     [] [{ group_id := "B", first := 2, last := 2, user_status := 0,
           passed_count := 1, passed_set := {2} }]
     { group_id := "A", first := 1, last := 1 } rfl (by decide) (by decide)⟩

/-! ## The position of a token -/

/-- C26 fails at the file `group A`: its first token begins at the very first
character and is stored at line 1, column 0, and the token `A`, the seventh
character of the line, at column 6.  Behind a tab the first token is at
column 8. -/
theorem first_token_column_zero :
    ((ex_tokens "group A" 1).token = "group" ∧ (ex_tokens "group A" 1).t_line = 1 ∧
      (ex_tokens "group A" 1).t_pos = 0 ∧ (ex_tokens "group A" 1).t_pos ≠ 1) ∧
    ((ex_tokens "group A" 2).token = "A" ∧ (ex_tokens "group A" 2).t_line = 1 ∧
      (ex_tokens "group A" 2).t_pos = 6) ∧
    ((ex_tokens "\tgroup" 1).token = "group" ∧ (ex_tokens "\tgroup" 1).t_pos = 8) ∧
    ((ex_tokens "\n\ngroup" 1).token = "group" ∧ (ex_tokens "\n\ngroup" 1).t_line = 3 ∧
      (ex_tokens "\n\ngroup" 1).t_pos = 0) := by
  decide

theorem position_after_nonneg (before : List Char) :
    1 ≤ (position_after before).1 ∧ 0 ≤ (position_after before).2 := by
  induction before using List.reverseRecOn with
  | nil => exact ⟨le_refl _, le_refl _⟩
  | append_singleton before c ih =>
    rw [ConfigParser.position_after_append]
    unfold advance
    split
    · exact ⟨by show 1 ≤ (position_after before).1 + 1; omega, le_refl _⟩
    · split
      · exact ⟨ih.1, by show 0 ≤ ((position_after before).2 / 8 + 1) * 8; omega⟩
      · split
        · exact ⟨ih.1, by show 0 ≤ (position_after before).2 + 1; omega⟩
        · exact ih

/-- C26, amended: the lexer stores for every identifier and separator token the
line of its first character counted from 1 and the column of that character
counted from 0.  The position of a character is `position_after` of the text
ahead of it: line 1, column 0 at the start of the file; a line feed starts the
next line at column 0; a tab moves the column to the next multiple of 8; a
control character has no width; any other character takes one column.  The
lexer of `parse` starts on track, and each call of `next_token` that finds it
on track leaves it on track behind the token, with `t_line` and `t_pos` the
position of the first character of the token. -/
theorem token_position :
    position_after [] = (1, 0) ∧
    (∀ (before : List Char) (c : Char),
      position_after (before ++ [c]) =
        if c = '\n' then ((position_after before).1 + 1, 0)
        else if c = '\t' then
          ((position_after before).1, ((position_after before).2 / 8 + 1) * 8)
        else if c ≥ ' ' then ((position_after before).1, (position_after before).2 + 1)
        else position_after before) ∧
    (∀ before : List Char,
      (position_after (before ++ ['\t'])).1 = (position_after before).1 ∧
      (position_after (before ++ ['\t'])).2 % 8 = 0 ∧
      (position_after before).2 < (position_after (before ++ ['\t'])).2 ∧
      (position_after (before ++ ['\t'])).2 ≤ (position_after before).2 + 8) ∧
    (∀ content : String,
      ConfigParser.TracksAt content.data []
        ({ in_f := content.data, line := 1, pos := 0 } : ConfigParser).next_char) ∧
    (∀ (content before : List Char) (p q : ConfigParser),
      ConfigParser.TracksAt content before p → p.next_token = .ok q → q.t_type ≠ T_EOF →
      ∃ skipped tok, tok ≠ [] ∧ (∃ rest, content = before ++ skipped ++ tok ++ rest) ∧
        (q.t_line, q.t_pos) = position_after (before ++ skipped) ∧
        (q.t_type = T_IDENT → q.token.data = tok) ∧
        (q.t_type ≠ T_IDENT → ∃ c, tok = [c] ∧ q.t_type = char_code c) ∧
        ConfigParser.TracksAt content (before ++ skipped ++ tok) q) := by
  refine ⟨rfl, ?_, ?_, ?_, ?_⟩
  · intro before c
    rw [ConfigParser.position_after_append]
    rfl
  · intro before
    have h0 := (position_after_nonneg before).2
    rw [ConfigParser.position_after_append, advance, if_neg (by decide), if_pos rfl]
    refine ⟨rfl, ?_, ?_, ?_⟩
    · show ((position_after before).2 / 8 + 1) * 8 % 8 = 0
      omega
    · show (position_after before).2 < ((position_after before).2 / 8 + 1) * 8
      omega
    · show ((position_after before).2 / 8 + 1) * 8 ≤ (position_after before).2 + 8
      omega
  · exact ConfigParser.tracks_init
  · intro content before p q ht h hne
    obtain ⟨skipped, tok, t1, _, h2⟩ := ConfigParser.next_token_position ht h
    obtain ⟨a1, a2, a3, a4⟩ := h2 hne
    exact ⟨skipped, tok, a1, ⟨q.in_c.toList ++ q.in_f, by rw [t1.1]; simp⟩, a2, a3, a4, t1⟩

/-- C26, amended, at the file `group A`: the first call of `next_token` finds the
token `group` behind nothing, at line 1 and column 0. -/
theorem token_position_witness :
    (ex_lexer "group A").next_token = .ok (ex_tokens "group A" 1) ∧
    (ex_tokens "group A" 1).t_type ≠ T_EOF ∧
    ((ex_tokens "group A" 1).t_line, (ex_tokens "group A" 1).t_pos) = (1, 0) ∧
    ∃ skipped tok, tok ≠ [] ∧
      (∃ rest, String.data "group A" = [] ++ skipped ++ tok ++ rest) ∧
      ((ex_tokens "group A" 1).t_line, (ex_tokens "group A" 1).t_pos) =
        position_after ([] ++ skipped) ∧
      ((ex_tokens "group A" 1).t_type = T_IDENT → (ex_tokens "group A" 1).token.data = tok) ∧
      ((ex_tokens "group A" 1).t_type ≠ T_IDENT →
        ∃ c, tok = [c] ∧ (ex_tokens "group A" 1).t_type = char_code c) ∧
      ConfigParser.TracksAt (String.data "group A") ([] ++ skipped ++ tok)
        (ex_tokens "group A" 1) :=
  ⟨by decide, by decide, by decide,
   token_position.2.2.2.2 (String.data "group A") [] (ex_lexer "group A")
     (ex_tokens "group A" 1) (token_position.2.2.2.1 "group A") (by decide) (by decide)⟩

end Gvaluer
